import Mathlib

/-!
# PSD reader of JPEGView: pixel decoders and header logic

A shallow embedding of `src/JPEGView/PSDWrapper.cpp` (class `PsdReader`).

* C++ `unsigned int` results are natural numbers reduced modulo `2^32` (`u32`), `unsigned char`
  results modulo `2^8`, `unsigned short` results modulo `2^16`.
* The image-data buffer `pBuffer` is a list of bytes; `p` is an offset from `pBuffer`.
* The pixel buffer `pPixelData` is a list of bytes; a decoder yields the stores it performs, in
  program order, as pairs (offset from `pPixelData`, value); `applyWrites` replays them.
* `ThrowIf(true)` is `Fault.thrown`; an access outside an allocation is a fault of its own.
-/

namespace PsdReader

/-! ## Machine arithmetic -/

/-- Value of an `unsigned int` (32-bit) expression. -/
def u32 (x : Nat) : Nat := x % 4294967296

/-- Value of an `unsigned short` (16-bit) expression. -/
def u16 (x : Nat) : Nat := x % 65536

/-- Value of an `unsigned char` (8-bit) expression. -/
def u8 (x : Nat) : Nat := x % 256

/-- Unary minus on `unsigned int`. -/
def negU32 (x : Nat) : Nat := u32 (4294967296 - u32 x)

/-- Subtraction on `unsigned int`. -/
def subU32 (a b : Nat) : Nat := u32 (u32 a + (4294967296 - u32 b))

/-! ## Constants of `PSDWrapper.h` -/

def MODE_Bitmap : Nat := 0
def MODE_Grayscale : Nat := 1
def MODE_Indexed : Nat := 2
def MODE_RGB : Nat := 3
def MODE_CMYK : Nat := 4
def MODE_Multichannel : Nat := 7
def MODE_Duotone : Nat := 8
def MODE_Lab : Nat := 9

def COMPRESSION_None : Nat := 0
def COMPRESSION_RLE : Nat := 1

def RESOURCE_SIGNATURE : Nat := 0x3842494D
def RESOURCE_ICC_PROFILE : Nat := 0x040F
def RESOURCE_ALPHA_IDENTIFIERS : Nat := 0x041D
def RESOURCE_VERSION_INFO : Nat := 0x0421
def RESOURCE_EXIF_DATA_1 : Nat := 0x0422
def RESOURCE_EXIF_DATA_3 : Nat := 0x0423

def PSD_HEADER_SIZE : Nat := 26

/-! ## Faults and loops -/

/-- Ways in which a run of the reader stops early. -/
inductive Fault
  /-- The statement `ThrowIf(true)` with `bOutOfMemory` left as it was. -/
  | thrown
  /-- The statement `bOutOfMemory = true` followed by `ThrowIf(true)`. -/
  | outOfMemory
  /-- A load outside the allocation of the buffer read from. -/
  | oobRead
  /-- A store outside the allocation of the pixel buffer. -/
  | oobWrite
  /-- The iteration budget of an unbounded loop of the model ran out. -/
  | fuel
  deriving DecidableEq, Repr

instance instDecidableEqExcept {ε α : Type} [DecidableEq ε] [DecidableEq α] :
    DecidableEq (Except ε α)
  | .ok a, .ok b => if h : a = b then isTrue (by rw [h]) else isFalse (by intro h1; cases h1; exact h rfl)
  | .error a, .error b =>
    if h : a = b then isTrue (by rw [h]) else isFalse (by intro h1; cases h1; exact h rfl)
  | .ok _, .error _ => isFalse (by intro h; cases h)
  | .error _, .ok _ => isFalse (by intro h; cases h)

/-- The loop `for (i = start; i < start + n; i++) body`, stopping at the first fault. -/
def forLoop {σ : Type} (body : Nat → σ → Except Fault σ) : Nat → Nat → σ → Except Fault σ
  | 0, _, s => .ok s
  | n + 1, i, s =>
    match body i s with
    | .error e => .error e
    | .ok s1 => forLoop body n (i + 1) s1

/-- The function `Scale16To8`: scale 16-bit values to 8-bit. The operand is promoted to `int`, where
`value * 255 + 32768` does not overflow; the quotient is cast to `unsigned char`. -/
def Scale16To8 (value : Nat) : Nat := u8 ((value * 255 + 32768) / 65535)

/-- The target channel `rchannel` of `ProcessRLEData` and `ProcessUncompressedData`:
`(nColorMode == MODE_Lab) ? channel : (-channel - 2) % nChannels`, in `unsigned` arithmetic. -/
def rchannel (nColorMode nChannels channel : Nat) : Nat :=
  if nColorMode = MODE_Lab then channel else subU32 (negU32 channel) 2 % nChannels

/-! ## Buffers -/

/-- Load of the byte at offset `i` of `pBuffer`; a fault outside the allocation. -/
def load (pBuffer : List Nat) (i : Nat) : Except Fault Nat :=
  match pBuffer[i]? with
  | some b => .ok b
  | none => .error .oobRead

/-- Load of `(p[0] << 8) | p[1]` at offset `i`, as `unsigned short`. -/
def loadBE16 (pBuffer : List Nat) (i : Nat) : Except Fault Nat :=
  match load pBuffer i with
  | .error e => .error e
  | .ok b0 =>
    match load pBuffer (i + 1) with
    | .error e => .error e
    | .ok b1 => .ok (u16 ((b0 <<< 8) ||| b1))

/-- Load of `_byteswap_ulong(*(const unsigned int*)(pBuffer + i))`: four bytes, big-endian. -/
def loadBE32 (pBuffer : List Nat) (i : Nat) : Except Fault Nat :=
  match load pBuffer i, load pBuffer (i + 1), load pBuffer (i + 2), load pBuffer (i + 3) with
  | .ok b0, .ok b1, .ok b2, .ok b3 => .ok (u32 ((((b0 * 256 + b1) * 256) + b2) * 256 + b3))
  | _, _, _, _ => .error .oobRead

/-- Load of `_byteswap_ushort(*(const unsigned short*)(pBuffer + i))`: two bytes, big-endian. -/
def loadSwap16 (pBuffer : List Nat) (i : Nat) : Except Fault Nat :=
  match load pBuffer i, load pBuffer (i + 1) with
  | .ok b0, .ok b1 => .ok (u16 (b0 * 256 + b1))
  | _, _ => .error .oobRead

/-- Store of `v` at offset `i` of the pixel buffer: appended to the stores done so far; a fault
outside the allocation. -/
def store (pPixelData : List Nat) (writes : List (Nat × Nat)) (i v : Nat) :
    Except Fault (List (Nat × Nat)) :=
  if i < pPixelData.length then .ok (writes ++ [(i, v)]) else .error .oobWrite

/-- The pixel buffer after the stores `writes` were performed on `pPixelData`, first to last. -/
def applyWrites (pPixelData : List Nat) (writes : List (Nat × Nat)) : List Nat :=
  writes.foldl (fun m w => m.set w.1 w.2) pPixelData

/-- State of the multi-channel decoders: the read pointer `p` as an offset from `pBuffer`, and
the stores performed so far. -/
structure Dec where
  p : Nat
  writes : List (Nat × Nat)
  deriving DecidableEq, Repr

/-! ## `ProcessUncompressedData` -/

/-- Body of the `col` loop of `ProcessUncompressedData`. -/
def ProcessUncompressedData.sample (pBuffer : List Nat) (nImageDataSize : Nat)
    (pPixelData : List Nat) (nHeight nChannels nOutputRowSize nBitDepth rch row col : Nat)
    (st : Dec) : Except Fault Dec :=
  if nBitDepth = 8 then
    if st.p ≥ nImageDataSize then .error .thrown else
    match load pBuffer st.p with
    | .error e => .error e
    | .ok value =>
      let pixel := u32 (row * nOutputRowSize) + u32 (col * nChannels) + rch
      if pixel ≥ u32 (nOutputRowSize * nHeight) then .error .thrown else
      match store pPixelData st.writes pixel value with
      | .error e => .error e
      | .ok ws => .ok ⟨st.p + 1, ws⟩
  else
    if st.p + 1 ≥ nImageDataSize then .error .thrown else
    match loadBE16 pBuffer st.p with
    | .error e => .error e
    | .ok value =>
      let pixel := u32 (row * nOutputRowSize) + u32 (col * nChannels) + rch
      if pixel ≥ u32 (nOutputRowSize * nHeight) then .error .thrown else
      match store pPixelData st.writes pixel (Scale16To8 value) with
      | .error e => .error e
      | .ok ws => .ok ⟨st.p + 2, ws⟩

/-- The function `PsdReader::ProcessUncompressedData`: the stores it performs, or the fault it stops
with. -/
def ProcessUncompressedData (pBuffer : List Nat) (nImageDataSize : Nat) (pPixelData : List Nat)
    (nWidth nHeight nChannels nOutputRowSize nColorMode nBitDepth : Nat) :
    Except Fault (List (Nat × Nat)) :=
  match
    forLoop (fun channel st =>
      forLoop (fun row st =>
        forLoop (fun col st =>
          ProcessUncompressedData.sample pBuffer nImageDataSize pPixelData nHeight nChannels
            nOutputRowSize nBitDepth (rchannel nColorMode nChannels channel) row col st)
          nWidth 0 st)
        nHeight 0 st)
      nChannels 0 (⟨0, []⟩ : Dec) with
  | .error e => .error e
  | .ok st => .ok st.writes

/-! ## `ProcessBitmapUncompressed` -/

/-- State of the bitmap decoders: read pointer `p`, pixel counter `count` of the current row, and
the stores performed so far. -/
structure BitDec where
  p : Nat
  count : Nat
  writes : List (Nat × Nat)
  deriving DecidableEq, Repr

/-- The loop `for (i = start; i < start + n && cond; i++) body`, stopping at the first fault. -/
def forWhile {σ : Type} (cond : σ → Bool) (body : Nat → σ → Except Fault σ) :
    Nat → Nat → σ → Except Fault σ
  | 0, _, s => .ok s
  | n + 1, i, s =>
    if cond s then
      match body i s with
      | .error e => .error e
      | .ok s1 => forWhile cond body n (i + 1) s1
    else .ok s

/-- The value stored for a source bit: `bitValue ? 0 : 255` with
`bitValue = (value >> bit) & 1`. -/
def bitPixel (value bit : Nat) : Nat :=
  if u8 ((value >>> bit) &&& 1) ≠ 0 then 0 else 255

/-- Body of the `col` loop of `ProcessBitmapUncompressed`; `pSrc` and `pRow` are offsets from
`pBuffer` and `pPixelData`. -/
def ProcessBitmapUncompressed.pixel (pBuffer pPixelData : List Nat) (pSrc pRow col : Nat)
    (writes : List (Nat × Nat)) : Except Fault (List (Nat × Nat)) :=
  let byteIndex := col / 8
  let bitIndex := 7 - (col % 8)
  match load pBuffer (pSrc + byteIndex) with
  | .error e => .error e
  | .ok b => store pPixelData writes (pRow + col) (bitPixel b bitIndex)

/-- The function `PsdReader::ProcessBitmapUncompressed`: the stores it performs, or the fault it
stops with. `nCompressionMethod` and `nVersion` are unused, as in the source. -/
def ProcessBitmapUncompressed (pBuffer : List Nat) (nImageDataSize : Nat) (pPixelData : List Nat)
    (nWidth nHeight nOutputRowSize : Nat) (_nCompressionMethod _nVersion : Nat) :
    Except Fault (List (Nat × Nat)) :=
  let nBytesPerRow := u32 (nWidth + 7) / 8
  if u32 (nBytesPerRow * nHeight) > nImageDataSize then .error .thrown else
  forLoop (fun row writes =>
    let pRow := u32 (row * nOutputRowSize)
    let pSrc := u32 (row * nBytesPerRow)
    forLoop (fun col writes =>
      ProcessBitmapUncompressed.pixel pBuffer pPixelData pSrc pRow col writes) nWidth 0 writes)
    nHeight 0 []

/-! ## `ProcessBitmapRLE` -/

/-- Body of the bit loop of `ProcessBitmapRLE`, for `bit = 7 - k`: `pRow[count] = bitValue ?
0 : 255; count++`. -/
def ProcessBitmapRLE.bit (pPixelData : List Nat) (pRow value : Nat) (k : Nat) (s : BitDec) :
    Except Fault BitDec :=
  match store pPixelData s.writes (pRow + s.count) (bitPixel value (7 - k)) with
  | .error e => .error e
  | .ok ws => .ok ⟨s.p, u32 (s.count + 1), ws⟩

/-- The loop `for (int bit = 7; bit >= 0 && count < nWidth; bit--)` of `ProcessBitmapRLE`. -/
def ProcessBitmapRLE.bits (pPixelData : List Nat) (nWidth pRow value : Nat) (st : BitDec) :
    Except Fault BitDec :=
  forWhile (fun s => decide (s.count < nWidth))
    (fun k s => ProcessBitmapRLE.bit pPixelData pRow value k s) 8 0 st

/-- Body of the literal loop of `ProcessBitmapRLE`: one byte is read and unpacked. -/
def ProcessBitmapRLE.literalByte (pBuffer : List Nat) (nImageDataSize : Nat)
    (pPixelData : List Nat) (nWidth pRow : Nat) (s : BitDec) : Except Fault BitDec :=
  if s.p ≥ nImageDataSize then .error .thrown else
  match load pBuffer s.p with
  | .error e => .error e
  | .ok value => ProcessBitmapRLE.bits pPixelData nWidth pRow value ⟨s.p + 1, s.count, s.writes⟩

/-- The loop `while (count < nWidth)` of `ProcessBitmapRLE` for one row, with an iteration
budget. -/
def ProcessBitmapRLE.row (pBuffer : List Nat) (nImageDataSize : Nat) (pPixelData : List Nat)
    (nWidth pRow : Nat) : Nat → BitDec → Except Fault BitDec
  | 0, st => if st.count < nWidth then .error .fuel else .ok st
  | fuel + 1, st =>
    if st.count < nWidth then
      if st.p ≥ nImageDataSize then .error .thrown else
      match load pBuffer st.p with
      | .error e => .error e
      | .ok c =>
        if c > 128 then
          let runLength := u32 (256 - c + 1)
          if st.p + 1 ≥ nImageDataSize then .error .thrown else
          match load pBuffer (st.p + 1) with
          | .error e => .error e
          | .ok value =>
            match forWhile (fun s => decide (s.count < nWidth))
                (fun _ s => ProcessBitmapRLE.bits pPixelData nWidth pRow value s)
                runLength 0 ⟨st.p + 2, st.count, st.writes⟩ with
            | .error e => .error e
            | .ok st2 => ProcessBitmapRLE.row pBuffer nImageDataSize pPixelData nWidth pRow fuel st2
        else if c < 128 then
          let runLength := u32 (c + 1)
          match forWhile (fun s => decide (s.count < nWidth))
              (fun _ s => ProcessBitmapRLE.literalByte pBuffer nImageDataSize pPixelData nWidth
                pRow s)
              runLength 0 ⟨st.p + 1, st.count, st.writes⟩ with
          | .error e => .error e
          | .ok st2 => ProcessBitmapRLE.row pBuffer nImageDataSize pPixelData nWidth pRow fuel st2
        else
          ProcessBitmapRLE.row pBuffer nImageDataSize pPixelData nWidth pRow fuel
            ⟨st.p + 1, st.count, st.writes⟩
    else .ok st

/-- State carried from row to row by the RLE decoders: the start `pOffset` of the next row's
stream, and the stores performed so far. -/
structure RowDec where
  pOffset : Nat
  writes : List (Nat × Nat)
  deriving DecidableEq, Repr

/-- Body of the `row` loop of `ProcessBitmapRLE`: the row is decoded from `pOffset`, which then
advances by the row's entry of the byte-count table. Every iteration of the inner loop consumes
a byte or throws, so `nImageDataSize + 1` iterations are enough. -/
def ProcessBitmapRLE.rowStep (pBuffer : List Nat) (nImageDataSize : Nat) (pPixelData : List Nat)
    (nWidth nOutputRowSize nVersion : Nat) (row : Nat) (st : RowDec) : Except Fault RowDec :=
  let pRow := u32 (row * nOutputRowSize)
  match ProcessBitmapRLE.row pBuffer nImageDataSize pPixelData nWidth pRow
      (nImageDataSize + 1) ⟨st.pOffset, 0, st.writes⟩ with
  | .error e => .error e
  | .ok s =>
    if nVersion = 2 then
      match loadBE32 pBuffer (u32 (row * 4)) with
      | .error e => .error e
      | .ok rowLength => .ok ⟨st.pOffset + rowLength, s.writes⟩
    else
      match loadSwap16 pBuffer (u32 (row * 2)) with
      | .error e => .error e
      | .ok rowLength => .ok ⟨st.pOffset + rowLength, s.writes⟩

/-- The function `PsdReader::ProcessBitmapRLE`: the stores it performs, or the fault it stops with.
-/
def ProcessBitmapRLE (pBuffer : List Nat) (nImageDataSize : Nat) (pPixelData : List Nat)
    (nWidth nHeight nOutputRowSize : Nat) (_nCompressionMethod nVersion : Nat) :
    Except Fault (List (Nat × Nat)) :=
  let pOffset := if nVersion = 2 then u32 (nHeight * 4) else u32 (nHeight * 2)
  match
    forLoop (fun row st => ProcessBitmapRLE.rowStep pBuffer nImageDataSize pPixelData nWidth
      nOutputRowSize nVersion row st) nHeight 0 ⟨pOffset, []⟩ with
  | .error e => .error e
  | .ok st => .ok st.writes

/-! ## `ProcessRLEData` -/

/-- The store `*pixel = value` of `ProcessRLEData`, after its `ThrowIf` on the pixel pointer. -/
def ProcessRLEData.put (pPixelData : List Nat) (nHeight nChannels nOutputRowSize rch row : Nat)
    (index value : Nat) (writes : List (Nat × Nat)) : Except Fault (List (Nat × Nat)) :=
  let pixel := u32 (row * nOutputRowSize) + u32 (u32 index * nChannels) + rch
  if pixel ≥ u32 (nOutputRowSize * nHeight) then .error .thrown else
  store pPixelData writes pixel value

/-- Body of the run loop of `ProcessRLEData`: the value of the run is stored for sample
`count + i`. -/
def ProcessRLEData.runStore (pPixelData : List Nat) (nHeight nChannels nOutputRowSize rch row : Nat)
    (count value : Nat) (i : Nat) (s : Dec) : Except Fault Dec :=
  match ProcessRLEData.put pPixelData nHeight nChannels nOutputRowSize rch row (count + i) value
      s.writes with
  | .error e => .error e
  | .ok ws => .ok ⟨s.p, ws⟩

/-- Body of the literal loop of the 8-bit branch of `ProcessRLEData`: a byte is read and stored
for sample `count + i`. -/
def ProcessRLEData.literalStore8 (pBuffer : List Nat) (nImageDataSize : Nat)
    (pPixelData : List Nat) (nHeight nChannels nOutputRowSize rch row : Nat) (count : Nat)
    (i : Nat) (s : Dec) : Except Fault Dec :=
  if s.p ≥ nImageDataSize then .error .thrown else
  match load pBuffer s.p with
  | .error e => .error e
  | .ok value =>
    match ProcessRLEData.put pPixelData nHeight nChannels nOutputRowSize rch row (count + i) value
        s.writes with
    | .error e => .error e
    | .ok ws => .ok ⟨s.p + 1, ws⟩

/-- Body of the literal loop of the 16-bit branch of `ProcessRLEData`: a big-endian sample is
read, scaled and stored for sample `count + i`. -/
def ProcessRLEData.literalStore16 (pBuffer : List Nat) (nImageDataSize : Nat)
    (pPixelData : List Nat) (nHeight nChannels nOutputRowSize rch row : Nat) (count : Nat)
    (i : Nat) (s : Dec) : Except Fault Dec :=
  if s.p + 1 ≥ nImageDataSize then .error .thrown else
  match loadBE16 pBuffer s.p with
  | .error e => .error e
  | .ok value =>
    match ProcessRLEData.put pPixelData nHeight nChannels nOutputRowSize rch row (count + i)
        (Scale16To8 value) s.writes with
    | .error e => .error e
    | .ok ws => .ok ⟨s.p + 2, ws⟩

/-- The loop `while (count < nWidth)` of the 8-bit branch of `ProcessRLEData`, with an iteration
budget. -/
def ProcessRLEData.row8 (pBuffer : List Nat) (nImageDataSize : Nat) (pPixelData : List Nat)
    (nWidth nHeight nChannels nOutputRowSize rch row : Nat) : Nat → Nat → Dec → Except Fault Dec
  | 0, count, d => if count < nWidth then .error .fuel else .ok d
  | fuel + 1, count, d =>
    if count < nWidth then
      if d.p ≥ nImageDataSize then .error .thrown else
      match load pBuffer d.p with
      | .error e => .error e
      | .ok c0 =>
        if c0 > 128 then
          let c := u8 ((255 - c0) + 2)
          if d.p + 1 ≥ nImageDataSize then .error .thrown else
          match load pBuffer (d.p + 1) with
          | .error e => .error e
          | .ok value =>
            match forLoop (fun i s => ProcessRLEData.runStore pPixelData nHeight nChannels
                nOutputRowSize rch row count value i s) c 0 ⟨d.p + 2, d.writes⟩ with
            | .error e => .error e
            | .ok d2 =>
              ProcessRLEData.row8 pBuffer nImageDataSize pPixelData nWidth nHeight nChannels
                nOutputRowSize rch row fuel (u32 (count + c)) d2
        else if c0 < 128 then
          let c := u8 (c0 + 1)
          match forLoop (fun i s => ProcessRLEData.literalStore8 pBuffer nImageDataSize
              pPixelData nHeight nChannels nOutputRowSize rch row count i s) c 0
              ⟨d.p + 1, d.writes⟩ with
          | .error e => .error e
          | .ok d2 =>
            ProcessRLEData.row8 pBuffer nImageDataSize pPixelData nWidth nHeight nChannels
              nOutputRowSize rch row fuel (u32 (count + c)) d2
        else
          ProcessRLEData.row8 pBuffer nImageDataSize pPixelData nWidth nHeight nChannels
            nOutputRowSize rch row fuel (u32 (count + c0)) ⟨d.p + 1, d.writes⟩
    else .ok d

/-- The loop `while (count < nWidth)` of the 16-bit branch of `ProcessRLEData`, with an
iteration budget. -/
def ProcessRLEData.row16 (pBuffer : List Nat) (nImageDataSize : Nat) (pPixelData : List Nat)
    (nWidth nHeight nChannels nOutputRowSize rch row : Nat) : Nat → Nat → Dec → Except Fault Dec
  | 0, count, d => if count < nWidth then .error .fuel else .ok d
  | fuel + 1, count, d =>
    if count < nWidth then
      if d.p ≥ nImageDataSize then .error .thrown else
      match load pBuffer d.p with
      | .error e => .error e
      | .ok c0 =>
        if c0 > 128 then
          let c := u8 ((255 - c0) + 2)
          if d.p + 1 + 1 ≥ nImageDataSize then .error .thrown else
          match loadBE16 pBuffer (d.p + 1) with
          | .error e => .error e
          | .ok value =>
            match forLoop (fun i s => ProcessRLEData.runStore pPixelData nHeight nChannels
                nOutputRowSize rch row count (Scale16To8 value) i s) c 0
                ⟨d.p + 3, d.writes⟩ with
            | .error e => .error e
            | .ok d2 =>
              ProcessRLEData.row16 pBuffer nImageDataSize pPixelData nWidth nHeight nChannels
                nOutputRowSize rch row fuel (u32 (count + c)) d2
        else if c0 < 128 then
          let c := u8 (c0 + 1)
          match forLoop (fun i s => ProcessRLEData.literalStore16 pBuffer nImageDataSize
              pPixelData nHeight nChannels nOutputRowSize rch row count i s) c 0
              ⟨d.p + 1, d.writes⟩ with
          | .error e => .error e
          | .ok d2 =>
            ProcessRLEData.row16 pBuffer nImageDataSize pPixelData nWidth nHeight nChannels
              nOutputRowSize rch row fuel (u32 (count + c)) d2
        else
          ProcessRLEData.row16 pBuffer nImageDataSize pPixelData nWidth nHeight nChannels
            nOutputRowSize rch row fuel (u32 (count + c0)) ⟨d.p + 1, d.writes⟩
    else .ok d

/-- Body of the `row` loop of `ProcessRLEData`: the row is decoded from `pOffset`, which then
advances by the row's entry of the byte-count table. Every iteration of the inner loop consumes
a byte or throws, so `nImageDataSize + 1` iterations are enough. -/
def ProcessRLEData.rowStep (pBuffer : List Nat) (nImageDataSize : Nat) (pPixelData : List Nat)
    (nWidth nHeight nChannels nOutputRowSize nBitDepth nVersion rch channel : Nat)
    (row : Nat) (st : RowDec) : Except Fault RowDec :=
  match
    (if nBitDepth = 8 then
      ProcessRLEData.row8 pBuffer nImageDataSize pPixelData nWidth nHeight nChannels
        nOutputRowSize rch row (nImageDataSize + 1) 0 ⟨st.pOffset, st.writes⟩
    else
      ProcessRLEData.row16 pBuffer nImageDataSize pPixelData nWidth nHeight nChannels
        nOutputRowSize rch row (nImageDataSize + 1) 0 ⟨st.pOffset, st.writes⟩) with
  | .error e => .error e
  | .ok d =>
    if nVersion = 2 then
      match loadBE32 pBuffer (u32 (u32 (channel * nHeight + row) * 4)) with
      | .error e => .error e
      | .ok rowLength => .ok ⟨st.pOffset + rowLength, d.writes⟩
    else
      match loadSwap16 pBuffer (u32 (u32 (channel * nHeight + row) * 2)) with
      | .error e => .error e
      | .ok rowLength => .ok ⟨st.pOffset + rowLength, d.writes⟩

/-- The function `PsdReader::ProcessRLEData`: the stores it performs, or the fault it stops with. -/
def ProcessRLEData (pBuffer : List Nat) (nImageDataSize : Nat) (pPixelData : List Nat)
    (nWidth nHeight nChannels nOutputRowSize nColorMode nBitDepth nRealChannels nVersion : Nat) :
    Except Fault (List (Nat × Nat)) :=
  let pOffset := u32 (nHeight * nRealChannels * 2 * nVersion)
  match
    forLoop (fun channel st =>
      forLoop (fun row st =>
        ProcessRLEData.rowStep pBuffer nImageDataSize pPixelData nWidth nHeight nChannels
          nOutputRowSize nBitDepth nVersion (rchannel nColorMode nChannels channel) channel row st)
        nHeight 0 st)
      nChannels 0 (⟨pOffset, []⟩ : RowDec) with
  | .error e => .error e
  | .ok st => .ok st.writes

/-! ## File access

The file is the list of its bytes together with a position. `ReadFile` delivers the bytes left
between the position and the end of the file, at most `sz` of them; `SetFilePointer` with a null
high part takes a signed 32-bit distance, fails on a negative target and on one that does not
fit 32 bits, and its result `0xFFFFFFFF` is `INVALID_SET_FILE_POINTER`. -/

/-- Conversion of a 32-bit pattern to `LONG` (signed 32-bit). -/
def toLONG (x : Nat) : Int :=
  if u32 x < 2147483648 then (u32 x : Int) else (u32 x : Int) - 4294967296

/-- The function `PsdReader::ReadFromFile`: read exactly `sz` bytes at `pos`; the bytes and the new
position. -/
def ReadFromFile (file : List Nat) (pos sz : Nat) : Except Fault (List Nat × Nat) :=
  if sz ≤ file.length - pos then .ok ((file.drop pos).take sz, pos + sz) else .error .thrown

/-- Big-endian value of a list of bytes. -/
def beValue (bytes : List Nat) : Nat := bytes.foldl (fun acc b => acc * 256 + b) 0

/-- The function `PsdReader::ReadUInt64FromFile`. -/
def ReadUInt64FromFile (file : List Nat) (pos : Nat) : Except Fault (Nat × Nat) :=
  match ReadFromFile file pos 8 with
  | .error e => .error e
  | .ok (bytes, pos1) => .ok (beValue bytes, pos1)

/-- The function `PsdReader::ReadUIntFromFile`. -/
def ReadUIntFromFile (file : List Nat) (pos : Nat) : Except Fault (Nat × Nat) :=
  match ReadFromFile file pos 4 with
  | .error e => .error e
  | .ok (bytes, pos1) => .ok (beValue bytes, pos1)

/-- The function `PsdReader::ReadUShortFromFile`. -/
def ReadUShortFromFile (file : List Nat) (pos : Nat) : Except Fault (Nat × Nat) :=
  match ReadFromFile file pos 2 with
  | .error e => .error e
  | .ok (bytes, pos1) => .ok (beValue bytes, pos1)

/-- The function `PsdReader::ReadUCharFromFile`. -/
def ReadUCharFromFile (file : List Nat) (pos : Nat) : Except Fault (Nat × Nat) :=
  match ReadFromFile file pos 1 with
  | .error e => .error e
  | .ok (bytes, pos1) => .ok (beValue bytes, pos1)

/-- The function `SetFilePointer` to the signed target `target`: the new position. -/
def setFilePointer (target : Int) : Except Fault Nat :=
  if target < 0 ∨ target ≥ 4294967295 then .error .thrown else .ok target.toNat

/-- The function `PsdReader::SeekFile`: move the file pointer by `offset` (a `LONG`) from the
current position. -/
def SeekFile (pos : Nat) (offset : Int) : Except Fault Nat :=
  setFilePointer ((pos : Int) + offset)

/-- The function `PsdReader::SeekFileFromStart`: move the file pointer to `offset` (a `LONG`). -/
def SeekFileFromStart (offset : Int) : Except Fault Nat :=
  setFilePointer offset

/-- The function `PsdReader::TellFile`: the current position. -/
def TellFile (pos : Nat) : Except Fault Nat :=
  setFilePointer (pos : Int)

/-! ## Collaborators

Code of the viewer outside `PSDWrapper.cpp`: limits of `MaxImageDef.h`, the allocator, the ICC
transform, the settings and the alpha compositor. They are parameters of the model. -/

/-- What `ReadImage` uses from the rest of the viewer. -/
structure Env where
  /-- The limit `MAX_PSD_FILE_SIZE`. -/
  MAX_PSD_FILE_SIZE : Nat
  /-- The limit `MAX_IMAGE_PIXELS`. -/
  MAX_IMAGE_PIXELS : Nat
  /-- The limit `MAX_IMAGE_DIMENSION`. -/
  MAX_IMAGE_DIMENSION : Nat
  /-- Whether `new(std::nothrow) char[n]` delivers a buffer. -/
  allocOk : Nat → Bool
  /-- Content of byte `i` of a fresh buffer of `n` bytes. -/
  fresh : Nat → Nat → Nat
  /-- The call `ICCProfileTransform::CreateLabTransform(format)`; the argument tells whether the
  format has an alpha channel. -/
  CreateLabTransform : Bool → Option Nat
  /-- The call `ICCProfileTransform::CreateTransform(profile, size, format)`. -/
  CreateTransform : Option (List Nat) → Nat → Bool → Option Nat
  /-- The call `ICCProfileTransform::DoTransform(transform, pixels, pixels, width, height, stride)`.
  -/
  DoTransform : Option Nat → List Nat → Nat → Nat → Nat → List Nat
  /-- The call `CSettingsProvider::This().ColorTransparency()`. -/
  ColorTransparency : Nat
  /-- The call `Helpers::AlphaBlendBackground(pixel, backgroundColor)`. -/
  AlphaBlendBackground : Nat → Nat → Nat

/-- Modelled from the spec: `Helpers::DoPadding(value, padvalue)` of `Helpers.h`, which is not
part of the sources at hand; the spec has the stride "rounded up to a multiple of 4 bytes",
`pad(9,4)=12` and `pad(4,4)=4`. -/
def DoPadding (value padvalue : Nat) : Nat := (value + padvalue - 1) / padvalue * padvalue

/-- A fresh buffer of `n` bytes, as `new char[n]` delivers it. -/
def newBuffer (env : Env) (n : Nat) : List Nat := (List.range n).map (env.fresh n)

/-! ## `ParseImageResources` -/

/-- What `ParseImageResources` reads and updates: the file position and its reference
parameters. -/
structure Resources where
  pos : Nat
  pEXIFData : Option (List Nat)
  pICCProfile : Option (List Nat)
  nICCProfileSize : Nat
  bUseAlpha : Bool
  deriving DecidableEq, Repr

/-- Outcome of one iteration of the resource loop. -/
inductive Scan
  /-- The loop was left by `break`. -/
  | stop (r : Resources)
  /-- The loop goes on with the next resource. -/
  | more (r : Resources)
  deriving DecidableEq, Repr

/-- The loop over the alpha identifiers: `k` iterations left, index `i`; yields whether a zero
identifier was met, the final `i` and the position. -/
def ParseImageResources.alphaIds (file : List Nat) : Nat → Nat → Nat → Except Fault (Bool × Nat × Nat)
  | 0, i, pos => .ok (false, i, pos)
  | k + 1, i, pos =>
    match ReadUIntFromFile file pos with
    | .error e => .error e
    | .ok (id, pos1) =>
      if id = 0 then .ok (true, i, pos1) else ParseImageResources.alphaIds file k (i + 1) pos1

/-- The block `"\xFF\xE1\0\0Exif\0\0"` with the size `nResourceSize + 8` written big-endian
at `(unsigned short*)pEXIFData + 1`, followed by the payload. -/
def exifBlock (nResourceSize : Nat) (payload : List Nat) : List Nat :=
  [0xFF, 0xE1, u16 (nResourceSize + 8) / 256, u16 (nResourceSize + 8) % 256,
    0x45, 0x78, 0x69, 0x66, 0, 0] ++ payload

/-- The `switch (nResourceID)` of `ParseImageResources`, entered with the position at the start
of the payload. -/
def ParseImageResources.dispatch (env : Env) (file : List Nat) (nColorMode : Nat)
    (nResourceID nResourceSize : Nat) (r : Resources) : Except Fault Resources :=
  if nResourceID = RESOURCE_ICC_PROFILE then
    let pICCProfile :=
      if nColorMode = MODE_RGB then
        (if env.allocOk nResourceSize then some (newBuffer env nResourceSize) else none)
      else r.pICCProfile
    match pICCProfile with
    | none => .ok { r with pICCProfile := none }
    | some _ =>
      match ReadFromFile file r.pos nResourceSize with
      | .error e => .error e
      | .ok (bytes, pos1) =>
        match SeekFile pos1 (toLONG (negU32 nResourceSize)) with
        | .error e => .error e
        | .ok pos2 =>
          .ok { r with pos := pos2, pICCProfile := some bytes, nICCProfileSize := nResourceSize }
  else if nResourceID = RESOURCE_ALPHA_IDENTIFIERS then
    if r.bUseAlpha then
      match ParseImageResources.alphaIds file (nResourceSize / 4) 0 r.pos with
      | .error e => .error e
      | .ok (found, i, pos1) =>
        match SeekFile pos1 (toLONG (negU32 i * 4)) with
        | .error e => .error e
        | .ok pos2 => .ok { r with pos := pos2, bUseAlpha := found }
    else .ok r
  else if nResourceID = RESOURCE_VERSION_INFO then
    if nResourceSize ≥ 5 then
      match ReadUIntFromFile file r.pos with
      | .error e => .error e
      | .ok (_, pos1) =>
        match ReadUCharFromFile file pos1 with
        | .error e => .error e
        | .ok (hasRealMergedData, pos2) =>
          if hasRealMergedData = 0 then .error .thrown else
          match SeekFile pos2 (-5) with
          | .error e => .error e
          | .ok pos3 => .ok { r with pos := pos3 }
    else .ok r
  else if nResourceID = RESOURCE_EXIF_DATA_1 ∨ nResourceID = RESOURCE_EXIF_DATA_3 then
    if r.pEXIFData = none ∧ nResourceSize < 65526 then
      if env.allocOk (nResourceSize + 10) then
        match ReadFromFile file r.pos nResourceSize with
        | .error e => .error e
        | .ok (bytes, pos1) =>
          match SeekFile pos1 (toLONG (negU32 nResourceSize)) with
          | .error e => .error e
          | .ok pos2 => .ok { r with pos := pos2, pEXIFData := some (exifBlock nResourceSize bytes) }
      else .ok r
    else .ok r
  else .ok r

/-- One iteration of the `while (true)` loop of `ParseImageResources`. A read of the signature
that fails is caught and ends the loop; `ReadFile` has then read the bytes that were left, so
the cursor is at the end of the file, or where it was if that is behind the end. -/
def ParseImageResources.entry (env : Env) (file : List Nat) (nColorMode : Nat) (r : Resources) :
    Except Fault Scan :=
  match ReadUIntFromFile file r.pos with
  | .error _ => .ok (.stop { r with pos := max r.pos file.length })
  | .ok (sig, pos1) =>
    if sig ≠ RESOURCE_SIGNATURE then .ok (.stop { r with pos := pos1 }) else
    match ReadUShortFromFile file pos1 with
    | .error e => .error e
    | .ok (nResourceID, pos2) =>
      match ReadUCharFromFile file pos2 with
      | .error e => .error e
      | .ok (nStringSize, pos3) =>
        match SeekFile pos3 (toLONG (nStringSize ||| 1)) with
        | .error e => .error e
        | .ok pos4 =>
          match ReadUIntFromFile file pos4 with
          | .error e => .error e
          | .ok (nResourceSize, pos5) =>
            match ParseImageResources.dispatch env file nColorMode nResourceID nResourceSize
                { r with pos := pos5 } with
            | .error e => .error e
            | .ok r1 =>
              match SeekFile r1.pos (toLONG (u32 (nResourceSize + 1) &&& 4294967294)) with
              | .error e => .error e
              | .ok pos6 => .ok (.more { r1 with pos := pos6 })

/-- The function `PsdReader::ParseImageResources`, with an iteration budget for its `while (true)`
loop. -/
def ParseImageResources (env : Env) (file : List Nat) (nColorMode : Nat) :
    Nat → Resources → Except Fault Resources
  | 0, _ => .error .fuel
  | fuel + 1, r =>
    match ParseImageResources.entry env file nColorMode r with
    | .error e => .error e
    | .ok (.stop r1) => .ok r1
    | .ok (.more r1) => ParseImageResources env file nColorMode fuel r1

/-! ## `ReadImage` -/

/-- The image object built by `new CJPEGImage(nWidth, nHeight, pPixelData, pEXIFData,
nChannels, 0, IF_PSD, false, 0, 1, 0)`. -/
structure CJPEGImage where
  nWidth : Nat
  nHeight : Nat
  pPixelData : List Nat
  pEXIFData : Option (List Nat)
  nChannels : Nat
  deriving DecidableEq, Repr

/-- What a successful `ReadImage` leaves: the image, and the row size `nOutputRowSize` with which
its pixel buffer was laid out. -/
structure Decoded where
  image : CJPEGImage
  nOutputRowSize : Nat
  deriving DecidableEq, Repr

/-- The header fields of `ReadImage` (source lines 132 to 189), with the position reached. -/
structure Header where
  nFileSize : Nat
  nVersion : Nat
  nRealChannels : Nat
  nHeight : Nat
  nWidth : Nat
  nBitDepth : Nat
  nColorMode : Nat
  nChannels : Nat
  pos : Nat
  deriving DecidableEq, Repr

/-- The value of `nChannels` at the `ThrowIf` of source line 189: the `switch` on the colour mode
(which leaves the initial 0 for the modes it does not list) and the collapse of 2 to 1. -/
def ReadImage.channels (nBitDepth nColorMode nRealChannels : Nat) : Nat :=
  let nChannels :=
    if nBitDepth = 1 ∨ nColorMode = MODE_Bitmap then 1
    else if nColorMode = MODE_Grayscale ∨ nColorMode = MODE_Duotone then min nRealChannels 1
    else if nColorMode = MODE_Multichannel then min nRealChannels 3
    else if nColorMode = MODE_Lab ∨ nColorMode = MODE_RGB ∨ nColorMode = MODE_CMYK then
      min nRealChannels 4
    else 0
  if nChannels = 2 then 1 else nChannels

/-- Part of `ReadImage`, source lines 132 to 189: file size, version, reserved bytes, channels,
dimensions, depth, colour mode and the channel count. -/
def ReadImage.header (env : Env) (file : List Nat) (bOutOfMemory : Bool) :
    Except Fault Header := do
  let nFileSize := file.length
  if nFileSize > env.MAX_PSD_FILE_SIZE then throw Fault.thrown else
  let pos ← SeekFile 0 4
  let (nVersion, pos) ← ReadUShortFromFile file pos
  if nVersion ≠ 1 ∧ nVersion ≠ 2 then throw Fault.thrown else
  let (pReserved, pos) ← ReadFromFile file pos 6
  if pReserved ≠ [0, 0, 0, 0, 0, 0] then throw Fault.thrown else
  let (nRealChannels, pos) ← ReadUShortFromFile file pos
  let (nHeight, pos) ← ReadUIntFromFile file pos
  let (nWidth, pos) ← ReadUIntFromFile file pos
  if nHeight * nWidth > env.MAX_IMAGE_PIXELS then throw Fault.outOfMemory else
  if bOutOfMemory ∨ max nHeight nWidth > env.MAX_IMAGE_DIMENSION ∨ min nHeight nWidth = 0 then
    throw Fault.thrown
  else
  let (nBitDepth, pos) ← ReadUShortFromFile file pos
  if nBitDepth ≠ 1 ∧ nBitDepth ≠ 8 ∧ nBitDepth ≠ 16 then throw Fault.thrown else
  let (nColorMode, pos) ← ReadUShortFromFile file pos
  let nChannels := ReadImage.channels nBitDepth nColorMode nRealChannels
  if nChannels ≠ 1 ∧ nChannels ≠ 3 ∧ nChannels ≠ 4 then throw Fault.thrown else
  pure ⟨nFileSize, nVersion, nRealChannels, nHeight, nWidth, nBitDepth, nColorMode, nChannels, pos⟩

/-- What `ReadImage` has gathered when it reaches the pixel decoding (source line 226). -/
structure Sections where
  pEXIFData : Option (List Nat)
  pICCProfile : Option (List Nat)
  nICCProfileSize : Nat
  bUseAlpha : Bool
  nCompressionMethod : Nat
  nImageDataSize : Nat
  pBuffer : List Nat
  deriving DecidableEq, Repr

/-- Part of `ReadImage`, source lines 191 to 224: colour-mode data, image resources, layer and mask
section, compression method, and the image data read into `pBuffer`. `fuel` is the iteration
budget of the resource loop. -/
def ReadImage.sections (env : Env) (fuel : Nat) (file : List Nat) (h : Header) :
    Except Fault Sections := do
  let (nColorDataSize, pos) ← ReadUIntFromFile file h.pos
  let pos ← SeekFile pos (toLONG nColorDataSize)
  let (nResourceSectionSize, pos) ← ReadUIntFromFile file pos
  let res ← ParseImageResources env file h.nColorMode fuel
    ⟨pos, none, none, 0, decide (h.nChannels = 4)⟩
  let pos ← SeekFileFromStart
    (toLONG (PSD_HEADER_SIZE + 4 + nColorDataSize + 4 + nResourceSectionSize))
  let (nLayerSize, pos) ←
    (if h.nVersion = 2 then ReadUInt64FromFile file pos else ReadUIntFromFile file pos)
  let nLayerSizeBytes := u8 (4 * h.nVersion)
  let pos ← SeekFile pos (nLayerSizeBytes : Int)
  let (layerCount, pos) ← ReadUShortFromFile file pos
  let nLayerCount : Int := if layerCount < 32768 then (layerCount : Int) else (layerCount : Int) - 65536
  let bUseAlpha := res.bUseAlpha && decide (nLayerCount ≤ 0)
  let pos ← SeekFile pos (toLONG (nLayerSize + 18446744073709551616 - 2 - nLayerSizeBytes))
  let (nCompressionMethod, pos) ← ReadUShortFromFile file pos
  if nCompressionMethod ≠ COMPRESSION_RLE ∧ nCompressionMethod ≠ COMPRESSION_None then
    throw Fault.thrown
  else
  let tell ← TellFile pos
  let nImageDataSize := u32 (h.nFileSize + 4294967296 - tell)
  if ¬ env.allocOk nImageDataSize then throw Fault.outOfMemory else
  let (pBuffer, _) ← ReadFromFile file pos nImageDataSize
  pure ⟨res.pEXIFData, res.pICCProfile, res.nICCProfileSize, bUseAlpha, nCompressionMethod,
    nImageDataSize, pBuffer⟩

/-- One step of the alpha loop of `ReadImage`: `pImage32[i] = AlphaBlendBackground(pImage32[i],
backgroundColor)`, the 32-bit pixel being stored little-endian. -/
def ReadImage.blend (env : Env) (backgroundColor : Nat) (pixels : List Nat) (i : Nat) : List Nat :=
  let v := pixels.getD (4 * i) 0 + 256 * (pixels.getD (4 * i + 1) 0 +
    256 * (pixels.getD (4 * i + 2) 0 + 256 * pixels.getD (4 * i + 3) 0))
  let r := u32 (env.AlphaBlendBackground v backgroundColor)
  (((pixels.set (4 * i) (r % 256)).set (4 * i + 1) (r / 256 % 256)).set (4 * i + 2)
    (r / 65536 % 256)).set (4 * i + 3) (r / 16777216)

/-- Part of `ReadImage`, source lines 248 to 251: without alpha, and outside CMYK, at most three
channels are kept. -/
def ReadImage.dropAlpha (bUseAlpha : Bool) (nColorMode nChannels : Nat) : Nat :=
  if ¬ bUseAlpha ∧ nColorMode ≠ MODE_CMYK then min nChannels 3 else nChannels

/-- Part of `ReadImage`, source lines 253 to 265: the colour transform created for three or four
channels, and the channel count, which falls back to 1 when no Lab transform is available. -/
def ReadImage.createTransform (env : Env) (nColorMode nChannels : Nat)
    (pICCProfile : Option (List Nat)) (nICCProfileSize : Nat) : Option Nat × Nat :=
  if nChannels = 3 ∨ nChannels = 4 then
    if nColorMode = MODE_Lab then
      match env.CreateLabTransform (decide (nChannels = 4)) with
      | none => (none, min nChannels 1)
      | some t => (some t, nChannels)
    else if nColorMode = MODE_RGB then
      (env.CreateTransform pICCProfile nICCProfileSize (decide (nChannels = 4)), nChannels)
    else (none, nChannels)
  else (none, nChannels)

/-- Part of `ReadImage`, source lines 226 to 304: allocation of the pixel buffer, decoding, colour
transform, alpha blending and construction of the image. -/
def ReadImage.pixels (env : Env) (h : Header) (s : Sections) : Except Fault Decoded :=
  if h.nBitDepth = 1 ∨ h.nColorMode = MODE_Bitmap then do
    let nOutputRowSize := DoPadding (u32 (h.nWidth * h.nChannels)) 4
    if ¬ env.allocOk (u32 (nOutputRowSize * h.nHeight)) then throw Fault.outOfMemory else
    let pPixelData := newBuffer env (u32 (nOutputRowSize * h.nHeight))
    let writes ←
      (if s.nCompressionMethod = COMPRESSION_RLE then
        ProcessBitmapRLE s.pBuffer s.nImageDataSize pPixelData h.nWidth h.nHeight
          (u32 nOutputRowSize) s.nCompressionMethod h.nVersion
      else
        ProcessBitmapUncompressed s.pBuffer s.nImageDataSize pPixelData h.nWidth h.nHeight
          (u32 nOutputRowSize) s.nCompressionMethod h.nVersion)
    pure ⟨⟨h.nWidth, h.nHeight, applyWrites pPixelData writes, s.pEXIFData, h.nChannels⟩,
      nOutputRowSize⟩
  else do
    let nChannels := ReadImage.dropAlpha s.bUseAlpha h.nColorMode h.nChannels
    let created := ReadImage.createTransform env h.nColorMode nChannels s.pICCProfile
      s.nICCProfileSize
    let transform := created.1
    let nChannels := created.2
    let nOutputRowSize := DoPadding (u32 (h.nWidth * nChannels)) 4
    if ¬ env.allocOk (u32 (nOutputRowSize * h.nHeight)) then throw Fault.outOfMemory else
    let pPixelData := newBuffer env (u32 (nOutputRowSize * h.nHeight))
    let writes ←
      (if s.nCompressionMethod = COMPRESSION_RLE then
        ProcessRLEData s.pBuffer s.nImageDataSize pPixelData h.nWidth h.nHeight nChannels
          (u32 nOutputRowSize) h.nColorMode h.nBitDepth h.nRealChannels h.nVersion
      else
        ProcessUncompressedData s.pBuffer s.nImageDataSize pPixelData h.nWidth h.nHeight nChannels
          (u32 nOutputRowSize) h.nColorMode h.nBitDepth)
    let pixels := env.DoTransform transform (applyWrites pPixelData writes) h.nWidth h.nHeight
      nOutputRowSize
    let pixels :=
      if nChannels = 4 then
        let backgroundColor := if h.nColorMode = MODE_CMYK then 0 else env.ColorTransparency
        (List.range (u32 (h.nWidth * h.nHeight))).foldl (ReadImage.blend env backgroundColor) pixels
      else pixels
    pure ⟨⟨h.nWidth, h.nHeight, pixels, s.pEXIFData, nChannels⟩, nOutputRowSize⟩

/-- The `try` block of `ReadImage` on an open file. -/
def ReadImage.body (env : Env) (fuel : Nat) (file : List Nat) (bOutOfMemory : Bool) :
    Except Fault Decoded := do
  let h ← ReadImage.header env file bOutOfMemory
  let s ← ReadImage.sections env fuel file h
  ReadImage.pixels env h s

/-- The function `PsdReader::ReadImage` on a file that could be opened: the returned image (`none`
for `nullptr`) and the final value of `bOutOfMemory`. The `catch (...)` takes the two kinds of
`throw`; the other faults are runs the C++ semantics does not define, or an exhausted budget. -/
def ReadImage (env : Env) (fuel : Nat) (file : List Nat) (bOutOfMemory : Bool) :
    Except Fault (Option Decoded × Bool) :=
  match ReadImage.body env fuel file bOutOfMemory with
  | .ok d => .ok (some d, bOutOfMemory)
  | .error .thrown => .ok (none, bOutOfMemory)
  | .error .outOfMemory => .ok (none, true)
  | .error e => .error e

/-! ## Reference layout of the decoded samples

Definitions that the statements about the decoders are phrased with. -/

/-- The target channel as the specification tabulates it: the source index for Lab; otherwise
2, 1, 0 for the first three channels and 3 for the fourth, and 0 when there is one channel. -/
def targetSpec (nColorMode nChannels channel : Nat) : Nat :=
  if nColorMode = MODE_Lab then channel
  else if nChannels = 1 then 0
  else [2, 1, 0, 3].getD channel 0

/-- Offset in the pixel buffer of sample number `k` of planar data: sample `k` is column
`k % nWidth` of row `k / nWidth % nHeight` of channel `k / nWidth / nHeight`. -/
def sampleOffset (nWidth nHeight nChannels nOutputRowSize nColorMode k : Nat) : Nat :=
  (k / nWidth % nHeight) * nOutputRowSize + (k % nWidth) * nChannels +
    rchannel nColorMode nChannels (k / nWidth / nHeight)

/-- Value decoded from sample number `k` of planar data: the byte itself at depth 8, the scaled
big-endian pair at depth 16. -/
def sampleValue (D : List Nat) (nBitDepth k : Nat) : Nat :=
  if nBitDepth = 8 then D.getD k 0
  else Scale16To8 (u16 ((D.getD (2 * k) 0 <<< 8) ||| D.getD (2 * k + 1) 0))

/-- The stores of the first `n` samples of planar data, in planar order. -/
def planarWrites (D : List Nat) (nWidth nHeight nChannels nOutputRowSize nColorMode nBitDepth : Nat)
    (n : Nat) : List (Nat × Nat) :=
  (List.range n).map fun k =>
    (sampleOffset nWidth nHeight nChannels nOutputRowSize nColorMode k, sampleValue D nBitDepth k)

/-- State of `ProcessUncompressedData` when `k` samples have been decoded. -/
def uncompressedState (D : List Nat) (w h N stride mode depth k : Nat) : Dec :=
  ⟨(if depth = 8 then 1 else 2) * k, planarWrites D w h N stride mode depth k⟩

/-- The stores of the first `n` pixels of 1-bit data whose rows take `bpr` bytes, row by row:
pixel `k` is column `k % nWidth` of row `k / nWidth`. -/
def bitmapWrites (D : List Nat) (nWidth nOutputRowSize bpr n : Nat) : List (Nat × Nat) :=
  (List.range n).map fun k =>
    ((k / nWidth) * nOutputRowSize + k % nWidth,
      bitPixel (D.getD ((k / nWidth) * bpr + k % nWidth / 8) 0) (7 - k % nWidth % 8))

/-- The file of end-to-end scenario b: a version-1 header with one channel, height 1, width 4,
depth 1 and colour mode 0; colour-data size 0; resource-section size 0; layer-section size 0;
compression 0; the image-data byte 0xA0. It has 41 bytes. -/
def scenarioB : List Nat :=
  [0x38, 0x42, 0x50, 0x53, 0, 1, 0, 0, 0, 0, 0, 0, 0, 1, 0, 0, 0, 1, 0, 0, 0, 4, 0, 1, 0, 0,
    0, 0, 0, 0,  0, 0, 0, 0,  0, 0, 0, 0,  0, 0,  0xA0]

/-- The collapse of a channel count of 2 to 1. -/
def collapse2 (n : Nat) : Nat := if n = 2 then 1 else n

/-- The big-endian field of `n` bytes at offset `off` of a file. -/
def field (file : List Nat) (off n : Nat) : Nat := beValue ((file.drop off).take n)

/-- An environment for evaluating the reader on examples: limits of 300 MB, 300 M pixels and
65535 pixels a side, an allocator that never fails, buffers that start zeroed, no colour
transform, and a compositor that keeps the pixel. -/
def refEnv : Env :=
  { MAX_PSD_FILE_SIZE := 314572800
    MAX_IMAGE_PIXELS := 314572800
    MAX_IMAGE_DIMENSION := 65535
    allocOk := fun _ => true
    fresh := fun _ _ => 0
    CreateLabTransform := fun _ => none
    CreateTransform := fun _ _ _ => none
    DoTransform := fun _ pixels _ _ _ => pixels
    ColorTransparency := 0
    AlphaBlendBackground := fun pixel _ => pixel }

/-- A 26-byte header with colour mode Indexed (2), depth 8, one channel, 1x1 pixels, followed by
empty colour-data, resource and layer sections, compression 0 and image data. -/
def indexedFile : List Nat :=
  [0x38, 0x42, 0x50, 0x53, 0, 1, 0, 0, 0, 0, 0, 0, 0, 1, 0, 0, 0, 1, 0, 0, 0, 1, 0, 8, 0, 2,
    0, 0, 0, 0,  0, 0, 0, 0,  0, 0, 0, 0,  0, 0,  7, 0, 0, 0]

/-! ## PackBits streams -/

/-- A PackBits packet: literal bytes, a run of one value, or the no-op byte 0x80. -/
inductive Packet
  | literal (bytes : List Nat)
  | run (n value : Nat)
  | noop
  deriving DecidableEq, Repr

/-- The bytes of a packet: a literal of `k` bytes has the header `k - 1`, a run of `n` copies the
header `257 - n`, the no-op is the byte 128. -/
def Packet.encode : Packet → List Nat
  | .literal bytes => (bytes.length - 1) :: bytes
  | .run n value => [257 - n, value]
  | .noop => [128]

/-- The bytes a packet stands for. -/
def Packet.expand : Packet → List Nat
  | .literal bytes => bytes
  | .run n value => List.replicate n value
  | .noop => []

/-- A literal packet has 1 to 128 bytes and a run 2 to 128 copies; the no-op is admitted when
`allowNoop` is set. -/
def Packet.valid (allowNoop : Bool) : Packet → Bool
  | .literal bytes => decide (1 ≤ bytes.length ∧ bytes.length ≤ 128)
  | .run n _ => decide (2 ≤ n ∧ n ≤ 128)
  | .noop => allowNoop

/-- The encoded stream of a row given as a sequence of packets. -/
def encodeRow (ps : List Packet) : List Nat := (ps.map Packet.encode).flatten

/-- The bytes a sequence of packets expands to. -/
def expandRow (ps : List Packet) : List Nat := (ps.map Packet.expand).flatten

/-- The `n` low bytes of `v`, most significant first. -/
def beBytes : Nat → Nat → List Nat
  | 0, _ => []
  | n + 1, v => beBytes n (v / 256) ++ [v % 256]

/-- The scan-line byte-count table: one big-endian entry of `2 * nVersion` bytes per length. -/
def byteCountTable (nVersion : Nat) (lens : List Nat) : List Nat :=
  (lens.map (beBytes (2 * nVersion))).flatten

/-- Offset, behind the byte-count table, of the stream of row `k` among the encoded rows. -/
def streamStart (rows : List (List Packet)) (k : Nat) : Nat :=
  ((rows.take k).map fun ps => (encodeRow ps).length).sum

/-- Planar data of a 3x1 image with three channels, for examples. -/
def demoData : List Nat := [7, 7, 7, 1, 2, 3, 5, 5, 6]

/-- An encoding of the rows of `demoData`: a run of three, a literal of three, and a run of two
followed by a literal of one. -/
def demoRows : List (List Packet) :=
  [[.run 3 7], [.literal [1, 2, 3]], [.run 2 5, .literal [6]]]

/-- State of `ProcessBitmapRLE` inside row `r` when `j` source bytes of the row are unpacked:
the pixel counter stands at `min (8 * j) nWidth`. -/
def bitmapState (D : List Nat) (nWidth nOutputRowSize bpr r p j : Nat) : BitDec :=
  ⟨p, min (8 * j) nWidth,
    bitmapWrites D nWidth nOutputRowSize bpr (r * nWidth + min (8 * j) nWidth)⟩

/-- Raw 1-bit data of a 12x2 image (two bytes a row), for examples. -/
def demoBits : List Nat := [0xA0, 0xA0, 0xFF, 0x01]

/-- An encoding of the rows of `demoBits`: a run of two; a no-op followed by a literal of
two. -/
def demoBitRows : List (List Packet) := [[.run 2 0xA0], [.noop, .literal [0xFF, 0x01]]]


/-- A file whose header has colour mode Bitmap (0), depth 8 and a channel count of 0, with 4x1
pixels, empty colour-data, resource and layer sections, compression 0 and four bytes of image
data. -/
def bitmapDepth8File : List Nat :=
  [0x38, 0x42, 0x50, 0x53, 0, 1, 0, 0, 0, 0, 0, 0, 0, 0, 0, 0, 0, 1, 0, 0, 0, 4, 0, 8, 0, 0,
    0, 0, 0, 0,  0, 0, 0, 0,  0, 0, 0, 0,  0, 0,  0xA0, 0, 0, 0]

/-! ## Stages of `ReadImage` between the header and the image data -/

/-- Part of `ReadImage`, source lines 191 to 199: the colour-mode data is skipped, the size of the
resource section is read and the resources are scanned; yields `nColorDataSize`,
`nResourceSectionSize` and what the scan left. -/
def ReadImage.resources (env : Env) (fuel : Nat) (file : List Nat) (h : Header) :
    Except Fault (Nat × Nat × Resources) := do
  let (nColorDataSize, pos) ← ReadUIntFromFile file h.pos
  let pos ← SeekFile pos (toLONG nColorDataSize)
  let (nResourceSectionSize, pos) ← ReadUIntFromFile file pos
  let res ← ParseImageResources env file h.nColorMode fuel
    ⟨pos, none, none, 0, decide (h.nChannels = 4)⟩
  pure (nColorDataSize, nResourceSectionSize, res)

/-- Part of `ReadImage`, source lines 201 to 211: the seek behind the resource section, the length
of the layer and mask section, the layer count and the seek to the compression method; yields
`nLayerCount` (a `short`) and the position reached. -/
def ReadImage.layers (file : List Nat) (h : Header) (nColorDataSize nResourceSectionSize : Nat) :
    Except Fault (Int × Nat) := do
  let pos ← SeekFileFromStart
    (toLONG (PSD_HEADER_SIZE + 4 + nColorDataSize + 4 + nResourceSectionSize))
  let (nLayerSize, pos) ←
    (if h.nVersion = 2 then ReadUInt64FromFile file pos else ReadUIntFromFile file pos)
  let nLayerSizeBytes := u8 (4 * h.nVersion)
  let pos ← SeekFile pos (nLayerSizeBytes : Int)
  let (layerCount, pos) ← ReadUShortFromFile file pos
  let nLayerCount : Int := if layerCount < 32768 then (layerCount : Int) else (layerCount : Int) - 65536
  let pos ← SeekFile pos (toLONG (nLayerSize + 18446744073709551616 - 2 - nLayerSizeBytes))
  pure (nLayerCount, pos)

/-- Part of `ReadImage`, source lines 213 to 224: the compression method is read at `pos` and
checked, and the rest of the file is read into `pBuffer`; yields `nCompressionMethod`,
`nImageDataSize` and `pBuffer`. -/
def ReadImage.imageData (env : Env) (file : List Nat) (h : Header) (pos : Nat) :
    Except Fault (Nat × Nat × List Nat) := do
  let (nCompressionMethod, pos) ← ReadUShortFromFile file pos
  if nCompressionMethod ≠ COMPRESSION_RLE ∧ nCompressionMethod ≠ COMPRESSION_None then
    throw Fault.thrown
  else
  let tell ← TellFile pos
  let nImageDataSize := u32 (h.nFileSize + 4294967296 - tell)
  if ¬ env.allocOk nImageDataSize then throw Fault.outOfMemory else
  let (pBuffer, _) ← ReadFromFile file pos nImageDataSize
  pure (nCompressionMethod, nImageDataSize, pBuffer)

/-- A file with the sections of `scenarioB` followed by three bytes, whose first four bytes are
`XXXX` instead of `8BPS`. -/
def unsignedFile : List Nat :=
  [0x58, 0x58, 0x58, 0x58, 0, 1, 0, 0, 0, 0, 0, 0, 0, 1, 0, 0, 0, 1, 0, 0, 0, 4, 0, 1, 0, 0,
    0, 0, 0, 0,  0, 0, 0, 0,  0, 0, 0, 0,  0, 0,  0xA0, 0, 0, 0]

/-- A version-1 file of 1x1 pixels, one channel, depth 8, colour mode Grayscale, with empty
colour-data, resource and layer sections, the compression method `method` and four bytes of image
data. -/
def compressedFile (method : Nat) : List Nat :=
  [0x38, 0x42, 0x50, 0x53, 0, 1, 0, 0, 0, 0, 0, 0, 0, 1, 0, 0, 0, 1, 0, 0, 0, 1, 0, 8, 0, 1,
    0, 0, 0, 0,  0, 0, 0, 0,  0, 0, 0, 0,  0, method,  7, 0, 0, 0]

/-! ## Files of the RLE scenarios -/

/-- A version-1 file with one channel, height 1, width `width`, depth 8 and colour mode
Grayscale; empty colour-data, resource and layer sections; compression 1 (RLE); a byte-count
table whose one entry claims 5 bytes; and the bytes `data` behind the table. -/
def scenarioD (width : Nat) (data : List Nat) : List Nat :=
  [0x38, 0x42, 0x50, 0x53, 0, 1, 0, 0, 0, 0, 0, 0, 0, 1, 0, 0, 0, 1, 0, 0, 0, width, 0, 8, 0, 1,
    0, 0, 0, 0,  0, 0, 0, 0,  0, 0, 0, 0,  0, 1,  0, 5] ++ data

/-- A version-2 file with 0x8000 channels, height 0x8000, width 1, depth 8 and colour mode
Grayscale; empty colour-data, resource and layer sections; compression 1 (RLE); and eight zero
bytes of image data. It has 52 bytes. -/
def wrapFile : List Nat :=
  [0x38, 0x42, 0x50, 0x53, 0, 2, 0, 0, 0, 0, 0, 0, 0x80, 0, 0, 0, 0x80, 0, 0, 0, 0, 1, 0, 8,
    0, 1,  0, 0, 0, 0,  0, 0, 0, 0,  0, 0, 0, 0, 0, 0, 0, 0,  0, 1,  0, 0, 0, 0, 0, 0, 0, 0]

/-! ## Files with resources and layers -/

/-- The file of end-to-end scenario e: a version-1 header with 4 channels, height 1, width 1,
depth 8 and colour mode RGB; colour-data size 0; resource-section size 0; a layer and mask
section of 6 bytes with the layer count 1; compression 0; the planar samples R = 0x11, G = 0x22,
B = 0x33 and alpha = 0x44. -/
def scenarioE : List Nat :=
  [0x38, 0x42, 0x50, 0x53, 0, 1, 0, 0, 0, 0, 0, 0, 0, 4, 0, 0, 0, 1, 0, 0, 0, 1, 0, 8, 0, 3,
    0, 0, 0, 0,  0, 0, 0, 0,  0, 0, 0, 6, 0, 0, 0, 2, 0, 1,  0, 0,  0x11, 0x22, 0x33, 0x44]

/-- The bytes of an image resource with an empty name: the signature `8BIM`, the identifier, the
length byte of the name and its padding byte, the payload size, and the payload padded to an
even length. -/
def resourceEntry (id : Nat) (payload : List Nat) : List Nat :=
  [0x38, 0x42, 0x49, 0x4D, id / 256, id % 256, 0, 0] ++ beBytes 4 payload.length ++ payload ++
    (if payload.length % 2 = 1 then [0] else [])

/-- The state in which `ReadImage` enters the resource scan at position `pos` of a file with four
output channels: nothing captured yet, and the alpha flag set. -/
def scanStart (pos : Nat) : Resources := ⟨pos, none, none, 0, true⟩

/-! ## `ReadThumb` and `ParseThumbnailResources` -/

def RESOURCE_THUMBNAIL_4 : Nat := 0x0409
def RESOURCE_THUMBNAIL_5 : Nat := 0x040C

def THUMBNAIL_HEADER_SIZE : Nat := 28

/-- What `TurboJpeg::ReadImage` returns and leaves in its reference parameters. -/
structure JpegDecoded where
  pPixelData : Option (List Nat)
  nWidth : Int
  nHeight : Int
  nChannels : Int
  eChromoSubSampling : Nat
  bOutOfMemory : Bool
  deriving DecidableEq, Repr

/-- What the thumbnail path uses from the rest of the viewer. -/
structure ThumbEnv where
  /-- The comparison `nJpegSize > MAX_JPEG_FILE_SIZE`, with the limit of `MaxImageDef.h`. -/
  jpegTooLarge : Int → Bool
  /-- Whether `new(std::nothrow) char[n]` delivers a buffer. -/
  allocOk : Nat → Bool
  /-- The call `TurboJpeg::ReadImage(nWidth, nHeight, nChannels, eChromoSubSampling,
  bOutOfMemory, pBuffer, nJpegSize)`, given the buffer, its size and the flag on entry. -/
  TurboJpegReadImage : List Nat → Int → Bool → JpegDecoded

/-- What `ParseThumbnailResources` reads and updates: the file position and its reference
parameters. -/
structure Thumb where
  pos : Nat
  pEXIFData : Option (List Nat)
  pBuffer : Option (List Nat)
  nJpegSize : Int
  pPixelData : Option (List Nat)
  nWidth : Int
  nHeight : Int
  nChannels : Int
  eChromoSubSampling : Nat
  bOutOfMemory : Bool
  deriving DecidableEq, Repr

/-- Outcome of one iteration of the thumbnail resource loop. -/
inductive ThumbScan
  /-- The loop was left by `break`. -/
  | stop (t : Thumb)
  /-- The loop goes on with the next resource. -/
  | more (t : Thumb)
  deriving DecidableEq, Repr

/-- A `throw` that leaves the function while `bOutOfMemory` is set. -/
def raise (bOutOfMemory : Bool) (e : Fault) : Fault :=
  if bOutOfMemory = true ∧ e = Fault.thrown then Fault.outOfMemory else e

/-- The block `"\xFF\xE1\0\0Exif\0\0"` with the size `nResourceSize + 8` written big-endian
at `(char*)pEXIFData + 1`, followed by the payload. -/
def exifBlockThumb (nResourceSize : Nat) (payload : List Nat) : List Nat :=
  [0xFF, u16 (nResourceSize + 8) / 256, u16 (nResourceSize + 8) % 256, 0,
    0x45, 0x78, 0x69, 0x66, 0, 0] ++ payload

/-- The `switch (nResourceID)` of `ParseThumbnailResources`, entered with the position at the
start of the payload. `nJpegSize` is an `int`; `new(std::nothrow) char[nJpegSize]` with a negative
size delivers no buffer. -/
def ParseThumbnailResources.dispatch (env : ThumbEnv) (file : List Nat)
    (nResourceID nResourceSize : Nat) (t : Thumb) : Except Fault Thumb :=
  if nResourceID = RESOURCE_THUMBNAIL_4 ∨ nResourceID = RESOURCE_THUMBNAIL_5 then
    match SeekFile t.pos (THUMBNAIL_HEADER_SIZE : Int) with
    | .error e => .error e
    | .ok pos1 =>
      let nJpegSize := toLONG (subU32 nResourceSize THUMBNAIL_HEADER_SIZE)
      if env.jpegTooLarge nJpegSize then .error .outOfMemory else
      if nJpegSize < 0 ∨ ¬ env.allocOk nJpegSize.toNat then .error .outOfMemory else
      match ReadFromFile file pos1 nJpegSize.toNat with
      | .error e => .error e
      | .ok (bytes, pos2) =>
        match SeekFile pos2 (toLONG (negU32 nResourceSize)) with
        | .error e => .error e
        | .ok pos3 =>
          let j := env.TurboJpegReadImage bytes nJpegSize t.bOutOfMemory
          .ok { t with pos := pos3, pBuffer := some bytes, nJpegSize := nJpegSize,
                       pPixelData := j.pPixelData, nWidth := j.nWidth, nHeight := j.nHeight,
                       nChannels := j.nChannels, eChromoSubSampling := j.eChromoSubSampling,
                       bOutOfMemory := j.bOutOfMemory }
  else if nResourceID = RESOURCE_EXIF_DATA_1 ∨ nResourceID = RESOURCE_EXIF_DATA_3 then
    if t.pEXIFData = none ∧ nResourceSize < 65526 then
      if env.allocOk (nResourceSize + 10) then
        match ReadFromFile file t.pos nResourceSize with
        | .error e => .error e
        | .ok (bytes, pos1) =>
          match SeekFile pos1 (toLONG (negU32 nResourceSize)) with
          | .error e => .error e
          | .ok pos2 =>
            .ok { t with pos := pos2, pEXIFData := some (exifBlockThumb nResourceSize bytes) }
      else .ok t
    else .ok t
  else .ok t

/-- One iteration of the `while (true)` loop of `ParseThumbnailResources`. A read of the
signature that fails is caught and ends the loop; `ReadFile` has then read the bytes that were
left, so the cursor is at the end of the file, or where it was if that is behind the end. -/
def ParseThumbnailResources.entry (env : ThumbEnv) (file : List Nat) (t : Thumb) :
    Except Fault ThumbScan :=
  match ReadUIntFromFile file t.pos with
  | .error _ => .ok (.stop { t with pos := max t.pos file.length })
  | .ok (sig, pos1) =>
    if sig ≠ RESOURCE_SIGNATURE then .ok (.stop { t with pos := pos1 }) else
    match ReadUShortFromFile file pos1 with
    | .error e => .error e
    | .ok (nResourceID, pos2) =>
      match ReadUCharFromFile file pos2 with
      | .error e => .error e
      | .ok (nStringSize, pos3) =>
        match SeekFile pos3 (toLONG (nStringSize ||| 1)) with
        | .error e => .error e
        | .ok pos4 =>
          match ReadUIntFromFile file pos4 with
          | .error e => .error e
          | .ok (nResourceSize, pos5) =>
            match ParseThumbnailResources.dispatch env file nResourceID nResourceSize
                { t with pos := pos5 } with
            | .error e => .error e
            | .ok t1 =>
              match SeekFile t1.pos (toLONG (u32 (nResourceSize + 1) &&& 4294967294)) with
              | .error e => .error (raise t1.bOutOfMemory e)
              | .ok pos6 => .ok (.more { t1 with pos := pos6 })

/-- The function `PsdReader::ParseThumbnailResources`, with an iteration budget for its
`while (true)` loop; its return value is `pPixelData != nullptr` of the state it yields. -/
def ParseThumbnailResources (env : ThumbEnv) (file : List Nat) : Nat → Thumb → Except Fault Thumb
  | 0, _ => .error .fuel
  | fuel + 1, t =>
    match ParseThumbnailResources.entry env file t with
    | .error e => .error (raise t.bOutOfMemory e)
    | .ok (.stop t1) => .ok t1
    | .ok (.more t1) => ParseThumbnailResources env file fuel t1

/-- The image object built by `ReadThumb`: its dimensions, pixels, EXIF block and channel count,
the chroma subsampling, and the JPEG stream `pBuffer` of `nJpegSize` bytes from which its hash and
its comment are computed. -/
structure ThumbImage where
  nWidth : Int
  nHeight : Int
  pPixelData : List Nat
  pEXIFData : Option (List Nat)
  nChannels : Int
  pBuffer : Option (List Nat)
  nJpegSize : Int
  eChromoSubSampling : Nat
  deriving DecidableEq, Repr

/-- The `try` block of `ReadThumb` on an open file. -/
def ReadThumb.body (env : ThumbEnv) (fuel : Nat) (file : List Nat) (bOutOfMemory : Bool) :
    Except Fault Thumb := do
  let pos ← SeekFile 0 (PSD_HEADER_SIZE : Int)
  let (nColorDataSize, pos) ← ReadUIntFromFile file pos
  let pos ← SeekFile pos (toLONG nColorDataSize)
  let (_, pos) ← ReadUIntFromFile file pos
  ParseThumbnailResources env file fuel ⟨pos, none, none, 0, none, 0, 0, 0, 0, bOutOfMemory⟩

/-- The function `PsdReader::ReadThumb` on a file that could be opened: the returned image (`none`
for `nullptr`) and the final value of `bOutOfMemory`. -/
def ReadThumb (env : ThumbEnv) (fuel : Nat) (file : List Nat) (bOutOfMemory : Bool) :
    Except Fault (Option ThumbImage × Bool) :=
  match ReadThumb.body env fuel file bOutOfMemory with
  | .ok t =>
    match t.pPixelData with
    | some pixels =>
      .ok (some ⟨t.nWidth, t.nHeight, pixels, t.pEXIFData, t.nChannels, t.pBuffer, t.nJpegSize,
        t.eChromoSubSampling⟩, t.bOutOfMemory)
    | none => .ok (none, t.bOutOfMemory)
  | .error .thrown => .ok (none, bOutOfMemory)
  | .error .outOfMemory => .ok (none, true)
  | .error e => .error e

/-- An environment for evaluating the thumbnail path on examples: no size limit, an allocator
that never fails, and a JPEG decoder that delivers the stream itself as a 1x1 image. -/
def refThumbEnv : ThumbEnv :=
  { jpegTooLarge := fun _ => false
    allocOk := fun _ => true
    TurboJpegReadImage := fun bytes _ b => ⟨some bytes, 1, 1, 3, 0, b⟩ }

/-- The state in which `ReadThumb` enters the resource scan at position `pos`. -/
def thumbStart (pos : Nat) : Thumb := ⟨pos, none, none, 0, none, 0, 0, 0, 0, false⟩

/-! ## Files with a resource section -/

/-- A version-1 file of 1x1 pixels with 4 channels, depth 8 and colour mode RGB: colour-data
size 0; a resource section declared with `declared` bytes, followed by the bytes `resources`; a
layer and mask section of length 0; compression 0; and the planar samples `11 22 00 00`. -/
def resourceFile (declared : Nat) (resources : List Nat) : List Nat :=
  [0x38, 0x42, 0x50, 0x53, 0, 1, 0, 0, 0, 0, 0, 0, 0, 4, 0, 0, 0, 1, 0, 0, 0, 1, 0, 8, 0, 3,
    0, 0, 0, 0] ++ beBytes 4 declared ++ resources ++ [0, 0, 0, 0,  0, 0,  0x11, 0x22, 0, 0]

/-! ## PackBits streams of 16-bit samples -/

/-- The bytes of a packet of 16-bit samples, as the 16-bit branch of `ProcessRLEData` reads them:
the header counts samples, and every sample is two bytes, most significant first. -/
def Packet.encode16 : Packet → List Nat
  | .literal samples => (samples.length - 1) :: (samples.map fun v => [v / 256, v % 256]).flatten
  | .run n value => [257 - n, value / 256, value % 256]
  | .noop => [128]

/-- The encoded stream of a row of 16-bit samples given as a sequence of packets. -/
def encodeRow16 (ps : List Packet) : List Nat := (ps.map Packet.encode16).flatten

/-- A version-1 file with one channel, height 1, width `width`, depth `depth` and colour mode
`mode`; empty colour-data, resource and layer sections; compression 1 (RLE); a byte-count table
whose one entry claims 5 bytes; and the bytes `data` behind the table. -/
def rleFile (depth mode width : Nat) (data : List Nat) : List Nat :=
  [0x38, 0x42, 0x50, 0x53, 0, 1, 0, 0, 0, 0, 0, 0, 0, 1, 0, 0, 0, 1, 0, 0, 0, width, 0, depth,
    0, mode,  0, 0, 0, 0,  0, 0, 0, 0,  0, 0, 0, 0,  0, 1,  0, 5] ++ data

/-! ## Progress of the resource loops -/

/-- The state of the loop of `ParseImageResources` after `k` further iterations, each of which
went on with the next resource; `none` if one of them left the loop or threw. -/
def ParseImageResources.after (env : Env) (file : List Nat) (nColorMode : Nat) :
    Nat → Resources → Option Resources
  | 0, r => some r
  | k + 1, r =>
    match ParseImageResources.entry env file nColorMode r with
    | .ok (.more r1) => ParseImageResources.after env file nColorMode k r1
    | _ => none

/-- The state of the loop of `ParseThumbnailResources` after `k` further iterations, each of
which went on with the next resource; `none` if one of them left the loop or threw. -/
def ParseThumbnailResources.after (env : ThumbEnv) (file : List Nat) : Nat → Thumb → Option Thumb
  | 0, t => some t
  | k + 1, t =>
    match ParseThumbnailResources.entry env file t with
    | .ok (.more t1) => ParseThumbnailResources.after env file k t1
    | _ => none

/-- The bytes of a thumbnail resource: the 28 bytes of its header, here zero, followed by the
JPEG stream. -/
def thumbnailPayload (jpeg : List Nat) : List Nat := List.replicate 28 0 ++ jpeg

/-! ## Files with RLE data that leaves the row -/

/-- A version-1 file of 2 rows of 1 pixel with 3 channels, depth 8 and colour mode RGB; empty
colour-data, resource and layer sections; compression 1 (RLE); a byte-count table of six entries
of 2 bytes; and six rows of two bytes: literals for red (`11`, `12`) and green (`21`, `22`), and
for blue a run of three samples `77` in row 0 and the literal `32` in row 1. -/
def overrunFile : List Nat :=
  [0x38, 0x42, 0x50, 0x53, 0, 1, 0, 0, 0, 0, 0, 0, 0, 3, 0, 0, 0, 2, 0, 0, 0, 1, 0, 8, 0, 3,
    0, 0, 0, 0,  0, 0, 0, 0,  0, 0, 0, 0,  0, 1,
    0, 2, 0, 2, 0, 2, 0, 2, 0, 2, 0, 2,
    0, 0x11, 0, 0x12, 0, 0x21, 0, 0x22, 0xFE, 0x77, 0, 0x32]

end PsdReader

/-! # `GPSCoordinate` of `EXIFReader.h` and the decimal degrees of `EXIFDisplayCtl.cpp`

The `double` values are exact rationals here; the `int` of the conversions has 32 bits. -/

/-- The class `GPSCoordinate`. -/
structure GPSCoordinate where
  m_sReference : String
  Degrees : ℚ
  Minutes : ℚ
  Seconds : ℚ
  deriving DecidableEq

/-- The conversion `(int)x` of a `double` to the 32-bit `int`: truncation toward zero when the
truncated value lies in the range of `int`, that is for `-2^31 - 1 < x < 2^31`. For every other
value the C++ standard leaves the conversion undefined; the model takes `INT_MIN`, the value
that the conversion instructions of x86 and x64 deliver. -/
def GPSCoordinate.toInt (x : ℚ) : ℤ :=
  if -2147483649 < x ∧ x < 2147483648 then (if 0 ≤ x then ⌊x⌋ else ⌈x⌉) else -2147483648

/-- The constructor `GPSCoordinate(reference, degrees, minutes, seconds)`; `abs` is the
absolute value of a `double`. -/
def GPSCoordinate.create (reference : String) (degrees minutes seconds : ℚ) :
    GPSCoordinate :=
  let dm : ℚ × ℚ :=
    if minutes = 0 ∧ seconds = 0 then
      ((GPSCoordinate.toInt degrees : ℚ), 60 * |degrees - (GPSCoordinate.toInt degrees : ℚ)|)
    else (degrees, minutes)
  let ms : ℚ × ℚ :=
    if seconds = 0 then
      ((GPSCoordinate.toInt dm.2 : ℚ), 60 * |dm.2 - (GPSCoordinate.toInt dm.2 : ℚ)|)
    else (dm.2, seconds)
  ⟨reference, dm.1, ms.1, ms.2⟩

/-- The value `Degrees + Minutes / 60 + Seconds / (60 * 60)` that `CreateGPSURL` computes for a
coordinate before it applies the sign of the hemisphere. -/
def CreateGPSURL.value (c : GPSCoordinate) : ℚ :=
  c.Degrees + c.Minutes / 60 + c.Seconds / (60 * 60)

namespace PsdReader

/-! ## Data for the statements on the decoders and on the scans -/

/-- A plane of 16-bit samples made of an 8-bit plane: every byte is written twice, so that the
sample of the byte `b` is `257 * b`. -/
def doubleBytes (D : List Nat) : List Nat := (D.map fun b => [b, b]).flatten

/-- The big-endian entry number `k` of the byte-count table at the start of `pBuffer`: two bytes
for version 1, four bytes for version 2. -/
def tableEntry (nVersion : Nat) (pBuffer : List Nat) (k : Nat) : Nat :=
  field pBuffer (2 * nVersion * k) (2 * nVersion)

/-- The sum of the first `k` entries of the byte-count table. -/
def tableSum (nVersion : Nat) (pBuffer : List Nat) (k : Nat) : Nat :=
  ((List.range k).map (tableEntry nVersion pBuffer)).sum

/-- A version-1 file of 1x1 pixels with 4 channels, depth 8 and colour mode RGB, with empty
colour-data and resource sections, a layer and mask section of length 0, compression 0 and the
image data `data`. -/
def emptyLayerFile (data : List Nat) : List Nat :=
  [0x38, 0x42, 0x50, 0x53, 0, 1, 0, 0, 0, 0, 0, 0, 0, 4, 0, 0, 0, 1, 0, 0, 0, 1, 0, 8, 0, 3,
    0, 0, 0, 0,  0, 0, 0, 0,  0, 0, 0, 0,  0, 0] ++ data

/-- The twelve bytes of a resource with the identifier 0x03ED, an empty name and the payload
size 0xFFFFFFF4. -/
def loopResource : List Nat := [0x38, 0x42, 0x49, 0x4D, 3, 0xED, 0, 0, 0xFF, 0xFF, 0xFF, 0xF4]

/-- The outcome `r` of a step satisfies `P` if it is a result and `Q` if it is a fault. -/
def outcome {σ : Type} (P : σ → Prop) (Q : Fault → Prop) (r : Except Fault σ) : Prop :=
  match r with
  | .ok s => P s
  | .error e => Q e

/-- Every store of the trace `writes` goes to an offset below `n`. -/
def storesBelow (n : Nat) (writes : List (Nat × Nat)) : Prop := ∀ w ∈ writes, w.1 < n

/-- The `row` loop of `ProcessRLEData` for the channel `channel`: the `n` rows from `start`. -/
def ProcessRLEData.rows (pBuffer : List Nat) (nImageDataSize : Nat) (pPixelData : List Nat)
    (nWidth nHeight nChannels nOutputRowSize nColorMode nBitDepth nVersion channel : Nat)
    (n start : Nat) (st : RowDec) : Except Fault RowDec :=
  forLoop (fun row st =>
    ProcessRLEData.rowStep pBuffer nImageDataSize pPixelData nWidth nHeight nChannels
      nOutputRowSize nBitDepth nVersion (rchannel nColorMode nChannels channel) channel row st)
    n start st

/-- The `channel` loop of `ProcessRLEData`: the `n` channels from `start`. -/
def ProcessRLEData.channels (pBuffer : List Nat) (nImageDataSize : Nat) (pPixelData : List Nat)
    (nWidth nHeight nChannels nOutputRowSize nColorMode nBitDepth nVersion : Nat)
    (n start : Nat) (st : RowDec) : Except Fault RowDec :=
  forLoop (fun channel st =>
    ProcessRLEData.rows pBuffer nImageDataSize pPixelData nWidth nHeight nChannels
      nOutputRowSize nColorMode nBitDepth nVersion channel nHeight 0 st)
    n start st

/-- The `row` loop of `ProcessBitmapRLE`: the `n` rows from `start`. -/
def ProcessBitmapRLE.rows (pBuffer : List Nat) (nImageDataSize : Nat) (pPixelData : List Nat)
    (nWidth nOutputRowSize nVersion : Nat) (n start : Nat) (st : RowDec) :
    Except Fault RowDec :=
  forLoop (fun row st =>
    ProcessBitmapRLE.rowStep pBuffer nImageDataSize pPixelData nWidth nOutputRowSize nVersion
      row st) n start st

/-- A buffer of RLE data for a 2x2 image with one channel and 8 bits: the byte-count table
`00 05 00 02`, the stream `FF 07` of row 0 (a run of two), three bytes that no row decodes, and
the stream `FF 08` of row 1. The entry of row 0 is 5, its stream takes 2 bytes. -/
def gapData : List Nat := [0, 5, 0, 2, 0xFF, 7, 9, 9, 9, 0xFF, 8]

/-- A file whose resource section holds, in this order, an alpha-identifiers resource 0x041D
with the four payload bytes `ids`, an EXIF resource 0x0423 with the payload `01 02` and an EXIF
resource 0x0422 with the payload `03 04`. The resources start at the offsets 34, 50 and 64. -/
def exifOrderFile (ids : List Nat) : List Nat :=
  resourceFile 44 (resourceEntry 0x041D ids ++ resourceEntry 0x0423 [1, 2] ++
    resourceEntry 0x0422 [3, 4])

/-- The resources of `exifOrderFile [0, 0, 0, 0]` followed by a thumbnail resource 0x040C with
the stream `C5`. -/
def exifOrderThumbFile : List Nat :=
  resourceFile 86 (resourceEntry 0x041D [0, 0, 0, 0] ++ resourceEntry 0x0423 [1, 2] ++
    resourceEntry 0x0422 [3, 4] ++ resourceEntry 0x040C (thumbnailPayload [0xC5]))
end PsdReader


namespace PsdReader

/-! ## Machine arithmetic: basic facts -/

theorem u32_of_lt {x : Nat} (h : x < 4294967296) : u32 x = x := Nat.mod_eq_of_lt h

theorem u32_le (x : Nat) : u32 x ≤ x := Nat.mod_le _ _

theorem u8_of_lt {x : Nat} (h : x < 256) : u8 x = x := Nat.mod_eq_of_lt h

theorem u16_of_lt {x : Nat} (h : x < 65536) : u16 x = x := Nat.mod_eq_of_lt h

/-- In 32-bit unsigned arithmetic `-channel - 2` is `2^32 - 2 - channel` for small channels. -/
theorem neg_sub_two (channel : Nat) (h : channel ≤ 4294967294) :
    subU32 (negU32 channel) 2 = 4294967294 - channel := by
  unfold subU32 negU32 u32
  omega

theorem rchannel_lab (n c : Nat) : rchannel MODE_Lab n c = c := by
  simp [rchannel]

theorem rchannel_other (mode n c : Nat) (hm : mode ≠ MODE_Lab) (hc : c ≤ 4294967294) :
    rchannel mode n c = (4294967294 - c) % n := by
  simp [rchannel, hm, neg_sub_two c hc]

/-- The target channel is below the channel count. -/
theorem rchannel_lt (mode n c : Nat) (hc : c < n) : rchannel mode n c < n := by
  unfold rchannel
  split
  · exact hc
  · exact Nat.mod_lt _ (by omega)

/-- The target channel is injective below a channel count of 1, 3 or 4. -/
theorem rchannel_inj (mode n c1 c2 : Nat) (hn : n = 1 ∨ n = 3 ∨ n = 4) (h1 : c1 < n)
    (h2 : c2 < n) (h : rchannel mode n c1 = rchannel mode n c2) : c1 = c2 := by
  by_cases hm : mode = MODE_Lab
  · subst hm
    simpa [rchannel_lab] using h
  · rw [rchannel_other mode n c1 hm (by omega), rchannel_other mode n c2 hm (by omega)] at h
    rcases hn with rfl | rfl | rfl <;> omega

theorem Scale16To8_eq (v : Nat) (hv : v ≤ 65535) : Scale16To8 v = (v * 255 + 32768) / 65535 := by
  unfold Scale16To8
  apply u8_of_lt
  have : (v * 255 + 32768) / 65535 ≤ (65535 * 255 + 32768) / 65535 :=
    Nat.div_le_div_right (by omega)
  omega

/-- Every target channel below a channel count of 1, 3 or 4 comes from a source channel. -/
theorem rchannel_surj (mode n t : Nat) (hn : n = 1 ∨ n = 3 ∨ n = 4) (ht : t < n) :
    ∃ c, c < n ∧ rchannel mode n c = t := by
  by_cases hm : mode = MODE_Lab
  · subst hm
    exact ⟨t, ht, rchannel_lab _ _⟩
  · rcases hn with rfl | rfl | rfl
    · exact ⟨0, by omega, by rw [rchannel_other _ _ _ hm (by omega)]; omega⟩
    · have h3 : t = 0 ∨ t = 1 ∨ t = 2 := by omega
      rcases h3 with rfl | rfl | rfl
      · exact ⟨2, by omega, by rw [rchannel_other _ _ _ hm (by omega)]⟩
      · exact ⟨1, by omega, by rw [rchannel_other _ _ _ hm (by omega)]⟩
      · exact ⟨0, by omega, by rw [rchannel_other _ _ _ hm (by omega)]⟩
    · have h4 : t = 0 ∨ t = 1 ∨ t = 2 ∨ t = 3 := by omega
      rcases h4 with rfl | rfl | rfl | rfl
      · exact ⟨2, by omega, by rw [rchannel_other _ _ _ hm (by omega)]⟩
      · exact ⟨1, by omega, by rw [rchannel_other _ _ _ hm (by omega)]⟩
      · exact ⟨0, by omega, by rw [rchannel_other _ _ _ hm (by omega)]⟩
      · exact ⟨3, by omega, by rw [rchannel_other _ _ _ hm (by omega)]⟩

/-- C6: the target index `(-channel - 2) % nChannels`, computed in 32-bit unsigned arithmetic,
is 2,1,0 on the source channels 0,1,2 for 3 channels, 2,1,0,3 on 0,1,2,3 for 4 channels and 0 for
1 channel when the colour mode is not Lab; for Lab it is the identity; and for 1, 3 or 4 channels
it is a bijection of the channel indices below the channel count. -/
theorem rchannel_permutation (nColorMode : Nat) :
    (nColorMode ≠ MODE_Lab →
      List.map (rchannel nColorMode 3) [0, 1, 2] = [2, 1, 0] ∧
      List.map (rchannel nColorMode 4) [0, 1, 2, 3] = [2, 1, 0, 3] ∧
      rchannel nColorMode 1 0 = 0) ∧
    (∀ nChannels channel, rchannel MODE_Lab nChannels channel = channel) ∧
    (∀ nChannels, nChannels = 1 ∨ nChannels = 3 ∨ nChannels = 4 →
      (∀ channel, channel < nChannels → rchannel nColorMode nChannels channel < nChannels) ∧
      (∀ t, t < nChannels →
        ∃! channel, channel < nChannels ∧ rchannel nColorMode nChannels channel = t)) := by
  refine ⟨?_, rchannel_lab, ?_⟩
  · intro hm
    simp [rchannel_other _ _ _ hm]
  · intro n hn
    refine ⟨fun c hc => rchannel_lt _ _ _ hc, ?_⟩
    intro t ht
    obtain ⟨c, hc, hct⟩ := rchannel_surj nColorMode n t hn ht
    exact ⟨c, ⟨hc, hct⟩, fun c2 h2 =>
      rchannel_inj nColorMode n c2 c hn h2.1 hc (h2.2.trans hct.symm)⟩

/-- The permutation of C6 at the colour mode RGB with 4 channels: the source channels R, G, B,
alpha go to the offsets 2, 1, 0, 3, and every offset below 4 is hit by one source channel. -/
theorem rchannel_permutation_witness :
    MODE_RGB ≠ MODE_Lab ∧ (4 = 1 ∨ 4 = 3 ∨ 4 = 4) ∧
    List.map (rchannel MODE_RGB 4) [0, 1, 2, 3] = [2, 1, 0, 3] ∧
    (∀ t, t < 4 → ∃! channel, channel < 4 ∧ rchannel MODE_RGB 4 channel = t) :=
  ⟨by decide, by decide, ((rchannel_permutation MODE_RGB).1 (by decide)).2.1,
    ((rchannel_permutation MODE_RGB).2.2 4 (by decide)).2⟩

/-- C7: `Scale16To8` maps 0 to 0 and 65535 to 255 and is monotonic non-decreasing on the 16-bit
values. -/
theorem Scale16To8_endpoints_monotone :
    Scale16To8 0 = 0 ∧ Scale16To8 65535 = 255 ∧
    ∀ a b, a ≤ b → b ≤ 65535 → Scale16To8 a ≤ Scale16To8 b := by
  refine ⟨by decide, by decide, ?_⟩
  intro a b hab hb
  rw [Scale16To8_eq a (by omega), Scale16To8_eq b hb]
  exact Nat.div_le_div_right (by omega)

/-- Monotonicity of C7 at the 16-bit values 1000 and 40000. -/
theorem Scale16To8_endpoints_monotone_witness :
    (1000 ≤ 40000 ∧ 40000 ≤ 65535) ∧ Scale16To8 1000 ≤ Scale16To8 40000 :=
  ⟨by decide, Scale16To8_endpoints_monotone.2.2 1000 40000 (by decide) (by decide)⟩

end PsdReader


namespace PsdReader

/-! ## Loops -/

/-- A counted loop whose body takes the state `F i` to `F (i + 1)` ends in `F (start + n)`. -/
theorem forLoop_eq {σ : Type} (body : Nat → σ → Except Fault σ) (F : Nat → σ) (n start : Nat)
    (hstep : ∀ i, start ≤ i → i < start + n → body i (F i) = .ok (F (i + 1))) :
    forLoop body n start (F start) = .ok (F (start + n)) := by
  induction n generalizing start with
  | zero => simp [forLoop]
  | succ n ih =>
    rw [forLoop, hstep start (le_refl _) (by omega)]
    have := ih (start + 1) (fun i h1 h2 => hstep i (by omega) (by omega))
    simpa [Nat.add_assoc, Nat.add_comm 1 n] using this

theorem load_ok (pBuffer : List Nat) (i : Nat) (h : i < pBuffer.length) :
    load pBuffer i = .ok (pBuffer.getD i 0) := by
  simp [load, List.getD_eq_getElem?_getD, List.getElem?_eq_getElem h]

theorem loadBE16_ok (pBuffer : List Nat) (i : Nat) (h : i + 1 < pBuffer.length) :
    loadBE16 pBuffer i = .ok (u16 ((pBuffer.getD i 0 <<< 8) ||| pBuffer.getD (i + 1) 0)) := by
  simp [loadBE16, load_ok pBuffer i (by omega), load_ok pBuffer (i + 1) h]

theorem store_ok (pPixelData : List Nat) (ws : List (Nat × Nat)) (i v : Nat)
    (h : i < pPixelData.length) : store pPixelData ws i v = .ok (ws ++ [(i, v)]) := by
  simp [store, h]

/-! ## Arithmetic of the planar layout -/

theorem planar_div (w h c r x : Nat) (hx : x < w) (hr : r < h) :
    ((c * h + r) * w + x) / w % h = r ∧ ((c * h + r) * w + x) % w = x ∧
    ((c * h + r) * w + x) / w / h = c := by
  have hw : 0 < w := by omega
  have hh : 0 < h := by omega
  have h1 : ((c * h + r) * w + x) / w = c * h + r := by
    rw [Nat.add_comm, Nat.add_mul_div_right _ _ hw, Nat.div_eq_of_lt hx]; simp
  have h2 : ((c * h + r) * w + x) % w = x := by
    rw [Nat.add_comm, Nat.add_mul_mod_self_right, Nat.mod_eq_of_lt hx]
  have h3 : (c * h + r) % h = r := by
    rw [Nat.add_comm, Nat.add_mul_mod_self_right, Nat.mod_eq_of_lt hr]
  have h4 : (c * h + r) / h = c := by
    rw [Nat.add_comm, Nat.add_mul_div_right _ _ hh, Nat.div_eq_of_lt hr]; simp
  rw [h1, h2, h3, h4]
  exact ⟨rfl, rfl, rfl⟩

theorem sampleOffset_planar (w h N stride mode c r x : Nat) (hx : x < w) (hr : r < h) :
    sampleOffset w h N stride mode ((c * h + r) * w + x) =
      r * stride + x * N + rchannel mode N c := by
  obtain ⟨h1, h2, h3⟩ := planar_div w h c r x hx hr
  simp [sampleOffset, h1, h2, h3]

/-- A pixel offset inside the image lies below the size of the pixel buffer. -/
theorem offset_lt (w h N stride r x t : Nat) (hx : x < w) (hr : r < h) (ht : t < N)
    (hs : w * N ≤ stride) : r * stride + x * N + t < stride * h := by
  have h1 : x * N + N ≤ w * N := by
    have : (x + 1) * N ≤ w * N := Nat.mul_le_mul_right N hx
    simpa [Nat.add_mul] using this
  have h2 : r * stride + stride ≤ h * stride := by
    have : (r + 1) * stride ≤ h * stride := Nat.mul_le_mul_right stride hr
    simpa [Nat.add_mul] using this
  rw [Nat.mul_comm stride h]
  omega

theorem planar_lt (w h N c r x : Nat) (hx : x < w) (hr : r < h) (hc : c < N) :
    (c * h + r) * w + x < N * h * w := by
  have h1 : (c * h + r) * w + w ≤ N * h * w := by
    have h2 : c * h + r + 1 ≤ N * h := by
      have : (c + 1) * h ≤ N * h := Nat.mul_le_mul_right h hc
      have h3 : (c + 1) * h = c * h + h := by ring
      omega
    have := Nat.mul_le_mul_right w h2
    have h4 : (c * h + r + 1) * w = (c * h + r) * w + w := by ring
    omega
  omega

/-! ## `ProcessUncompressedData`: the stores performed -/

theorem planarWrites_succ (D : List Nat) (w h N stride mode depth k : Nat) :
    planarWrites D w h N stride mode depth (k + 1) =
      planarWrites D w h N stride mode depth k ++
        [(sampleOffset w h N stride mode k, sampleValue D depth k)] := by
  simp [planarWrites, List.range_succ]

theorem uncompressed_sample (D pix : List Nat) (size w h N stride mode depth c r x : Nat)
    (hx : x < w) (hr : r < h) (hc : c < N) (hs : w * N ≤ stride)
    (hD : (if depth = 8 then 1 else 2) * (N * h * w) ≤ size) (hsize : size ≤ D.length)
    (hpix : stride * h ≤ pix.length) (h32 : stride * h < 4294967296) :
    ProcessUncompressedData.sample D size pix h N stride depth (rchannel mode N c) r x
        (uncompressedState D w h N stride mode depth ((c * h + r) * w + x)) =
      .ok (uncompressedState D w h N stride mode depth ((c * h + r) * w + x + 1)) := by
  have hk := planar_lt w h N c r x hx hr hc
  have ht := rchannel_lt mode N c hc
  have hoff := offset_lt w h N stride r x _ hx hr ht hs
  have hrs : u32 (r * stride) = r * stride := u32_of_lt (by omega)
  have hxn : u32 (x * N) = x * N := u32_of_lt (by omega)
  have hlim : u32 (stride * h) = stride * h := u32_of_lt h32
  have hso := sampleOffset_planar w h N stride mode c r x hx hr
  unfold ProcessUncompressedData.sample uncompressedState
  by_cases h8 : depth = 8
  · simp only [h8, if_true, Nat.one_mul] at hD ⊢
    have hp : (c * h + r) * w + x < size := by omega
    rw [if_neg (by omega), load_ok D _ (by omega)]
    simp only [hrs, hxn, hlim]
    rw [if_neg (by omega), store_ok pix _ _ _ (by omega), planarWrites_succ, hso]
    simp [sampleValue]
  · simp only [h8, if_false] at hD ⊢
    have hp : 2 * ((c * h + r) * w + x) + 1 < size := by omega
    rw [if_neg (by omega), loadBE16_ok D _ (by omega)]
    simp only [hrs, hxn, hlim]
    rw [if_neg (by omega), store_ok pix _ _ _ (by omega), planarWrites_succ, hso]
    simp [sampleValue, h8, Nat.mul_add]

/-- The decoder `ProcessUncompressedData` on enough data performs exactly the stores of the planar
layout, in planar order. -/
theorem uncompressed_writes (D pix : List Nat) (size w h N stride mode depth : Nat)
    (hs : w * N ≤ stride)
    (hD : (if depth = 8 then 1 else 2) * (N * h * w) ≤ size) (hsize : size ≤ D.length)
    (hpix : stride * h ≤ pix.length) (h32 : stride * h < 4294967296) :
    ProcessUncompressedData D size pix w h N stride mode depth =
      .ok (planarWrites D w h N stride mode depth (N * h * w)) := by
  have inner : ∀ c r, c < N → r < h →
      forLoop (fun col st => ProcessUncompressedData.sample D size pix h N stride depth
          (rchannel mode N c) r col st) w 0
        (uncompressedState D w h N stride mode depth ((c * h + r) * w)) =
      .ok (uncompressedState D w h N stride mode depth ((c * h + (r + 1)) * w)) := by
    intro c r hc hr
    have := forLoop_eq (fun col st => ProcessUncompressedData.sample D size pix h N stride depth
          (rchannel mode N c) r col st)
      (fun x => uncompressedState D w h N stride mode depth ((c * h + r) * w + x)) w 0
      (fun x _ hx => uncompressed_sample D pix size w h N stride mode depth c r x (by omega) hr hc
        hs hD hsize hpix h32)
    have e : (c * h + (r + 1)) * w = (c * h + r) * w + (0 + w) := by ring
    rw [e]
    simpa using this
  have middle : ∀ c, c < N →
      forLoop (fun row st => forLoop (fun col st =>
          ProcessUncompressedData.sample D size pix h N stride depth
            (rchannel mode N c) row col st) w 0 st) h 0
        (uncompressedState D w h N stride mode depth (c * h * w)) =
      .ok (uncompressedState D w h N stride mode depth ((c + 1) * h * w)) := by
    intro c hc
    have := forLoop_eq (fun row st => forLoop (fun col st =>
          ProcessUncompressedData.sample D size pix h N stride depth
            (rchannel mode N c) row col st) w 0 st)
      (fun r => uncompressedState D w h N stride mode depth ((c * h + r) * w)) h 0
      (fun r _ hr => inner c r hc (by omega))
    have e : (c + 1) * h * w = (c * h + (0 + h)) * w := by ring
    rw [e]
    simpa using this
  have outer := forLoop_eq (fun channel st => forLoop (fun row st => forLoop (fun col st =>
          ProcessUncompressedData.sample D size pix h N stride depth
            (rchannel mode N channel) row col st) w 0 st) h 0 st)
      (fun c => uncompressedState D w h N stride mode depth (c * h * w)) N 0
      (fun c _ hc => middle c (by omega))
  unfold ProcessUncompressedData
  have e0 : (⟨0, []⟩ : Dec) = uncompressedState D w h N stride mode depth (0 * h * w) := by
    simp [uncompressedState, planarWrites]
  rw [e0, outer]
  simp [uncompressedState]

end PsdReader


namespace PsdReader

/-! ## Replaying stores -/

theorem applyWrites_cons (m : List Nat) (w : Nat × Nat) (ws : List (Nat × Nat)) :
    applyWrites m (w :: ws) = applyWrites (m.set w.1 w.2) ws := rfl

theorem applyWrites_length (m : List Nat) (ws : List (Nat × Nat)) :
    (applyWrites m ws).length = m.length := by
  induction ws generalizing m with
  | nil => rfl
  | cons w ws ih => rw [applyWrites_cons, ih, List.length_set]

/-- An offset that no store addresses keeps its byte. -/
theorem applyWrites_not_mem (m : List Nat) (ws : List (Nat × Nat)) (i : Nat)
    (h : i ∉ ws.map Prod.fst) : (applyWrites m ws)[i]? = m[i]? := by
  induction ws generalizing m with
  | nil => rfl
  | cons w ws ih =>
    simp only [List.map_cons, List.mem_cons, not_or] at h
    rw [applyWrites_cons, ih _ h.2, List.getElem?_set_ne (Ne.symm h.1)]

/-- When no offset is stored to twice, a stored value is the final byte at its offset. -/
theorem applyWrites_mem (m : List Nat) (ws : List (Nat × Nat)) (i v : Nat)
    (hnd : (ws.map Prod.fst).Nodup) (hmem : (i, v) ∈ ws) (hi : i < m.length) :
    (applyWrites m ws)[i]? = some v := by
  induction ws generalizing m with
  | nil => simp at hmem
  | cons w ws ih =>
    simp only [List.map_cons, List.nodup_cons] at hnd
    rw [applyWrites_cons]
    rcases List.mem_cons.1 hmem with h | h
    · subst h
      rw [applyWrites_not_mem _ _ _ hnd.1, List.getElem?_set_self hi]
    · exact ih _ hnd.2 h (by rw [List.length_set]; exact hi)

/-! ## The planar layout is injective -/

theorem mul_add_unique (a m b c d : Nat) (h : a * m + b = c * m + d) (hb : b < m) (hd : d < m) :
    a = c ∧ b = d := by
  have hm : 0 < m := by omega
  have h1 : (a * m + b) / m = a := by
    rw [Nat.add_comm, Nat.add_mul_div_right _ _ hm, Nat.div_eq_of_lt hb]; simp
  have h2 : (c * m + d) / m = c := by
    rw [Nat.add_comm, Nat.add_mul_div_right _ _ hm, Nat.div_eq_of_lt hd]; simp
  have : a = c := by rw [← h1, ← h2, h]
  subst this
  exact ⟨rfl, by omega⟩

/-- Sample number `k` below `N * h * w` is column `x` of row `r` of channel `c`. -/
theorem planar_decompose (w h N k : Nat) (hk : k < N * h * w) :
    ∃ c r x, c < N ∧ r < h ∧ x < w ∧ k = (c * h + r) * w + x := by
  have hw : 0 < w := by
    rcases Nat.eq_zero_or_pos w with h0 | h0
    · subst h0; simp at hk
    · exact h0
  have hh : 0 < h := by
    rcases Nat.eq_zero_or_pos h with h0 | h0
    · subst h0; simp at hk
    · exact h0
  refine ⟨k / w / h, k / w % h, k % w, ?_, Nat.mod_lt _ hh, Nat.mod_lt _ hw, ?_⟩
  · rw [Nat.div_div_eq_div_mul, Nat.div_lt_iff_lt_mul (by positivity)]
    calc k < N * h * w := hk
      _ = N * (w * h) := by ring
  · have h1 := Nat.div_add_mod (k / w) h
    have h2 := Nat.div_add_mod k w
    rw [Nat.mul_comm (k / w / h) h, h1, Nat.mul_comm (k / w) w, h2]

theorem pixel_unique (w N stride r1 x1 t1 r2 x2 t2 : Nat) (hs : w * N ≤ stride)
    (hx1 : x1 < w) (hx2 : x2 < w) (ht1 : t1 < N) (ht2 : t2 < N)
    (h : r1 * stride + x1 * N + t1 = r2 * stride + x2 * N + t2) :
    r1 = r2 ∧ x1 = x2 ∧ t1 = t2 := by
  have b1 : x1 * N + t1 < stride := by
    have : (x1 + 1) * N ≤ w * N := Nat.mul_le_mul_right N hx1
    have e : (x1 + 1) * N = x1 * N + N := by ring
    omega
  have b2 : x2 * N + t2 < stride := by
    have : (x2 + 1) * N ≤ w * N := Nat.mul_le_mul_right N hx2
    have e : (x2 + 1) * N = x2 * N + N := by ring
    omega
  obtain ⟨hr, he⟩ := mul_add_unique r1 stride (x1 * N + t1) r2 (x2 * N + t2) (by omega) b1 b2
  obtain ⟨hx, ht⟩ := mul_add_unique x1 N t1 x2 t2 he ht1 ht2
  exact ⟨hr, hx, ht⟩

theorem sampleOffset_inj (w h N stride mode k1 k2 : Nat) (hN : N = 1 ∨ N = 3 ∨ N = 4)
    (hs : w * N ≤ stride) (hk1 : k1 < N * h * w) (hk2 : k2 < N * h * w)
    (he : sampleOffset w h N stride mode k1 = sampleOffset w h N stride mode k2) : k1 = k2 := by
  obtain ⟨c1, r1, x1, hc1, hr1, hx1, rfl⟩ := planar_decompose w h N k1 hk1
  obtain ⟨c2, r2, x2, hc2, hr2, hx2, rfl⟩ := planar_decompose w h N k2 hk2
  rw [sampleOffset_planar _ _ _ _ _ _ _ _ hx1 hr1, sampleOffset_planar _ _ _ _ _ _ _ _ hx2 hr2] at he
  obtain ⟨hr, hx, ht⟩ := pixel_unique w N stride r1 x1 _ r2 x2 _ hs hx1 hx2
    (rchannel_lt mode N c1 hc1) (rchannel_lt mode N c2 hc2) he
  have hc := rchannel_inj mode N c1 c2 hN hc1 hc2 ht
  subst hr hx hc
  rfl

theorem planarWrites_nodup (D : List Nat) (w h N stride mode depth : Nat)
    (hN : N = 1 ∨ N = 3 ∨ N = 4) (hs : w * N ≤ stride) :
    ((planarWrites D w h N stride mode depth (N * h * w)).map Prod.fst).Nodup := by
  unfold planarWrites
  rw [List.map_map]
  apply List.Nodup.map_on _ (List.nodup_range _)
  intro k1 hk1 k2 hk2 he
  exact sampleOffset_inj w h N stride mode k1 k2 hN hs (List.mem_range.1 hk1)
    (List.mem_range.1 hk2) he

theorem planarWrites_mem (D : List Nat) (w h N stride mode depth c r x : Nat)
    (hc : c < N) (hr : r < h) (hx : x < w) :
    (r * stride + x * N + rchannel mode N c, sampleValue D depth ((c * h + r) * w + x)) ∈
      planarWrites D w h N stride mode depth (N * h * w) := by
  unfold planarWrites
  refine List.mem_map.2 ⟨(c * h + r) * w + x, List.mem_range.2 (planar_lt w h N c r x hx hr hc), ?_⟩
  rw [sampleOffset_planar _ _ _ _ _ _ _ _ hx hr]

theorem planarWrites_fst (D : List Nat) (w h N stride mode depth i : Nat)
    (hi : i ∈ (planarWrites D w h N stride mode depth (N * h * w)).map Prod.fst) :
    ∃ c r x, c < N ∧ r < h ∧ x < w ∧ i = r * stride + x * N + rchannel mode N c := by
  unfold planarWrites at hi
  rw [List.map_map] at hi
  obtain ⟨k, hk, rfl⟩ := List.mem_map.1 hi
  obtain ⟨c, r, x, hc, hr, hx, rfl⟩ := planar_decompose w h N k (List.mem_range.1 hk)
  exact ⟨c, r, x, hc, hr, hx, by simp [sampleOffset_planar _ _ _ _ _ _ _ _ hx hr]⟩

/-- The target channel of the code is the one the specification tabulates. -/
theorem rchannel_eq_targetSpec (mode N c : Nat) (hN : N = 1 ∨ N = 3 ∨ N = 4) (hc : c < N) :
    rchannel mode N c = targetSpec mode N c := by
  by_cases hm : mode = MODE_Lab
  · subst hm; simp [rchannel_lab, targetSpec]
  · rw [rchannel_other mode N c hm (by omega)]
    unfold targetSpec
    rw [if_neg hm]
    rcases hN with rfl | rfl | rfl
    · simp [Nat.mod_one]
    · have : c = 0 ∨ c = 1 ∨ c = 2 := by omega
      rcases this with rfl | rfl | rfl <;> simp
    · have : c = 0 ∨ c = 1 ∨ c = 2 ∨ c = 3 := by omega
      rcases this with rfl | rfl | rfl | rfl <;> simp

/-- What the stores of the planar layout leave in the pixel buffer. -/
theorem planar_result (D pix : List Nat) (w h N stride mode depth : Nat)
    (hN : N = 1 ∨ N = 3 ∨ N = 4) (hs : w * N ≤ stride) (hpix : pix.length = stride * h) :
    (∀ c r x, c < N → r < h → x < w →
      (applyWrites pix (planarWrites D w h N stride mode depth (N * h * w)))[
          r * stride + x * N + targetSpec mode N c]? =
        some (sampleValue D depth ((c * h + r) * w + x)) ∧
      ((planarWrites D w h N stride mode depth (N * h * w)).map Prod.fst).count
        (r * stride + x * N + targetSpec mode N c) = 1) ∧
    (∀ i, i ∈ (planarWrites D w h N stride mode depth (N * h * w)).map Prod.fst →
      ∃ c r x, c < N ∧ r < h ∧ x < w ∧ i = r * stride + x * N + targetSpec mode N c) := by
  have hnd := planarWrites_nodup D w h N stride mode depth hN hs
  constructor
  · intro c r x hc hr hx
    rw [← rchannel_eq_targetSpec mode N c hN hc]
    have hmem := planarWrites_mem D w h N stride mode depth c r x hc hr hx
    refine ⟨applyWrites_mem pix _ _ _ hnd hmem ?_, List.count_eq_one_of_mem hnd ?_⟩
    · rw [hpix]
      exact offset_lt w h N stride r x _ hx hr (rchannel_lt mode N c hc) hs
    · exact List.mem_map.2 ⟨_, hmem, rfl⟩
  · intro i hi
    obtain ⟨c, r, x, hc, hr, hx, e⟩ := planarWrites_fst D w h N stride mode depth i hi
    exact ⟨c, r, x, hc, hr, hx, by rw [← rchannel_eq_targetSpec mode N c hN hc]; exact e⟩

end PsdReader


namespace PsdReader

/-- The 16-bit sample `(p[0] << 8) | p[1]` of two bytes is their big-endian value. -/
theorem be16_value (b0 b1 : Nat) (h0 : b0 < 256) (h1 : b1 < 256) :
    u16 ((b0 <<< 8) ||| b1) = 256 * b0 + b1 := by
  have e : (b0 <<< 8) ||| b1 = 2 ^ 8 * b0 + b1 := by
    rw [Nat.shiftLeft_eq, Nat.mul_comm b0, Nat.mul_add_lt_is_or (by simpa using h1)]
  rw [e]
  apply u16_of_lt
  omega

theorem getD_lt_of_bytes (D : List Nat) (hb : ∀ b ∈ D, b < 256) (i : Nat) : D.getD i 0 < 256 := by
  rw [List.getD_eq_getElem?_getD]
  rcases Nat.lt_or_ge i D.length with h | h
  · rw [List.getElem?_eq_getElem h]
    exact hb _ (List.getElem_mem h)
  · rw [List.getElem?_eq_none h]
    simp

/-- C1: `ProcessUncompressedData` at depth 8, for one, three or four output channels, a row size
of at least `w * N`, planar data of at least `N * h * w` bytes and a pixel buffer of `stride * h`
bytes whose size fits an `unsigned int`: decoding succeeds, the byte left at offset
`r * stride + x * N + target(c)` is byte `(c * h + r) * w + x` of the data, that offset is
stored to exactly once, and no other offset is stored to, where `target` is the table of the
specification (the source index for Lab, 2,1,0,3 otherwise, 0 for one channel). -/
theorem ProcessUncompressedData_depth8 (D pPixelData : List Nat)
    (nImageDataSize w h N stride nColorMode : Nat)
    (hN : N = 1 ∨ N = 3 ∨ N = 4) (hstride : w * N ≤ stride)
    (hD : N * h * w ≤ nImageDataSize) (hsize : nImageDataSize ≤ D.length)
    (hpix : pPixelData.length = stride * h) (h32 : stride * h < 4294967296) :
    ∃ writes,
      ProcessUncompressedData D nImageDataSize pPixelData w h N stride nColorMode 8 = .ok writes ∧
      (∀ c r x, c < N → r < h → x < w →
        (applyWrites pPixelData writes)[r * stride + x * N + targetSpec nColorMode N c]? =
          D[(c * h + r) * w + x]? ∧
        (writes.map Prod.fst).count (r * stride + x * N + targetSpec nColorMode N c) = 1) ∧
      (∀ i, i ∈ writes.map Prod.fst →
        ∃ c r x, c < N ∧ r < h ∧ x < w ∧ i = r * stride + x * N + targetSpec nColorMode N c) := by
  refine ⟨_, uncompressed_writes D pPixelData nImageDataSize w h N stride nColorMode 8 hstride
    (by simpa using hD) hsize (by omega) h32, ?_, ?_⟩
  · intro c r x hc hr hx
    obtain ⟨h1, h2⟩ := (planar_result D pPixelData w h N stride nColorMode 8 hN hstride hpix).1
      c r x hc hr hx
    refine ⟨?_, h2⟩
    have hk := planar_lt w h N c r x hx hr hc
    rw [h1, List.getElem?_eq_getElem (by omega)]
    simp [sampleValue, List.getD_eq_getElem?_getD, List.getElem?_eq_getElem (show
      (c * h + r) * w + x < D.length by omega)]
  · exact (planar_result D pPixelData w h N stride nColorMode 8 hN hstride hpix).2

/-- C1 on a 3x2 RGB image with the planes R = 10..15, G = 20..25, B = 30..35 and row size 12:
the hypotheses hold, and pixel (0,0) is (B00, G00, R00) = (30, 20, 10). -/
theorem ProcessUncompressedData_depth8_witness :
    ((3 = 1 ∨ 3 = 3 ∨ 3 = 4) ∧ 3 * 3 ≤ 12 ∧ 3 * 2 * 3 ≤ 18 ∧
      18 ≤ [10, 11, 12, 13, 14, 15, 20, 21, 22, 23, 24, 25, 30, 31, 32, 33, 34, 35].length ∧
      (List.replicate 24 0).length = 12 * 2 ∧ 12 * 2 < 4294967296) ∧
    (∃ writes,
      ProcessUncompressedData [10, 11, 12, 13, 14, 15, 20, 21, 22, 23, 24, 25, 30, 31, 32, 33, 34, 35]
        18 (List.replicate 24 0) 3 2 3 12 MODE_RGB 8 = .ok writes ∧
      (∀ c r x, c < 3 → r < 2 → x < 3 →
        (applyWrites (List.replicate 24 0) writes)[r * 12 + x * 3 + targetSpec MODE_RGB 3 c]? =
          [10, 11, 12, 13, 14, 15, 20, 21, 22, 23, 24, 25, 30, 31, 32, 33, 34, 35][
            (c * 2 + r) * 3 + x]? ∧
        (writes.map Prod.fst).count (r * 12 + x * 3 + targetSpec MODE_RGB 3 c) = 1) ∧
      (∀ i, i ∈ writes.map Prod.fst →
        ∃ c r x, c < 3 ∧ r < 2 ∧ x < 3 ∧ i = r * 12 + x * 3 + targetSpec MODE_RGB 3 c)) ∧
    (ProcessUncompressedData [10, 11, 12, 13, 14, 15, 20, 21, 22, 23, 24, 25, 30, 31, 32, 33, 34, 35]
        18 (List.replicate 24 0) 3 2 3 12 MODE_RGB 8).map
      (fun writes => (applyWrites (List.replicate 24 0) writes).take 3) = .ok [30, 20, 10] :=
  ⟨by decide,
    ProcessUncompressedData_depth8 _ _ 18 3 2 3 12 MODE_RGB (by decide) (by decide) (by decide)
      (by decide) (by decide) (by decide),
    by decide⟩

/-- C8: `ProcessUncompressedData` at depth 16, for one, three or four output channels, a row
size of at least `w * N`, planar data of at least `2 * N * h * w` bytes and a pixel buffer of
`stride * h` bytes whose size fits an `unsigned int`: decoding succeeds and the byte left at
offset `r * stride + x * N + target(c)` is `Scale16To8 (256 * D[2k] + D[2k+1])` with
`k = (c * h + r) * w + x`, which is `(v * 255 + 32768) / 65535` of the big-endian sample `v`. -/
theorem ProcessUncompressedData_depth16 (D pPixelData : List Nat)
    (nImageDataSize w h N stride nColorMode : Nat)
    (hN : N = 1 ∨ N = 3 ∨ N = 4) (hstride : w * N ≤ stride) (hbytes : ∀ b ∈ D, b < 256)
    (hD : 2 * (N * h * w) ≤ nImageDataSize) (hsize : nImageDataSize ≤ D.length)
    (hpix : pPixelData.length = stride * h) (h32 : stride * h < 4294967296) :
    ∃ writes,
      ProcessUncompressedData D nImageDataSize pPixelData w h N stride nColorMode 16 = .ok writes ∧
      ∀ c r x, c < N → r < h → x < w →
        (applyWrites pPixelData writes)[r * stride + x * N + targetSpec nColorMode N c]? =
          some (Scale16To8 (256 * D.getD (2 * ((c * h + r) * w + x)) 0 +
            D.getD (2 * ((c * h + r) * w + x) + 1) 0)) ∧
        Scale16To8 (256 * D.getD (2 * ((c * h + r) * w + x)) 0 +
            D.getD (2 * ((c * h + r) * w + x) + 1) 0) =
          ((256 * D.getD (2 * ((c * h + r) * w + x)) 0 +
            D.getD (2 * ((c * h + r) * w + x) + 1) 0) * 255 + 32768) / 65535 := by
  refine ⟨_, uncompressed_writes D pPixelData nImageDataSize w h N stride nColorMode 16 hstride
    (by simpa using hD) hsize (by omega) h32, ?_⟩
  intro c r x hc hr hx
  obtain ⟨h1, _⟩ := (planar_result D pPixelData w h N stride nColorMode 16 hN hstride hpix).1
    c r x hc hr hx
  have hb0 := getD_lt_of_bytes D hbytes (2 * ((c * h + r) * w + x))
  have hb1 := getD_lt_of_bytes D hbytes (2 * ((c * h + r) * w + x) + 1)
  refine ⟨?_, Scale16To8_eq _ (by omega)⟩
  rw [h1]
  simp only [sampleValue, if_neg (show ¬ (16 = 8) by decide), be16_value _ _ hb0 hb1]

/-- C8 on a 1x1 grayscale image whose sample is the byte pair 0x80, 0x00: the hypotheses hold,
and the pixel is `Scale16To8 32768`. -/
theorem ProcessUncompressedData_depth16_witness :
    ((1 = 1 ∨ 1 = 3 ∨ 1 = 4) ∧ 1 * 1 ≤ 4 ∧ (∀ b ∈ [128, 0], b < 256) ∧ 2 * (1 * 1 * 1) ≤ 2 ∧
      2 ≤ [128, 0].length ∧ [7, 7, 7, 7].length = 4 * 1 ∧ 4 * 1 < 4294967296) ∧
    ∃ writes,
      ProcessUncompressedData [128, 0] 2 [7, 7, 7, 7] 1 1 1 4 MODE_Grayscale 16 = .ok writes ∧
      ∀ c r x, c < 1 → r < 1 → x < 1 →
        (applyWrites [7, 7, 7, 7] writes)[r * 4 + x * 1 + targetSpec MODE_Grayscale 1 c]? =
          some (Scale16To8 (256 * [128, 0].getD (2 * ((c * 1 + r) * 1 + x)) 0 +
            [128, 0].getD (2 * ((c * 1 + r) * 1 + x) + 1) 0)) ∧
        Scale16To8 (256 * [128, 0].getD (2 * ((c * 1 + r) * 1 + x)) 0 +
            [128, 0].getD (2 * ((c * 1 + r) * 1 + x) + 1) 0) =
          ((256 * [128, 0].getD (2 * ((c * 1 + r) * 1 + x)) 0 +
            [128, 0].getD (2 * ((c * 1 + r) * 1 + x) + 1) 0) * 255 + 32768) / 65535 :=
  ⟨by decide,
    ProcessUncompressedData_depth16 [128, 0] [7, 7, 7, 7] 2 1 1 1 4 MODE_Grayscale (by decide)
      (by decide) (by decide) (by decide) (by decide) (by decide) (by decide)⟩

end PsdReader


namespace PsdReader

/-! ## `ProcessBitmapUncompressed`: the stores performed -/

/-- The stored value is 0 for a set source bit and 255 for a clear one. -/
theorem bitPixel_eq (value bit : Nat) :
    bitPixel value bit = if value.testBit bit then 0 else 255 := by
  unfold bitPixel u8
  rw [Nat.and_one_is_mod, Nat.shiftRight_eq_div_pow, Nat.testBit_to_div_mod]
  have h : value / 2 ^ bit % 2 < 2 := Nat.mod_lt _ (by decide)
  rcases Nat.lt_succ_iff.1 h |>.lt_or_eq with h0 | h1
  · have : value / 2 ^ bit % 2 = 0 := by omega
    simp [this]
  · simp [h1]

theorem bitPixel_cases (value bit : Nat) : bitPixel value bit = 0 ∨ bitPixel value bit = 255 := by
  rw [bitPixel_eq]
  split <;> simp

theorem bitmapWrites_succ (D : List Nat) (w stride bpr k : Nat) :
    bitmapWrites D w stride bpr (k + 1) = bitmapWrites D w stride bpr k ++
      [((k / w) * stride + k % w, bitPixel (D.getD ((k / w) * bpr + k % w / 8) 0) (7 - k % w % 8))] := by
  simp [bitmapWrites, List.range_succ]

theorem row_div (w r x : Nat) (hx : x < w) : (r * w + x) / w = r ∧ (r * w + x) % w = x := by
  have hw : 0 < w := by omega
  constructor
  · rw [Nat.add_comm, Nat.add_mul_div_right _ _ hw, Nat.div_eq_of_lt hx]; simp
  · rw [Nat.add_comm, Nat.add_mul_mod_self_right, Nat.mod_eq_of_lt hx]

theorem mul_succ_le (r h m : Nat) (hr : r < h) : r * m + m ≤ h * m := by
  have : (r + 1) * m ≤ h * m := Nat.mul_le_mul_right m hr
  have e : (r + 1) * m = r * m + m := by ring
  omega

/-- The bytes of a row: `ceil(w / 8)` is at most `w`, and the byte of a column lies in the row. -/
theorem byte_in_row (w x : Nat) (hx : x < w) : x / 8 < (w + 7) / 8 ∧ (w + 7) / 8 ≤ w := by
  omega

theorem bitmap_pixel (D pix : List Nat) (size w h stride r x : Nat) (hx : x < w) (hr : r < h)
    (hs : w ≤ stride) (hD : (w + 7) / 8 * h ≤ size) (hsize : size ≤ D.length)
    (hpix : stride * h ≤ pix.length) :
    ProcessBitmapUncompressed.pixel D pix (r * ((w + 7) / 8)) (r * stride) x
        (bitmapWrites D w stride ((w + 7) / 8) (r * w + x)) =
      .ok (bitmapWrites D w stride ((w + 7) / 8) (r * w + x + 1)) := by
  obtain ⟨h1, h2⟩ := row_div w r x hx
  obtain ⟨b1, _⟩ := byte_in_row w x hx
  have hrow := mul_succ_le r h ((w + 7) / 8) hr
  have hrow2 := mul_succ_le r h stride hr
  have e1 : (w + 7) / 8 * h = h * ((w + 7) / 8) := Nat.mul_comm _ _
  have e2 : stride * h = h * stride := Nat.mul_comm _ _
  unfold ProcessBitmapUncompressed.pixel
  simp only []
  rw [load_ok D _ (by omega)]
  simp only []
  rw [store_ok pix _ _ _ (by omega), bitmapWrites_succ, h1, h2]

/-- The decoder `ProcessBitmapUncompressed` on enough data performs exactly the stores of the 1-bit
layout, row by row. -/
theorem bitmapUncompressed_writes (D pix : List Nat) (size w h stride cm v : Nat)
    (hs : w ≤ stride) (hD : (w + 7) / 8 * h ≤ size) (hsize : size ≤ D.length)
    (hpix : stride * h ≤ pix.length) (h32 : stride * h < 4294967296) :
    ProcessBitmapUncompressed D size pix w h stride cm v =
      .ok (bitmapWrites D w stride ((w + 7) / 8) (h * w)) := by
  have hle : u32 (w + 7) / 8 ≤ (w + 7) / 8 := Nat.div_le_div_right (u32_le _)
  have hbpr : ∀ r, r < h → u32 (r * (u32 (w + 7) / 8)) = r * ((w + 7) / 8) := by
    intro r hr
    rcases Nat.eq_zero_or_pos r with h0 | h0
    · subst h0; simp [u32]
    · have h2 : 2 ≤ h := by omega
      have hst : stride * 2 ≤ stride * h := Nat.mul_le_mul_left stride h2
      have hw : u32 (w + 7) = w + 7 := u32_of_lt (by omega)
      rw [hw]
      have hrow := mul_succ_le r h ((w + 7) / 8) hr
      have hrow2 := mul_succ_le r h stride hr
      have : r * ((w + 7) / 8) ≤ r * stride := Nat.mul_le_mul_left r (by omega)
      have e2 : stride * h = h * stride := Nat.mul_comm _ _
      exact u32_of_lt (by omega)
  have hrs : ∀ r, r < h → u32 (r * stride) = r * stride := by
    intro r hr
    have hrow2 := mul_succ_le r h stride hr
    have e2 : stride * h = h * stride := Nat.mul_comm _ _
    exact u32_of_lt (by omega)
  have inner : ∀ r, r < h →
      forLoop (fun col writes => ProcessBitmapUncompressed.pixel D pix
          (u32 (r * (u32 (w + 7) / 8))) (u32 (r * stride)) col writes) w 0
        (bitmapWrites D w stride ((w + 7) / 8) (r * w)) =
      .ok (bitmapWrites D w stride ((w + 7) / 8) ((r + 1) * w)) := by
    intro r hr
    rw [hbpr r hr, hrs r hr]
    have := forLoop_eq (fun col writes => ProcessBitmapUncompressed.pixel D pix
          (r * ((w + 7) / 8)) (r * stride) col writes)
      (fun x => bitmapWrites D w stride ((w + 7) / 8) (r * w + x)) w 0
      (fun x _ hx => bitmap_pixel D pix size w h stride r x (by omega) hr hs hD hsize hpix)
    have e : (r + 1) * w = r * w + (0 + w) := by ring
    rw [e]
    simpa using this
  have outer := forLoop_eq (fun row writes => forLoop (fun col writes =>
        ProcessBitmapUncompressed.pixel D pix
          (u32 (row * (u32 (w + 7) / 8))) (u32 (row * stride)) col writes) w 0 writes)
      (fun r => bitmapWrites D w stride ((w + 7) / 8) (r * w)) h 0
      (fun r _ hr => inner r (by omega))
  unfold ProcessBitmapUncompressed
  simp only []
  have hchk : ¬ u32 (u32 (w + 7) / 8 * h) > size := by
    have h1 : u32 (w + 7) / 8 * h ≤ (w + 7) / 8 * h := Nat.mul_le_mul_right h hle
    have := u32_le (u32 (w + 7) / 8 * h)
    omega
  rw [if_neg hchk]
  have e0 : ([] : List (Nat × Nat)) = bitmapWrites D w stride ((w + 7) / 8) (0 * w) := by
    simp [bitmapWrites]
  rw [e0, outer]
  simp

theorem bitmapWrites_nodup (D : List Nat) (w h stride bpr : Nat) (hs : w ≤ stride) :
    ((bitmapWrites D w stride bpr (h * w)).map Prod.fst).Nodup := by
  unfold bitmapWrites
  rw [List.map_map]
  apply List.Nodup.map_on _ (List.nodup_range _)
  intro k1 hk1 k2 hk2 he
  have hw : 0 < w := by
    rcases Nat.eq_zero_or_pos w with h0 | h0
    · subst h0; simp at hk1
    · exact h0
  simp only [Function.comp] at he
  obtain ⟨h1, h2⟩ := mul_add_unique (k1 / w) stride (k1 % w) (k2 / w) (k2 % w) he
    (by have := Nat.mod_lt k1 hw; omega) (by have := Nat.mod_lt k2 hw; omega)
  rw [← Nat.div_add_mod k1 w, ← Nat.div_add_mod k2 w, h1, h2]

theorem bitmapWrites_mem (D : List Nat) (w h stride bpr r x : Nat) (hr : r < h) (hx : x < w) :
    (r * stride + x, bitPixel (D.getD (r * bpr + x / 8) 0) (7 - x % 8)) ∈
      bitmapWrites D w stride bpr (h * w) := by
  unfold bitmapWrites
  obtain ⟨h1, h2⟩ := row_div w r x hx
  have := mul_succ_le r h w hr
  refine List.mem_map.2 ⟨r * w + x, List.mem_range.2 (by omega), ?_⟩
  rw [h1, h2]

/-- C2: `ProcessBitmapUncompressed`, for a row size of at least `w`, data of at least
`ceil(w/8) * h` bytes and a pixel buffer of `stride * h` bytes whose size fits an
`unsigned int`: decoding succeeds, the byte left at offset `r * stride + x` is 0 when bit
`7 - x mod 8` of source byte `r * ceil(w/8) + x / 8` is set and 255 when it is clear, and every
stored value is 0 or 255. -/
theorem ProcessBitmapUncompressed_pixels (D pPixelData : List Nat)
    (nImageDataSize w h stride nCompressionMethod nVersion : Nat)
    (hstride : w ≤ stride) (hD : (w + 7) / 8 * h ≤ nImageDataSize)
    (hsize : nImageDataSize ≤ D.length)
    (hpix : pPixelData.length = stride * h) (h32 : stride * h < 4294967296) :
    ∃ writes,
      ProcessBitmapUncompressed D nImageDataSize pPixelData w h stride nCompressionMethod
        nVersion = .ok writes ∧
      (∀ r x, r < h → x < w →
        (applyWrites pPixelData writes)[r * stride + x]? =
          some (if (D.getD (r * ((w + 7) / 8) + x / 8) 0).testBit (7 - x % 8) then 0 else 255)) ∧
      (∀ i v, (i, v) ∈ writes → v = 0 ∨ v = 255) := by
  refine ⟨_, bitmapUncompressed_writes D pPixelData nImageDataSize w h stride nCompressionMethod
    nVersion hstride hD hsize (by omega) h32, ?_, ?_⟩
  · intro r x hr hx
    rw [← bitPixel_eq]
    apply applyWrites_mem _ _ _ _ (bitmapWrites_nodup D w h stride _ hstride)
      (bitmapWrites_mem D w h stride _ r x hr hx)
    have := mul_succ_le r h stride hr
    have e2 : stride * h = h * stride := Nat.mul_comm _ _
    omega
  · intro i v hmem
    unfold bitmapWrites at hmem
    obtain ⟨k, _, hk⟩ := List.mem_map.1 hmem
    have := bitPixel_cases (D.getD ((k / w) * ((w + 7) / 8) + k % w / 8) 0) (7 - k % w % 8)
    simp only [Prod.mk.injEq] at hk
    rw [← hk.2]
    exact this

/-- C2 on the single byte 0xA0 with width 4 and height 1: the hypotheses hold, and the row is
0, 255, 0, 255. -/
theorem ProcessBitmapUncompressed_pixels_witness :
    (4 ≤ 4 ∧ (4 + 7) / 8 * 1 ≤ 1 ∧ 1 ≤ [160].length ∧ [9, 9, 9, 9].length = 4 * 1 ∧
      4 * 1 < 4294967296) ∧
    (∃ writes,
      ProcessBitmapUncompressed [160] 1 [9, 9, 9, 9] 4 1 4 0 1 = .ok writes ∧
      (∀ r x, r < 1 → x < 4 →
        (applyWrites [9, 9, 9, 9] writes)[r * 4 + x]? =
          some (if ([160].getD (r * ((4 + 7) / 8) + x / 8) 0).testBit (7 - x % 8) then 0 else 255)) ∧
      (∀ i v, (i, v) ∈ writes → v = 0 ∨ v = 255)) ∧
    (ProcessBitmapUncompressed [160] 1 [9, 9, 9, 9] 4 1 4 0 1).map (applyWrites [9, 9, 9, 9]) =
      .ok [0, 255, 0, 255] :=
  ⟨by decide,
    ProcessBitmapUncompressed_pixels [160] [9, 9, 9, 9] 1 4 1 4 0 1 (by decide) (by decide)
      (by decide) (by decide) (by decide),
    by decide⟩

end PsdReader


namespace PsdReader

/-! ## Inversion of the `Except` plumbing -/

theorem ok_bind {α β : Type} (a : α) (f : α → Except Fault β) :
    Except.bind (Except.ok a) f = f a := rfl

theorem error_bind {α β : Type} (e : Fault) (f : α → Except Fault β) :
    Except.bind (Except.error e) f = Except.error e := rfl

theorem bind_eq_ok {α β : Type} (x : Except Fault α) (f : α → Except Fault β) (b : β) :
    Except.bind x f = Except.ok b ↔ ∃ a, x = Except.ok a ∧ f a = Except.ok b := by
  cases x with
  | error e => simp [Except.bind]
  | ok a => simp [Except.bind]

theorem bind_eq_error {α β : Type} (x : Except Fault α) (f : α → Except Fault β) (e : Fault) :
    Except.bind x f = Except.error e ↔
      x = Except.error e ∨ ∃ a, x = Except.ok a ∧ f a = Except.error e := by
  cases x with
  | error e1 => simp [Except.bind]
  | ok a => simp [Except.bind]

theorem ite_error_eq_ok {α : Type} (c : Prop) [Decidable c] (e : Fault) (x : Except Fault α)
    (a : α) : (if c then Except.error e else x) = Except.ok a ↔ ¬ c ∧ x = Except.ok a := by
  by_cases h : c <;> simp [h]

theorem ite_eq_ok_error {α : Type} (c : Prop) [Decidable c] (e : Fault) (x : Except Fault α)
    (a : α) : (if c then x else Except.error e) = Except.ok a ↔ c ∧ x = Except.ok a := by
  by_cases h : c <;> simp [h]

theorem ite_error_eq_error {α : Type} (c : Prop) [Decidable c] (e1 e : Fault)
    (x : Except Fault α) :
    (if c then Except.error e1 else x) = Except.error e ↔
      (c ∧ e = e1) ∨ (¬ c ∧ x = Except.error e) := by
  by_cases h : c <;> simp [h, eq_comm]

theorem ite_eq_error_error {α : Type} (c : Prop) [Decidable c] (e1 e : Fault)
    (x : Except Fault α) :
    (if c then x else Except.error e1) = Except.error e ↔
      (c ∧ x = Except.error e) ∨ (¬ c ∧ e = e1) := by
  by_cases h : c <;> simp [h, eq_comm]

theorem bind_ite_ok {α β : Type} (c : Prop) [Decidable c] (a : α) (e : Fault)
    (f : α → Except Fault β) :
    Except.bind (if c then Except.ok a else Except.error e) f =
      if c then f a else Except.error e := by
  split <;> rfl

/-! ## Reading fields of the file -/

theorem ReadFromFile_eq (file : List Nat) (pos sz : Nat) :
    ReadFromFile file pos sz =
      if sz ≤ file.length - pos then .ok ((file.drop pos).take sz, pos + sz)
      else .error .thrown := rfl

theorem ReadUShortFromFile_eq (file : List Nat) (pos : Nat) :
    ReadUShortFromFile file pos =
      if 2 ≤ file.length - pos then .ok (field file pos 2, pos + 2) else .error .thrown := by
  unfold ReadUShortFromFile ReadFromFile field
  by_cases h : 2 ≤ file.length - pos <;> simp [h]

theorem ReadUIntFromFile_eq (file : List Nat) (pos : Nat) :
    ReadUIntFromFile file pos =
      if 4 ≤ file.length - pos then .ok (field file pos 4, pos + 4) else .error .thrown := by
  unfold ReadUIntFromFile ReadFromFile field
  by_cases h : 4 ≤ file.length - pos <;> simp [h]

theorem SeekFile_zero_four : SeekFile 0 4 = .ok 4 := by decide

/-! ## The header stage of `ReadImage` -/

/-- What a header that `ReadImage` accepts satisfies. -/
theorem header_inv (env : Env) (file : List Nat) (b : Bool) (h : Header)
    (hh : ReadImage.header env file b = .ok h) :
    h.nFileSize = file.length ∧ h.nVersion = field file 4 2 ∧ h.nRealChannels = field file 12 2 ∧
    h.nHeight = field file 14 4 ∧ h.nWidth = field file 18 4 ∧ h.nBitDepth = field file 22 2 ∧
    h.nColorMode = field file 24 2 ∧
    h.nChannels = ReadImage.channels h.nBitDepth h.nColorMode h.nRealChannels ∧
    (h.nChannels = 1 ∨ h.nChannels = 3 ∨ h.nChannels = 4) ∧ h.pos = 26 ∧ 26 ≤ file.length ∧
    (h.nVersion = 1 ∨ h.nVersion = 2) ∧ (h.nBitDepth = 1 ∨ h.nBitDepth = 8 ∨ h.nBitDepth = 16) ∧
    h.nHeight * h.nWidth ≤ env.MAX_IMAGE_PIXELS ∧ h.nHeight ≤ env.MAX_IMAGE_DIMENSION ∧
    h.nWidth ≤ env.MAX_IMAGE_DIMENSION ∧ 0 < h.nHeight ∧ 0 < h.nWidth ∧ b = false := by
  simp only [ReadImage.header, bind, pure, Except.pure, throw, throwThe,
    MonadExceptOf.throw, SeekFile_zero_four, ReadUShortFromFile_eq, ReadUIntFromFile_eq,
    ReadFromFile_eq, bind_ite_ok, ok_bind, error_bind] at hh
  simp only [ite_error_eq_ok, ite_eq_ok_error, Nat.reduceAdd, Except.ok.injEq] at hh
  obtain ⟨c1, c2, c3, c4, c5, c6, c7, c8, c9, c10, c11, c12, c13, c14, hh⟩ := hh
  subst hh
  simp only [not_and_or, not_or, Decidable.not_not, gt_iff_lt, not_lt, sup_le_iff, ne_eq,
    Bool.not_eq_true] at c1 c3 c5 c9 c10 c12 c14
  refine ⟨rfl, rfl, rfl, rfl, rfl, rfl, rfl, rfl, ?_, rfl, by omega, c3, c12, c9, c10.2.1.1,
    c10.2.1.2, ?_, ?_, c10.1⟩
  · simp only []
    omega
  · have := c10.2.2
    simp only []
    rcases Nat.eq_zero_or_pos (field file 14 4) with h0 | h0
    · rw [h0] at this; simp at this
    · exact h0
  · have := c10.2.2
    simp only []
    rcases Nat.eq_zero_or_pos (field file 18 4) with h0 | h0
    · rw [h0] at this; simp at this
    · exact h0

/-- The header stage stops with one of the two kinds of `throw` only. -/
theorem header_fault (env : Env) (file : List Nat) (b : Bool) (e : Fault)
    (hh : ReadImage.header env file b = .error e) : e = .thrown ∨ e = .outOfMemory := by
  simp only [ReadImage.header, bind, pure, Except.pure, throw, throwThe,
    MonadExceptOf.throw, SeekFile_zero_four, ReadUShortFromFile_eq, ReadUIntFromFile_eq,
    ReadFromFile_eq, bind_ite_ok, ok_bind, error_bind] at hh
  simp only [ite_error_eq_error, ite_eq_error_error, Nat.reduceAdd, reduceCtorEq, and_false,
    or_false] at hh
  tauto

/-- A successful `ReadImage` went through its three stages. -/
theorem ReadImage_ok (env : Env) (fuel : Nat) (file : List Nat) (oom : Bool) (d : Decoded)
    (b : Bool) (h : ReadImage env fuel file oom = .ok (some d, b)) :
    b = oom ∧ ∃ hdr s, ReadImage.header env file oom = .ok hdr ∧
      ReadImage.sections env fuel file hdr = .ok s ∧ ReadImage.pixels env hdr s = .ok d := by
  unfold ReadImage at h
  split at h
  · rename_i d1 hb
    simp only [Except.ok.injEq, Prod.mk.injEq, Option.some.injEq] at h
    obtain ⟨rfl, rfl⟩ := h
    refine ⟨rfl, ?_⟩
    simp only [ReadImage.body, bind, bind_eq_ok] at hb
    obtain ⟨hdr, h1, s, h2, h3⟩ := hb
    exact ⟨hdr, s, h1, h2, h3⟩
  · simp at h
  · simp at h
  · simp at h

/-- A header stage that throws makes `ReadImage` return no image. -/
theorem ReadImage_of_header_error (env : Env) (fuel : Nat) (file : List Nat) (oom : Bool)
    (e : Fault) (h : ReadImage.header env file oom = .error e) :
    ∃ b, ReadImage env fuel file oom = .ok (none, b) := by
  have hb : ReadImage.body env fuel file oom = .error e := by
    simp only [ReadImage.body, bind, h, error_bind]
  unfold ReadImage
  rw [hb]
  rcases header_fault env file oom e h with rfl | rfl
  · exact ⟨oom, rfl⟩
  · exact ⟨true, rfl⟩

end PsdReader


namespace PsdReader

/-! ## The pixel stage of `ReadImage` -/

theorem dropAlpha_le (bUseAlpha : Bool) (nColorMode nChannels : Nat) :
    ReadImage.dropAlpha bUseAlpha nColorMode nChannels ≤ nChannels := by
  unfold ReadImage.dropAlpha
  split <;> omega

theorem createTransform_snd_le (env : Env) (nColorMode nChannels : Nat)
    (pICCProfile : Option (List Nat)) (nICCProfileSize : Nat) :
    (ReadImage.createTransform env nColorMode nChannels pICCProfile nICCProfileSize).2 ≤
      nChannels := by
  unfold ReadImage.createTransform
  split
  · split
    · split <;> simp only [] <;> omega
    · split <;> simp
  · simp

/-- The image of a successful pixel stage has the header's dimensions, at most the header's
channel count, and a row size padded from its own width and channel count. -/
theorem pixels_inv (env : Env) (hdr : Header) (s : Sections) (d : Decoded)
    (h : ReadImage.pixels env hdr s = .ok d) :
    d.image.nWidth = hdr.nWidth ∧ d.image.nHeight = hdr.nHeight ∧
    d.image.nChannels ≤ hdr.nChannels ∧
    d.nOutputRowSize = DoPadding (u32 (hdr.nWidth * d.image.nChannels)) 4 := by
  unfold ReadImage.pixels at h
  split at h
  · simp only [bind, pure, Except.pure, throw, throwThe, MonadExceptOf.throw, ite_error_eq_ok,
      bind_eq_ok, Except.ok.injEq] at h
    obtain ⟨_, writes, _, rfl⟩ := h
    exact ⟨rfl, rfl, le_refl _, rfl⟩
  · simp only [bind, pure, Except.pure, throw, throwThe, MonadExceptOf.throw, ite_error_eq_ok,
      bind_eq_ok, Except.ok.injEq] at h
    obtain ⟨_, writes, _, rfl⟩ := h
    refine ⟨rfl, rfl, ?_, rfl⟩
    exact le_trans (createTransform_snd_le _ _ _ _ _) (dropAlpha_le _ _ _)

theorem DoPadding_four (x : Nat) :
    DoPadding x 4 = (x + 3) / 4 * 4 ∧ DoPadding x 4 % 4 = 0 ∧ x ≤ DoPadding x 4 ∧
      DoPadding x 4 < x + 4 := by
  unfold DoPadding
  omega

/-! ## Claims on `ReadImage` -/

/-- C9, amended: the channel count that `ReadImage` computes from depth, colour mode and
on-disk channel count is 1 when the depth is 1 or the mode is Bitmap; otherwise it is min(ch,1)
for Grayscale/Duotone, min(ch,3) for Multichannel, min(ch,4) for Lab/RGB/CMYK, with 2 collapsed
to 1, and 0 for every other mode and for ch = 0. A header that `ReadImage` accepts has this count,
and it is 1, 3 or 4; a file whose header gives another count is rejected, so with depth 8 or 16
and a mode other than Bitmap, every mode outside the list and every file with ch = 0 is
rejected. -/
theorem ReadImage_effective_channels (nBitDepth nColorMode nRealChannels : Nat) :
    (nBitDepth = 1 ∨ nColorMode = MODE_Bitmap →
      ReadImage.channels nBitDepth nColorMode nRealChannels = 1) ∧
    (nBitDepth ≠ 1 ∧ nColorMode ≠ MODE_Bitmap →
      (nColorMode = MODE_Grayscale ∨ nColorMode = MODE_Duotone →
        ReadImage.channels nBitDepth nColorMode nRealChannels = collapse2 (min nRealChannels 1)) ∧
      (nColorMode = MODE_Multichannel →
        ReadImage.channels nBitDepth nColorMode nRealChannels = collapse2 (min nRealChannels 3)) ∧
      (nColorMode = MODE_Lab ∨ nColorMode = MODE_RGB ∨ nColorMode = MODE_CMYK →
        ReadImage.channels nBitDepth nColorMode nRealChannels = collapse2 (min nRealChannels 4)) ∧
      (nColorMode ≠ MODE_Grayscale ∧ nColorMode ≠ MODE_Duotone ∧ nColorMode ≠ MODE_Multichannel ∧
          nColorMode ≠ MODE_Lab ∧ nColorMode ≠ MODE_RGB ∧ nColorMode ≠ MODE_CMYK →
        ReadImage.channels nBitDepth nColorMode nRealChannels = 0) ∧
      (nRealChannels = 0 → ReadImage.channels nBitDepth nColorMode nRealChannels = 0)) ∧
    (∀ env file bOutOfMemory hdr, ReadImage.header env file bOutOfMemory = .ok hdr →
      hdr.nChannels = ReadImage.channels hdr.nBitDepth hdr.nColorMode hdr.nRealChannels ∧
      (hdr.nChannels = 1 ∨ hdr.nChannels = 3 ∨ hdr.nChannels = 4)) ∧
    (∀ env fuel file bOutOfMemory,
      field file 22 2 = nBitDepth → field file 24 2 = nColorMode →
      field file 12 2 = nRealChannels →
      ¬ (ReadImage.channels nBitDepth nColorMode nRealChannels = 1 ∨
          ReadImage.channels nBitDepth nColorMode nRealChannels = 3 ∨
          ReadImage.channels nBitDepth nColorMode nRealChannels = 4) →
      ∃ b, ReadImage env fuel file bOutOfMemory = .ok (none, b)) ∧
    (∀ env fuel file bOutOfMemory,
      field file 22 2 = nBitDepth → field file 24 2 = nColorMode →
      field file 12 2 = nRealChannels →
      (nBitDepth = 8 ∨ nBitDepth = 16) → nColorMode ≠ MODE_Bitmap →
      ((nColorMode ≠ MODE_Grayscale ∧ nColorMode ≠ MODE_Duotone ∧
          nColorMode ≠ MODE_Multichannel ∧ nColorMode ≠ MODE_Lab ∧ nColorMode ≠ MODE_RGB ∧
          nColorMode ≠ MODE_CMYK) ∨ nRealChannels = 0) →
      ∃ b, ReadImage env fuel file bOutOfMemory = .ok (none, b)) := by
  have reject : ∀ env fuel file bOutOfMemory,
      field file 22 2 = nBitDepth → field file 24 2 = nColorMode →
      field file 12 2 = nRealChannels →
      ¬ (ReadImage.channels nBitDepth nColorMode nRealChannels = 1 ∨
          ReadImage.channels nBitDepth nColorMode nRealChannels = 3 ∨
          ReadImage.channels nBitDepth nColorMode nRealChannels = 4) →
      ∃ b, ReadImage env fuel file bOutOfMemory = .ok (none, b) := by
    intro env fuel file oom hd hm hc hn
    cases hh : ReadImage.header env file oom with
    | error e => exact ReadImage_of_header_error env fuel file oom e hh
    | ok hdr =>
      obtain ⟨_, _, h3, _, _, h6, h7, h8, h9, _⟩ := header_inv env file oom hdr hh
      rw [h8, h3, h6, h7, hd, hm, hc] at h9
      exact absurd h9 hn
  have other : nBitDepth ≠ 1 ∧ nColorMode ≠ MODE_Bitmap →
      (nColorMode ≠ MODE_Grayscale ∧ nColorMode ≠ MODE_Duotone ∧ nColorMode ≠ MODE_Multichannel ∧
          nColorMode ≠ MODE_Lab ∧ nColorMode ≠ MODE_RGB ∧ nColorMode ≠ MODE_CMYK →
        ReadImage.channels nBitDepth nColorMode nRealChannels = 0) ∧
      (nRealChannels = 0 → ReadImage.channels nBitDepth nColorMode nRealChannels = 0) := by
    intro ⟨h1, h2⟩
    constructor
    · intro ⟨a, b, c, d, e, f⟩
      simp [ReadImage.channels, h1, h2, a, b, c, d, e, f]
    · intro h0
      subst h0
      unfold ReadImage.channels
      simp only [h1, h2, or_self, if_false, Nat.zero_min]
      split <;> split <;> simp_all
  refine ⟨?_, ?_, ?_, reject, ?_⟩
  · intro h
    simp [ReadImage.channels, h]
  · intro ⟨h1, h2⟩
    refine ⟨?_, ?_, ?_, (other ⟨h1, h2⟩).1, (other ⟨h1, h2⟩).2⟩
    · intro h
      simp [ReadImage.channels, h1, h2, h, collapse2]
    · intro h
      subst h
      simp [ReadImage.channels, h1, collapse2, MODE_Multichannel, MODE_Bitmap, MODE_Grayscale,
        MODE_Duotone]
    · intro h
      have hg : ¬ (nColorMode = MODE_Grayscale ∨ nColorMode = MODE_Duotone) := by
        unfold MODE_Grayscale MODE_Duotone
        unfold MODE_Lab MODE_RGB MODE_CMYK at h
        omega
      have hm : ¬ nColorMode = MODE_Multichannel := by
        unfold MODE_Multichannel
        unfold MODE_Lab MODE_RGB MODE_CMYK at h
        omega
      simp [ReadImage.channels, h1, h2, hg, hm, h, collapse2]
  · intro env file oom hdr hh
    obtain ⟨_, _, _, _, _, _, _, h8, h9, _⟩ := header_inv env file oom hdr hh
    exact ⟨h8, h9⟩
  · intro env fuel file oom hd hm hc hdepth hbm hcase
    apply reject env fuel file oom hd hm hc
    have h1 : nBitDepth ≠ 1 := by omega
    rcases hcase with hc1 | hc2
    · rw [(other ⟨h1, hbm⟩).1 hc1]; omega
    · rw [(other ⟨h1, hbm⟩).2 hc2]; omega

/-- C9 as stated fails for ch = 0 with depth 8 when the colour mode is Bitmap: the file has
depth 8 and a channel count of 0, and `ReadImage` decodes it, with one channel. -/
theorem ReadImage_accepts_zero_channels :
    field bitmapDepth8File 22 2 = 8 ∧ field bitmapDepth8File 12 2 = 0 ∧
    field bitmapDepth8File 24 2 = MODE_Bitmap ∧
    ReadImage refEnv 1 bitmapDepth8File false =
      .ok (some ⟨⟨4, 1, [0, 255, 0, 255], none, 1⟩, 4⟩, false) := by
  decide

/-- C9 on a file with colour mode Indexed, depth 8 and one channel: it is rejected. -/
theorem ReadImage_effective_channels_witness :
    (field indexedFile 22 2 = 8 ∧ field indexedFile 24 2 = 2 ∧ field indexedFile 12 2 = 1) ∧
    ∃ b, ReadImage refEnv 1 indexedFile false = .ok (none, b) :=
  ⟨by decide,
    (ReadImage_effective_channels 8 2 1).2.2.2.2 refEnv 1 indexedFile false (by decide)
      (by decide) (by decide) (by decide) (by decide) (by decide)⟩

/-- C10: for every file that `ReadImage` decodes, with a dimension limit under which
`width * channels` fits an `unsigned int`, the row size with which the pixel buffer was laid out
is `ceil(width * channels / 4) * 4` for the width and channel count of the returned image; it is
a multiple of 4 and lies between `width * channels` and `width * channels + 3`. -/
theorem ReadImage_stride (env : Env) (fuel : Nat) (file : List Nat) (bOutOfMemory b : Bool)
    (d : Decoded) (hdim : env.MAX_IMAGE_DIMENSION < 1073741824)
    (h : ReadImage env fuel file bOutOfMemory = .ok (some d, b)) :
    d.nOutputRowSize = (d.image.nWidth * d.image.nChannels + 3) / 4 * 4 ∧
    d.nOutputRowSize % 4 = 0 ∧
    d.image.nWidth * d.image.nChannels ≤ d.nOutputRowSize ∧
    d.nOutputRowSize < d.image.nWidth * d.image.nChannels + 4 := by
  obtain ⟨_, hdr, s, h1, _, h3⟩ := ReadImage_ok env fuel file bOutOfMemory d b h
  obtain ⟨_, _, _, _, _, _, _, _, h9, _, _, _, _, _, _, hw, _⟩ := header_inv env file _ hdr h1
  obtain ⟨p1, _, p3, p4⟩ := pixels_inv env hdr s d h3
  have hle : hdr.nWidth * d.image.nChannels ≤ 1073741824 * 4 :=
    Nat.mul_le_mul (by omega) (by omega)
  have hlt : hdr.nWidth * d.image.nChannels < 4294967296 := by
    rcases Nat.eq_zero_or_pos d.image.nChannels with h0 | h0
    · rw [h0]; simp
    · have : hdr.nWidth * d.image.nChannels ≤ (1073741824 - 1) * 4 :=
        Nat.mul_le_mul (by omega) (by omega)
      omega
  rw [p4, u32_of_lt hlt, p1]
  exact DoPadding_four _

/-- C10 on the 4x1 bitmap of scenario b followed by three more bytes: the file decodes to one
channel with a row size of 4. -/
theorem ReadImage_stride_witness :
    (refEnv.MAX_IMAGE_DIMENSION < 1073741824 ∧
      ReadImage refEnv 1 (scenarioB ++ [0, 0, 0]) false =
        .ok (some ⟨⟨4, 1, [0, 255, 0, 255], none, 1⟩, 4⟩, false)) ∧
    ((4 : Nat) = (4 * 1 + 3) / 4 * 4 ∧ 4 % 4 = 0 ∧ 4 * 1 ≤ 4 ∧ 4 < 4 * 1 + 4) :=
  ⟨⟨by decide, by decide⟩,
    ReadImage_stride refEnv 1 (scenarioB ++ [0, 0, 0]) false false
      ⟨⟨4, 1, [0, 255, 0, 255], none, 1⟩, 4⟩ (by decide) (by decide)⟩

/-- C3: on the 41-byte file of scenario b `ReadImage` returns no image, for every environment
and every budget of the resource loop: the layer count is read at offset 42, four bytes behind
the length field of the empty layer section, which is past the end of the file. -/
theorem ReadImage_scenarioB (env : Env) (fuel : Nat) :
    ∃ b, ReadImage env (fuel + 1) scenarioB false = .ok (none, b) := by
  cases hh : ReadImage.header env scenarioB false with
  | error e => exact ReadImage_of_header_error env (fuel + 1) scenarioB false e hh
  | ok hdr =>
    obtain ⟨_, h2, _, _, _, _, h7, _, _, h10, _⟩ := header_inv env scenarioB false hdr hh
    have hs : ReadImage.sections env (fuel + 1) scenarioB hdr = .error .thrown := by
      have hv : hdr.nVersion = 1 := by rw [h2]; decide
      have hm : hdr.nColorMode = 0 := by rw [h7]; decide
      unfold ReadImage.sections
      rw [h10, hv, hm]
      rfl
    refine ⟨false, ?_⟩
    unfold ReadImage
    have hb : ReadImage.body env (fuel + 1) scenarioB false = .error .thrown := by
      simp only [ReadImage.body, bind, hh, ok_bind, hs, error_bind]
    rw [hb]

/-- The file of scenario b does decode to the row 0, 255, 0, 255 with row size 4 once three more
bytes follow the image data, which puts the layer count read at offset 42 inside the file. -/
theorem ReadImage_scenarioB_padded :
    ReadImage refEnv 1 (scenarioB ++ [0, 0, 0]) false =
      .ok (some ⟨⟨4, 1, [0, 255, 0, 255], none, 1⟩, 4⟩, false) := by
  decide

end PsdReader


namespace PsdReader

/-! ## Reading inside a known stretch of the buffer -/

/-- A byte of a stretch that starts at offset `p` of the buffer. -/
theorem load_of_drop (buf xs tail : List Nat) (p i : Nat) (h : buf.drop p = xs ++ tail)
    (hi : i < xs.length) : p + i < buf.length ∧ load buf (p + i) = .ok (xs.getD i 0) := by
  have hlen : (buf.drop p).length = xs.length + tail.length := by rw [h, List.length_append]
  rw [List.length_drop] at hlen
  have hlt : p + i < buf.length := by omega
  refine ⟨hlt, ?_⟩
  rw [load_ok buf _ hlt]
  have e1 : buf.getD (p + i) 0 = (buf.drop p).getD i 0 := by
    simp [List.getD_eq_getElem?_getD, List.getElem?_drop]
  rw [e1, h, List.getD_append _ _ _ _ hi]

/-- What follows a stretch that starts at offset `p` of the buffer. -/
theorem drop_of_drop (buf xs tail : List Nat) (p : Nat) (h : buf.drop p = xs ++ tail) :
    buf.drop (p + xs.length) = tail := by
  rw [← List.drop_drop, h, List.drop_left]

theorem getD_replicate_lt (n value i : Nat) (h : i < n) :
    (List.replicate n value).getD i 0 = value := by
  simp [List.getD_eq_getElem?_getD, List.getElem?_replicate, h]

theorem encodeRow_cons (pk : Packet) (ps : List Packet) :
    encodeRow (pk :: ps) = pk.encode ++ encodeRow ps := by
  simp [encodeRow]

theorem expandRow_cons (pk : Packet) (ps : List Packet) :
    expandRow (pk :: ps) = pk.expand ++ expandRow ps := by
  simp [expandRow]

/-! ## `ProcessRLEData`, 8-bit: one row -/

/-- The store of sample `x` of a row whose samples start at number `base`. -/
theorem put_sample (D pix : List Nat) (w h N stride mode rch row base x value : Nat)
    (hx : x < w) (hw32 : w < 4294967296)
    (hoff : ∀ x, x < w → sampleOffset w h N stride mode (base + x) =
      u32 (row * stride) + u32 (x * N) + rch)
    (hlim : ∀ x, x < w → u32 (row * stride) + u32 (x * N) + rch < u32 (stride * h))
    (hin : ∀ x, x < w → u32 (row * stride) + u32 (x * N) + rch < pix.length)
    (hval : value = D.getD (base + x) 0) :
    ProcessRLEData.put pix h N stride rch row x value (planarWrites D w h N stride mode 8 (base + x)) =
      .ok (planarWrites D w h N stride mode 8 (base + x + 1)) := by
  unfold ProcessRLEData.put
  simp only []
  rw [u32_of_lt (show x < 4294967296 by omega), if_neg (by have := hlim x hx; omega),
    store_ok pix _ _ _ (hin x hx), planarWrites_succ, hoff x hx, hval]
  simp [sampleValue]

theorem run_header (n : Nat) (h2 : 2 ≤ n) (h128 : n ≤ 128) :
    257 - n > 128 ∧ u8 (255 - (257 - n) + 2) = n := by
  unfold u8
  omega

theorem literal_header (k : Nat) (h1 : 1 ≤ k) (h128 : k ≤ 128) :
    ¬ k - 1 > 128 ∧ k - 1 < 128 ∧ u8 (k - 1 + 1) = k := by
  unfold u8
  omega

/-- The row loop of the 8-bit branch on a stream of literal and run packets that expands to the
rest of the row: it stores the rest of the row and stops behind the stream. -/
theorem row8_packets (buf D pix : List Nat) (w h N stride mode rch row base : Nat)
    (hw32 : w < 4294967296)
    (hoff : ∀ x, x < w → sampleOffset w h N stride mode (base + x) =
      u32 (row * stride) + u32 (x * N) + rch)
    (hlim : ∀ x, x < w → u32 (row * stride) + u32 (x * N) + rch < u32 (stride * h))
    (hin : ∀ x, x < w → u32 (row * stride) + u32 (x * N) + rch < pix.length)
    (ps : List Packet) :
    ∀ (fuel count p : Nat) (tail : List Nat), ps.length ≤ fuel →
      (∀ pk ∈ ps, pk.valid false = true) →
      buf.drop p = encodeRow ps ++ tail →
      count + (expandRow ps).length = w →
      (∀ i, i < (expandRow ps).length → (expandRow ps).getD i 0 = D.getD (base + count + i) 0) →
      ProcessRLEData.row8 buf buf.length pix w h N stride rch row fuel count
          ⟨p, planarWrites D w h N stride mode 8 (base + count)⟩ =
        .ok ⟨p + (encodeRow ps).length, planarWrites D w h N stride mode 8 (base + w)⟩ := by
  induction ps with
  | nil =>
    intro fuel count p tail _ _ _ hcount _
    have hc : count = w := by simpa [expandRow] using hcount
    subst hc
    cases fuel <;> simp [ProcessRLEData.row8, encodeRow]
  | cons pk ps ih =>
    intro fuel count p tail hfuel hvalid hbuf hcount hdata
    obtain ⟨fuel, rfl⟩ : ∃ f, fuel = f + 1 := ⟨fuel - 1, by simp at hfuel; omega⟩
    have hpk := hvalid pk (List.mem_cons_self _ _)
    have hps : ∀ q ∈ ps, q.valid false = true := fun q hq => hvalid q (List.mem_cons_of_mem _ hq)
    rw [encodeRow_cons, List.append_assoc] at hbuf
    rw [expandRow_cons, List.length_append] at hcount
    rw [expandRow_cons] at hdata
    cases pk with
    | noop => simp [Packet.valid] at hpk
    | run n value =>
      simp only [Packet.valid, decide_eq_true_eq] at hpk
      obtain ⟨hgt, hc⟩ := run_header n hpk.1 hpk.2
      simp only [Packet.expand, List.length_replicate] at hcount hdata
      simp only [Packet.encode] at hbuf
      obtain ⟨hp0, hl0⟩ := load_of_drop buf [257 - n, value] _ p 0 hbuf (by simp)
      obtain ⟨hp1, hl1⟩ := load_of_drop buf [257 - n, value] _ p 1 hbuf (by simp)
      have hrest := drop_of_drop buf [257 - n, value] _ p hbuf
      simp only [Nat.add_zero, List.getD_cons_zero, List.getD_cons_succ, List.length_cons,
        List.length_nil, Nat.zero_add] at hl0 hl1 hrest
      have hloop := forLoop_eq (fun i s => ProcessRLEData.runStore pix h N stride rch row count
          value i s)
        (fun i => (⟨p + 2, planarWrites D w h N stride mode 8 (base + count + i)⟩ : Dec)) n 0
        (fun i _ hi => by
          have hv : value = D.getD (base + (count + i)) 0 := by
            have := hdata i (by simp; omega)
            rw [List.getD_append _ _ _ _ (by simp; omega)] at this
            rw [getD_replicate_lt n value i (by omega)] at this
            rw [← Nat.add_assoc]
            exact this
          have := put_sample D pix w h N stride mode rch row base (count + i) value (by omega)
            hw32 hoff hlim hin hv
          simp only [← Nat.add_assoc] at this
          simp only [ProcessRLEData.runStore]
          rw [this]
          rfl)
      rw [ProcessRLEData.row8]
      simp only []
      rw [if_pos (by omega), if_neg (by omega), hl0]
      simp only []
      rw [if_pos hgt]
      rw [if_neg (by omega)]
      rw [hl1]
      simp only [hc]
      simp only [Nat.add_zero, Nat.zero_add] at hloop
      rw [hloop]
      simp only []
      rw [u32_of_lt (show count + n < 4294967296 by omega)]
      have := ih fuel (count + n) (p + 2) tail (by simp at hfuel; omega) hps hrest (by omega)
        (fun i hi => by
          have := hdata (n + i) (by simp; omega)
          rw [List.getD_append_right _ _ _ _ (by simp)] at this
          simp only [List.length_replicate, Nat.add_sub_cancel_left] at this
          rw [this]
          congr 1
          omega)
      rw [Nat.add_assoc base, this, encodeRow_cons]
      simp only [Packet.encode, List.length_append, List.length_cons, List.length_nil,
        Except.ok.injEq, Dec.mk.injEq, and_true]
      omega
    | literal bytes =>
      simp only [Packet.valid, decide_eq_true_eq] at hpk
      obtain ⟨hngt, hlt, hc⟩ := literal_header bytes.length hpk.1 hpk.2
      simp only [Packet.expand] at hcount hdata
      simp only [Packet.encode] at hbuf
      obtain ⟨hp0, hl0⟩ := load_of_drop buf ((bytes.length - 1) :: bytes) _ p 0 hbuf (by simp)
      have hrest := drop_of_drop buf ((bytes.length - 1) :: bytes) _ p hbuf
      simp only [Nat.add_zero, List.getD_cons_zero, List.length_cons] at hl0 hrest
      have hloop := forLoop_eq (fun i s => ProcessRLEData.literalStore8 buf buf.length pix h N
          stride rch row count i s)
        (fun i => (⟨p + 1 + i, planarWrites D w h N stride mode 8 (base + count + i)⟩ : Dec))
        bytes.length 0
        (fun i _ hi => by
          obtain ⟨hpi, hli⟩ := load_of_drop buf ((bytes.length - 1) :: bytes) _ p (i + 1) hbuf
            (by simp; omega)
          simp only [List.getD_cons_succ] at hli
          have hv : bytes.getD i 0 = D.getD (base + (count + i)) 0 := by
            have := hdata i (by simp; omega)
            rw [List.getD_append _ _ _ _ (by omega)] at this
            rw [← Nat.add_assoc]
            exact this
          have := put_sample D pix w h N stride mode rch row base (count + i) (bytes.getD i 0)
            (by omega) hw32 hoff hlim hin hv
          simp only [← Nat.add_assoc] at this
          have e : p + 1 + i = p + (i + 1) := by omega
          simp only [ProcessRLEData.literalStore8]
          rw [if_neg (by omega), e, hli]
          simp only []
          rw [this]
          simp only [Except.ok.injEq, Dec.mk.injEq]
          exact ⟨by omega, rfl⟩)
      rw [ProcessRLEData.row8]
      simp only []
      rw [if_pos (by omega), if_neg (by omega), hl0]
      simp only []
      rw [if_neg hngt, if_pos hlt]
      simp only [hc]
      simp only [Nat.add_zero, Nat.zero_add] at hloop
      rw [hloop]
      simp only []
      rw [u32_of_lt (show count + bytes.length < 4294967296 by omega)]
      have := ih fuel (count + bytes.length) (p + 1 + bytes.length) tail
        (by simp at hfuel; omega) hps (by rw [← hrest]; congr 1; omega) (by omega)
        (fun i hi => by
          have := hdata (bytes.length + i) (by simp; omega)
          rw [List.getD_append_right _ _ _ _ (by simp)] at this
          simp only [Nat.add_sub_cancel_left] at this
          rw [this]
          congr 1
          omega)
      rw [Nat.add_assoc base, this, encodeRow_cons]
      simp only [Packet.encode, List.length_append, List.length_cons, List.length_nil,
        Except.ok.injEq, Dec.mk.injEq, and_true]
      omega

end PsdReader


namespace PsdReader

/-! ## The byte-count table -/

theorem beBytes_length (n v : Nat) : (beBytes n v).length = n := by
  induction n generalizing v with
  | zero => rfl
  | succ n ih => simp [beBytes, ih]

theorem beBytes_two (v : Nat) : beBytes 2 v = [v / 256 % 256, v % 256] := by
  simp [beBytes]

theorem beBytes_four (v : Nat) :
    beBytes 4 v = [v / 256 / 256 / 256 % 256, v / 256 / 256 % 256, v / 256 % 256, v % 256] := by
  simp [beBytes]

theorem byteCountTable_length (v : Nat) (lens : List Nat) :
    (byteCountTable v lens).length = lens.length * (2 * v) := by
  induction lens with
  | nil => simp [byteCountTable]
  | cons a l ih =>
    simp only [byteCountTable, List.map_cons, List.flatten_cons, List.length_append,
      beBytes_length, List.length_cons] at ih ⊢
    rw [ih]
    ring

/-- Entry `k` of the byte-count table starts at offset `2 * v * k` of the buffer. -/
theorem table_drop (v : Nat) (lens tail : List Nat) (k : Nat) (hk : k < lens.length) :
    ∃ rest, (byteCountTable v lens ++ tail).drop (2 * v * k) =
      beBytes (2 * v) (lens.getD k 0) ++ rest := by
  induction k generalizing lens with
  | zero =>
    cases lens with
    | nil => simp at hk
    | cons a l =>
      refine ⟨byteCountTable v l ++ tail, ?_⟩
      simp [byteCountTable]
  | succ k ih =>
    cases lens with
    | nil => simp at hk
    | cons a l =>
      obtain ⟨rest, hrest⟩ := ih l (by simpa using hk)
      refine ⟨rest, ?_⟩
      have e : 2 * v * (k + 1) = (beBytes (2 * v) a).length + 2 * v * k := by
        rw [beBytes_length]; ring
      have e2 : byteCountTable v (a :: l) ++ tail =
          beBytes (2 * v) a ++ (byteCountTable v l ++ tail) := by
        simp [byteCountTable]
      rw [e, e2, List.drop_append, hrest]
      simp

theorem loadSwap16_of_drop (buf rest : List Nat) (p l : Nat) (hl : l < 65536)
    (h : buf.drop p = beBytes 2 l ++ rest) : loadSwap16 buf p = .ok l := by
  rw [beBytes_two] at h
  obtain ⟨_, h0⟩ := load_of_drop buf _ rest p 0 h (by simp)
  obtain ⟨_, h1⟩ := load_of_drop buf _ rest p 1 h (by simp)
  simp only [Nat.add_zero, List.getD_cons_zero, List.getD_cons_succ] at h0 h1
  unfold loadSwap16
  rw [h0, h1]
  simp only [Except.ok.injEq]
  unfold u16
  omega

theorem loadBE32_of_drop (buf rest : List Nat) (p l : Nat) (hl : l < 4294967296)
    (h : buf.drop p = beBytes 4 l ++ rest) : loadBE32 buf p = .ok l := by
  rw [beBytes_four] at h
  obtain ⟨_, h0⟩ := load_of_drop buf _ rest p 0 h (by simp)
  obtain ⟨_, h1⟩ := load_of_drop buf _ rest p 1 h (by simp)
  obtain ⟨_, h2⟩ := load_of_drop buf _ rest p 2 h (by simp)
  obtain ⟨_, h3⟩ := load_of_drop buf _ rest p 3 h (by simp)
  simp only [Nat.add_zero, List.getD_cons_zero, List.getD_cons_succ] at h0 h1 h2 h3
  unfold loadBE32
  rw [h0, h1, h2, h3]
  simp only [Except.ok.injEq]
  unfold u32
  omega

/-! ## The encoded rows -/

theorem one_le_encode_length (pk : Packet) : 1 ≤ pk.encode.length := by
  cases pk <;> simp [Packet.encode]

theorem length_le_encodeRow (ps : List Packet) : ps.length ≤ (encodeRow ps).length := by
  induction ps with
  | nil => simp
  | cons pk ps ih =>
    rw [encodeRow_cons, List.length_append, List.length_cons]
    have := one_le_encode_length pk
    omega

theorem streamStart_succ (rows : List (List Packet)) (k : Nat) (hk : k < rows.length) :
    streamStart rows (k + 1) = streamStart rows k + (encodeRow (rows.getD k [])).length := by
  unfold streamStart
  rw [List.map_take, List.map_take, List.sum_take_succ _ _ (by simpa using hk)]
  simp [List.getD_eq_getElem?_getD, List.getElem?_eq_getElem hk]

/-- The stream of row `k` starts at offset `streamStart rows k` of the encoded rows. -/
theorem stream_drop (rows : List (List Packet)) (k : Nat) (hk : k < rows.length) :
    ∃ rest, ((rows.map encodeRow).flatten).drop (streamStart rows k) =
      encodeRow (rows.getD k []) ++ rest := by
  induction k generalizing rows with
  | zero =>
    cases rows with
    | nil => simp at hk
    | cons a l => exact ⟨(l.map encodeRow).flatten, by simp [streamStart]⟩
  | succ k ih =>
    cases rows with
    | nil => simp at hk
    | cons a l =>
      obtain ⟨rest, hrest⟩ := ih l (by simpa using hk)
      refine ⟨rest, ?_⟩
      have e : streamStart (a :: l) (k + 1) = (encodeRow a).length + streamStart l k := by
        simp [streamStart]
      rw [e, List.map_cons, List.flatten_cons, List.drop_append, hrest]
      simp

theorem streamStart_le (rows : List (List Packet)) (k : Nat) :
    streamStart rows k ≤ ((rows.map encodeRow).flatten).length := by
  induction k generalizing rows with
  | zero => simp [streamStart]
  | succ k ih =>
    cases rows with
    | nil => simp [streamStart]
    | cons a l =>
      have := ih l
      simp only [streamStart, List.take_succ_cons, List.map_cons, List.sum_cons,
        List.flatten_cons, List.length_append] at this ⊢
      omega

/-- A row of planar data read off its expansion. -/
theorem expand_row_data (D : List Nat) (ps : List Packet) (w k : Nat)
    (hexp : expandRow ps = (D.drop (k * w)).take w) (hD : (k + 1) * w ≤ D.length) :
    (expandRow ps).length = w ∧
    ∀ i, i < (expandRow ps).length → (expandRow ps).getD i 0 = D.getD (k * w + i) 0 := by
  have e : (k + 1) * w = k * w + w := by ring
  constructor
  · rw [hexp, List.length_take, List.length_drop]
    omega
  · intro i hi
    have hi2 : i < w := by
      rw [hexp, List.length_take, List.length_drop] at hi
      omega
    rw [hexp]
    simp only [List.getD_eq_getElem?_getD, List.getElem?_take_of_lt hi2, List.getElem?_drop]

end PsdReader


namespace PsdReader

/-! ## `ProcessRLEData`, 8-bit: all rows -/

/-- One row of `ProcessRLEData` at depth 8, on a buffer made of the byte-count table, the
encoded rows and anything behind them: row `k = c * h + r` is stored and the stream offset moves
to the next row. -/
theorem rle8_rowStep (D pix : List Nat) (rows : List (List Packet)) (lens rest : List Nat)
    (w h N R stride mode v c r : Nat)
    (hc : c < N) (hr : r < h) (hv : v = 1 ∨ v = 2) (hstride : w * N ≤ stride)
    (hpix : pix.length = stride * h) (h32 : stride * h < 4294967296)
    (hD : D.length = N * h * w) (hrows : rows.length = N * h)
    (hvalid : ∀ ps ∈ rows, ∀ pk ∈ ps, Packet.valid false pk = true)
    (hexp : ∀ k, k < N * h → expandRow (rows.getD k []) = (D.drop (k * w)).take w)
    (hlens : lens.length = R * h) (hR : N ≤ R)
    (hlen : ∀ k, k < N * h → lens.getD k 0 = (encodeRow (rows.getD k [])).length)
    (hfit : ∀ k, k < N * h → lens.getD k 0 < 2 ^ (16 * v))
    (hsize : (byteCountTable v lens ++ (rows.map encodeRow).flatten ++ rest).length <
      4294967296) :
    ProcessRLEData.rowStep (byteCountTable v lens ++ (rows.map encodeRow).flatten ++ rest)
        (byteCountTable v lens ++ (rows.map encodeRow).flatten ++ rest).length pix w h N stride 8
        v (rchannel mode N c) c r
        ⟨(byteCountTable v lens).length + streamStart rows (c * h + r),
          planarWrites D w h N stride mode 8 ((c * h + r) * w)⟩ =
      .ok ⟨(byteCountTable v lens).length + streamStart rows (c * h + r + 1),
          planarWrites D w h N stride mode 8 ((c * h + (r + 1)) * w)⟩ := by
  have hk : c * h + r < N * h := by
    have := mul_succ_le c N h hc
    omega
  have hkR : c * h + r < lens.length := by
    rw [hlens]
    have := Nat.mul_le_mul_right h hR
    omega
  have hkrows : c * h + r < rows.length := by rw [hrows]; exact hk
  have hw32 : w < 4294967296 := by
    rcases Nat.eq_zero_or_pos w with h0 | h0
    · omega
    · have h1 : w * 1 ≤ w * N := Nat.mul_le_mul_left w (by omega)
      have h2 : stride * 1 ≤ stride * h := Nat.mul_le_mul_left stride (by omega)
      omega
  have hlimit : u32 (stride * h) = stride * h := u32_of_lt h32
  have hpos : ∀ x, x < w →
      u32 (r * stride) + u32 (x * N) + rchannel mode N c =
        r * stride + x * N + rchannel mode N c ∧
      r * stride + x * N + rchannel mode N c < stride * h := by
    intro x hx
    have hoff := offset_lt w h N stride r x _ hx hr (rchannel_lt mode N c hc) hstride
    rw [u32_of_lt (show r * stride < 4294967296 by omega),
      u32_of_lt (show x * N < 4294967296 by omega)]
    exact ⟨rfl, hoff⟩
  -- the stream of the row
  obtain ⟨srest, hstream⟩ := stream_drop rows (c * h + r) hkrows
  have hbuf : (byteCountTable v lens ++ (rows.map encodeRow).flatten ++ rest).drop
      ((byteCountTable v lens).length + streamStart rows (c * h + r)) =
      encodeRow (rows.getD (c * h + r) []) ++ (srest ++ rest) := by
    rw [List.append_assoc, List.drop_append,
      List.drop_append_of_le_length (streamStart_le rows _), hstream, List.append_assoc]
  have hkD : (c * h + r + 1) * w ≤ D.length := by
    rw [hD]
    exact Nat.mul_le_mul_right w hk
  obtain ⟨hexplen, hexpdata⟩ := expand_row_data D _ w (c * h + r) (hexp _ hk) hkD
  have hmem : rows.getD (c * h + r) [] ∈ rows := by
    rw [List.getD_eq_getElem?_getD, List.getElem?_eq_getElem hkrows]
    exact List.getElem_mem hkrows
  have hfuel : (rows.getD (c * h + r) []).length ≤
      (byteCountTable v lens ++ (rows.map encodeRow).flatten ++ rest).length + 1 := by
    have h1 := length_le_encodeRow (rows.getD (c * h + r) [])
    have h2 : (encodeRow (rows.getD (c * h + r) []) ++ (srest ++ rest)).length ≤
        (byteCountTable v lens ++ (rows.map encodeRow).flatten ++ rest).length := by
      rw [← hbuf, List.length_drop]
      omega
    rw [List.length_append] at h2
    omega
  have hrow := row8_packets (byteCountTable v lens ++ (rows.map encodeRow).flatten ++ rest) D pix
    w h N stride mode (rchannel mode N c) r ((c * h + r) * w) hw32
    (fun x hx => by rw [sampleOffset_planar _ _ _ _ _ _ _ _ hx hr, (hpos x hx).1])
    (fun x hx => by rw [hlimit, (hpos x hx).1]; exact (hpos x hx).2)
    (fun x hx => by rw [hpix, (hpos x hx).1]; exact (hpos x hx).2)
    (rows.getD (c * h + r) []) _ 0 _ (srest ++ rest) hfuel (hvalid _ hmem) hbuf
    (by omega) (fun i hi => by rw [hexpdata i hi]; simp)
  simp only [Nat.add_zero] at hrow
  -- the entry of the byte-count table
  have hidx : u32 (c * h + r) = c * h + r := by
    have := byteCountTable_length v lens
    simp only [List.length_append] at hsize
    have : lens.length ≤ lens.length * (2 * v) := Nat.le_mul_of_pos_right _ (by omega)
    exact u32_of_lt (by omega)
  obtain ⟨trest, htable⟩ := table_drop v lens ((rows.map encodeRow).flatten ++ rest)
    (c * h + r) hkR
  rw [← List.append_assoc] at htable
  have hentry : lens.getD (c * h + r) 0 =
      (encodeRow (rows.getD (c * h + r) [])).length := hlen _ hk
  have henc : (encodeRow (rows.getD (c * h + r) [])).length < 4294967296 := by
    have h2 : (encodeRow (rows.getD (c * h + r) []) ++ (srest ++ rest)).length ≤
        (byteCountTable v lens ++ (rows.map encodeRow).flatten ++ rest).length := by
      rw [← hbuf, List.length_drop]
      omega
    rw [List.length_append] at h2
    omega
  have hnext := streamStart_succ rows (c * h + r) hkrows
  have htlen := byteCountTable_length v lens
  simp only [List.length_append] at hsize
  have hkv : (c * h + r) * (2 * v) < lens.length * (2 * v) :=
    Nat.mul_lt_mul_of_pos_right hkR (by omega)
  have e2 : (c * h + (r + 1)) * w = (c * h + r) * w + w := by ring
  unfold ProcessRLEData.rowStep
  rw [if_pos rfl, hrow]
  simp only []
  rcases hv with rfl | rfl
  · rw [if_neg (by decide), hidx, u32_of_lt (show (c * h + r) * 2 < 4294967296 by omega)]
    have e : (c * h + r) * 2 = 2 * 1 * (c * h + r) := by ring
    rw [e, loadSwap16_of_drop _ trest _ _ ?_ htable]
    · simp only [Except.ok.injEq, RowDec.mk.injEq]
      rw [hentry, hnext, e2]
      exact ⟨by omega, rfl⟩
    · exact hfit _ hk
  · rw [if_pos rfl, hidx, u32_of_lt (show (c * h + r) * 4 < 4294967296 by omega)]
    have e : (c * h + r) * 4 = 2 * 2 * (c * h + r) := by ring
    rw [e, loadBE32_of_drop _ trest _ _ ?_ htable]
    · simp only [Except.ok.injEq, RowDec.mk.injEq]
      rw [hentry, hnext, e2]
      exact ⟨by omega, rfl⟩
    · rw [hentry]; exact henc

/-- The decoder `ProcessRLEData` at depth 8 on a buffer made of the byte-count table, the encoded
rows and anything behind them performs exactly the stores of the planar layout of the expanded data.
-/
theorem rle8_writes (D pix : List Nat) (rows : List (List Packet)) (lens rest : List Nat)
    (w h N R stride mode v : Nat)
    (hv : v = 1 ∨ v = 2) (hstride : w * N ≤ stride)
    (hpix : pix.length = stride * h) (h32 : stride * h < 4294967296)
    (hD : D.length = N * h * w) (hrows : rows.length = N * h)
    (hvalid : ∀ ps ∈ rows, ∀ pk ∈ ps, Packet.valid false pk = true)
    (hexp : ∀ k, k < N * h → expandRow (rows.getD k []) = (D.drop (k * w)).take w)
    (hlens : lens.length = R * h) (hR : N ≤ R)
    (hlen : ∀ k, k < N * h → lens.getD k 0 = (encodeRow (rows.getD k [])).length)
    (hfit : ∀ k, k < N * h → lens.getD k 0 < 2 ^ (16 * v))
    (hsize : (byteCountTable v lens ++ (rows.map encodeRow).flatten ++ rest).length <
      4294967296) :
    ProcessRLEData (byteCountTable v lens ++ (rows.map encodeRow).flatten ++ rest)
        (byteCountTable v lens ++ (rows.map encodeRow).flatten ++ rest).length pix w h N stride
        mode 8 R v =
      .ok (planarWrites D w h N stride mode 8 (N * h * w)) := by
  have inner : ∀ c, c < N →
      forLoop (fun row st => ProcessRLEData.rowStep
          (byteCountTable v lens ++ (rows.map encodeRow).flatten ++ rest)
          (byteCountTable v lens ++ (rows.map encodeRow).flatten ++ rest).length pix w h N stride
          8 v (rchannel mode N c) c row st) h 0
        (⟨(byteCountTable v lens).length + streamStart rows (c * h),
          planarWrites D w h N stride mode 8 (c * h * w)⟩ : RowDec) =
      .ok ⟨(byteCountTable v lens).length + streamStart rows ((c + 1) * h),
          planarWrites D w h N stride mode 8 ((c + 1) * h * w)⟩ := by
    intro c hc
    have := forLoop_eq (fun row st => ProcessRLEData.rowStep
          (byteCountTable v lens ++ (rows.map encodeRow).flatten ++ rest)
          (byteCountTable v lens ++ (rows.map encodeRow).flatten ++ rest).length pix w h N stride
          8 v (rchannel mode N c) c row st)
      (fun r => (⟨(byteCountTable v lens).length + streamStart rows (c * h + r),
          planarWrites D w h N stride mode 8 ((c * h + r) * w)⟩ : RowDec)) h 0
      (fun r _ hr => rle8_rowStep D pix rows lens rest w h N R stride mode v c r hc (by omega) hv
        hstride hpix h32 hD hrows hvalid hexp hlens hR hlen hfit hsize)
    have e : (c + 1) * h = c * h + (0 + h) := by ring
    rw [e]
    simpa using this
  have outer := forLoop_eq (fun channel st => forLoop (fun row st => ProcessRLEData.rowStep
          (byteCountTable v lens ++ (rows.map encodeRow).flatten ++ rest)
          (byteCountTable v lens ++ (rows.map encodeRow).flatten ++ rest).length pix w h N stride
          8 v (rchannel mode N channel) channel row st) h 0 st)
      (fun c => (⟨(byteCountTable v lens).length + streamStart rows (c * h),
          planarWrites D w h N stride mode 8 (c * h * w)⟩ : RowDec)) N 0
      (fun c _ hc => inner c (by omega))
  have htlen := byteCountTable_length v lens
  have hT : u32 (h * R * 2 * v) = (byteCountTable v lens).length := by
    rw [htlen, hlens]
    have e : h * R * 2 * v = R * h * (2 * v) := by ring
    rw [e]
    apply u32_of_lt
    simp only [List.length_append] at hsize
    rw [← hlens, ← htlen]
    omega
  unfold ProcessRLEData
  simp only []
  rw [hT]
  have e0 : (⟨(byteCountTable v lens).length, []⟩ : RowDec) =
      ⟨(byteCountTable v lens).length + streamStart rows (0 * h),
        planarWrites D w h N stride mode 8 (0 * h * w)⟩ := by
    simp [streamStart, planarWrites]
  rw [e0, outer]
  simp

/-- C4: the PackBits round trip of the multi-channel decoder at depth 8. For one, three or four
output channels, at least as many channels on disk, version 1 or 2, and planar data `D` of
`N * h * w` bytes whose rows are each encoded as a sequence of literal packets of 1 to 128 bytes
and run packets of 2 to 128 copies expanding to that row: on the buffer made of the byte-count
table of `R * h` big-endian entries of `2 * v` bytes, whose first `N * h` entries hold the lengths
of the encoded rows, followed by the encoded rows in channel-major order (and anything behind
them), `ProcessRLEData` succeeds with the very stores of `ProcessUncompressedData` on `D`, so the
two leave the same byte at every offset `r * stride + x * N + t`. The buffer size fits an
`unsigned int`; the pixel buffer is as for C1. -/
theorem ProcessRLEData_roundtrip (D pPixelData : List Nat) (rows : List (List Packet))
    (lens rest : List Nat) (w h N R stride nColorMode v : Nat)
    (hN : N = 1 ∨ N = 3 ∨ N = 4) (hR : N ≤ R) (hv : v = 1 ∨ v = 2) (hstride : w * N ≤ stride)
    (hpix : pPixelData.length = stride * h) (h32 : stride * h < 4294967296)
    (hD : D.length = N * h * w) (hrows : rows.length = N * h)
    (hvalid : ∀ ps ∈ rows, ∀ pk ∈ ps, Packet.valid false pk = true)
    (hexp : ∀ k, k < N * h → expandRow (rows.getD k []) = (D.drop (k * w)).take w)
    (hlens : lens.length = R * h)
    (hlen : ∀ k, k < N * h → lens.getD k 0 = (encodeRow (rows.getD k [])).length)
    (hfit : ∀ k, k < N * h → lens.getD k 0 < 2 ^ (16 * v))
    (hsize : (byteCountTable v lens ++ (rows.map encodeRow).flatten ++ rest).length <
      4294967296) :
    ∃ writes,
      ProcessRLEData (byteCountTable v lens ++ (rows.map encodeRow).flatten ++ rest)
        (byteCountTable v lens ++ (rows.map encodeRow).flatten ++ rest).length pPixelData
        w h N stride nColorMode 8 R v = .ok writes ∧
      ProcessUncompressedData D D.length pPixelData w h N stride nColorMode 8 = .ok writes ∧
      ∀ r x t, r < h → x < w → t < N →
        ∃ c, c < N ∧ t = targetSpec nColorMode N c ∧
          (applyWrites pPixelData writes)[r * stride + x * N + t]? = D[(c * h + r) * w + x]? := by
  refine ⟨_, rle8_writes D pPixelData rows lens rest w h N R stride nColorMode v hv hstride hpix
    h32 hD hrows hvalid hexp hlens hR hlen hfit hsize,
    uncompressed_writes D pPixelData D.length w h N stride nColorMode 8 hstride
      (by simp [hD]) (le_refl _) (by omega) h32, ?_⟩
  intro r x t hr hx ht
  obtain ⟨c, hc, hct⟩ := rchannel_surj nColorMode N t hN ht
  refine ⟨c, hc, ?_, ?_⟩
  · rw [← hct, rchannel_eq_targetSpec nColorMode N c hN hc]
  · obtain ⟨h1, _⟩ := (planar_result D pPixelData w h N stride nColorMode 8 hN hstride hpix).1
      c r x hc hr hx
    have hk := planar_lt w h N c r x hx hr hc
    rw [← hct, rchannel_eq_targetSpec nColorMode N c hN hc, h1,
      List.getElem?_eq_getElem (by omega)]
    simp [sampleValue, List.getD_eq_getElem?_getD, List.getElem?_eq_getElem (show
      (c * h + r) * w + x < D.length by omega)]

/-- C4 on a 3x1 RGB image whose rows are encoded as a run of three, a literal of three, and a
run of two followed by a literal of one: the hypotheses hold, and the decoded pixels are those
of the planar data. -/
theorem ProcessRLEData_roundtrip_witness :
    ((3 = 1 ∨ 3 = 3 ∨ 3 = 4) ∧ 3 ≤ 3 ∧ (1 = 1 ∨ 1 = 2) ∧ 3 * 3 ≤ 12 ∧
      (List.replicate 12 0).length = 12 * 1 ∧ 12 * 1 < 4294967296 ∧
      demoData.length = 3 * 1 * 3 ∧ demoRows.length = 3 * 1 ∧
      (∀ ps ∈ demoRows, ∀ pk ∈ ps, Packet.valid false pk = true) ∧
      (∀ k, k < 3 * 1 → expandRow (demoRows.getD k []) = (demoData.drop (k * 3)).take 3) ∧
      [2, 4, 4].length = 3 * 1 ∧
      (∀ k, k < 3 * 1 → [2, 4, 4].getD k 0 = (encodeRow (demoRows.getD k [])).length) ∧
      (∀ k, k < 3 * 1 → [2, 4, 4].getD k 0 < 2 ^ (16 * 1)) ∧
      (byteCountTable 1 [2, 4, 4] ++ (demoRows.map encodeRow).flatten ++ []).length <
        4294967296) ∧
    (∃ writes,
      ProcessRLEData (byteCountTable 1 [2, 4, 4] ++ (demoRows.map encodeRow).flatten ++ [])
        (byteCountTable 1 [2, 4, 4] ++ (demoRows.map encodeRow).flatten ++ []).length
        (List.replicate 12 0) 3 1 3 12 MODE_RGB 8 3 1 = .ok writes ∧
      ProcessUncompressedData demoData demoData.length (List.replicate 12 0) 3 1 3 12 MODE_RGB 8 =
        .ok writes ∧
      ∀ r x t, r < 1 → x < 3 → t < 3 →
        ∃ c, c < 3 ∧ t = targetSpec MODE_RGB 3 c ∧
          (applyWrites (List.replicate 12 0) writes)[r * 12 + x * 3 + t]? =
            demoData[(c * 1 + r) * 3 + x]?) ∧
    byteCountTable 1 [2, 4, 4] ++ (demoRows.map encodeRow).flatten ++ [] =
      [0, 2, 0, 4, 0, 4, 254, 7, 2, 1, 2, 3, 255, 5, 0, 6] :=
  ⟨by decide,
    ProcessRLEData_roundtrip demoData (List.replicate 12 0) demoRows [2, 4, 4] [] 3 1 3 3 12
      MODE_RGB 1 (by decide) (by decide) (by decide) (by decide) (by decide) (by decide)
      (by decide) (by decide) (by decide) (by decide) (by decide) (by decide) (by decide)
      (by decide),
    by decide⟩

end PsdReader


namespace PsdReader

/-! ## Guarded loops -/

/-- A guarded loop whose guard holds at every state `F i` and whose body takes `F i` to
`F (i + 1)` ends in `F (start + n)`. -/
theorem forWhile_eq_all {σ : Type} (cond : σ → Bool) (body : Nat → σ → Except Fault σ)
    (F : Nat → σ) (n start : Nat)
    (hcond : ∀ i, start ≤ i → i < start + n → cond (F i) = true)
    (hstep : ∀ i, start ≤ i → i < start + n → body i (F i) = .ok (F (i + 1))) :
    forWhile cond body n start (F start) = .ok (F (start + n)) := by
  induction n generalizing start with
  | zero => simp [forWhile]
  | succ n ih =>
    rw [forWhile, if_pos (hcond start (le_refl _) (by omega)),
      hstep start (le_refl _) (by omega)]
    have := ih (start + 1) (fun i h1 h2 => hcond i (by omega) (by omega))
      (fun i h1 h2 => hstep i (by omega) (by omega))
    simpa [Nat.add_assoc, Nat.add_comm 1 n] using this

/-- A guarded loop whose body takes `F i` to `F (i + 1)` while the guard holds, and whose states
`F i` stay put once the guard fails, ends in `F (start + n)`. -/
theorem forWhile_eq {σ : Type} (cond : σ → Bool) (body : Nat → σ → Except Fault σ)
    (F : Nat → σ) (n start : Nat)
    (hstep : ∀ i, start ≤ i → i < start + n → cond (F i) = true →
      body i (F i) = .ok (F (i + 1)))
    (hstop : ∀ i, start ≤ i → i < start + n → cond (F i) = false → F (i + 1) = F i) :
    forWhile cond body n start (F start) = .ok (F (start + n)) := by
  induction n generalizing start with
  | zero => simp [forWhile]
  | succ n ih =>
    rw [forWhile]
    by_cases hc : cond (F start) = true
    · rw [if_pos hc, hstep start (le_refl _) (by omega) hc]
      have := ih (start + 1) (fun i h1 h2 => hstep i (by omega) (by omega))
        (fun i h1 h2 => hstop i (by omega) (by omega))
      simpa [Nat.add_assoc, Nat.add_comm 1 n] using this
    · rw [if_neg hc]
      have hfalse : cond (F start) = false := by simpa using hc
      have hstay : ∀ m, m ≤ n + 1 → F (start + m) = F start := by
        intro m
        induction m with
        | zero => intro _; rfl
        | succ m ihm =>
          intro hm
          have h1 := ihm (by omega)
          have h2 := hstop (start + m) (by omega) (by omega) (by rw [h1]; exact hfalse)
          rw [← Nat.add_assoc, h2, h1]
      rw [hstay (n + 1) (le_refl _)]

/-! ## `ProcessBitmapRLE`: one source byte -/

/-- State of `ProcessBitmapRLE` inside row `r` when `count` pixels of the row are stored. -/
theorem bitmapWrites_step (D : List Nat) (w stride bpr r x : Nat) (hx : x < w) :
    bitmapWrites D w stride bpr (r * w + x + 1) = bitmapWrites D w stride bpr (r * w + x) ++
      [(r * stride + x, bitPixel (D.getD (r * bpr + x / 8) 0) (7 - x % 8))] := by
  obtain ⟨h1, h2⟩ := row_div w r x hx
  rw [bitmapWrites_succ, h1, h2]

/-- The bit loop on a byte of the row: byte `j` of row `r` is unpacked into the pixels from
`8 * j` on, up to the width. -/
theorem bits_byte (D pix : List Nat) (w h stride bpr r j p : Nat) (hr : r < h)
    (hs : w ≤ stride) (hpix : stride * h ≤ pix.length) (h32 : stride * h < 4294967296)
    (hj : 8 * j < w) :
    ProcessBitmapRLE.bits pix w (r * stride) (D.getD (r * bpr + j) 0)
        ⟨p, 8 * j, bitmapWrites D w stride bpr (r * w + 8 * j)⟩ =
      .ok ⟨p, min (8 * j + 8) w, bitmapWrites D w stride bpr (r * w + min (8 * j + 8) w)⟩ := by
  have hrow := mul_succ_le r h stride hr
  have e2 : stride * h = h * stride := Nat.mul_comm _ _
  have key := forWhile_eq (fun (s : BitDec) => decide (s.count < w))
    (fun k s => ProcessBitmapRLE.bit pix (r * stride) (D.getD (r * bpr + j) 0) k s)
    (fun k => (⟨p, min (8 * j + k) w,
      bitmapWrites D w stride bpr (r * w + min (8 * j + k) w)⟩ : BitDec)) 8 0
    (fun k _ hk hc => by
      simp only [decide_eq_true_eq] at hc
      have hlt : 8 * j + k < w := by omega
      have hm : min (8 * j + k) w = 8 * j + k := by omega
      have hm1 : min (8 * j + (k + 1)) w = 8 * j + k + 1 := by omega
      have hd : (8 * j + k) / 8 = j := by omega
      have hmod : (8 * j + k) % 8 = k := by omega
      have hw := bitmapWrites_step D w stride bpr r (8 * j + k) hlt
      rw [hd, hmod] at hw
      simp only [ProcessBitmapRLE.bit, hm, hm1]
      rw [store_ok pix _ _ _ (by omega), u32_of_lt (by omega), ← hw]
      rfl)
    (fun k _ hk hc => by
      simp only [decide_eq_false_iff_not, not_lt] at hc
      have hm : min (8 * j + k) w = w := by omega
      have hm1 : min (8 * j + (k + 1)) w = w := by omega
      simp only [hm, hm1])
  have e0 : min (8 * j + 0) w = 8 * j := by omega
  simp only [e0, Nat.zero_add] at key
  unfold ProcessBitmapRLE.bits
  exact key

end PsdReader


namespace PsdReader

/-! ## `ProcessBitmapRLE`: one row -/

theorem bits_state (D pix : List Nat) (w h stride r j p : Nat) (hr : r < h)
    (hs : w ≤ stride) (hpix : stride * h ≤ pix.length) (h32 : stride * h < 4294967296)
    (hj : j < (w + 7) / 8) :
    ProcessBitmapRLE.bits pix w (r * stride) (D.getD (r * ((w + 7) / 8) + j) 0)
        (bitmapState D w stride ((w + 7) / 8) r p j) =
      .ok (bitmapState D w stride ((w + 7) / 8) r p (j + 1)) := by
  have h8 : 8 * j < w := by omega
  have hm : min (8 * j) w = 8 * j := by omega
  have := bits_byte D pix w h stride ((w + 7) / 8) r j p hr hs hpix h32 h8
  unfold bitmapState
  rw [hm, this]
  rfl

theorem bitmapState_cond (D : List Nat) (w stride r p j : Nat) (hj : j < (w + 7) / 8) :
    decide ((bitmapState D w stride ((w + 7) / 8) r p j).count < w) = true := by
  simp only [bitmapState, decide_eq_true_eq]
  omega

theorem bitmap_run_header (n : Nat) (h2 : 2 ≤ n) (h128 : n ≤ 128) :
    257 - n > 128 ∧ u32 (256 - (257 - n) + 1) = n := by
  unfold u32
  omega

theorem bitmap_literal_header (k : Nat) (h1 : 1 ≤ k) (h128 : k ≤ 128) :
    ¬ k - 1 > 128 ∧ k - 1 < 128 ∧ u32 (k - 1 + 1) = k := by
  unfold u32
  omega

/-- The row loop of `ProcessBitmapRLE` on a stream of literal, run and no-op packets that
expands to the rest of the row's bytes: it stores the rest of the row. -/
theorem bitmap_row_packets (buf D pix : List Nat) (w h stride r : Nat) (hr : r < h)
    (hs : w ≤ stride) (hpix : stride * h ≤ pix.length) (h32 : stride * h < 4294967296)
    (ps : List Packet) :
    ∀ (fuel j p : Nat) (tail : List Nat), ps.length ≤ fuel →
      (∀ pk ∈ ps, pk.valid true = true) →
      buf.drop p = encodeRow ps ++ tail →
      j + (expandRow ps).length = (w + 7) / 8 →
      (∀ i, i < (expandRow ps).length →
        (expandRow ps).getD i 0 = D.getD (r * ((w + 7) / 8) + j + i) 0) →
      ∃ p1, ProcessBitmapRLE.row buf buf.length pix w (r * stride) fuel
          (bitmapState D w stride ((w + 7) / 8) r p j) =
        .ok ⟨p1, w, bitmapWrites D w stride ((w + 7) / 8) (r * w + w)⟩ := by
  have hdone : ∀ (fuel j p : Nat), j = (w + 7) / 8 →
      ProcessBitmapRLE.row buf buf.length pix w (r * stride) fuel
          (bitmapState D w stride ((w + 7) / 8) r p j) =
        .ok ⟨p, w, bitmapWrites D w stride ((w + 7) / 8) (r * w + w)⟩ := by
    intro fuel j p hj
    have hm : min (8 * j) w = w := by omega
    cases fuel <;> simp [ProcessBitmapRLE.row, bitmapState, hm]
  induction ps with
  | nil =>
    intro fuel j p tail _ _ _ hcount _
    exact ⟨p, hdone fuel j p (by simpa [expandRow] using hcount)⟩
  | cons pk ps ih =>
    intro fuel j p tail hfuel hvalid hbuf hcount hdata
    rcases Nat.lt_or_ge j ((w + 7) / 8) with hj | hj
    swap
    · rw [expandRow_cons, List.length_append] at hcount
      exact ⟨p, hdone fuel j p (by omega)⟩
    obtain ⟨fuel, rfl⟩ : ∃ f, fuel = f + 1 := ⟨fuel - 1, by simp at hfuel; omega⟩
    have hpk := hvalid pk (List.mem_cons_self _ _)
    have hps : ∀ q ∈ ps, q.valid true = true := fun q hq => hvalid q (List.mem_cons_of_mem _ hq)
    have hcnt : (bitmapState D w stride ((w + 7) / 8) r p j).count < w := by
      simp only [bitmapState]; omega
    rw [encodeRow_cons, List.append_assoc] at hbuf
    rw [expandRow_cons, List.length_append] at hcount
    rw [expandRow_cons] at hdata
    cases pk with
    | noop =>
      simp only [Packet.encode] at hbuf
      simp only [Packet.expand, List.length_nil, Nat.zero_add, List.nil_append] at hcount hdata
      obtain ⟨hp0, hl0⟩ := load_of_drop buf [128] _ p 0 hbuf (by simp)
      have hrest := drop_of_drop buf [128] _ p hbuf
      simp only [Nat.add_zero, List.getD_cons_zero, List.length_cons, List.length_nil,
        Nat.zero_add] at hl0 hrest hp0
      obtain ⟨p1, h1⟩ := ih fuel j (p + 1) tail (by simp at hfuel; omega) hps hrest hcount hdata
      refine ⟨p1, ?_⟩
      rw [ProcessBitmapRLE.row, if_pos hcnt]
      have e : (bitmapState D w stride ((w + 7) / 8) r p j).p = p := rfl
      rw [e, if_neg (by omega), hl0]
      simp only []
      rw [if_neg (by decide), if_neg (by decide)]
      exact h1
    | run n value =>
      simp only [Packet.valid, decide_eq_true_eq] at hpk
      obtain ⟨hgt, hc⟩ := bitmap_run_header n hpk.1 hpk.2
      simp only [Packet.expand, List.length_replicate] at hcount hdata
      simp only [Packet.encode] at hbuf
      obtain ⟨hp0, hl0⟩ := load_of_drop buf [257 - n, value] _ p 0 hbuf (by simp)
      obtain ⟨hp1, hl1⟩ := load_of_drop buf [257 - n, value] _ p 1 hbuf (by simp)
      have hrest := drop_of_drop buf [257 - n, value] _ p hbuf
      simp only [Nat.add_zero, List.getD_cons_zero, List.getD_cons_succ, List.length_cons,
        List.length_nil, Nat.zero_add] at hl0 hl1 hrest hp0
      have hloop := forWhile_eq_all (fun (s : BitDec) => decide (s.count < w))
        (fun _ s => ProcessBitmapRLE.bits pix w (r * stride) value s)
        (fun i => bitmapState D w stride ((w + 7) / 8) r (p + 2) (j + i)) n 0
        (fun i _ hi => bitmapState_cond D w stride r (p + 2) (j + i) (by omega))
        (fun i _ hi => by
          have hv : value = D.getD (r * ((w + 7) / 8) + (j + i)) 0 := by
            have := hdata i (by simp; omega)
            rw [List.getD_append _ _ _ _ (by simp; omega),
              getD_replicate_lt n value i (by omega)] at this
            rw [← Nat.add_assoc]
            exact this
          have := bits_state D pix w h stride r (j + i) (p + 2) hr hs hpix h32 (by omega)
          simp only []
          rw [hv, this]
          rfl)
      obtain ⟨p1, h1⟩ := ih fuel (j + n) (p + 2) tail (by simp at hfuel; omega) hps hrest
        (by omega)
        (fun i hi => by
          have := hdata (n + i) (by simp; omega)
          rw [List.getD_append_right _ _ _ _ (by simp)] at this
          simp only [List.length_replicate, Nat.add_sub_cancel_left] at this
          rw [this]
          congr 1
          omega)
      refine ⟨p1, ?_⟩
      rw [ProcessBitmapRLE.row, if_pos hcnt]
      have e : (bitmapState D w stride ((w + 7) / 8) r p j).p = p := rfl
      rw [e, if_neg (by omega), hl0]
      simp only []
      rw [if_pos hgt, if_neg (by omega), hl1]
      simp only [hc]
      simp only [Nat.add_zero, Nat.zero_add] at hloop
      have e2 : (⟨p + 2, (bitmapState D w stride ((w + 7) / 8) r p j).count,
          (bitmapState D w stride ((w + 7) / 8) r p j).writes⟩ : BitDec) =
          bitmapState D w stride ((w + 7) / 8) r (p + 2) j := rfl
      rw [e2, hloop]
      exact h1
    | literal bytes =>
      simp only [Packet.valid, decide_eq_true_eq] at hpk
      obtain ⟨hngt, hlt, hc⟩ := bitmap_literal_header bytes.length hpk.1 hpk.2
      simp only [Packet.expand] at hcount hdata
      simp only [Packet.encode] at hbuf
      obtain ⟨hp0, hl0⟩ := load_of_drop buf ((bytes.length - 1) :: bytes) _ p 0 hbuf (by simp)
      have hrest := drop_of_drop buf ((bytes.length - 1) :: bytes) _ p hbuf
      simp only [Nat.add_zero, List.getD_cons_zero, List.length_cons] at hl0 hrest hp0
      have hloop := forWhile_eq_all (fun (s : BitDec) => decide (s.count < w))
        (fun _ s => ProcessBitmapRLE.literalByte buf buf.length pix w (r * stride) s)
        (fun i => bitmapState D w stride ((w + 7) / 8) r (p + 1 + i) (j + i)) bytes.length 0
        (fun i _ hi => bitmapState_cond D w stride r (p + 1 + i) (j + i) (by omega))
        (fun i _ hi => by
          obtain ⟨hpi, hli⟩ := load_of_drop buf ((bytes.length - 1) :: bytes) _ p (i + 1) hbuf
            (by simp; omega)
          simp only [List.getD_cons_succ] at hli
          have hv : bytes.getD i 0 = D.getD (r * ((w + 7) / 8) + (j + i)) 0 := by
            have := hdata i (by simp; omega)
            rw [List.getD_append _ _ _ _ (by omega)] at this
            rw [← Nat.add_assoc]
            exact this
          have := bits_state D pix w h stride r (j + i) (p + 1 + i + 1) hr hs hpix h32 (by omega)
          have e : p + 1 + i = p + (i + 1) := by omega
          have ep : (bitmapState D w stride ((w + 7) / 8) r (p + 1 + i) (j + i)).p =
            p + (i + 1) := by simp only [bitmapState]; omega
          simp only [ProcessBitmapRLE.literalByte]
          rw [ep, if_neg (by omega), hli]
          simp only []
          rw [hv]
          have e3 : (⟨p + (i + 1) + 1,
              (bitmapState D w stride ((w + 7) / 8) r (p + 1 + i) (j + i)).count,
              (bitmapState D w stride ((w + 7) / 8) r (p + 1 + i) (j + i)).writes⟩ : BitDec) =
              bitmapState D w stride ((w + 7) / 8) r (p + 1 + i + 1) (j + i) := by
            simp only [bitmapState, BitDec.mk.injEq, and_true]
            omega
          rw [e3, this]
          rfl)
      obtain ⟨p1, h1⟩ := ih fuel (j + bytes.length) (p + 1 + bytes.length) tail
        (by simp at hfuel; omega) hps (by rw [← hrest]; congr 1; omega) (by omega)
        (fun i hi => by
          have := hdata (bytes.length + i) (by simp; omega)
          rw [List.getD_append_right _ _ _ _ (by simp)] at this
          simp only [Nat.add_sub_cancel_left] at this
          rw [this]
          congr 1
          omega)
      refine ⟨p1, ?_⟩
      rw [ProcessBitmapRLE.row, if_pos hcnt]
      have e : (bitmapState D w stride ((w + 7) / 8) r p j).p = p := rfl
      rw [e, if_neg (by omega), hl0]
      simp only []
      rw [if_neg hngt, if_pos hlt]
      simp only [hc]
      simp only [Nat.add_zero, Nat.zero_add] at hloop
      have e2 : (⟨p + 1, (bitmapState D w stride ((w + 7) / 8) r p j).count,
          (bitmapState D w stride ((w + 7) / 8) r p j).writes⟩ : BitDec) =
          bitmapState D w stride ((w + 7) / 8) r (p + 1) j := rfl
      rw [e2, hloop]
      exact h1

end PsdReader


namespace PsdReader

/-! ## `ProcessBitmapRLE`: all rows -/

/-- One row of `ProcessBitmapRLE` on a buffer made of the byte-count table, the encoded rows
and anything behind them: row `r` is stored and the stream offset moves to the next row. -/
theorem bitmapRLE_rowStep (D pix : List Nat) (rows : List (List Packet)) (lens rest : List Nat)
    (w h stride v r : Nat)
    (hr : r < h) (hv : v = 1 ∨ v = 2) (hstride : w ≤ stride)
    (hpix : pix.length = stride * h) (h32 : stride * h < 4294967296)
    (hD : D.length = h * ((w + 7) / 8)) (hrows : rows.length = h)
    (hvalid : ∀ ps ∈ rows, ∀ pk ∈ ps, Packet.valid true pk = true)
    (hexp : ∀ k, k < h →
      expandRow (rows.getD k []) = (D.drop (k * ((w + 7) / 8))).take ((w + 7) / 8))
    (hlens : lens.length = h)
    (hlen : ∀ k, k < h → lens.getD k 0 = (encodeRow (rows.getD k [])).length)
    (hfit : ∀ k, k < h → lens.getD k 0 < 2 ^ (16 * v))
    (hsize : (byteCountTable v lens ++ (rows.map encodeRow).flatten ++ rest).length <
      4294967296) :
    ProcessBitmapRLE.rowStep (byteCountTable v lens ++ (rows.map encodeRow).flatten ++ rest)
        (byteCountTable v lens ++ (rows.map encodeRow).flatten ++ rest).length pix w stride v r
        ⟨(byteCountTable v lens).length + streamStart rows r,
          bitmapWrites D w stride ((w + 7) / 8) (r * w)⟩ =
      .ok ⟨(byteCountTable v lens).length + streamStart rows (r + 1),
          bitmapWrites D w stride ((w + 7) / 8) ((r + 1) * w)⟩ := by
  have hkl : r < lens.length := by rw [hlens]; exact hr
  have hkrows : r < rows.length := by rw [hrows]; exact hr
  have hrow2 := mul_succ_le r h stride hr
  have e2 : stride * h = h * stride := Nat.mul_comm _ _
  have hpRow : u32 (r * stride) = r * stride := u32_of_lt (by omega)
  obtain ⟨srest, hstream⟩ := stream_drop rows r hkrows
  have hbuf : (byteCountTable v lens ++ (rows.map encodeRow).flatten ++ rest).drop
      ((byteCountTable v lens).length + streamStart rows r) =
      encodeRow (rows.getD r []) ++ (srest ++ rest) := by
    rw [List.append_assoc, List.drop_append,
      List.drop_append_of_le_length (streamStart_le rows _), hstream, List.append_assoc]
  have hkD : (r + 1) * ((w + 7) / 8) ≤ D.length := by
    rw [hD]
    exact Nat.mul_le_mul_right _ hr
  obtain ⟨hexplen, hexpdata⟩ := expand_row_data D _ ((w + 7) / 8) r (hexp _ hr) hkD
  have hmem : rows.getD r [] ∈ rows := by
    rw [List.getD_eq_getElem?_getD, List.getElem?_eq_getElem hkrows]
    exact List.getElem_mem hkrows
  have h2 : (encodeRow (rows.getD r []) ++ (srest ++ rest)).length ≤
      (byteCountTable v lens ++ (rows.map encodeRow).flatten ++ rest).length := by
    rw [← hbuf, List.length_drop]
    omega
  rw [List.length_append] at h2
  have hfuel : (rows.getD r []).length ≤
      (byteCountTable v lens ++ (rows.map encodeRow).flatten ++ rest).length + 1 := by
    have h1 := length_le_encodeRow (rows.getD r [])
    omega
  obtain ⟨p1, hrow⟩ := bitmap_row_packets
    (byteCountTable v lens ++ (rows.map encodeRow).flatten ++ rest) D pix w h stride r hr hstride
    (by omega) h32 (rows.getD r []) _ 0
    ((byteCountTable v lens).length + streamStart rows r) (srest ++ rest) hfuel
    (hvalid _ hmem) hbuf (by omega) (fun i hi => by rw [hexpdata i hi]; simp)
  have hinit : bitmapState D w stride ((w + 7) / 8) r
      ((byteCountTable v lens).length + streamStart rows r) 0 =
      ⟨(byteCountTable v lens).length + streamStart rows r, 0,
        bitmapWrites D w stride ((w + 7) / 8) (r * w)⟩ := by
    simp [bitmapState]
  rw [hinit] at hrow
  obtain ⟨trest, htable⟩ := table_drop v lens ((rows.map encodeRow).flatten ++ rest) r hkl
  rw [← List.append_assoc] at htable
  have hentry : lens.getD r 0 = (encodeRow (rows.getD r [])).length := hlen _ hr
  have hnext := streamStart_succ rows r hkrows
  have htlen := byteCountTable_length v lens
  simp only [List.length_append] at hsize
  have hkv : r * (2 * v) < lens.length * (2 * v) := Nat.mul_lt_mul_of_pos_right hkl (by omega)
  have e3 : (r + 1) * w = r * w + w := by ring
  unfold ProcessBitmapRLE.rowStep
  simp only []
  rw [hpRow, hrow]
  simp only []
  rcases hv with rfl | rfl
  · rw [if_neg (by decide), u32_of_lt (show r * 2 < 4294967296 by omega)]
    have e : r * 2 = 2 * 1 * r := by ring
    rw [e, loadSwap16_of_drop _ trest _ _ (hfit _ hr) htable]
    simp only [Except.ok.injEq, RowDec.mk.injEq]
    rw [hentry, hnext, e3]
    exact ⟨by omega, rfl⟩
  · rw [if_pos rfl, u32_of_lt (show r * 4 < 4294967296 by omega)]
    have e : r * 4 = 2 * 2 * r := by ring
    rw [e, loadBE32_of_drop _ trest _ _ (by have := hfit _ hr; simpa using this) htable]
    simp only [Except.ok.injEq, RowDec.mk.injEq]
    rw [hentry, hnext, e3]
    exact ⟨by omega, rfl⟩

/-- C5: bitmap RLE agrees with bitmap uncompressed. For version 1 or 2 and raw 1-bit data `D` of
`h * ceil(w/8)` bytes whose rows are each encoded as a sequence of literal, run and no-op
packets expanding to that row's `ceil(w/8)` bytes: on the buffer made of the byte-count table of
`h` big-endian entries (16 bits for version 1, 32 bits for version 2) holding the lengths of the
encoded rows, followed by the encoded rows (and anything behind them), `ProcessBitmapRLE`
succeeds with the very stores of `ProcessBitmapUncompressed` on `D`. The buffer size fits an
`unsigned int`; the pixel buffer is as for C2. -/
theorem ProcessBitmapRLE_eq_uncompressed (D pPixelData : List Nat) (rows : List (List Packet))
    (lens rest : List Nat) (w h stride v nCompressionMethod : Nat)
    (hv : v = 1 ∨ v = 2) (hstride : w ≤ stride)
    (hpix : pPixelData.length = stride * h) (h32 : stride * h < 4294967296)
    (hD : D.length = h * ((w + 7) / 8)) (hrows : rows.length = h)
    (hvalid : ∀ ps ∈ rows, ∀ pk ∈ ps, Packet.valid true pk = true)
    (hexp : ∀ k, k < h →
      expandRow (rows.getD k []) = (D.drop (k * ((w + 7) / 8))).take ((w + 7) / 8))
    (hlens : lens.length = h)
    (hlen : ∀ k, k < h → lens.getD k 0 = (encodeRow (rows.getD k [])).length)
    (hfit : ∀ k, k < h → lens.getD k 0 < 2 ^ (16 * v))
    (hsize : (byteCountTable v lens ++ (rows.map encodeRow).flatten ++ rest).length <
      4294967296) :
    ∃ writes,
      ProcessBitmapRLE (byteCountTable v lens ++ (rows.map encodeRow).flatten ++ rest)
        (byteCountTable v lens ++ (rows.map encodeRow).flatten ++ rest).length pPixelData
        w h stride nCompressionMethod v = .ok writes ∧
      ProcessBitmapUncompressed D D.length pPixelData w h stride nCompressionMethod v =
        .ok writes := by
  refine ⟨bitmapWrites D w stride ((w + 7) / 8) (h * w), ?_,
    bitmapUncompressed_writes D pPixelData D.length w h stride nCompressionMethod v hstride
      (by rw [hD, Nat.mul_comm]) (le_refl _) (by omega) h32⟩
  have loop := forLoop_eq (fun row st => ProcessBitmapRLE.rowStep
        (byteCountTable v lens ++ (rows.map encodeRow).flatten ++ rest)
        (byteCountTable v lens ++ (rows.map encodeRow).flatten ++ rest).length pPixelData w
        stride v row st)
    (fun r => (⟨(byteCountTable v lens).length + streamStart rows r,
        bitmapWrites D w stride ((w + 7) / 8) (r * w)⟩ : RowDec)) h 0
    (fun r _ hr => bitmapRLE_rowStep D pPixelData rows lens rest w h stride v r (by omega) hv
      hstride hpix h32 hD hrows hvalid hexp hlens hlen hfit hsize)
  have htlen := byteCountTable_length v lens
  have hT : (if v = 2 then u32 (h * 4) else u32 (h * 2)) = (byteCountTable v lens).length := by
    simp only [List.length_append] at hsize
    rw [htlen, hlens]
    rcases hv with rfl | rfl
    · rw [if_neg (by decide)]
      exact u32_of_lt (by omega)
    · rw [if_pos rfl]
      exact u32_of_lt (by omega)
  unfold ProcessBitmapRLE
  simp only []
  rw [hT]
  have e0 : (⟨(byteCountTable v lens).length, []⟩ : RowDec) =
      ⟨(byteCountTable v lens).length + streamStart rows 0,
        bitmapWrites D w stride ((w + 7) / 8) (0 * w)⟩ := by
    simp [streamStart, bitmapWrites]
  rw [e0, loop]
  simp

/-- C5 on a 12x2 bitmap whose rows are encoded as a run of two bytes, and a no-op followed by
a literal of two bytes: the hypotheses hold, and the two decoders perform the same stores. -/
theorem ProcessBitmapRLE_eq_uncompressed_witness :
    ((1 = 1 ∨ 1 = 2) ∧ 12 ≤ 12 ∧ (List.replicate 24 0).length = 12 * 2 ∧
      12 * 2 < 4294967296 ∧ demoBits.length = 2 * ((12 + 7) / 8) ∧ demoBitRows.length = 2 ∧
      (∀ ps ∈ demoBitRows, ∀ pk ∈ ps, Packet.valid true pk = true) ∧
      (∀ k, k < 2 → expandRow (demoBitRows.getD k []) =
        (demoBits.drop (k * ((12 + 7) / 8))).take ((12 + 7) / 8)) ∧
      [2, 4].length = 2 ∧
      (∀ k, k < 2 → [2, 4].getD k 0 = (encodeRow (demoBitRows.getD k [])).length) ∧
      (∀ k, k < 2 → [2, 4].getD k 0 < 2 ^ (16 * 1)) ∧
      (byteCountTable 1 [2, 4] ++ (demoBitRows.map encodeRow).flatten ++ []).length <
        4294967296) ∧
    (∃ writes,
      ProcessBitmapRLE (byteCountTable 1 [2, 4] ++ (demoBitRows.map encodeRow).flatten ++ [])
        (byteCountTable 1 [2, 4] ++ (demoBitRows.map encodeRow).flatten ++ []).length
        (List.replicate 24 0) 12 2 12 1 1 = .ok writes ∧
      ProcessBitmapUncompressed demoBits demoBits.length (List.replicate 24 0) 12 2 12 1 1 =
        .ok writes) ∧
    byteCountTable 1 [2, 4] ++ (demoBitRows.map encodeRow).flatten ++ [] =
      [0, 2, 0, 4, 255, 160, 128, 1, 255, 1] :=
  ⟨by decide,
    ProcessBitmapRLE_eq_uncompressed demoBits (List.replicate 24 0) demoBitRows [2, 4] [] 12 2 12
      1 1 (by decide) (by decide) (by decide) (by decide) (by decide) (by decide) (by decide)
      (by decide) (by decide) (by decide) (by decide) (by decide),
    by decide⟩

end PsdReader


namespace PsdReader

/-! ## The stages of `ReadImage.sections` -/

/-- The function `ReadImage.sections` is the sequence of its three stages. -/
theorem sections_stages (env : Env) (fuel : Nat) (file : List Nat) (h : Header) :
    ReadImage.sections env fuel file h =
      (ReadImage.resources env fuel file h).bind fun scan =>
        (ReadImage.layers file h scan.1 scan.2.1).bind fun lay =>
          (ReadImage.imageData env file h lay.2).bind fun img =>
            .ok ⟨scan.2.2.pEXIFData, scan.2.2.pICCProfile, scan.2.2.nICCProfileSize,
              scan.2.2.bUseAlpha && decide (lay.1 ≤ 0), img.1, img.2.1, img.2.2⟩ := by
  simp only [ReadImage.sections, ReadImage.resources, ReadImage.layers, ReadImage.imageData, bind,
    pure, Except.pure, throw, throwThe, MonadExceptOf.throw]
  cases ReadUIntFromFile file h.pos with
  | error e => rfl
  | ok a1 =>
    obtain ⟨cds, p1⟩ := a1
    simp only [ok_bind]
    cases SeekFile p1 (toLONG cds) with
    | error e => rfl
    | ok p2 =>
      simp only [ok_bind]
      cases ReadUIntFromFile file p2 with
      | error e => rfl
      | ok a3 =>
        obtain ⟨rss, p3⟩ := a3
        simp only [ok_bind]
        cases ParseImageResources env file h.nColorMode fuel
            ⟨p3, none, none, 0, decide (h.nChannels = 4)⟩ with
        | error e => rfl
        | ok res =>
          simp only [ok_bind]
          cases SeekFileFromStart (toLONG (PSD_HEADER_SIZE + 4 + cds + 4 + rss)) with
          | error e => rfl
          | ok p4 =>
            simp only [ok_bind]
            cases (if h.nVersion = 2 then ReadUInt64FromFile file p4
                else ReadUIntFromFile file p4) with
            | error e => rfl
            | ok a5 =>
              obtain ⟨nLayerSize, p5⟩ := a5
              simp only [ok_bind]
              cases SeekFile p5 ((u8 (4 * h.nVersion) : Nat) : Int) with
              | error e => rfl
              | ok p6 =>
                simp only [ok_bind]
                cases ReadUShortFromFile file p6 with
                | error e => rfl
                | ok a7 =>
                  obtain ⟨layerCount, p7⟩ := a7
                  simp only [ok_bind]
                  cases SeekFile p7
                      (toLONG (nLayerSize + 18446744073709551616 - 2 - u8 (4 * h.nVersion))) with
                  | error e => rfl
                  | ok p8 =>
                    simp only [ok_bind]
                    cases ReadUShortFromFile file p8 with
                    | error e => rfl
                    | ok a9 =>
                      obtain ⟨m, p9⟩ := a9
                      simp only [ok_bind]
                      by_cases hm : m ≠ COMPRESSION_RLE ∧ m ≠ COMPRESSION_None
                      · rw [if_pos hm, if_pos hm]
                        rfl
                      · rw [if_neg hm, if_neg hm]
                        cases TellFile p9 with
                        | error e => rfl
                        | ok tell =>
                          simp only [ok_bind]
                          cases env.allocOk (u32 (h.nFileSize + 4294967296 - tell)) with
                          | false => rfl
                          | true =>
                            simp only [not_true_eq_false, if_false]
                            cases ReadFromFile file p9 (u32 (h.nFileSize + 4294967296 - tell)) with
                            | error e => rfl
                            | ok a10 => rfl

/-! ## The signature is skipped -/

theorem drop_patch (sig file : List Nat) (pos : Nat) (hs : sig.length = 4) (hp : 4 ≤ pos) :
    (sig ++ file.drop 4).drop pos = file.drop pos := by
  obtain ⟨k, rfl⟩ : ∃ k, pos = 4 + k := ⟨pos - 4, by omega⟩
  rw [← hs, List.drop_append, hs, List.drop_drop]

theorem length_patch (sig file : List Nat) (hs : sig.length = 4) (hf : 4 ≤ file.length) :
    (sig ++ file.drop 4).length = file.length := by
  simp only [List.length_append, List.length_drop]
  omega

theorem field_patch (sig file : List Nat) (pos n : Nat) (hs : sig.length = 4) (hp : 4 ≤ pos) :
    field (sig ++ file.drop 4) pos n = field file pos n := by
  unfold field
  rw [drop_patch sig file pos hs hp]

/-- A header that `ReadImage` accepts has six zero bytes at the offsets 6 to 11. -/
theorem header_reserved (env : Env) (file : List Nat) (b : Bool) (h : Header)
    (hh : ReadImage.header env file b = .ok h) :
    (file.drop 6).take 6 = [0, 0, 0, 0, 0, 0] := by
  simp only [ReadImage.header, bind, pure, Except.pure, throw, throwThe,
    MonadExceptOf.throw, SeekFile_zero_four, ReadUShortFromFile_eq, ReadUIntFromFile_eq,
    ReadFromFile_eq, bind_ite_ok, ok_bind, error_bind] at hh
  simp only [ite_error_eq_ok, ite_eq_ok_error, Nat.reduceAdd, Except.ok.injEq] at hh
  obtain ⟨c1, c2, c3, c4, c5, _⟩ := hh
  simpa using c5

/-- C11, amended: `ReadImage` does not compare the first four bytes of the file with `8BPS`; it
skips them. The header stage (version, reserved bytes, channel count, dimensions, depth, colour
mode and the checks on them) gives the same result whatever these four bytes are. -/
theorem ReadImage_skips_signature (env : Env) (file sig : List Nat) (bOutOfMemory : Bool)
    (hs : sig.length = 4) (hf : 4 ≤ file.length) :
    ReadImage.header env (sig ++ file.drop 4) bOutOfMemory =
      ReadImage.header env file bOutOfMemory := by
  simp only [ReadImage.header, bind, pure, Except.pure, throw, throwThe,
    MonadExceptOf.throw, SeekFile_zero_four, ReadUShortFromFile_eq, ReadUIntFromFile_eq,
    ReadFromFile_eq, bind_ite_ok, ok_bind, error_bind, Nat.reduceAdd,
    length_patch sig file hs hf, field_patch sig file _ _ hs (by omega : 4 ≤ 4),
    field_patch sig file _ _ hs (by omega : 4 ≤ 12), field_patch sig file _ _ hs (by omega : 4 ≤ 14),
    field_patch sig file _ _ hs (by omega : 4 ≤ 18), field_patch sig file _ _ hs (by omega : 4 ≤ 22),
    field_patch sig file _ _ hs (by omega : 4 ≤ 24), drop_patch sig file 6 hs (by omega)]

/-- C11 as stated fails: the first four bytes of the file are `XXXX`, and `ReadImage` returns
the 4x1 image of its bitmap data. -/
theorem ReadImage_accepts_unsigned :
    unsignedFile.take 4 ≠ [0x38, 0x42, 0x50, 0x53] ∧
    ReadImage refEnv 1 unsignedFile false =
      .ok (some ⟨⟨4, 1, [0, 255, 0, 255], none, 1⟩, 4⟩, false) := by
  decide

/-- The statement of C11 (amended) on the file `unsignedFile` and the signature `8BPS`. -/
theorem ReadImage_skips_signature_witness :
    ([0x38, 0x42, 0x50, 0x53] : List Nat).length = 4 ∧ 4 ≤ unsignedFile.length ∧
    ReadImage.header refEnv ([0x38, 0x42, 0x50, 0x53] ++ unsignedFile.drop 4) false =
      ReadImage.header refEnv unsignedFile false :=
  ⟨by decide, by decide, ReadImage_skips_signature refEnv unsignedFile [0x38, 0x42, 0x50, 0x53]
    false (by decide) (by decide)⟩

/-! ## Rejected headers and compression methods -/

/-- A sections stage that throws makes `ReadImage` return no image and leave the flag. -/
theorem ReadImage_of_sections_thrown (env : Env) (fuel : Nat) (file : List Nat) (oom : Bool)
    (hdr : Header) (hh : ReadImage.header env file oom = .ok hdr)
    (hs : ReadImage.sections env fuel file hdr = .error .thrown) :
    ReadImage env fuel file oom = .ok (none, oom) := by
  have hb : ReadImage.body env fuel file oom = .error .thrown := by
    simp only [ReadImage.body, bind, hh, ok_bind, hs, error_bind]
  unfold ReadImage
  rw [hb]

/-- The image-data stage throws on a compression method other than 0 and 1. -/
theorem imageData_unsupported (env : Env) (file : List Nat) (hdr : Header) (pos : Nat)
    (hm : field file pos 2 ≠ COMPRESSION_None ∧ field file pos 2 ≠ COMPRESSION_RLE) :
    ReadImage.imageData env file hdr pos = .error .thrown := by
  simp only [ReadImage.imageData, bind, pure, Except.pure, throw, throwThe,
    MonadExceptOf.throw, ReadUShortFromFile_eq]
  by_cases h2 : 2 ≤ file.length - pos
  · rw [if_pos h2, ok_bind, if_pos ⟨hm.2, hm.1⟩]
  · rw [if_neg h2, error_bind]

theorem getD_take_drop (file : List Nat) (off n i : Nat) (hi : i < n) :
    ((file.drop off).take n).getD i 0 = file.getD (off + i) 0 := by
  rw [List.getD_eq_getElem?_getD, List.getD_eq_getElem?_getD, List.getElem?_take_of_lt hi,
    List.getElem?_drop]

/-- C12: `ReadImage` returns no image when the version field is not 1 or 2, when one of the six
reserved bytes is not zero, when the depth field is not 1, 8 or 16, and when the compression
method it reads behind the layer and mask section is not 0 or 1; the ZIP methods 2 and 3 are
rejected in a file that decodes with the method 0. -/
theorem ReadImage_rejects_unsupported (env : Env) (fuel : Nat) (file : List Nat)
    (bOutOfMemory : Bool) :
    (field file 4 2 ≠ 1 ∧ field file 4 2 ≠ 2 →
      ∃ b, ReadImage env fuel file bOutOfMemory = .ok (none, b)) ∧
    ((∃ i, i < 6 ∧ file.getD (6 + i) 0 ≠ 0) →
      ∃ b, ReadImage env fuel file bOutOfMemory = .ok (none, b)) ∧
    (field file 22 2 ≠ 1 ∧ field file 22 2 ≠ 8 ∧ field file 22 2 ≠ 16 →
      ∃ b, ReadImage env fuel file bOutOfMemory = .ok (none, b)) ∧
    (∀ hdr scan lay, ReadImage.header env file bOutOfMemory = .ok hdr →
      ReadImage.resources env fuel file hdr = .ok scan →
      ReadImage.layers file hdr scan.1 scan.2.1 = .ok lay →
      field file lay.2 2 ≠ COMPRESSION_None ∧ field file lay.2 2 ≠ COMPRESSION_RLE →
      ReadImage env fuel file bOutOfMemory = .ok (none, bOutOfMemory)) ∧
    ReadImage refEnv 1 (compressedFile 2) false = .ok (none, false) ∧
    ReadImage refEnv 1 (compressedFile 3) false = .ok (none, false) ∧
    ReadImage refEnv 1 (compressedFile 0) false =
      .ok (some ⟨⟨1, 1, [7, 0, 0, 0], none, 1⟩, 4⟩, false) := by
  have hdrCase : ∀ (P : Prop), (∀ hdr, ReadImage.header env file bOutOfMemory = .ok hdr → ¬ P) →
      P → ∃ b, ReadImage env fuel file bOutOfMemory = .ok (none, b) := by
    intro P hP hp
    cases hh : ReadImage.header env file bOutOfMemory with
    | error e => exact ReadImage_of_header_error env fuel file bOutOfMemory e hh
    | ok hdr => exact absurd hp (hP hdr hh)
  have stage : ∀ (f : List Nat) (oom : Bool) hdr scan lay,
      ReadImage.header env f oom = .ok hdr →
      ReadImage.resources env fuel f hdr = .ok scan →
      ReadImage.layers f hdr scan.1 scan.2.1 = .ok lay →
      field f lay.2 2 ≠ COMPRESSION_None ∧ field f lay.2 2 ≠ COMPRESSION_RLE →
      ReadImage env fuel f oom = .ok (none, oom) := by
    intro f oom hdr scan lay hh hr hl hm
    apply ReadImage_of_sections_thrown env fuel f oom hdr hh
    rw [sections_stages, hr, Except.bind, hl]
    simp only [Except.bind, imageData_unsupported env f hdr lay.2 hm]
  refine ⟨hdrCase _ ?_, hdrCase _ ?_, hdrCase _ ?_, stage file bOutOfMemory, ?_, ?_, ?_⟩
  · intro hdr hh hv
    have hi := header_inv env file bOutOfMemory hdr hh
    have h2 := hi.2.1
    have h12 := hi.2.2.2.2.2.2.2.2.2.2.2.1
    omega
  · intro hdr hh hr
    obtain ⟨i, hi6, hne⟩ := hr
    have hres := header_reserved env file bOutOfMemory hdr hh
    have := getD_take_drop file 6 6 i hi6
    rw [hres] at this
    apply hne
    rw [← this]
    have h6 : i = 0 ∨ i = 1 ∨ i = 2 ∨ i = 3 ∨ i = 4 ∨ i = 5 := by omega
    rcases h6 with rfl | rfl | rfl | rfl | rfl | rfl <;> rfl
  · intro hdr hh hv
    have hi := header_inv env file bOutOfMemory hdr hh
    have h2 := hi.2.2.2.2.2.1
    have h12 := hi.2.2.2.2.2.2.2.2.2.2.2.2.1
    omega
  · decide
  · decide
  · decide

end PsdReader


namespace PsdReader

/-! ## `ProcessRLEData`, 8-bit: a row whose stream ends early -/

/-- The store of a sample inside the row succeeds, whatever was stored before. -/
theorem put_ok (pix : List Nat) (w h N stride rch row x value : Nat) (ws : List (Nat × Nat))
    (hx : x < w) (hw32 : w < 4294967296)
    (hlim : ∀ x, x < w → u32 (row * stride) + u32 (x * N) + rch < u32 (stride * h))
    (hin : ∀ x, x < w → u32 (row * stride) + u32 (x * N) + rch < pix.length) :
    ∃ ws1, ProcessRLEData.put pix h N stride rch row x value ws = .ok ws1 := by
  unfold ProcessRLEData.put
  simp only []
  rw [u32_of_lt (show x < 4294967296 by omega), if_neg (by have := hlim x hx; omega),
    store_ok pix _ _ _ (hin x hx)]
  exact ⟨_, rfl⟩

/-- The run loop inside the row succeeds and leaves the read pointer. -/
theorem runStore_loop (pix : List Nat) (w h N stride rch row count value : Nat)
    (hw32 : w < 4294967296)
    (hlim : ∀ x, x < w → u32 (row * stride) + u32 (x * N) + rch < u32 (stride * h))
    (hin : ∀ x, x < w → u32 (row * stride) + u32 (x * N) + rch < pix.length) (p : Nat) :
    ∀ (n i : Nat) (ws : List (Nat × Nat)), count + i + n ≤ w →
      ∃ ws1, forLoop (fun i s => ProcessRLEData.runStore pix h N stride rch row count value i s)
        n i ⟨p, ws⟩ = .ok ⟨p, ws1⟩ := by
  intro n
  induction n with
  | zero => intro i ws _; exact ⟨ws, rfl⟩
  | succ n ih =>
    intro i ws hle
    obtain ⟨ws1, h1⟩ := put_ok pix w h N stride rch row (count + i) value ws (by omega) hw32
      hlim hin
    obtain ⟨ws2, h2⟩ := ih (i + 1) ws1 (by omega)
    refine ⟨ws2, ?_⟩
    rw [forLoop]
    simp only [ProcessRLEData.runStore, h1]
    exact h2

/-- One step of the literal loop with its byte in the buffer. -/
theorem literalStore8_step (buf pix : List Nat) (h N stride rch row count i p : Nat)
    (ws ws1 : List (Nat × Nat)) (hp : p < buf.length)
    (h1 : ProcessRLEData.put pix h N stride rch row (count + i) (buf.getD p 0) ws = .ok ws1) :
    ProcessRLEData.literalStore8 buf buf.length pix h N stride rch row count i ⟨p, ws⟩ =
      .ok ⟨p + 1, ws1⟩ := by
  simp only [ProcessRLEData.literalStore8]
  rw [if_neg (by omega), load_ok buf p hp]
  simp only [h1]

/-- One step of the literal loop behind the end of the buffer. -/
theorem literalStore8_end (buf pix : List Nat) (h N stride rch row count i p : Nat)
    (ws : List (Nat × Nat)) (hp : buf.length ≤ p) :
    ProcessRLEData.literalStore8 buf buf.length pix h N stride rch row count i ⟨p, ws⟩ =
      .error .thrown := by
  simp only [ProcessRLEData.literalStore8]
  rw [if_pos (by omega)]

/-- The literal loop inside the row, with all its bytes in the buffer, succeeds and advances the
read pointer by their number. -/
theorem literal8_loop (buf pix : List Nat) (w h N stride rch row count : Nat)
    (hw32 : w < 4294967296)
    (hlim : ∀ x, x < w → u32 (row * stride) + u32 (x * N) + rch < u32 (stride * h))
    (hin : ∀ x, x < w → u32 (row * stride) + u32 (x * N) + rch < pix.length) :
    ∀ (n i p : Nat) (ws : List (Nat × Nat)), count + i + n ≤ w → p + n ≤ buf.length →
      ∃ ws1, forLoop (fun i s => ProcessRLEData.literalStore8 buf buf.length pix h N stride rch
        row count i s) n i ⟨p, ws⟩ = .ok ⟨p + n, ws1⟩ := by
  intro n
  induction n with
  | zero => intro i p ws _ _; exact ⟨ws, rfl⟩
  | succ n ih =>
    intro i p ws hle hp
    obtain ⟨ws1, h1⟩ := put_ok pix w h N stride rch row (count + i) (buf.getD p 0) ws
      (by omega) hw32 hlim hin
    obtain ⟨ws2, h2⟩ := ih (i + 1) (p + 1) ws1 (by omega) (by omega)
    refine ⟨ws2, ?_⟩
    rw [forLoop]
    rw [literalStore8_step buf pix h N stride rch row count i p ws ws1 (by omega) h1]
    simp only []
    rw [h2]
    simp only [Except.ok.injEq, Dec.mk.injEq, and_true]
    omega

/-- The literal loop inside the row throws when the buffer ends before its last byte. -/
theorem literal8_short (buf pix : List Nat) (w h N stride rch row count : Nat)
    (hw32 : w < 4294967296)
    (hlim : ∀ x, x < w → u32 (row * stride) + u32 (x * N) + rch < u32 (stride * h))
    (hin : ∀ x, x < w → u32 (row * stride) + u32 (x * N) + rch < pix.length) :
    ∀ (n i p : Nat) (ws : List (Nat × Nat)), count + i + n ≤ w → 0 < n → buf.length < p + n →
      forLoop (fun i s => ProcessRLEData.literalStore8 buf buf.length pix h N stride rch
        row count i s) n i ⟨p, ws⟩ = .error .thrown := by
  intro n
  induction n with
  | zero => intro i p ws _ h0 _; omega
  | succ n ih =>
    intro i p ws hle _ hp
    rw [forLoop]
    by_cases hlt : p < buf.length
    · obtain ⟨ws1, h1⟩ := put_ok pix w h N stride rch row (count + i) (buf.getD p 0) ws
        (by omega) hw32 hlim hin
      rw [literalStore8_step buf pix h N stride rch row count i p ws ws1 hlt h1]
      simp only []
      exact ih (i + 1) (p + 1) ws1 (by omega) (by omega) (by omega)
    · rw [literalStore8_end buf pix h N stride rch row count i p ws (by omega)]

/-! ### A buffer that ends inside a stream -/

theorem trunc_length (buf enc : List Nat) (p k : Nat) (hk : k ≤ enc.length)
    (hbuf : buf.drop p = enc.take k) : buf.length - p = k := by
  have := congrArg List.length hbuf
  rw [List.length_drop, List.length_take] at this
  omega

theorem trunc_load (buf enc1 rest : List Nat) (p k i : Nat)
    (hbuf : buf.drop p = (enc1 ++ rest).take k) (hi : i < k) (hi1 : i < enc1.length) :
    load buf (p + i) = .ok (enc1.getD i 0) := by
  have hx : i < ((enc1 ++ rest).take k).length := by
    rw [List.length_take, List.length_append]
    omega
  have h0 : buf.drop p = (enc1 ++ rest).take k ++ [] := by rw [List.append_nil]; exact hbuf
  rw [(load_of_drop buf _ [] p i h0 hx).2]
  congr 1
  rw [List.getD_eq_getElem?_getD, List.getD_eq_getElem?_getD, List.getElem?_take_of_lt hi,
    List.getElem?_append_left hi1]

theorem trunc_drop (buf enc1 rest : List Nat) (p k : Nat)
    (hbuf : buf.drop p = (enc1 ++ rest).take k) :
    buf.drop (p + enc1.length) = rest.take (k - enc1.length) := by
  rw [← List.drop_drop, hbuf, List.drop_take, List.drop_left]

theorem expand_pos (pk : Packet) (h : pk.valid false = true) : 1 ≤ pk.expand.length := by
  cases pk with
  | noop => simp [Packet.valid] at h
  | run n value =>
    simp only [Packet.valid, decide_eq_true_eq] at h
    simp only [Packet.expand, List.length_replicate]
    omega
  | literal bytes =>
    simp only [Packet.valid, decide_eq_true_eq] at h
    simp only [Packet.expand]
    omega

/-- The row loop of the 8-bit branch throws when the buffer ends before the end of a stream of
literal and run packets that expands to the rest of the row. -/
theorem row8_truncated (buf pix : List Nat) (w h N stride rch row : Nat)
    (hw32 : w < 4294967296)
    (hlim : ∀ x, x < w → u32 (row * stride) + u32 (x * N) + rch < u32 (stride * h))
    (hin : ∀ x, x < w → u32 (row * stride) + u32 (x * N) + rch < pix.length)
    (ps : List Packet) :
    ∀ (fuel count p k : Nat) (ws : List (Nat × Nat)), k < fuel →
      (∀ pk ∈ ps, pk.valid false = true) →
      buf.drop p = (encodeRow ps).take k → k < (encodeRow ps).length →
      count + (expandRow ps).length = w →
      ProcessRLEData.row8 buf buf.length pix w h N stride rch row fuel count ⟨p, ws⟩ =
        .error .thrown := by
  induction ps with
  | nil =>
    intro fuel count p k ws _ _ _ hk _
    simp [encodeRow] at hk
  | cons pk ps ih =>
    intro fuel count p k ws hfuel hvalid hbuf hk hcount
    obtain ⟨fuel, rfl⟩ : ∃ f, fuel = f + 1 := ⟨fuel - 1, by omega⟩
    have hpk := hvalid pk (List.mem_cons_self _ _)
    have hps : ∀ q ∈ ps, q.valid false = true := fun q hq => hvalid q (List.mem_cons_of_mem _ hq)
    have hlen := trunc_length buf _ p k (by omega) hbuf
    have hpos := expand_pos pk hpk
    rw [encodeRow_cons] at hbuf hk
    rw [expandRow_cons, List.length_append] at hcount
    rw [List.length_append] at hk
    rw [ProcessRLEData.row8]
    simp only []
    rw [if_pos (by omega)]
    by_cases hk0 : k = 0
    · rw [if_pos (by omega)]
    rw [if_neg (by omega)]
    cases pk with
    | noop => simp [Packet.valid] at hpk
    | run n value =>
      simp only [Packet.valid, decide_eq_true_eq] at hpk
      obtain ⟨hgt, hc⟩ := run_header n hpk.1 hpk.2
      simp only [Packet.expand, List.length_replicate] at hcount
      simp only [Packet.encode] at hbuf hk
      have hl0 := trunc_load buf [257 - n, value] _ p k 0 hbuf (by omega) (by simp)
      simp only [Nat.add_zero, List.getD_cons_zero] at hl0
      rw [hl0]
      simp only []
      rw [if_pos hgt]
      by_cases hk1 : k = 1
      · rw [if_pos (by omega)]
      rw [if_neg (by omega)]
      have hl1 := trunc_load buf [257 - n, value] _ p k 1 hbuf (by omega) (by simp)
      simp only [List.getD_cons_succ, List.getD_cons_zero] at hl1
      rw [hl1]
      simp only [hc]
      obtain ⟨ws1, hloop⟩ := runStore_loop pix w h N stride rch row count value hw32 hlim hin
        (p + 2) n 0 ws (by omega)
      rw [hloop]
      simp only []
      have hrest := trunc_drop buf [257 - n, value] _ p k hbuf
      simp only [List.length_cons, List.length_nil, Nat.zero_add] at hrest hk
      rw [u32_of_lt (show count + n < 4294967296 by omega)]
      exact ih fuel (count + n) (p + 2) (k - 2) ws1 (by omega) hps hrest
        (by omega) (by omega)
    | literal bytes =>
      simp only [Packet.valid, decide_eq_true_eq] at hpk
      obtain ⟨hngt, hlt, hc⟩ := literal_header bytes.length hpk.1 hpk.2
      simp only [Packet.expand] at hcount
      simp only [Packet.encode] at hbuf hk
      have hl0 := trunc_load buf ((bytes.length - 1) :: bytes) _ p k 0 hbuf (by omega) (by simp)
      simp only [Nat.add_zero, List.getD_cons_zero] at hl0
      rw [hl0]
      simp only []
      rw [if_neg hngt, if_pos hlt]
      simp only [hc]
      simp only [List.length_cons] at hk
      by_cases hfull : bytes.length + 1 ≤ k
      · obtain ⟨ws1, hloop⟩ := literal8_loop buf pix w h N stride rch row count hw32 hlim hin
          bytes.length 0 (p + 1) ws (by omega) (by omega)
        rw [hloop]
        simp only []
        have hrest := trunc_drop buf ((bytes.length - 1) :: bytes) _ p k hbuf
        simp only [List.length_cons] at hrest
        rw [u32_of_lt (show count + bytes.length < 4294967296 by omega)]
        exact ih fuel (count + bytes.length) (p + 1 + bytes.length) (k - (bytes.length + 1)) ws1
          (by omega) hps (by rw [← hrest]; congr 1; omega) (by omega) (by omega)
      · rw [literal8_short buf pix w h N stride rch row count hw32 hlim hin bytes.length 0 (p + 1)
          ws (by omega) (by omega) (by omega)]

theorem rchannel_one (nColorMode : Nat) : rchannel nColorMode 1 0 = 0 := by
  by_cases hm : nColorMode = MODE_Lab
  · rw [hm, rchannel_lab]
  · rw [rchannel_other _ _ _ hm (by omega), Nat.mod_one]

/-- The decoder `ProcessRLEData` on one row of one channel at depth 8 in a version-1 file: when the
buffer ends before the end of the row's PackBits stream, it throws, whatever the two bytes of the
byte-count table are. -/
theorem rle8_truncated (pPixelData tbl : List Nat) (ps : List Packet)
    (w stride nColorMode k : Nat)
    (hstride : w ≤ stride) (hpix : pPixelData.length = stride) (h32 : stride < 4294967296)
    (htbl : tbl.length = 2) (hvalid : ∀ pk ∈ ps, Packet.valid false pk = true)
    (hexp : (expandRow ps).length = w) (hk : k < (encodeRow ps).length) :
    ProcessRLEData (tbl ++ (encodeRow ps).take k) (2 + k) pPixelData w 1 1 stride nColorMode 8 1 1 =
      .error .thrown := by
  have hlen : (tbl ++ (encodeRow ps).take k).length = 2 + k := by
    rw [List.length_append, List.length_take, htbl]
    omega
  have hdrop : (tbl ++ (encodeRow ps).take k).drop 2 = (encodeRow ps).take k := by
    rw [← htbl, List.drop_left]
  have hrow := row8_truncated (tbl ++ (encodeRow ps).take k) pPixelData w 1 1 stride 0 0
    (by omega)
    (fun x hx => by
      rw [Nat.zero_mul, Nat.mul_one, Nat.mul_one, u32_of_lt (by omega : x < 4294967296),
        u32_of_lt h32]
      simp only [u32]
      omega)
    (fun x hx => by
      rw [Nat.zero_mul, Nat.mul_one, u32_of_lt (by omega : x < 4294967296)]
      simp only [u32]
      omega)
    ps (2 + k + 1) 0 2 k [] (by omega) hvalid hdrop hk (by omega)
  rw [hlen] at hrow
  unfold ProcessRLEData
  simp only [forLoop, rchannel_one, ProcessRLEData.rowStep, if_true]
  have h2 : u32 (1 * 1 * 2 * 1) = 2 := by decide
  rw [h2, hrow]

end PsdReader


namespace PsdReader

/-! ## A byte-count table whose size wraps around -/

theorem forLoop_pos {σ : Type} (body : Nat → σ → Except Fault σ) (n i : Nat) (s : σ) (h : 0 < n) :
    forLoop body n i s =
      match body i s with
      | .error e => .error e
      | .ok s1 => forLoop body (n - 1) (i + 1) s1 := by
  obtain ⟨m, rfl⟩ : ∃ m, n = m + 1 := ⟨n - 1, by omega⟩
  rw [forLoop]
  rfl

theorem newBuffer_length (env : Env) (n : Nat) : (newBuffer env n).length = n := by
  simp [newBuffer]

/-- Row 0 of the eight zero bytes: one literal sample is stored and the table entry at the
offsets 0 to 3 leaves the stream where it was. -/
theorem rowStep_wrap0 (pix : List Nat) (hpix : 8 < pix.length) (ws : List (Nat × Nat)) :
    ProcessRLEData.rowStep [0, 0, 0, 0, 0, 0, 0, 0] 8 pix 1 32768 1 4 8 2 0 0 0 ⟨0, ws⟩ =
      .ok ⟨0, ws ++ [(0, 0)]⟩ := by
  have h0 : 0 < pix.length := by omega
  simp [ProcessRLEData.rowStep, ProcessRLEData.row8, load, ProcessRLEData.literalStore8, forLoop,
    ProcessRLEData.put, store, u32, u8, loadBE32, h0]

/-- Row 1 of the eight zero bytes: the table entry is read at the offsets 4 to 7. -/
theorem rowStep_wrap1 (pix : List Nat) (hpix : 8 < pix.length) (ws : List (Nat × Nat)) :
    ProcessRLEData.rowStep [0, 0, 0, 0, 0, 0, 0, 0] 8 pix 1 32768 1 4 8 2 0 0 1 ⟨0, ws⟩ =
      .ok ⟨0, ws ++ [(4, 0)]⟩ := by
  have h0 : 4 < pix.length := by omega
  simp [ProcessRLEData.rowStep, ProcessRLEData.row8, load, ProcessRLEData.literalStore8, forLoop,
    ProcessRLEData.put, store, u32, u8, loadBE32, h0]

/-- Row 2 of the eight zero bytes: the table entry is read at the offsets 8 to 11, outside the
buffer. -/
theorem rowStep_wrap2 (pix : List Nat) (hpix : 8 < pix.length) (ws : List (Nat × Nat)) :
    ProcessRLEData.rowStep [0, 0, 0, 0, 0, 0, 0, 0] 8 pix 1 32768 1 4 8 2 0 0 2 ⟨0, ws⟩ =
      .error .oobRead := by
  simp [ProcessRLEData.rowStep, ProcessRLEData.row8, load, ProcessRLEData.literalStore8, forLoop,
    ProcessRLEData.put, store, u32, u8, loadBE32, hpix]

/-- The decoder `ProcessRLEData` with height 0x8000, 0x8000 on-disk channels and version 2: the
table size `nHeight * nRealChannels * 2 * nVersion` is 2^32, which is 0 as `unsigned int`, and the
table entry of row 2 is read behind the eight bytes of the buffer. -/
theorem rle_wrap (pix : List Nat) (hpix : 8 < pix.length) :
    ProcessRLEData [0, 0, 0, 0, 0, 0, 0, 0] 8 pix 1 32768 1 4 MODE_Grayscale 8 32768 2 =
      .error .oobRead := by
  have hoff : u32 (32768 * 32768 * 2 * 2) = 0 := by decide
  have hrch : rchannel MODE_Grayscale 1 0 = 0 := rchannel_one _
  unfold ProcessRLEData
  simp only [hoff]
  rw [forLoop_pos _ 1 0 _ (by omega), hrch, forLoop_pos _ 32768 0 _ (by omega),
    rowStep_wrap0 pix hpix]
  simp only []
  rw [forLoop_pos _ _ _ _ (by omega), rowStep_wrap1 pix hpix]
  simp only []
  rw [forLoop_pos _ _ _ _ (by omega), rowStep_wrap2 pix hpix]

/-- A pixel stage that stops with a fault other than a `throw` makes `ReadImage` stop with
it. -/
theorem ReadImage_of_pixels_oobRead (env : Env) (fuel : Nat) (file : List Nat) (oom : Bool)
    (hdr : Header) (s : Sections) (hh : ReadImage.header env file oom = .ok hdr)
    (hs : ReadImage.sections env fuel file hdr = .ok s)
    (hp : ReadImage.pixels env hdr s = .error .oobRead) :
    ReadImage env fuel file oom = .error .oobRead := by
  have hb : ReadImage.body env fuel file oom = .error .oobRead := by
    simp only [ReadImage.body, bind]
    rw [hh, ok_bind, hs, ok_bind, hp]
  unfold ReadImage
  rw [hb]

/-- C14 fails on the code: in `ProcessRLEData` the size of the byte-count table,
`nHeight * nRealChannels * 2 * nVersion`, is computed as `unsigned int`. With height 0x8000,
0x8000 on-disk channels and version 2 it wraps to 0, the PackBits data are taken from the start of
the buffer, and the table entry of row 2 is read at the offsets 8 to 11 of a buffer of 8 bytes.
The file `wrapFile` brings `ReadImage` there. -/
theorem ProcessRLEData_reads_outside :
    (∀ pPixelData : List Nat, pPixelData.length = 4 * 32768 →
      ProcessRLEData [0, 0, 0, 0, 0, 0, 0, 0] 8 pPixelData 1 32768 1 4 MODE_Grayscale 8 32768 2 =
        .error .oobRead) ∧
    ReadImage refEnv 1 wrapFile false = .error .oobRead := by
  refine ⟨fun pix hpix => rle_wrap pix (by omega), ?_⟩
  have hh : ReadImage.header refEnv wrapFile false = .ok ⟨52, 2, 32768, 32768, 1, 8, 1, 1, 26⟩ := by
    decide
  have hs : ReadImage.sections refEnv 1 wrapFile ⟨52, 2, 32768, 32768, 1, 8, 1, 1, 26⟩ =
      .ok ⟨none, none, 0, false, 1, 8, [0, 0, 0, 0, 0, 0, 0, 0]⟩ := by
    decide
  have hpad : DoPadding (u32 (1 * 1)) 4 = 4 := by decide
  have hp : ReadImage.pixels refEnv ⟨52, 2, 32768, 32768, 1, 8, 1, 1, 26⟩
      ⟨none, none, 0, false, 1, 8, [0, 0, 0, 0, 0, 0, 0, 0]⟩ = .error .oobRead := by
    unfold ReadImage.pixels
    rw [if_neg (by decide)]
    have hd : ReadImage.dropAlpha false 1 1 = 1 := by decide
    have hc : ∀ a b, ReadImage.createTransform refEnv 1 1 a b = (none, 1) := by
      intro a b
      simp [ReadImage.createTransform]
    simp only [hd, hc, hpad, bind, pure, Except.pure, throw, throwThe, MonadExceptOf.throw]
    have ha : refEnv.allocOk (u32 (4 * 32768)) = true := rfl
    rw [if_neg (by simp [ha])]
    have h4 : u32 4 = 4 := by decide
    have hrle : (1 : Nat) = COMPRESSION_RLE := rfl
    rw [if_pos hrle, h4]
    have hlen : 8 < (newBuffer refEnv (u32 (4 * 32768))).length := by
      rw [newBuffer_length]
      decide
    generalize newBuffer refEnv (u32 (4 * 32768)) = pix at hlen
    have := rle_wrap pix hlen
    have hg : MODE_Grayscale = 1 := rfl
    rw [hg] at this
    rw [this, error_bind]
  exact ReadImage_of_pixels_oobRead refEnv 1 wrapFile false _ _ hh hs hp

end PsdReader


namespace PsdReader

/-! ## The alpha decision of `ReadImage` -/

/-- What a successful sections stage went through. -/
theorem sections_inv (env : Env) (fuel : Nat) (file : List Nat) (hdr : Header) (s : Sections)
    (h : ReadImage.sections env fuel file hdr = .ok s) :
    ∃ scan lay img, ReadImage.resources env fuel file hdr = .ok scan ∧
      ReadImage.layers file hdr scan.1 scan.2.1 = .ok lay ∧
      ReadImage.imageData env file hdr lay.2 = .ok img ∧
      s = ⟨scan.2.2.pEXIFData, scan.2.2.pICCProfile, scan.2.2.nICCProfileSize,
        scan.2.2.bUseAlpha && decide (lay.1 ≤ 0), img.1, img.2.1, img.2.2⟩ := by
  rw [sections_stages] at h
  simp only [bind_eq_ok, Except.ok.injEq] at h
  obtain ⟨scan, h1, lay, h2, img, h3, h4⟩ := h
  exact ⟨scan, lay, img, h1, h2, h3, h4.symm⟩

/-- Outside the bitmap branch the channel count of the image is the one left by the alpha
adjustment and the choice of the colour transform. -/
theorem pixels_channels (env : Env) (hdr : Header) (s : Sections) (d : Decoded)
    (hb : ¬ (hdr.nBitDepth = 1 ∨ hdr.nColorMode = MODE_Bitmap))
    (h : ReadImage.pixels env hdr s = .ok d) :
    d.image.nChannels = (ReadImage.createTransform env hdr.nColorMode
      (ReadImage.dropAlpha s.bUseAlpha hdr.nColorMode hdr.nChannels) s.pICCProfile
      s.nICCProfileSize).2 := by
  unfold ReadImage.pixels at h
  rw [if_neg hb] at h
  simp only [bind, pure, Except.pure, throw, throwThe, MonadExceptOf.throw, ite_error_eq_ok,
    bind_eq_ok, Except.ok.injEq] at h
  obtain ⟨_, writes, _, rfl⟩ := h
  rfl

theorem channels_rgb (nBitDepth nRealChannels : Nat) (hd : nBitDepth = 8 ∨ nBitDepth = 16)
    (hc : 4 ≤ nRealChannels) : ReadImage.channels nBitDepth MODE_RGB nRealChannels = 4 := by
  have h1 : nBitDepth ≠ 1 := by omega
  have hmin : min nRealChannels 4 = 4 := by omega
  simp [ReadImage.channels, h1, hmin, MODE_RGB, MODE_Grayscale, MODE_Duotone, MODE_Multichannel,
    MODE_Bitmap]

theorem rgb_channels_alpha (env : Env) (bUseAlpha : Bool) (icc : Option (List Nat)) (n : Nat) :
    (ReadImage.createTransform env MODE_RGB (ReadImage.dropAlpha bUseAlpha MODE_RGB 4) icc n).2 =
      if bUseAlpha = true then 4 else 3 := by
  cases bUseAlpha <;>
    simp [ReadImage.dropAlpha, ReadImage.createTransform, MODE_RGB, MODE_CMYK, MODE_Lab]

/-- C15: for a file with depth 8 or 16, colour mode RGB and at least 4 on-disk channels that
`ReadImage` decodes, the image has 4 channels if and only if the alpha flag left by the resource
scan is true and the layer count, read as a signed 16-bit integer, is at most 0; otherwise it has
3 channels, so with a layer count above 0 it has 3. -/
theorem ReadImage_alpha_decision (env : Env) (fuel : Nat) (file : List Nat)
    (bOutOfMemory b : Bool) (d : Decoded)
    (hdepth : field file 22 2 = 8 ∨ field file 22 2 = 16)
    (hmode : field file 24 2 = MODE_RGB) (hch : 4 ≤ field file 12 2)
    (h : ReadImage env fuel file bOutOfMemory = .ok (some d, b)) :
    ∃ hdr scan lay, ReadImage.header env file bOutOfMemory = .ok hdr ∧
      ReadImage.resources env fuel file hdr = .ok scan ∧
      ReadImage.layers file hdr scan.1 scan.2.1 = .ok lay ∧
      (d.image.nChannels = 4 ↔ (scan.2.2.bUseAlpha = true ∧ lay.1 ≤ 0)) ∧
      (¬ (scan.2.2.bUseAlpha = true ∧ lay.1 ≤ 0) → d.image.nChannels = 3) ∧
      (0 < lay.1 → d.image.nChannels = 3) := by
  obtain ⟨_, hdr, s, hh, hs, hp⟩ := ReadImage_ok env fuel file bOutOfMemory d b h
  obtain ⟨scan, lay, img, h1, h2, h3, rfl⟩ := sections_inv env fuel file hdr s hs
  have hi := header_inv env file bOutOfMemory hdr hh
  have hbd : hdr.nBitDepth = field file 22 2 := hi.2.2.2.2.2.1
  have hcm : hdr.nColorMode = MODE_RGB := hi.2.2.2.2.2.2.1.trans hmode
  have hrc : hdr.nRealChannels = field file 12 2 := hi.2.2.1
  have hn : hdr.nChannels = 4 := by
    rw [hi.2.2.2.2.2.2.2.1, hcm]
    exact channels_rgb _ _ (by omega) (by omega)
  have hnb : ¬ (hdr.nBitDepth = 1 ∨ hdr.nColorMode = MODE_Bitmap) := by
    rw [hcm]
    have : MODE_RGB ≠ MODE_Bitmap := by decide
    omega
  have hc := pixels_channels env hdr _ d hnb hp
  simp only [hcm, hn, rgb_channels_alpha] at hc
  refine ⟨hdr, scan, lay, hh, h1, h2, ?_⟩
  rw [hc]
  by_cases ha : scan.2.2.bUseAlpha = true <;> by_cases hl : lay.1 ≤ 0 <;> simp [ha, hl]

/-- The statement of C15 on the file of scenario e, which has the layer count 1: the image has 3
channels, and its pixel is the samples B, G, R followed by a padding byte. -/
theorem ReadImage_alpha_decision_witness :
    (field scenarioE 22 2 = 8 ∨ field scenarioE 22 2 = 16) ∧ field scenarioE 24 2 = MODE_RGB ∧
    4 ≤ field scenarioE 12 2 ∧
    ReadImage refEnv 1 scenarioE false =
      .ok (some ⟨⟨1, 1, [0x33, 0x22, 0x11, 0], none, 3⟩, 4⟩, false) ∧
    ∃ hdr scan lay, ReadImage.header refEnv scenarioE false = .ok hdr ∧
      ReadImage.resources refEnv 1 scenarioE hdr = .ok scan ∧
      ReadImage.layers scenarioE hdr scan.1 scan.2.1 = .ok lay ∧
      ((3 : Nat) = 4 ↔ (scan.2.2.bUseAlpha = true ∧ lay.1 ≤ 0)) ∧
      (¬ (scan.2.2.bUseAlpha = true ∧ lay.1 ≤ 0) → (3 : Nat) = 3) ∧
      (0 < lay.1 → (3 : Nat) = 3) :=
  ⟨by decide, by decide, by decide, by decide,
    ReadImage_alpha_decision refEnv 1 scenarioE false false
      ⟨⟨1, 1, [0x33, 0x22, 0x11, 0], none, 3⟩, 4⟩ (by decide) (by decide) (by decide)
      (by decide)⟩

end PsdReader


namespace PsdReader

/-! ## Alpha identifiers -/

/-- The loop over the alpha identifiers reports a zero identifier exactly when one of the `k`
big-endian values from `pos` on is zero. -/
theorem alphaIds_found (file : List Nat) :
    ∀ (k i pos : Nat) (found : Bool) (i1 pos1 : Nat),
      ParseImageResources.alphaIds file k i pos = .ok (found, i1, pos1) →
      found = (List.range k).any (fun j => field file (pos + 4 * j) 4 == 0) := by
  intro k
  induction k with
  | zero =>
    intro i pos found i1 pos1 h
    simp only [ParseImageResources.alphaIds, Except.ok.injEq, Prod.mk.injEq] at h
    simp [← h.1]
  | succ k ih =>
    intro i pos found i1 pos1 h
    rw [ParseImageResources.alphaIds, ReadUIntFromFile_eq] at h
    by_cases h4 : 4 ≤ file.length - pos
    · rw [if_pos h4] at h
      simp only [] at h
      rw [List.range_succ_eq_map, List.any_cons, List.any_map]
      by_cases h0 : field file pos 4 = 0
      · rw [if_pos h0] at h
        simp only [Except.ok.injEq, Prod.mk.injEq] at h
        simp [← h.1, h0]
      · rw [if_neg h0] at h
        have := ih (i + 1) (pos + 4) found i1 pos1 h
        rw [this]
        have hb : (field file pos 4 == 0) = false := by simpa using h0
        simp only [Nat.mul_zero, Nat.add_zero, hb, Bool.false_or]
        congr 1
        funext j
        simp only [Function.comp_apply, Nat.succ_eq_add_one]
        congr 2
        omega
    · rw [if_neg h4] at h
      simp at h

/-- The case `RESOURCE_ALPHA_IDENTIFIERS` of the `switch`: the flag after it, and what it
leaves untouched. -/
theorem dispatch_alpha (env : Env) (file : List Nat) (nColorMode n : Nat) (r r1 : Resources)
    (h : ParseImageResources.dispatch env file nColorMode RESOURCE_ALPHA_IDENTIFIERS n r =
      .ok r1) :
    r1.bUseAlpha = (r.bUseAlpha &&
      (List.range (n / 4)).any (fun j => field file (r.pos + 4 * j) 4 == 0)) ∧
    r1.pEXIFData = r.pEXIFData ∧ r1.pICCProfile = r.pICCProfile ∧
    r1.nICCProfileSize = r.nICCProfileSize := by
  unfold ParseImageResources.dispatch at h
  rw [if_neg (by decide), if_pos rfl] at h
  by_cases hb : r.bUseAlpha = true
  · rw [if_pos hb] at h
    cases hl : ParseImageResources.alphaIds file (n / 4) 0 r.pos with
    | error e => rw [hl] at h; simp at h
    | ok res =>
      obtain ⟨found, i, pos1⟩ := res
      rw [hl] at h
      simp only [] at h
      cases hs : SeekFile pos1 (toLONG (negU32 i * 4)) with
      | error e => rw [hs] at h; simp at h
      | ok pos2 =>
        rw [hs] at h
        simp only [Except.ok.injEq] at h
        subst h
        simp only [hb, Bool.true_and, and_self, and_true]
        exact alphaIds_found file _ _ _ _ _ _ hl
  · rw [if_neg hb] at h
    simp only [Except.ok.injEq] at h
    subst h
    simp only [Bool.not_eq_true] at hb
    simp [hb]

/-! ## One iteration of the resource loop -/

theorem ReadUIntFromFile_ok (file : List Nat) (pos v p : Nat)
    (h : ReadUIntFromFile file pos = .ok (v, p)) :
    v = field file pos 4 ∧ p = pos + 4 ∧ pos + 4 ≤ file.length := by
  rw [ReadUIntFromFile_eq] at h
  by_cases h4 : 4 ≤ file.length - pos
  · rw [if_pos h4] at h
    simp only [Except.ok.injEq, Prod.mk.injEq] at h
    exact ⟨h.1.symm, h.2.symm, by omega⟩
  · rw [if_neg h4] at h
    simp at h

theorem ReadUShortFromFile_ok (file : List Nat) (pos v p : Nat)
    (h : ReadUShortFromFile file pos = .ok (v, p)) :
    v = field file pos 2 ∧ p = pos + 2 ∧ pos + 2 ≤ file.length := by
  rw [ReadUShortFromFile_eq] at h
  by_cases h4 : 2 ≤ file.length - pos
  · rw [if_pos h4] at h
    simp only [Except.ok.injEq, Prod.mk.injEq] at h
    exact ⟨h.1.symm, h.2.symm, by omega⟩
  · rw [if_neg h4] at h
    simp at h

theorem ReadUCharFromFile_eq (file : List Nat) (pos : Nat) :
    ReadUCharFromFile file pos =
      if 1 ≤ file.length - pos then .ok (field file pos 1, pos + 1) else .error .thrown := by
  unfold ReadUCharFromFile ReadFromFile field
  by_cases h : 1 ≤ file.length - pos <;> simp [h]

theorem ReadUCharFromFile_ok (file : List Nat) (pos v p : Nat)
    (h : ReadUCharFromFile file pos = .ok (v, p)) :
    v = field file pos 1 ∧ p = pos + 1 ∧ pos + 1 ≤ file.length := by
  rw [ReadUCharFromFile_eq] at h
  by_cases h4 : 1 ≤ file.length - pos
  · rw [if_pos h4] at h
    simp only [Except.ok.injEq, Prod.mk.injEq] at h
    exact ⟨h.1.symm, h.2.symm, by omega⟩
  · rw [if_neg h4] at h
    simp at h

/-- An iteration of the resource loop that goes on has read a signature `8BIM`, an identifier,
the length of the name and, behind the name, the payload size; it has run the `switch` from the
start of the payload and then moved the file pointer by the padded payload size. -/
theorem entry_more (env : Env) (file : List Nat) (nColorMode : Nat) (r r2 : Resources)
    (h : ParseImageResources.entry env file nColorMode r = .ok (.more r2)) :
    ∃ nResourceID nStringSize nResourceSize p4 r1,
      field file r.pos 4 = RESOURCE_SIGNATURE ∧ r.pos + 7 ≤ file.length ∧
      nResourceID = field file (r.pos + 4) 2 ∧ nStringSize = field file (r.pos + 6) 1 ∧
      SeekFile (r.pos + 7) (toLONG (nStringSize ||| 1)) = .ok p4 ∧
      nResourceSize = field file p4 4 ∧ p4 + 4 ≤ file.length ∧
      ParseImageResources.dispatch env file nColorMode nResourceID nResourceSize
        { r with pos := p4 + 4 } = .ok r1 ∧
      SeekFile r1.pos (toLONG (u32 (nResourceSize + 1) &&& 4294967294)) = .ok r2.pos ∧
      r2 = { r1 with pos := r2.pos } := by
  unfold ParseImageResources.entry at h
  cases h1 : ReadUIntFromFile file r.pos with
  | error e => rw [h1] at h; simp at h
  | ok a1 =>
    obtain ⟨sig, pos1⟩ := a1
    obtain ⟨e1, rfl, l1⟩ := ReadUIntFromFile_ok file _ _ _ h1
    rw [h1] at h
    simp only [] at h
    by_cases hsig : sig ≠ RESOURCE_SIGNATURE
    · rw [if_pos hsig] at h; simp at h
    rw [if_neg hsig] at h
    cases h2 : ReadUShortFromFile file (r.pos + 4) with
    | error e => rw [h2] at h; simp at h
    | ok a2 =>
      obtain ⟨id, pos2⟩ := a2
      obtain ⟨e2, rfl, l2⟩ := ReadUShortFromFile_ok file _ _ _ h2
      rw [h2] at h
      simp only [] at h
      cases h3 : ReadUCharFromFile file (r.pos + 4 + 2) with
      | error e => rw [h3] at h; simp at h
      | ok a3 =>
        obtain ⟨sz, pos3⟩ := a3
        obtain ⟨e3, rfl, l3⟩ := ReadUCharFromFile_ok file _ _ _ h3
        rw [h3] at h
        simp only [] at h
        cases h4 : SeekFile (r.pos + 4 + 2 + 1) (toLONG (sz ||| 1)) with
        | error e => rw [h4] at h; simp at h
        | ok p4 =>
          rw [h4] at h
          simp only [] at h
          cases h5 : ReadUIntFromFile file p4 with
          | error e => rw [h5] at h; simp at h
          | ok a5 =>
            obtain ⟨n, pos5⟩ := a5
            obtain ⟨e5, rfl, l5⟩ := ReadUIntFromFile_ok file _ _ _ h5
            rw [h5] at h
            simp only [] at h
            cases h6 : ParseImageResources.dispatch env file nColorMode id n
                { r with pos := p4 + 4 } with
            | error e => rw [h6] at h; simp at h
            | ok r1 =>
              rw [h6] at h
              simp only [] at h
              cases h7 : SeekFile r1.pos (toLONG (u32 (n + 1) &&& 4294967294)) with
              | error e => rw [h7] at h; simp at h
              | ok pos6 =>
                rw [h7] at h
                simp only [Except.ok.injEq, Scan.more.injEq] at h
                subst h
                refine ⟨id, sz, n, p4, r1, ?_, by omega, e2, e3, h4, e5, l5, h6, h7, rfl⟩
                rw [← e1]
                exact not_not.mp hsig

/-- C16: when an iteration of the resource loop of `ParseImageResources` has processed a resource
with the identifier 0x041D, whose payload of size `n` starts at `payload`, the alpha flag is the
flag before AND (one of the first `n / 4` big-endian 32-bit values of the payload is 0); so a
payload without a zero identifier, and one with `n < 4`, clear the flag, and a flag that was false
stays false. -/
theorem ParseImageResources_alpha_identifiers (env : Env) (file : List Nat) (nColorMode : Nat)
    (r r2 : Resources)
    (h : ParseImageResources.entry env file nColorMode r = .ok (.more r2))
    (hid : field file (r.pos + 4) 2 = RESOURCE_ALPHA_IDENTIFIERS) :
    ∃ payload n,
      SeekFile (r.pos + 7) (toLONG (field file (r.pos + 6) 1 ||| 1)) = .ok (payload - 4) ∧
      4 ≤ payload ∧ n = field file (payload - 4) 4 ∧
      r2.bUseAlpha = (r.bUseAlpha &&
        (List.range (n / 4)).any (fun j => field file (payload + 4 * j) 4 == 0)) ∧
      ((∀ j, j < n / 4 → field file (payload + 4 * j) 4 ≠ 0) → r2.bUseAlpha = false) ∧
      (n < 4 → r2.bUseAlpha = false) ∧
      (r.bUseAlpha = false → r2.bUseAlpha = false) := by
  obtain ⟨id, sz, n, p4, r1, _, _, e2, e3, h4, e5, _, h6, _, h8⟩ :=
    entry_more env file nColorMode r r2 h
  rw [e2, hid] at h6
  have hd := (dispatch_alpha env file nColorMode n _ r1 h6).1
  simp only [] at hd
  have hflag : r2.bUseAlpha = r1.bUseAlpha := by rw [h8]
  rw [← hflag] at hd
  refine ⟨p4 + 4, n, ?_, by omega, ?_, hd, ?_, ?_, ?_⟩
  · rw [← e3, Nat.add_sub_cancel]
    exact h4
  · rw [Nat.add_sub_cancel]
    exact e5
  · intro hnz
    rw [hd]
    have : (List.range (n / 4)).any (fun j => field file (p4 + 4 + 4 * j) 4 == 0) = false := by
      rw [List.any_eq_false]
      intro j hj
      have := hnz j (List.mem_range.mp hj)
      simpa using this
    rw [this, Bool.and_false]
  · intro hn
    rw [hd]
    have : n / 4 = 0 := by omega
    rw [this]
    simp
  · intro hf
    rw [hd, hf, Bool.false_and]

/-- The statement of C16 on a resource 0x041D with the identifiers 5 and 0, entered with the flag
set: the flag stays set. -/
theorem ParseImageResources_alpha_identifiers_witness :
    ParseImageResources.entry refEnv (resourceEntry 0x041D [0, 0, 0, 5, 0, 0, 0, 0]) MODE_RGB
      (scanStart 0) = .ok (.more ⟨24, none, none, 0, true⟩) ∧
    field (resourceEntry 0x041D [0, 0, 0, 5, 0, 0, 0, 0]) ((scanStart 0).pos + 4) 2 =
      RESOURCE_ALPHA_IDENTIFIERS ∧
    ∃ payload n,
      SeekFile ((scanStart 0).pos + 7) (toLONG (field (resourceEntry 0x041D
        [0, 0, 0, 5, 0, 0, 0, 0]) ((scanStart 0).pos + 6) 1 ||| 1)) = .ok (payload - 4) ∧
      4 ≤ payload ∧ n = field (resourceEntry 0x041D [0, 0, 0, 5, 0, 0, 0, 0]) (payload - 4) 4 ∧
      true = ((scanStart 0).bUseAlpha &&
        (List.range (n / 4)).any (fun j =>
          field (resourceEntry 0x041D [0, 0, 0, 5, 0, 0, 0, 0]) (payload + 4 * j) 4 == 0)) ∧
      ((∀ j, j < n / 4 →
          field (resourceEntry 0x041D [0, 0, 0, 5, 0, 0, 0, 0]) (payload + 4 * j) 4 ≠ 0) →
        true = false) ∧
      (n < 4 → true = false) ∧
      ((scanStart 0).bUseAlpha = false → true = false) :=
  ⟨by decide, by decide,
    ParseImageResources_alpha_identifiers refEnv (resourceEntry 0x041D [0, 0, 0, 5, 0, 0, 0, 0])
      MODE_RGB (scanStart 0) ⟨24, none, none, 0, true⟩ (by decide) (by decide)⟩

/-! ## The EXIF block -/

/-- The case of the EXIF identifiers of the `switch`, with no block captured before, a payload
below 65526 bytes and a successful allocation: the block is the ten bytes of the prefix followed
by the payload. -/
theorem dispatch_exif (env : Env) (file : List Nat) (nColorMode id n : Nat) (r r1 : Resources)
    (hid : id = RESOURCE_EXIF_DATA_1 ∨ id = RESOURCE_EXIF_DATA_3) (hnone : r.pEXIFData = none)
    (hn : n < 65526) (halloc : env.allocOk (n + 10) = true)
    (h : ParseImageResources.dispatch env file nColorMode id n r = .ok r1) :
    r1.pEXIFData = some (exifBlock n ((file.drop r.pos).take n)) ∧ n ≤ file.length - r.pos ∧
      r1.bUseAlpha = r.bUseAlpha := by
  unfold ParseImageResources.dispatch at h
  have h1 : id ≠ RESOURCE_ICC_PROFILE := by
    rcases hid with rfl | rfl <;> decide
  have h2 : id ≠ RESOURCE_ALPHA_IDENTIFIERS := by
    rcases hid with rfl | rfl <;> decide
  have h3 : id ≠ RESOURCE_VERSION_INFO := by
    rcases hid with rfl | rfl <;> decide
  rw [if_neg h1, if_neg h2, if_neg h3, if_pos hid, if_pos ⟨hnone, hn⟩, if_pos halloc,
    ReadFromFile_eq] at h
  by_cases hlen : n ≤ file.length - r.pos
  · rw [if_pos hlen] at h
    simp only [] at h
    cases hs : SeekFile (r.pos + n) (toLONG (negU32 n)) with
    | error e => rw [hs] at h; simp at h
    | ok pos2 =>
      rw [hs] at h
      simp only [Except.ok.injEq] at h
      subst h
      exact ⟨rfl, hlen, rfl⟩
  · rw [if_neg hlen] at h
    simp at h

theorem exifBlock_bytes (n : Nat) (payload : List Nat) (hn : n < 65526) :
    ∃ hi lo, exifBlock n payload =
        [0xFF, 0xE1, hi, lo, 0x45, 0x78, 0x69, 0x66, 0, 0] ++ payload ∧
      256 * hi + lo = n + 8 ∧ hi < 256 ∧ lo < 256 := by
  refine ⟨u16 (n + 8) / 256, u16 (n + 8) % 256, rfl, ?_, ?_, ?_⟩
  · rw [u16_of_lt (by omega)]
    omega
  · rw [u16_of_lt (by omega)]
    omega
  · omega

/-- C17: when an iteration of the resource loop of `ParseImageResources` has processed a
resource with the identifier 0x0422 or 0x0423 and a payload of `n < 65526` bytes starting at
`payload`, no EXIF block having been captured before and the allocation of `n + 10` bytes having
succeeded, the EXIF block has `n + 10` bytes: `FF E1 hi lo 45 78 69 66 00 00` with
`256 * hi + lo = n + 8`, followed by the `n` bytes of the payload. -/
theorem ParseImageResources_exif_block (env : Env) (file : List Nat) (nColorMode : Nat)
    (r r2 : Resources)
    (h : ParseImageResources.entry env file nColorMode r = .ok (.more r2))
    (hid : field file (r.pos + 4) 2 = RESOURCE_EXIF_DATA_1 ∨
      field file (r.pos + 4) 2 = RESOURCE_EXIF_DATA_3)
    (hnone : r.pEXIFData = none) :
    ∃ payload n,
      SeekFile (r.pos + 7) (toLONG (field file (r.pos + 6) 1 ||| 1)) = .ok (payload - 4) ∧
      4 ≤ payload ∧ n = field file (payload - 4) 4 ∧
      (n < 65526 → env.allocOk (n + 10) = true →
        ∃ hi lo block, r2.pEXIFData = some block ∧
          block = [0xFF, 0xE1, hi, lo, 0x45, 0x78, 0x69, 0x66, 0, 0] ++
            (file.drop payload).take n ∧
          256 * hi + lo = n + 8 ∧ hi < 256 ∧ lo < 256 ∧ n + 8 ≤ 65533 ∧
          ((file.drop payload).take n).length = n ∧ block.length = n + 10) := by
  obtain ⟨id, sz, n, p4, r1, _, _, e2, e3, h4, e5, _, h6, _, h8⟩ :=
    entry_more env file nColorMode r r2 h
  refine ⟨p4 + 4, n, ?_, by omega, ?_, ?_⟩
  · rw [← e3, Nat.add_sub_cancel]
    exact h4
  · rw [Nat.add_sub_cancel]
    exact e5
  · intro hn halloc
    obtain ⟨hblock, hlen, _⟩ := dispatch_exif env file nColorMode id n { r with pos := p4 + 4 }
      r1 (by rw [e2]; exact hid) hnone hn halloc h6
    simp only [] at hblock hlen
    obtain ⟨hi, lo, hb, hsum, hhi, hlo⟩ := exifBlock_bytes n ((file.drop (p4 + 4)).take n) hn
    have hl : ((file.drop (p4 + 4)).take n).length = n := by
      rw [List.length_take, List.length_drop]
      omega
    refine ⟨hi, lo, _, ?_, hb, hsum, hhi, hlo, by omega, hl, ?_⟩
    · rw [h8]
      exact hblock
    · rw [hb, List.length_append, hl]
      simp
      omega

/-- The statement of C17 on a resource 0x0422 with the four payload bytes `49 49 2A 00`: the
block is `FF E1 00 0C 45 78 69 66 00 00 49 49 2A 00`. -/
theorem ParseImageResources_exif_block_witness :
    ParseImageResources.entry refEnv (resourceEntry 0x0422 [0x49, 0x49, 0x2A, 0]) MODE_RGB
        (scanStart 0) =
      .ok (.more ⟨16, some [0xFF, 0xE1, 0, 12, 0x45, 0x78, 0x69, 0x66, 0, 0, 0x49, 0x49, 0x2A, 0],
        none, 0, true⟩) ∧
    ∃ payload n,
      SeekFile ((scanStart 0).pos + 7) (toLONG (field (resourceEntry 0x0422
        [0x49, 0x49, 0x2A, 0]) ((scanStart 0).pos + 6) 1 ||| 1)) = .ok (payload - 4) ∧
      4 ≤ payload ∧ n = field (resourceEntry 0x0422 [0x49, 0x49, 0x2A, 0]) (payload - 4) 4 ∧
      (n < 65526 → refEnv.allocOk (n + 10) = true →
        ∃ hi lo block,
          some [0xFF, 0xE1, 0, 12, 0x45, 0x78, 0x69, 0x66, 0, 0, 0x49, 0x49, 0x2A, 0] =
            some block ∧
          block = [0xFF, 0xE1, hi, lo, 0x45, 0x78, 0x69, 0x66, 0, 0] ++
            ((resourceEntry 0x0422 [0x49, 0x49, 0x2A, 0]).drop payload).take n ∧
          256 * hi + lo = n + 8 ∧ hi < 256 ∧ lo < 256 ∧ n + 8 ≤ 65533 ∧
          (((resourceEntry 0x0422 [0x49, 0x49, 0x2A, 0]).drop payload).take n).length = n ∧
          block.length = n + 10) :=
  ⟨by decide,
    ParseImageResources_exif_block refEnv (resourceEntry 0x0422 [0x49, 0x49, 0x2A, 0]) MODE_RGB
      (scanStart 0)
      ⟨16, some [0xFF, 0xE1, 0, 12, 0x45, 0x78, 0x69, 0x66, 0, 0, 0x49, 0x49, 0x2A, 0], none, 0,
        true⟩ (by decide) (by decide) (by decide)⟩

end PsdReader


namespace PsdReader

/-! ## The EXIF block of the thumbnail path -/

/-- The case of the EXIF identifiers of the `switch` of `ParseThumbnailResources`, with no block
captured before, a payload below 65526 bytes and a successful allocation. -/
theorem thumb_dispatch_exif (env : ThumbEnv) (file : List Nat) (id n : Nat) (t t1 : Thumb)
    (hid : id = RESOURCE_EXIF_DATA_1 ∨ id = RESOURCE_EXIF_DATA_3) (hnone : t.pEXIFData = none)
    (hn : n < 65526) (halloc : env.allocOk (n + 10) = true)
    (h : ParseThumbnailResources.dispatch env file id n t = .ok t1) :
    t1.pEXIFData = some (exifBlockThumb n ((file.drop t.pos).take n)) := by
  unfold ParseThumbnailResources.dispatch at h
  have h1 : ¬ (id = RESOURCE_THUMBNAIL_4 ∨ id = RESOURCE_THUMBNAIL_5) := by
    rcases hid with rfl | rfl <;> decide
  rw [if_neg h1, if_pos hid, if_pos ⟨hnone, hn⟩, if_pos halloc, ReadFromFile_eq] at h
  by_cases hlen : n ≤ file.length - t.pos
  · rw [if_pos hlen] at h
    simp only [] at h
    cases hs : SeekFile (t.pos + n) (toLONG (negU32 n)) with
    | error e => rw [hs] at h; simp at h
    | ok pos2 =>
      rw [hs] at h
      simp only [Except.ok.injEq] at h
      subst h
      rfl
  · rw [if_neg hlen] at h
    simp at h

/-- The two EXIF blocks of one resource differ: the thumbnail path has the size one byte early,
over the marker byte `E1`. -/
theorem exifBlockThumb_ne (n : Nat) (payload : List Nat) (hn : n < 65526) :
    exifBlockThumb n payload ≠ exifBlock n payload ∧
    (exifBlockThumb n payload).take 4 = [0xFF, (n + 8) / 256, (n + 8) % 256, 0] ∧
    (exifBlock n payload).take 4 = [0xFF, 0xE1, (n + 8) / 256, (n + 8) % 256] := by
  have hu : u16 (n + 8) = n + 8 := u16_of_lt (by omega)
  refine ⟨?_, ?_, ?_⟩
  · intro h
    simp only [exifBlockThumb, exifBlock, hu, List.cons_append, List.cons.injEq, true_and] at h
    omega
  · simp [exifBlockThumb, hu]
  · simp [exifBlock, hu]

/-- C18 fails on the code: `ParseThumbnailResources` stores the size of the EXIF block at
`(char*)pEXIFData + 1`, one byte before the place where `ParseImageResources` stores it. For
every EXIF resource with a payload below 65526 bytes that both paths capture, the block of the
thumbnail path starts `FF hi lo 00` and the block of the full-image path `FF E1 hi lo`, and the
two differ; on a resource 0x0422 with the payload `49 49 2A 00` they are
`FF 00 0C 00 45 78 ..` and `FF E1 00 0C 45 78 ..`. -/
theorem ParseThumbnailResources_exif_differs :
    (∀ (env : Env) (tenv : ThumbEnv) (file : List Nat) (nColorMode id n : Nat)
      (r r1 : Resources) (t t1 : Thumb),
      (id = RESOURCE_EXIF_DATA_1 ∨ id = RESOURCE_EXIF_DATA_3) → n < 65526 →
      r.pEXIFData = none → t.pEXIFData = none → t.pos = r.pos →
      env.allocOk (n + 10) = true → tenv.allocOk (n + 10) = true →
      ParseImageResources.dispatch env file nColorMode id n r = .ok r1 →
      ParseThumbnailResources.dispatch tenv file id n t = .ok t1 →
      ∃ b1 b2, r1.pEXIFData = some b1 ∧ t1.pEXIFData = some b2 ∧ b2 ≠ b1 ∧
        b1.take 4 = [0xFF, 0xE1, (n + 8) / 256, (n + 8) % 256] ∧
        b2.take 4 = [0xFF, (n + 8) / 256, (n + 8) % 256, 0]) ∧
    ParseThumbnailResources.entry refThumbEnv (resourceEntry 0x0422 [0x49, 0x49, 0x2A, 0])
        (thumbStart 0) =
      .ok (.more ⟨16, some [0xFF, 0, 12, 0, 0x45, 0x78, 0x69, 0x66, 0, 0, 0x49, 0x49, 0x2A, 0],
        none, 0, none, 0, 0, 0, 0, false⟩) ∧
    ParseImageResources.entry refEnv (resourceEntry 0x0422 [0x49, 0x49, 0x2A, 0]) MODE_RGB
        (scanStart 0) =
      .ok (.more ⟨16, some [0xFF, 0xE1, 0, 12, 0x45, 0x78, 0x69, 0x66, 0, 0, 0x49, 0x49, 0x2A, 0],
        none, 0, true⟩) := by
  refine ⟨?_, by decide, by decide⟩
  intro env tenv file nColorMode id n r r1 t t1 hid hn hr ht hpos ha1 ha2 h1 h2
  have e1 := (dispatch_exif env file nColorMode id n r r1 hid hr hn ha1 h1).1
  have e2 := thumb_dispatch_exif tenv file id n t t1 hid ht hn ha2 h2
  rw [hpos] at e2
  obtain ⟨hne, ht4, hi4⟩ := exifBlockThumb_ne n ((file.drop r.pos).take n) hn
  exact ⟨_, _, e1, e2, hne, hi4, ht4⟩

end PsdReader


namespace PsdReader

/-! ## The file position after a resource -/

/-- C19 fails on the code: in the case `RESOURCE_ALPHA_IDENTIFIERS` the loop leaves by `break`
with `i` not advanced, so that after a zero identifier at index `i` the file pointer is moved back
by `4 * i` bytes although `4 * (i + 1)` were read. On a resource 0x041D whose payload of size 4
starts at offset 12 and is one zero identifier, the position after the iteration is 20 and not
`12 + ((4 + 1) & ~1) = 16`. In a file in which an EXIF resource follows, the next signature is
read four bytes late, the scan stops, and the image carries no EXIF block; with a resource
0x0400 in the place of 0x041D it carries the block. -/
theorem ParseImageResources_alpha_rewind :
    ParseImageResources.entry refEnv (resourceEntry 0x041D [0, 0, 0, 0]) MODE_RGB (scanStart 0) =
      .ok (.more ⟨20, none, none, 0, true⟩) ∧
    (resourceEntry 0x041D [0, 0, 0, 0]).drop 12 = [0, 0, 0, 0] ∧
    12 + (u32 (4 + 1) &&& 4294967294) = 16 ∧
    ReadImage refEnv 3 (resourceFile 32 (resourceEntry 0x041D [0, 0, 0, 0] ++
        resourceEntry 0x0422 [0x49, 0x49, 0x2A, 0])) false =
      .ok (some ⟨⟨1, 1, [0, 0x22, 0x11, 0], none, 4⟩, 4⟩, false) ∧
    ReadImage refEnv 3 (resourceFile 32 (resourceEntry 0x0400 [0, 0, 0, 0] ++
        resourceEntry 0x0422 [0x49, 0x49, 0x2A, 0])) false =
      .ok (some ⟨⟨1, 1, [0, 0x22, 0x11, 0],
        some [0xFF, 0xE1, 0, 12, 0x45, 0x78, 0x69, 0x66, 0, 0, 0x49, 0x49, 0x2A, 0], 4⟩, 4⟩,
        false) := by
  refine ⟨by decide, by decide, by decide, by decide, by decide⟩

/-! ## Where the resource scan stops -/

/-- An iteration of the resource loop that stops has met the end of the file or four bytes other
than `8BIM`. -/
theorem entry_stop (env : Env) (file : List Nat) (nColorMode : Nat) (r r1 : Resources)
    (h : ParseImageResources.entry env file nColorMode r = .ok (.stop r1)) :
    (file.length < r.pos + 4 ∧ r1 = { r with pos := max r.pos file.length }) ∨
      (r.pos + 4 ≤ file.length ∧ field file r.pos 4 ≠ RESOURCE_SIGNATURE ∧
        r1 = { r with pos := r.pos + 4 }) := by
  unfold ParseImageResources.entry at h
  rw [ReadUIntFromFile_eq] at h
  by_cases h4 : 4 ≤ file.length - r.pos
  · rw [if_pos h4] at h
    simp only [] at h
    by_cases hsig : field file r.pos 4 ≠ RESOURCE_SIGNATURE
    · rw [if_pos hsig] at h
      exact Or.inr ⟨by omega, hsig, (Scan.stop.inj (Except.ok.inj h)).symm⟩
    · rw [if_neg hsig] at h
      exfalso
      cases h2 : ReadUShortFromFile file (r.pos + 4) with
      | error e => rw [h2] at h; simp at h
      | ok a2 =>
        rw [h2] at h
        simp only [] at h
        cases h3 : ReadUCharFromFile file a2.2 with
        | error e => rw [h3] at h; simp at h
        | ok a3 =>
          rw [h3] at h
          simp only [] at h
          cases h4 : SeekFile a3.2 (toLONG (a3.1 ||| 1)) with
          | error e => rw [h4] at h; simp at h
          | ok p4 =>
            rw [h4] at h
            simp only [] at h
            cases h5 : ReadUIntFromFile file p4 with
            | error e => rw [h5] at h; simp at h
            | ok a5 =>
              rw [h5] at h
              simp only [] at h
              cases h6 : ParseImageResources.dispatch env file nColorMode a2.1 a5.1
                  { r with pos := a5.2 } with
              | error e => rw [h6] at h; simp at h
              | ok r2 =>
                rw [h6] at h
                simp only [] at h
                cases h7 : SeekFile r2.pos (toLONG (u32 (a5.1 + 1) &&& 4294967294)) with
                | error e => rw [h7] at h; simp at h
                | ok pos6 => rw [h7] at h; simp at h
  · rw [if_neg h4] at h
    exact Or.inl ⟨by omega, (Scan.stop.inj (Except.ok.inj h)).symm⟩

/-- C20, amended: the resource scan is not bounded by the declared size of the resource section,
which `ParseImageResources` does not receive. An iteration goes on exactly from a position where
the four bytes `8BIM` can be read, and the scan ends at the first position where fewer than four
bytes are left, with fewer than four bytes behind the cursor, or behind four bytes that are not
`8BIM`. -/
theorem ParseImageResources_scan_extent (env : Env) (file : List Nat) (nColorMode : Nat) :
    (∀ fuel r r1, ParseImageResources env file nColorMode fuel r = .ok r1 →
      file.length < r1.pos + 4 ∨
      (4 ≤ r1.pos ∧ r1.pos ≤ file.length ∧ field file (r1.pos - 4) 4 ≠ RESOURCE_SIGNATURE)) ∧
    (∀ r r2, ParseImageResources.entry env file nColorMode r = .ok (.more r2) →
      r.pos + 4 ≤ file.length ∧ field file r.pos 4 = RESOURCE_SIGNATURE) ∧
    (∀ r r1, r.pos + 4 ≤ file.length → field file r.pos 4 = RESOURCE_SIGNATURE →
      ParseImageResources.entry env file nColorMode r ≠ .ok (.stop r1)) := by
  refine ⟨?_, ?_, ?_⟩
  · intro fuel
    induction fuel with
    | zero => intro r r1 h; simp [ParseImageResources] at h
    | succ fuel ih =>
      intro r r1 h
      rw [ParseImageResources] at h
      cases he : ParseImageResources.entry env file nColorMode r with
      | error e => rw [he] at h; simp at h
      | ok sc =>
        rw [he] at h
        cases sc with
        | stop r0 =>
          simp only [Except.ok.injEq] at h
          subst h
          rcases entry_stop env file nColorMode r r0 he with ⟨hlt, rfl⟩ | ⟨hle, hsig, rfl⟩
          · refine Or.inl ?_
            simp only []
            omega
          · refine Or.inr ⟨by simp, by simpa using hle, ?_⟩
            simpa using hsig
        | more r0 =>
          simp only [] at h
          exact ih r0 r1 h
  · intro r r2 h
    obtain ⟨_, _, _, _, _, hsig, hlen, _⟩ := entry_more env file nColorMode r r2 h
    exact ⟨by omega, hsig⟩
  · intro r r1 hlen hsig h
    rcases entry_stop env file nColorMode r r1 h with ⟨hlt, _⟩ | ⟨_, hne, _⟩
    · omega
    · exact hne hsig

/-- C20 as stated fails: behind a resource section declared with 0 bytes, the scan of `ReadImage`
takes the bytes of an EXIF resource, which begin with `8BIM`, as a resource and captures its
block; and in a file whose resource section is declared with the 12 bytes of the head of an EXIF
resource, the four bytes behind the section, which are the length of the layer and mask section,
are taken as the payload of the resource and appear in the EXIF block of the image. -/
theorem ReadImage_scans_past_section :
    ReadImage.header refEnv (resourceFile 0 (resourceEntry 0x0422 [0x49, 0x49, 0x2A, 0])) false =
      .ok ⟨60, 1, 4, 1, 1, 8, 3, 4, 26⟩ ∧
    ReadImage.resources refEnv 3 (resourceFile 0 (resourceEntry 0x0422 [0x49, 0x49, 0x2A, 0]))
        ⟨60, 1, 4, 1, 1, 8, 3, 4, 26⟩ =
      .ok (0, 0, ⟨54, some [0xFF, 0xE1, 0, 12, 0x45, 0x78, 0x69, 0x66, 0, 0, 0x49, 0x49, 0x2A, 0],
        none, 0, true⟩) ∧
    ReadImage refEnv 3 (resourceFile 12 [0x38, 0x42, 0x49, 0x4D, 4, 0x22, 0, 0, 0, 0, 0, 4])
        false =
      .ok (some ⟨⟨1, 1, [0, 0x22, 0x11, 0],
        some [0xFF, 0xE1, 0, 12, 0x45, 0x78, 0x69, 0x66, 0, 0, 0, 0, 0, 0], 4⟩, 4⟩, false) := by
  refine ⟨by decide, by decide, by decide⟩

end PsdReader


namespace PsdReader

/-! ## `ProcessBitmapRLE`: a row whose stream ends early -/

theorem bit_step (pix : List Nat) (pRow value k p count : Nat) (ws : List (Nat × Nat))
    (hin : pRow + count < pix.length) (h32 : count + 1 < 4294967296) :
    ProcessBitmapRLE.bit pix pRow value k ⟨p, count, ws⟩ =
      .ok ⟨p, count + 1, ws ++ [(pRow + count, bitPixel value (7 - k))]⟩ := by
  simp only [ProcessBitmapRLE.bit]
  rw [store_ok pix _ _ _ hin]
  simp only []
  rw [u32_of_lt h32]

/-- The bit loop stores its pixels inside the row and leaves the read pointer; the pixel counter
advances by the number of its iterations, up to the width. -/
theorem bit_loop (pix : List Nat) (w pRow value : Nat) (hw32 : w < 4294967296)
    (hin : ∀ x, x < w → pRow + x < pix.length) :
    ∀ (n k p count : Nat) (ws : List (Nat × Nat)), count ≤ w →
      ∃ ws1, forWhile (fun s => decide (s.count < w))
        (fun k s => ProcessBitmapRLE.bit pix pRow value k s) n k ⟨p, count, ws⟩ =
          .ok ⟨p, min (count + n) w, ws1⟩ := by
  intro n
  induction n with
  | zero =>
    intro k p count ws hc
    exact ⟨ws, by rw [forWhile, Nat.add_zero, Nat.min_eq_left hc]⟩
  | succ n ih =>
    intro k p count ws hc
    rw [forWhile]
    by_cases hlt : count < w
    · obtain ⟨ws2, h2⟩ := ih (k + 1) p (count + 1) (ws ++ [(pRow + count, bitPixel value (7 - k))])
        (by omega)
      refine ⟨ws2, ?_⟩
      have e : min (count + 1 + n) w = min (count + (n + 1)) w := by
        rw [Nat.add_assoc, Nat.add_comm 1 n]
      rw [if_pos (by simpa using hlt), bit_step pix pRow value k p count ws (hin count hlt)
        (by omega)]
      simp only []
      rw [h2, e]
    · refine ⟨ws, ?_⟩
      have e : min (count + (n + 1)) w = count := by omega
      rw [if_neg (by simpa using hlt), e]

/-- The unpacking of one byte. -/
theorem bits_ok (pix : List Nat) (w pRow value : Nat) (hw32 : w < 4294967296)
    (hin : ∀ x, x < w → pRow + x < pix.length) (p count : Nat) (ws : List (Nat × Nat))
    (hc : count ≤ w) :
    ∃ ws1, ProcessBitmapRLE.bits pix w pRow value ⟨p, count, ws⟩ =
      .ok ⟨p, min (count + 8) w, ws1⟩ := by
  unfold ProcessBitmapRLE.bits
  exact bit_loop pix w pRow value hw32 hin 8 0 p count ws hc

/-- The run loop unpacks its byte `n` times and leaves the read pointer. -/
theorem bitmap_run_loop (pix : List Nat) (w pRow value : Nat) (hw32 : w < 4294967296)
    (hin : ∀ x, x < w → pRow + x < pix.length) :
    ∀ (n k p count : Nat) (ws : List (Nat × Nat)), count ≤ w →
      ∃ ws1, forWhile (fun s => decide (s.count < w))
        (fun _ s => ProcessBitmapRLE.bits pix w pRow value s) n k ⟨p, count, ws⟩ =
          .ok ⟨p, min (count + 8 * n) w, ws1⟩ := by
  intro n
  induction n with
  | zero =>
    intro k p count ws hc
    exact ⟨ws, by rw [forWhile, Nat.mul_zero, Nat.add_zero, Nat.min_eq_left hc]⟩
  | succ n ih =>
    intro k p count ws hc
    rw [forWhile]
    by_cases hlt : count < w
    · obtain ⟨ws1, h1⟩ := bits_ok pix w pRow value hw32 hin p count ws hc
      obtain ⟨ws2, h2⟩ := ih (k + 1) p (min (count + 8) w) ws1 (Nat.min_le_right _ _)
      refine ⟨ws2, ?_⟩
      have e : min (min (count + 8) w + 8 * n) w = min (count + 8 * (n + 1)) w := by
        simp only [Nat.min_def]
        split_ifs <;> omega
      rw [if_pos (by simpa using hlt), h1]
      simp only []
      rw [h2, e]
    · refine ⟨ws, ?_⟩
      have e : min (count + 8 * (n + 1)) w = count := by omega
      rw [if_neg (by simpa using hlt), e]

/-- One step of the literal loop with its byte in the buffer. -/
theorem literalByte_step (buf pix : List Nat) (w pRow : Nat) (hw32 : w < 4294967296)
    (hin : ∀ x, x < w → pRow + x < pix.length) (p count : Nat) (ws : List (Nat × Nat))
    (hp : p < buf.length) (hc : count ≤ w) :
    ∃ ws1, ProcessBitmapRLE.literalByte buf buf.length pix w pRow ⟨p, count, ws⟩ =
      .ok ⟨p + 1, min (count + 8) w, ws1⟩ := by
  obtain ⟨ws1, h1⟩ := bits_ok pix w pRow (buf.getD p 0) hw32 hin (p + 1) count ws hc
  refine ⟨ws1, ?_⟩
  simp only [ProcessBitmapRLE.literalByte]
  rw [if_neg (by omega), load_ok buf p hp]
  exact h1

/-- One step of the literal loop behind the end of the buffer. -/
theorem literalByte_end (buf pix : List Nat) (w pRow p count : Nat) (ws : List (Nat × Nat))
    (hp : buf.length ≤ p) :
    ProcessBitmapRLE.literalByte buf buf.length pix w pRow ⟨p, count, ws⟩ = .error .thrown := by
  simp only [ProcessBitmapRLE.literalByte]
  rw [if_pos (by omega)]

/-- The literal loop with all its bytes in the buffer, none of them behind the end of the row. -/
theorem bitmap_literal_loop (buf pix : List Nat) (w pRow : Nat) (hw32 : w < 4294967296)
    (hin : ∀ x, x < w → pRow + x < pix.length) :
    ∀ (n k p count : Nat) (ws : List (Nat × Nat)), count ≤ w → count + 8 * n < w + 8 →
      p + n ≤ buf.length →
      ∃ ws1, forWhile (fun s => decide (s.count < w))
        (fun _ s => ProcessBitmapRLE.literalByte buf buf.length pix w pRow s) n k
          ⟨p, count, ws⟩ = .ok ⟨p + n, min (count + 8 * n) w, ws1⟩ := by
  intro n
  induction n with
  | zero =>
    intro k p count ws hc _ _
    exact ⟨ws, by rw [forWhile]; simp [Nat.min_eq_left hc]⟩
  | succ n ih =>
    intro k p count ws hc hrow hp
    have hlt : count < w := by omega
    obtain ⟨ws1, h1⟩ := literalByte_step buf pix w pRow hw32 hin p count ws (by omega) hc
    obtain ⟨ws2, h2⟩ := ih (k + 1) (p + 1) (min (count + 8) w) ws1 (Nat.min_le_right _ _)
      (by simp only [Nat.min_def]; split_ifs <;> omega) (by omega)
    refine ⟨ws2, ?_⟩
    have e : min (min (count + 8) w + 8 * n) w = min (count + 8 * (n + 1)) w := by
      simp only [Nat.min_def]
      split_ifs <;> omega
    rw [forWhile, if_pos (by simpa using hlt), h1]
    simp only []
    rw [h2, e]
    congr 2
    omega

/-- The literal loop throws when the buffer ends before its last byte. -/
theorem bitmap_literal_short (buf pix : List Nat) (w pRow : Nat) (hw32 : w < 4294967296)
    (hin : ∀ x, x < w → pRow + x < pix.length) :
    ∀ (n k p count : Nat) (ws : List (Nat × Nat)), count ≤ w → count + 8 * n < w + 8 →
      0 < n → buf.length < p + n →
      forWhile (fun s => decide (s.count < w))
        (fun _ s => ProcessBitmapRLE.literalByte buf buf.length pix w pRow s) n k
          ⟨p, count, ws⟩ = .error .thrown := by
  intro n
  induction n with
  | zero => intro k p count ws _ _ h0 _; omega
  | succ n ih =>
    intro k p count ws hc hrow _ hp
    have hlt : count < w := by omega
    rw [forWhile, if_pos (by simpa using hlt)]
    by_cases hpl : p < buf.length
    · obtain ⟨ws1, h1⟩ := literalByte_step buf pix w pRow hw32 hin p count ws hpl hc
      rw [h1]
      simp only []
      exact ih (k + 1) (p + 1) (min (count + 8) w) ws1 (Nat.min_le_right _ _)
        (by simp only [Nat.min_def]; split_ifs <;> omega) (by omega) (by omega)
    · rw [literalByte_end buf pix w pRow p count ws (by omega)]

/-- The row loop of `ProcessBitmapRLE` throws when the buffer ends before the end of a stream of
literal and run packets that expands to the rest of the row's bytes. -/
theorem bitmap_row_truncated (buf pix : List Nat) (w pRow : Nat) (hw32 : w < 4294967296)
    (hin : ∀ x, x < w → pRow + x < pix.length) (ps : List Packet) :
    ∀ (fuel j p k : Nat) (ws : List (Nat × Nat)), k < fuel →
      (∀ pk ∈ ps, pk.valid false = true) →
      buf.drop p = (encodeRow ps).take k → k < (encodeRow ps).length →
      j + (expandRow ps).length = (w + 7) / 8 →
      ProcessBitmapRLE.row buf buf.length pix w pRow fuel ⟨p, min (8 * j) w, ws⟩ =
        .error .thrown := by
  induction ps with
  | nil =>
    intro fuel j p k ws _ _ _ hk _
    simp [encodeRow] at hk
  | cons pk ps ih =>
    intro fuel j p k ws hfuel hvalid hbuf hk hcount
    obtain ⟨fuel, rfl⟩ : ∃ f, fuel = f + 1 := ⟨fuel - 1, by omega⟩
    have hpk := hvalid pk (List.mem_cons_self _ _)
    have hps : ∀ q ∈ ps, q.valid false = true := fun q hq => hvalid q (List.mem_cons_of_mem _ hq)
    have hlen := trunc_length buf _ p k (by omega) hbuf
    have hpos := expand_pos pk hpk
    rw [encodeRow_cons] at hbuf hk
    rw [expandRow_cons, List.length_append] at hcount
    rw [List.length_append] at hk
    have hm : min (8 * j) w = 8 * j := by omega
    rw [hm, ProcessBitmapRLE.row]
    simp only []
    rw [if_pos (by omega)]
    by_cases hk0 : k = 0
    · rw [if_pos (by omega)]
    rw [if_neg (by omega)]
    cases pk with
    | noop => simp [Packet.valid] at hpk
    | run n value =>
      simp only [Packet.valid, decide_eq_true_eq] at hpk
      obtain ⟨hgt, hc⟩ := bitmap_run_header n hpk.1 hpk.2
      simp only [Packet.expand, List.length_replicate] at hcount
      simp only [Packet.encode] at hbuf hk
      have hl0 := trunc_load buf [257 - n, value] _ p k 0 hbuf (by omega) (by simp)
      simp only [Nat.add_zero, List.getD_cons_zero] at hl0
      rw [hl0]
      simp only []
      rw [if_pos hgt]
      by_cases hk1 : k = 1
      · rw [if_pos (by omega)]
      rw [if_neg (by omega)]
      have hl1 := trunc_load buf [257 - n, value] _ p k 1 hbuf (by omega) (by simp)
      simp only [List.getD_cons_succ, List.getD_cons_zero] at hl1
      rw [hl1]
      simp only [hc]
      obtain ⟨ws1, hloop⟩ := bitmap_run_loop pix w pRow value hw32 hin n 0 (p + 2) (8 * j) ws
        (by omega)
      rw [hloop]
      simp only []
      have hrest := trunc_drop buf [257 - n, value] _ p k hbuf
      simp only [List.length_cons, List.length_nil, Nat.zero_add] at hrest hk
      have e : min (8 * j + 8 * n) w = min (8 * (j + n)) w := by rw [Nat.mul_add]
      rw [e]
      exact ih fuel (j + n) (p + 2) (k - 2) ws1 (by omega) hps hrest (by omega) (by omega)
    | literal bytes =>
      simp only [Packet.valid, decide_eq_true_eq] at hpk
      obtain ⟨hngt, hlt, hc⟩ := bitmap_literal_header bytes.length hpk.1 hpk.2
      simp only [Packet.expand] at hcount
      simp only [Packet.encode] at hbuf hk
      have hl0 := trunc_load buf ((bytes.length - 1) :: bytes) _ p k 0 hbuf (by omega) (by simp)
      simp only [Nat.add_zero, List.getD_cons_zero] at hl0
      rw [hl0]
      simp only []
      rw [if_neg hngt, if_pos hlt]
      simp only [hc]
      simp only [List.length_cons] at hk
      by_cases hfull : bytes.length + 1 ≤ k
      · obtain ⟨ws1, hloop⟩ := bitmap_literal_loop buf pix w pRow hw32 hin bytes.length 0 (p + 1)
          (8 * j) ws (by omega) (by omega) (by omega)
        rw [hloop]
        simp only []
        have hrest := trunc_drop buf ((bytes.length - 1) :: bytes) _ p k hbuf
        simp only [List.length_cons] at hrest
        have e : min (8 * j + 8 * bytes.length) w = min (8 * (j + bytes.length)) w := by
          rw [Nat.mul_add]
        rw [e]
        exact ih fuel (j + bytes.length) (p + 1 + bytes.length) (k - (bytes.length + 1)) ws1
          (by omega) hps (by rw [← hrest]; congr 1; omega) (by omega) (by omega)
      · rw [bitmap_literal_short buf pix w pRow hw32 hin bytes.length 0 (p + 1) (8 * j) ws
          (by omega) (by omega) (by omega) (by omega)]

/-- The decoder `ProcessBitmapRLE` on one row in a version-1 file: when the buffer ends before
the end of the row's PackBits stream, it throws, whatever the two bytes of the byte-count table
are. -/
theorem bitmap_truncated (pPixelData tbl : List Nat) (ps : List Packet)
    (w stride nCompressionMethod k : Nat)
    (hpix : w ≤ pPixelData.length) (h32 : w < 4294967296)
    (htbl : tbl.length = 2) (hvalid : ∀ pk ∈ ps, Packet.valid false pk = true)
    (hexp : (expandRow ps).length = (w + 7) / 8) (hk : k < (encodeRow ps).length) :
    ProcessBitmapRLE (tbl ++ (encodeRow ps).take k) (2 + k) pPixelData w 1 stride
      nCompressionMethod 1 = .error .thrown := by
  have hlen : (tbl ++ (encodeRow ps).take k).length = 2 + k := by
    rw [List.length_append, List.length_take, htbl]
    omega
  have hdrop : (tbl ++ (encodeRow ps).take k).drop 2 = (encodeRow ps).take k := by
    rw [← htbl, List.drop_left]
  have hrow := bitmap_row_truncated (tbl ++ (encodeRow ps).take k) pPixelData w 0 h32
    (fun x hx => by omega) ps (2 + k + 1) 0 2 k [] (by omega) hvalid hdrop hk (by omega)
  rw [hlen] at hrow
  have h0 : u32 (0 * stride) = 0 := by simp [u32]
  have h2 : u32 (1 * 2) = 2 := by decide
  unfold ProcessBitmapRLE
  simp only [forLoop, ProcessBitmapRLE.rowStep, h0, if_neg (by decide : ¬ (1 : Nat) = 2), h2]
  simp only [Nat.mul_zero, Nat.min_eq_left (Nat.zero_le w)] at hrow
  rw [hrow]

/-! ## `ProcessRLEData`, 16-bit: a row whose stream ends early -/

theorem encodeRow16_cons (pk : Packet) (ps : List Packet) :
    encodeRow16 (pk :: ps) = pk.encode16 ++ encodeRow16 ps := by
  simp [encodeRow16]

theorem samples_length (samples : List Nat) :
    ((samples.map fun v => [v / 256, v % 256]).flatten).length = 2 * samples.length := by
  induction samples with
  | nil => rfl
  | cons a l ih =>
    simp only [List.map_cons, List.flatten_cons, List.length_append, List.length_cons,
      List.length_nil, ih]
    omega

/-- One step of the 16-bit literal loop with its two bytes in the buffer. -/
theorem literalStore16_step (buf pix : List Nat) (w h N stride rch row count i p : Nat)
    (ws : List (Nat × Nat)) (hw32 : w < 4294967296) (hx : count + i < w)
    (hlim : ∀ x, x < w → u32 (row * stride) + u32 (x * N) + rch < u32 (stride * h))
    (hin : ∀ x, x < w → u32 (row * stride) + u32 (x * N) + rch < pix.length)
    (hp : p + 1 < buf.length) :
    ∃ ws1, ProcessRLEData.literalStore16 buf buf.length pix h N stride rch row count i ⟨p, ws⟩ =
      .ok ⟨p + 2, ws1⟩ := by
  obtain ⟨ws1, h1⟩ := put_ok pix w h N stride rch row (count + i)
    (Scale16To8 (u16 ((buf.getD p 0 <<< 8) ||| buf.getD (p + 1) 0))) ws hx hw32 hlim hin
  refine ⟨ws1, ?_⟩
  simp only [ProcessRLEData.literalStore16]
  rw [if_neg (by omega), loadBE16_ok buf p hp]
  simp only [h1]

/-- One step of the 16-bit literal loop with fewer than two bytes left. -/
theorem literalStore16_end (buf pix : List Nat) (h N stride rch row count i p : Nat)
    (ws : List (Nat × Nat)) (hp : buf.length ≤ p + 1) :
    ProcessRLEData.literalStore16 buf buf.length pix h N stride rch row count i ⟨p, ws⟩ =
      .error .thrown := by
  simp only [ProcessRLEData.literalStore16]
  rw [if_pos (by omega)]

/-- The 16-bit literal loop inside the row, with all its bytes in the buffer. -/
theorem literal16_loop (buf pix : List Nat) (w h N stride rch row count : Nat)
    (hw32 : w < 4294967296)
    (hlim : ∀ x, x < w → u32 (row * stride) + u32 (x * N) + rch < u32 (stride * h))
    (hin : ∀ x, x < w → u32 (row * stride) + u32 (x * N) + rch < pix.length) :
    ∀ (n i p : Nat) (ws : List (Nat × Nat)), count + i + n ≤ w → p + 2 * n ≤ buf.length →
      ∃ ws1, forLoop (fun i s => ProcessRLEData.literalStore16 buf buf.length pix h N stride rch
        row count i s) n i ⟨p, ws⟩ = .ok ⟨p + 2 * n, ws1⟩ := by
  intro n
  induction n with
  | zero => intro i p ws _ _; exact ⟨ws, rfl⟩
  | succ n ih =>
    intro i p ws hle hp
    obtain ⟨ws1, h1⟩ := literalStore16_step buf pix w h N stride rch row count i p ws hw32
      (by omega) hlim hin (by omega)
    obtain ⟨ws2, h2⟩ := ih (i + 1) (p + 2) ws1 (by omega) (by omega)
    refine ⟨ws2, ?_⟩
    rw [forLoop, h1]
    simp only []
    rw [h2]
    simp only [Except.ok.injEq, Dec.mk.injEq, and_true]
    omega

/-- The 16-bit literal loop inside the row throws when the buffer ends before its last byte. -/
theorem literal16_short (buf pix : List Nat) (w h N stride rch row count : Nat)
    (hw32 : w < 4294967296)
    (hlim : ∀ x, x < w → u32 (row * stride) + u32 (x * N) + rch < u32 (stride * h))
    (hin : ∀ x, x < w → u32 (row * stride) + u32 (x * N) + rch < pix.length) :
    ∀ (n i p : Nat) (ws : List (Nat × Nat)), count + i + n ≤ w → 0 < n →
      buf.length < p + 2 * n →
      forLoop (fun i s => ProcessRLEData.literalStore16 buf buf.length pix h N stride rch
        row count i s) n i ⟨p, ws⟩ = .error .thrown := by
  intro n
  induction n with
  | zero => intro i p ws _ h0 _; omega
  | succ n ih =>
    intro i p ws hle _ hp
    rw [forLoop]
    by_cases hlt : p + 1 < buf.length
    · obtain ⟨ws1, h1⟩ := literalStore16_step buf pix w h N stride rch row count i p ws hw32
        (by omega) hlim hin hlt
      rw [h1]
      simp only []
      exact ih (i + 1) (p + 2) ws1 (by omega) (by omega) (by omega)
    · rw [literalStore16_end buf pix h N stride rch row count i p ws (by omega)]

/-- The row loop of the 16-bit branch throws when the buffer ends before the end of a stream of
literal and run packets of 16-bit samples that expands to the rest of the row. -/
theorem row16_truncated (buf pix : List Nat) (w h N stride rch row : Nat)
    (hw32 : w < 4294967296)
    (hlim : ∀ x, x < w → u32 (row * stride) + u32 (x * N) + rch < u32 (stride * h))
    (hin : ∀ x, x < w → u32 (row * stride) + u32 (x * N) + rch < pix.length)
    (ps : List Packet) :
    ∀ (fuel count p k : Nat) (ws : List (Nat × Nat)), k < fuel →
      (∀ pk ∈ ps, pk.valid false = true) →
      buf.drop p = (encodeRow16 ps).take k → k < (encodeRow16 ps).length →
      count + (expandRow ps).length = w →
      ProcessRLEData.row16 buf buf.length pix w h N stride rch row fuel count ⟨p, ws⟩ =
        .error .thrown := by
  induction ps with
  | nil =>
    intro fuel count p k ws _ _ _ hk _
    simp [encodeRow16] at hk
  | cons pk ps ih =>
    intro fuel count p k ws hfuel hvalid hbuf hk hcount
    obtain ⟨fuel, rfl⟩ : ∃ f, fuel = f + 1 := ⟨fuel - 1, by omega⟩
    have hpk := hvalid pk (List.mem_cons_self _ _)
    have hps : ∀ q ∈ ps, q.valid false = true := fun q hq => hvalid q (List.mem_cons_of_mem _ hq)
    have hlen := trunc_length buf _ p k (by omega) hbuf
    have hpos := expand_pos pk hpk
    rw [encodeRow16_cons] at hbuf hk
    rw [expandRow_cons, List.length_append] at hcount
    rw [List.length_append] at hk
    rw [ProcessRLEData.row16]
    simp only []
    rw [if_pos (by omega)]
    by_cases hk0 : k = 0
    · rw [if_pos (by omega)]
    rw [if_neg (by omega)]
    cases pk with
    | noop => simp [Packet.valid] at hpk
    | run n value =>
      simp only [Packet.valid, decide_eq_true_eq] at hpk
      obtain ⟨hgt, hc⟩ := run_header n hpk.1 hpk.2
      simp only [Packet.expand, List.length_replicate] at hcount
      simp only [Packet.encode16] at hbuf hk
      have hl0 := trunc_load buf [257 - n, value / 256, value % 256] _ p k 0 hbuf (by omega)
        (by simp)
      simp only [Nat.add_zero, List.getD_cons_zero] at hl0
      rw [hl0]
      simp only []
      rw [if_pos hgt]
      by_cases hk2 : k ≤ 2
      · rw [if_pos (by omega)]
      rw [if_neg (by omega), loadBE16_ok buf (p + 1) (by omega)]
      simp only [hc]
      obtain ⟨ws1, hloop⟩ := runStore_loop pix w h N stride rch row count
        (Scale16To8 (u16 ((buf.getD (p + 1) 0 <<< 8) ||| buf.getD (p + 1 + 1) 0))) hw32 hlim hin
        (p + 3) n 0 ws (by omega)
      rw [hloop]
      simp only []
      have hrest := trunc_drop buf [257 - n, value / 256, value % 256] _ p k hbuf
      simp only [List.length_cons, List.length_nil, Nat.zero_add] at hrest hk
      rw [u32_of_lt (show count + n < 4294967296 by omega)]
      exact ih fuel (count + n) (p + 3) (k - 3) ws1 (by omega) hps hrest (by omega) (by omega)
    | literal samples =>
      simp only [Packet.valid, decide_eq_true_eq] at hpk
      obtain ⟨hngt, hlt, hc⟩ := literal_header samples.length hpk.1 hpk.2
      simp only [Packet.expand] at hcount
      simp only [Packet.encode16] at hbuf hk
      have hl0 := trunc_load buf ((samples.length - 1) ::
        (samples.map fun v => [v / 256, v % 256]).flatten) _ p k 0 hbuf (by omega) (by simp)
      simp only [Nat.add_zero, List.getD_cons_zero] at hl0
      rw [hl0]
      simp only []
      rw [if_neg hngt, if_pos hlt]
      simp only [hc]
      simp only [List.length_cons, samples_length] at hk
      by_cases hfull : 2 * samples.length + 1 ≤ k
      · obtain ⟨ws1, hloop⟩ := literal16_loop buf pix w h N stride rch row count hw32 hlim hin
          samples.length 0 (p + 1) ws (by omega) (by omega)
        rw [hloop]
        simp only []
        have hrest := trunc_drop buf ((samples.length - 1) ::
          (samples.map fun v => [v / 256, v % 256]).flatten) _ p k hbuf
        simp only [List.length_cons, samples_length] at hrest
        rw [u32_of_lt (show count + samples.length < 4294967296 by omega)]
        exact ih fuel (count + samples.length) (p + 1 + 2 * samples.length)
          (k - (2 * samples.length + 1)) ws1 (by omega) hps
          (by rw [← hrest]; congr 1; omega) (by omega) (by omega)
      · rw [literal16_short buf pix w h N stride rch row count hw32 hlim hin samples.length 0
          (p + 1) ws (by omega) (by omega) (by omega)]

/-- The decoder `ProcessRLEData` on one row of one channel at depth 16 in a version-1 file: when
the buffer ends before the end of the row's stream, it throws, whatever the two bytes of the
byte-count table are. -/
theorem rle16_truncated (pPixelData tbl : List Nat) (ps : List Packet)
    (w stride nColorMode k : Nat)
    (hstride : w ≤ stride) (hpix : pPixelData.length = stride) (h32 : stride < 4294967296)
    (htbl : tbl.length = 2) (hvalid : ∀ pk ∈ ps, Packet.valid false pk = true)
    (hexp : (expandRow ps).length = w) (hk : k < (encodeRow16 ps).length) :
    ProcessRLEData (tbl ++ (encodeRow16 ps).take k) (2 + k) pPixelData w 1 1 stride nColorMode
      16 1 1 = .error .thrown := by
  have hlen : (tbl ++ (encodeRow16 ps).take k).length = 2 + k := by
    rw [List.length_append, List.length_take, htbl]
    omega
  have hdrop : (tbl ++ (encodeRow16 ps).take k).drop 2 = (encodeRow16 ps).take k := by
    rw [← htbl, List.drop_left]
  have hrow := row16_truncated (tbl ++ (encodeRow16 ps).take k) pPixelData w 1 1 stride 0 0
    (by omega)
    (fun x hx => by
      rw [Nat.zero_mul, Nat.mul_one, Nat.mul_one, u32_of_lt (by omega : x < 4294967296),
        u32_of_lt h32]
      simp only [u32]
      omega)
    (fun x hx => by
      rw [Nat.zero_mul, Nat.mul_one, u32_of_lt (by omega : x < 4294967296)]
      simp only [u32]
      omega)
    ps (2 + k + 1) 0 2 k [] (by omega) hvalid hdrop hk (by omega)
  rw [hlen] at hrow
  unfold ProcessRLEData
  simp only [forLoop, rchannel_one, ProcessRLEData.rowStep,
    if_neg (by decide : ¬ (16 : Nat) = 8)]
  have h2 : u32 (1 * 1 * 2 * 1) = 2 := by decide
  rw [h2, hrow]

/-! ## Scenario d -/

/-- C13, amended: for a version-1 image with one channel and one row whose row has a PackBits
encoding (literal and run packets that expand to the samples of the row, or to its bytes at depth
1) of which only the first `k` bytes follow the two bytes of the byte-count table, the RLE
decoders throw, whatever the table claims: `ProcessRLEData` at depth 8 and at depth 16, and
`ProcessBitmapRLE`. With the 5-byte encoding `03 11 22 33 44` of a row of width 4 at depth 8, a
table that claims 5 bytes and only the 3 bytes `03 11 22` behind it, `ReadImage` returns no image
and leaves `bOutOfMemory` false; with all 5 bytes it returns the row. -/
theorem RLE_truncated_row :
    (∀ (pPixelData tbl : List Nat) (ps : List Packet) (w stride nColorMode k : Nat),
      w ≤ stride → pPixelData.length = stride → stride < 4294967296 → tbl.length = 2 →
      (∀ pk ∈ ps, Packet.valid false pk = true) → (expandRow ps).length = w →
      k < (encodeRow ps).length →
      ProcessRLEData (tbl ++ (encodeRow ps).take k) (2 + k) pPixelData w 1 1 stride nColorMode
        8 1 1 = .error .thrown) ∧
    (∀ (pPixelData tbl : List Nat) (ps : List Packet) (w stride nColorMode k : Nat),
      w ≤ stride → pPixelData.length = stride → stride < 4294967296 → tbl.length = 2 →
      (∀ pk ∈ ps, Packet.valid false pk = true) → (expandRow ps).length = w →
      k < (encodeRow16 ps).length →
      ProcessRLEData (tbl ++ (encodeRow16 ps).take k) (2 + k) pPixelData w 1 1 stride nColorMode
        16 1 1 = .error .thrown) ∧
    (∀ (pPixelData tbl : List Nat) (ps : List Packet) (w stride nCompressionMethod k : Nat),
      w ≤ pPixelData.length → w < 4294967296 → tbl.length = 2 →
      (∀ pk ∈ ps, Packet.valid false pk = true) → (expandRow ps).length = (w + 7) / 8 →
      k < (encodeRow ps).length →
      ProcessBitmapRLE (tbl ++ (encodeRow ps).take k) (2 + k) pPixelData w 1 stride
        nCompressionMethod 1 = .error .thrown) ∧
    encodeRow [.literal [0x11, 0x22, 0x33, 0x44]] = [3, 0x11, 0x22, 0x33, 0x44] ∧
    (scenarioD 4 [3, 0x11, 0x22]).drop 40 = [0, 5, 3, 0x11, 0x22] ∧
    ReadImage refEnv 1 (scenarioD 4 [3, 0x11, 0x22]) false = .ok (none, false) ∧
    ReadImage refEnv 1 (scenarioD 4 [3, 0x11, 0x22, 0x33, 0x44]) false =
      .ok (some ⟨⟨4, 1, [0x11, 0x22, 0x33, 0x44], none, 1⟩, 4⟩, false) ∧
    ReadImage refEnv 1 (rleFile 16 1 2 [1, 0xFF, 0xFF, 0]) false = .ok (none, false) ∧
    ReadImage refEnv 1 (rleFile 1 0 12 [1, 0xA0]) false = .ok (none, false) := by
  refine ⟨?_, ?_, ?_, by decide, by decide, by decide, by decide, by decide, by decide⟩
  · intro pix tbl ps w stride mode k hstride hpix h32 htbl hvalid hexp hk
    exact rle8_truncated pix tbl ps w stride mode k hstride hpix h32 htbl hvalid hexp hk
  · intro pix tbl ps w stride mode k hstride hpix h32 htbl hvalid hexp hk
    exact rle16_truncated pix tbl ps w stride mode k hstride hpix h32 htbl hvalid hexp hk
  · intro pix tbl ps w stride cm k hpix h32 htbl hvalid hexp hk
    exact bitmap_truncated pix tbl ps w stride cm k hpix h32 htbl hvalid hexp hk

/-- C13 as stated fails: the byte-count table of the file claims 5 bytes for the one row, only
the 3 bytes `01 11 22` follow it, and `ReadImage` returns the row of width 2 that these bytes
encode. -/
theorem ReadImage_scenarioD_decodes :
    (scenarioD 2 [1, 0x11, 0x22]).drop 40 = [0, 5, 1, 0x11, 0x22] ∧
    (scenarioD 2 [1, 0x11, 0x22]).length = 45 ∧
    ReadImage refEnv 1 (scenarioD 2 [1, 0x11, 0x22]) false =
      .ok (some ⟨⟨2, 1, [0x11, 0x22, 0, 0], none, 1⟩, 4⟩, false) := by
  refine ⟨by decide, by decide, by decide⟩

/-- The statement of C13 (amended) on the first 3 bytes of the 5-byte encoding of a row of width
4 at depth 8, in a pixel buffer of 4 bytes. -/
theorem RLE_truncated_row_witness :
    ProcessRLEData ([0, 5] ++ (encodeRow [.literal [0x11, 0x22, 0x33, 0x44]]).take 3) (2 + 3)
      [0, 0, 0, 0] 4 1 1 4 MODE_Grayscale 8 1 1 = .error .thrown :=
  RLE_truncated_row.1 [0, 0, 0, 0] [0, 5] [.literal [0x11, 0x22, 0x33, 0x44]] 4 4
    MODE_Grayscale 3 (by decide) (by decide) (by decide) (by decide) (by decide) (by decide)
    (by decide)

end PsdReader


namespace PsdReader

/-! ## Seeking -/

theorem toLONG_of_lt (x : Nat) (h : x < 2147483648) : toLONG x = (x : Int) := by
  unfold toLONG u32
  rw [Nat.mod_eq_of_lt (by omega), if_pos h]

/-- A difference `a + 2^64 - b` of `unsigned long long`, with `a` below 2^31 and `b` small,
converted to `LONG`. -/
theorem toLONG_sub (a b : Nat) (ha : a < 2147483648) (hb : b ≤ 2147483648) :
    toLONG (a + 18446744073709551616 - b) = (a : Int) - (b : Int) := by
  unfold toLONG u32
  by_cases hab : b ≤ a
  · have e : (a + 18446744073709551616 - b) % 4294967296 = a - b := by omega
    rw [e, if_pos (by omega)]
    omega
  · have e : (a + 18446744073709551616 - b) % 4294967296 = a + 4294967296 - b := by omega
    rw [e, if_neg (by omega)]
    omega

theorem toLONG_sub2 (a b c : Nat) (ha : a < 2147483648) (hb : b + c ≤ 2147483648) :
    toLONG (a + 18446744073709551616 - b - c) = (a : Int) - (b : Int) - (c : Int) := by
  rw [Nat.sub_sub, toLONG_sub a (b + c) ha hb]
  omega

theorem SeekFile_ok (pos : Nat) (offset : Int) (target : Nat)
    (h : (pos : Int) + offset = (target : Int)) (ht : target < 4294967295) :
    SeekFile pos offset = .ok target := by
  unfold SeekFile setFilePointer
  rw [h, if_neg (by omega)]
  simp

theorem SeekFileFromStart_ok (offset : Int) (target : Nat) (h : offset = (target : Int))
    (ht : target < 4294967295) : SeekFileFromStart offset = .ok target := by
  unfold SeekFileFromStart setFilePointer
  rw [h, if_neg (by omega)]
  simp

theorem ReadUInt64FromFile_eq (file : List Nat) (pos : Nat) :
    ReadUInt64FromFile file pos =
      if 8 ≤ file.length - pos then .ok (field file pos 8, pos + 8) else .error .thrown := by
  unfold ReadUInt64FromFile ReadFromFile field
  by_cases h : 8 ≤ file.length - pos <;> simp [h]

/-! ## The layer and mask section -/

/-- The layer stage on a file that reaches behind the layer count: it ends at the start of the
section plus the length field plus the length. -/
theorem layers_ok (file : List Nat) (h : Header) (c n : Nat)
    (hv : h.nVersion = 1 ∨ h.nVersion = 2)
    (hS : 26 + 4 + c + 4 + n < 2147483648)
    (hL : field file (26 + 4 + c + 4 + n) (4 * h.nVersion) < 2147483648)
    (hlen : 26 + 4 + c + 4 + n + 4 * h.nVersion + (4 * h.nVersion + 2) ≤ file.length)
    (hfile : file.length < 2147483648) :
    ∃ nLayerCount, ReadImage.layers file h c n =
      .ok (nLayerCount, 26 + 4 + c + 4 + n + 4 * h.nVersion +
        field file (26 + 4 + c + 4 + n) (4 * h.nVersion)) := by
  have hseek : SeekFileFromStart (toLONG (PSD_HEADER_SIZE + 4 + c + 4 + n)) =
      .ok (26 + 4 + c + 4 + n) := by
    apply SeekFileFromStart_ok _ _ _ (by omega)
    rw [show PSD_HEADER_SIZE = 26 from rfl, toLONG_of_lt _ hS]
  simp only [ReadImage.layers, bind, pure, Except.pure, hseek, ok_bind]
  rcases hv with hv | hv
  · rw [hv] at hL hlen ⊢
    simp only [show 4 * 1 = 4 from rfl] at hL hlen ⊢
    have h2 : ¬ (1 : Nat) = 2 := by decide
    have hu : u8 4 = 4 := by decide
    rw [if_neg h2, ReadUIntFromFile_eq, if_pos (by omega), ok_bind, hu]
    simp only []
    rw [SeekFile_ok (26 + 4 + c + 4 + n + 4) ((4 : Nat) : Int) (26 + 4 + c + 4 + n + 8)
      (by omega) (by omega),
      ok_bind, ReadUShortFromFile_eq, if_pos (by omega), ok_bind]
    simp only []
    rw [SeekFile_ok (26 + 4 + c + 4 + n + 8 + 2) _
      (26 + 4 + c + 4 + n + 4 + field file (26 + 4 + c + 4 + n) 4)
      (by rw [toLONG_sub2 _ _ _ hL (by omega)]; omega) (by omega), ok_bind]
    exact ⟨_, rfl⟩
  · rw [hv] at hL hlen ⊢
    simp only [show 4 * 2 = 8 from rfl] at hL hlen ⊢
    have hu : u8 8 = 8 := by decide
    rw [if_pos trivial, ReadUInt64FromFile_eq, if_pos (by omega), ok_bind, hu]
    simp only []
    rw [SeekFile_ok (26 + 4 + c + 4 + n + 8) ((8 : Nat) : Int) (26 + 4 + c + 4 + n + 16)
      (by omega) (by omega),
      ok_bind, ReadUShortFromFile_eq, if_pos (by omega), ok_bind]
    simp only []
    rw [SeekFile_ok (26 + 4 + c + 4 + n + 16 + 2) _
      (26 + 4 + c + 4 + n + 8 + field file (26 + 4 + c + 4 + n) 8)
      (by rw [toLONG_sub2 _ _ _ hL (by omega)]; omega) (by omega), ok_bind]
    exact ⟨_, rfl⟩

theorem resources_inv (env : Env) (fuel : Nat) (file : List Nat) (h : Header)
    (scan : Nat × Nat × Resources) (hr : ReadImage.resources env fuel file h = .ok scan) :
    scan.1 = field file h.pos 4 ∧ h.pos + 4 ≤ file.length ∧
    ∃ p2, SeekFile (h.pos + 4) (toLONG scan.1) = .ok p2 ∧ scan.2.1 = field file p2 4 ∧
      p2 + 4 ≤ file.length ∧
      ParseImageResources env file h.nColorMode fuel
        ⟨p2 + 4, none, none, 0, decide (h.nChannels = 4)⟩ = .ok scan.2.2 := by
  simp only [ReadImage.resources, bind, pure, Except.pure, bind_eq_ok, Except.ok.injEq] at hr
  obtain ⟨⟨c, p1⟩, h1, p2, h2, ⟨n, p3⟩, h3, res, h4, h5⟩ := hr
  obtain ⟨rfl, rfl, hl1⟩ := ReadUIntFromFile_ok _ _ _ _ h1
  obtain ⟨rfl, rfl, hl3⟩ := ReadUIntFromFile_ok _ _ _ _ h3
  subst h5
  exact ⟨rfl, hl1, p2, h2, rfl, hl3, h4⟩

/-- C21: let the header stage of `ReadImage` succeed with version `v` and the resource stage
succeed, let `c` be the colour-data size (offset 26) and `n` the resource-section size (offset
30 + c), `S = 26 + 4 + c + 4 + n`, and let `L` be the layer-section length, the field of `4 * v`
bytes at `S`. If `S` and `L` are below 2^31, the file extends at least `4 * v + 2` bytes past the
length field, and the file size is within the range of `LONG`, then the layer stage ends at
offset `S + 4 * v + L`, a value in which the cursor left by the resource scan does not occur,
also when the final relative seek (by `L - 2 - 4 * v`) is negative. The compression method that
`ReadImage` goes on with is the 2-byte field at that offset, and `ReadImage` fails if the file
has no two bytes there. -/
theorem ReadImage_layer_skip (env : Env) (fuel : Nat) (file : List Nat) (oom : Bool)
    (h : Header) (scan : Nat × Nat × Resources) (c n L : Nat)
    (hh : ReadImage.header env file oom = .ok h)
    (hr : ReadImage.resources env fuel file h = .ok scan)
    (hc : c = field file 26 4) (hn : n = field file (26 + 4 + c) 4)
    (hL : L = field file (26 + 4 + c + 4 + n) (4 * h.nVersion))
    (hS : 26 + 4 + c + 4 + n < 2147483648) (hL31 : L < 2147483648)
    (hlen : 26 + 4 + c + 4 + n + 4 * h.nVersion + (4 * h.nVersion + 2) ≤ file.length)
    (hfile : file.length < 2147483648) :
    (h.nVersion = 1 ∨ h.nVersion = 2) ∧ scan.1 = c ∧ scan.2.1 = n ∧
    (∃ nLayerCount, ReadImage.layers file h scan.1 scan.2.1 =
      .ok (nLayerCount, 26 + 4 + c + 4 + n + 4 * h.nVersion + L)) ∧
    (∀ s, ReadImage.sections env fuel file h = .ok s →
      26 + 4 + c + 4 + n + 4 * h.nVersion + L + 2 ≤ file.length ∧
      s.nCompressionMethod = field file (26 + 4 + c + 4 + n + 4 * h.nVersion + L) 2) ∧
    (file.length < 26 + 4 + c + 4 + n + 4 * h.nVersion + L + 2 →
      ReadImage env fuel file oom = .ok (none, oom)) := by
  obtain ⟨_, _, _, _, _, _, _, _, _, hpos, _, hv, _⟩ := header_inv env file oom h hh
  obtain ⟨e1, _, p2, e2, e3, _, _⟩ := resources_inv env fuel file h scan hr
  rw [hpos] at e1 e2
  have ec : scan.1 = c := by rw [e1, hc]
  rw [ec] at e2
  rw [SeekFile_ok (26 + 4) (toLONG c) (26 + 4 + c)
    (by rw [toLONG_of_lt c (by omega)]; omega) (by omega)] at e2
  have ep : p2 = 26 + 4 + c := (Except.ok.inj e2).symm
  have en : scan.2.1 = n := by rw [e3, hn, ep]
  rw [hL] at hL31
  obtain ⟨lc, hlay⟩ := layers_ok file h c n hv hS hL31 hlen hfile
  rw [← hL] at hlay
  refine ⟨hv, ec, en, ⟨lc, by rw [ec, en]; exact hlay⟩, ?_, ?_⟩
  · intro s hs
    obtain ⟨scan1, lay, img, r1, r2, r3, r4⟩ := sections_inv env fuel file h s hs
    rw [hr] at r1
    obtain rfl := Except.ok.inj r1
    rw [ec, en, hlay] at r2
    obtain rfl := Except.ok.inj r2
    simp only [ReadImage.imageData, bind, pure, Except.pure, bind_eq_ok] at r3
    obtain ⟨⟨m, p⟩, q1, q2⟩ := r3
    obtain ⟨rfl, rfl, hl⟩ := ReadUShortFromFile_ok _ _ _ _ q1
    refine ⟨hl, ?_⟩
    rw [r4]
    simp only [throw, throwThe, MonadExceptOf.throw, ite_error_eq_ok, bind_eq_ok,
      Except.ok.injEq] at q2
    obtain ⟨_, _, _, _, _, _, q3⟩ := q2
    rw [← q3]
  · intro hshort
    apply ReadImage_of_sections_thrown env fuel file oom h hh
    rw [sections_stages, hr, ok_bind, ec, en, hlay, ok_bind]
    simp only [ReadImage.imageData, bind, ReadUShortFromFile_eq]
    rw [if_neg (by omega), error_bind, error_bind]

/-- The statement of C21 on a version-1 file whose layer section has the length 0: the final
seek goes back by 6 bytes, to offset 38, and the compression method is read there (the
resource scan had left the cursor at 38, four bytes behind the empty resource section). -/
theorem ReadImage_layer_skip_witness :
    (∃ nLayerCount, ReadImage.layers (compressedFile 1) ⟨44, 1, 1, 1, 1, 8, 1, 1, 26⟩ 0 0 =
      .ok (nLayerCount, 26 + 4 + 0 + 4 + 0 + 4 * 1 + 0)) ∧
    (∀ s, ReadImage.sections refEnv 1 (compressedFile 1) ⟨44, 1, 1, 1, 1, 8, 1, 1, 26⟩ = .ok s →
      26 + 4 + 0 + 4 + 0 + 4 * 1 + 0 + 2 ≤ (compressedFile 1).length ∧
      s.nCompressionMethod = field (compressedFile 1) (26 + 4 + 0 + 4 + 0 + 4 * 1 + 0) 2) :=
  have w := ReadImage_layer_skip refEnv 1 (compressedFile 1) false ⟨44, 1, 1, 1, 1, 8, 1, 1, 26⟩
    (0, 0, ⟨38, none, none, 0, false⟩) 0 0 0 (by decide) (by decide) (by decide) (by decide)
    (by decide) (by decide) (by decide) (by decide) (by decide)
  ⟨w.2.2.2.1, w.2.2.2.2.1⟩

end PsdReader


namespace PsdReader

/-! ## Rounding up to an even size -/

/-- The mask `& -2` on an `unsigned int` clears the lowest bit. -/
theorem and_mask_even (x : Nat) (h : x < 4294967296) : x &&& 4294967294 = x / 2 * 2 := by
  apply Nat.eq_of_testBit_eq
  intro i
  have e1 : (4294967294 : Nat) = (2 ^ 31 - 1) <<< 1 := by decide
  have e2 : x / 2 * 2 = (x >>> 1) <<< 1 := by
    rw [Nat.shiftLeft_eq, Nat.shiftRight_eq_div_pow]
  rw [Nat.testBit_and, e1, e2, Nat.testBit_shiftLeft, Nat.testBit_shiftLeft,
    Nat.testBit_shiftRight, Nat.testBit_two_pow_sub_one]
  by_cases hi : 1 ≤ i
  · have e3 : 1 + (i - 1) = i := by omega
    rw [e3]
    by_cases h31 : i - 1 < 31
    · simp [hi, h31]
    · have hx : x.testBit i = false := by
        apply Nat.testBit_lt_two_pow
        calc x < 2 ^ 32 := h
          _ ≤ 2 ^ i := Nat.pow_le_pow_right (by decide) (by omega)
      simp [hx]
  · simp [hi]

/-- The padded size of a resource below 2^31 - 1 bytes, as a `LONG`. -/
theorem toLONG_padded (n : Nat) (h : n < 2147483647) :
    toLONG (u32 (n + 1) &&& 4294967294) = (((n + 1) / 2 * 2 : Nat) : Int) := by
  rw [u32_of_lt (by omega), and_mask_even _ (by omega)]
  unfold toLONG
  rw [u32_of_lt (by omega), if_pos (by omega)]

/-! ## Progress of the resource loop -/

theorem scan_after (env : Env) (file : List Nat) (nColorMode : Nat) (f : Nat) :
    ∀ (k : Nat) (r0 r : Resources), ParseImageResources.after env file nColorMode k r0 = some r →
      ParseImageResources env file nColorMode (k + f) r0 =
        ParseImageResources env file nColorMode f r := by
  intro k
  induction k with
  | zero =>
    intro r0 r h
    simp only [ParseImageResources.after, Option.some.injEq] at h
    rw [h, Nat.zero_add]
  | succ k ih =>
    intro r0 r h
    rw [ParseImageResources.after] at h
    rw [show k + 1 + f = (k + f) + 1 by omega, ParseImageResources]
    cases he : ParseImageResources.entry env file nColorMode r0 with
    | error e => rw [he] at h; simp at h
    | ok sc =>
      rw [he] at h
      cases sc with
      | stop r1 => simp at h
      | more r1 =>
        simp only [] at h ⊢
        exact ih r1 r h

theorem scan_error (env : Env) (file : List Nat) (nColorMode : Nat) (f : Nat) (r : Resources)
    (e : Fault) (h : ParseImageResources.entry env file nColorMode r = .error e) :
    ParseImageResources env file nColorMode (f + 1) r = .error e := by
  rw [ParseImageResources, h]

/-- An iteration of the resource loop at a resource whose head lies within the file. -/
theorem entry_resource (env : Env) (file : List Nat) (nColorMode : Nat) (r : Resources)
    (s n : Nat) (hsig : field file r.pos 4 = RESOURCE_SIGNATURE)
    (hs : s = field file (r.pos + 6) 1) (hs8 : s < 256)
    (hn : n = field file (r.pos + 7 + (s ||| 1)) 4)
    (hlen : r.pos + 7 + (s ||| 1) + 4 ≤ file.length) (hfile : file.length < 4294967295) :
    ParseImageResources.entry env file nColorMode r =
      match ParseImageResources.dispatch env file nColorMode (field file (r.pos + 4) 2) n
          { r with pos := r.pos + 7 + (s ||| 1) + 4 } with
      | .error e => .error e
      | .ok r1 =>
        match SeekFile r1.pos (toLONG (u32 (n + 1) &&& 4294967294)) with
        | .error e => .error e
        | .ok pos6 => .ok (.more { r1 with pos := pos6 }) := by
  have hs1 : s ||| 1 < 256 := by
    have := Nat.or_lt_two_pow (x := s) (y := 1) (n := 8) hs8 (by decide)
    simpa using this
  unfold ParseImageResources.entry
  rw [ReadUIntFromFile_eq, if_pos (by omega)]
  simp only []
  rw [if_neg (by rw [hsig]; simp), ReadUShortFromFile_eq, if_pos (by omega)]
  simp only []
  rw [ReadUCharFromFile_eq, if_pos (by omega)]
  simp only []
  rw [show r.pos + 4 + 2 = r.pos + 6 from rfl, ← hs,
    SeekFile_ok (r.pos + 6 + 1) (toLONG (s ||| 1)) (r.pos + 7 + (s ||| 1))
      (by rw [toLONG_of_lt _ (by omega)]; omega) (by omega)]
  simp only []
  rw [ReadUIntFromFile_eq, if_pos (by omega), ← hn]
  all_goals rfl

/-- The state that `ReadImage` hands to the resource scan, and what it makes of the result. -/
theorem resources_scan (env : Env) (fuel : Nat) (file : List Nat) (hdr : Header) (p : Nat)
    (hpos : hdr.pos = 26) (h30 : 26 + 4 ≤ file.length)
    (hseek : SeekFile (26 + 4) (toLONG (field file 26 4)) = .ok p) (hp : p + 4 ≤ file.length) :
    ReadImage.resources env fuel file hdr =
      (ParseImageResources env file hdr.nColorMode fuel
        ⟨p + 4, none, none, 0, decide (hdr.nChannels = 4)⟩).bind fun res =>
          .ok (field file 26 4, field file p 4, res) := by
  simp only [ReadImage.resources, bind, pure, Except.pure, hpos]
  rw [ReadUIntFromFile_eq, if_pos (by omega), ok_bind]
  simp only []
  rw [hseek, ok_bind, ReadUIntFromFile_eq, if_pos (by omega), ok_bind]

/-- A `throw` in the resource scan makes `ReadImage` return no image. -/
theorem ReadImage_of_scan_thrown (env : Env) (fuel : Nat) (file : List Nat) (oom : Bool)
    (hdr : Header) (p : Nat) (hh : ReadImage.header env file oom = .ok hdr)
    (h30 : 26 + 4 ≤ file.length)
    (hseek : SeekFile (26 + 4) (toLONG (field file 26 4)) = .ok p) (hp : p + 4 ≤ file.length)
    (hscan : ParseImageResources env file hdr.nColorMode fuel
      ⟨p + 4, none, none, 0, decide (hdr.nChannels = 4)⟩ = .error .thrown) :
    ReadImage env fuel file oom = .ok (none, oom) := by
  obtain ⟨_, _, _, _, _, _, _, _, _, hpos, _⟩ := header_inv env file oom hdr hh
  apply ReadImage_of_sections_thrown env fuel file oom hdr hh
  rw [sections_stages, resources_scan env fuel file hdr p hpos h30 hseek hp, hscan]
  rfl

/-! ## Version Info -/

/-- The case `RESOURCE_VERSION_INFO` of the `switch` on a payload of at least 5 bytes that lies
within the file: a `throw` if the fifth byte is zero, and otherwise the state as it was, the
position back at the start of the payload. -/
theorem dispatch_version (env : Env) (file : List Nat) (nColorMode n : Nat) (r : Resources)
    (h5 : 5 ≤ n) (hlen : r.pos + 5 ≤ file.length) (hfile : file.length < 4294967295) :
    ParseImageResources.dispatch env file nColorMode RESOURCE_VERSION_INFO n r =
      if field file (r.pos + 4) 1 = 0 then .error .thrown else .ok r := by
  unfold ParseImageResources.dispatch
  rw [if_neg (by decide), if_neg (by decide), if_pos rfl, if_pos h5, ReadUIntFromFile_eq,
    if_pos (by omega)]
  simp only []
  rw [ReadUCharFromFile_eq, if_pos (by omega)]
  simp only []
  by_cases hb : field file (r.pos + 4) 1 = 0
  · rw [if_pos hb, if_pos hb]
  · rw [if_neg hb, if_neg hb, SeekFile_ok (r.pos + 4 + 1) (-5) r.pos (by omega) (by omega)]

/-- C22: let an iteration of the resource loop of `ParseImageResources` stand at a resource
with the signature `8BIM`, the identifier 0x0421, a name-length byte `s` and a payload of
`n ≥ 5` bytes that lies within a file below 2^31 bytes. The iteration throws if and only if the
fifth byte of the payload is zero; then the scan throws, and `ReadImage`, whose scan reached the
resource after `k` resources, returns no image and leaves the flag as it was. If the byte is not
zero, the iteration goes on with an unchanged state and the position behind the payload rounded
up to an even size, which is where the default case of the `switch` leaves it. -/
theorem ParseImageResources_version_info (env : Env) (file : List Nat) (nColorMode : Nat)
    (r : Resources) (s n : Nat) (hfile : file.length < 2147483648)
    (hsig : field file r.pos 4 = RESOURCE_SIGNATURE)
    (hid : field file (r.pos + 4) 2 = RESOURCE_VERSION_INFO)
    (hs : s = field file (r.pos + 6) 1) (hs8 : s < 256)
    (hn : n = field file (r.pos + 7 + (s ||| 1)) 4) (h5 : 5 ≤ n)
    (hpay : r.pos + 7 + (s ||| 1) + 4 + n ≤ file.length) :
    (ParseImageResources.entry env file nColorMode r = .error .thrown ↔
      field file (r.pos + 7 + (s ||| 1) + 4 + 4) 1 = 0) ∧
    (field file (r.pos + 7 + (s ||| 1) + 4 + 4) 1 ≠ 0 →
      ParseImageResources.entry env file nColorMode r =
        .ok (.more { r with pos := r.pos + 7 + (s ||| 1) + 4 + (n + 1) / 2 * 2 }) ∧
      ∀ id, id ≠ RESOURCE_ICC_PROFILE → id ≠ RESOURCE_ALPHA_IDENTIFIERS →
        id ≠ RESOURCE_VERSION_INFO → id ≠ RESOURCE_EXIF_DATA_1 → id ≠ RESOURCE_EXIF_DATA_3 →
        ParseImageResources.dispatch env file nColorMode id n
            { r with pos := r.pos + 7 + (s ||| 1) + 4 } =
          ParseImageResources.dispatch env file nColorMode RESOURCE_VERSION_INFO n
            { r with pos := r.pos + 7 + (s ||| 1) + 4 }) ∧
    (field file (r.pos + 7 + (s ||| 1) + 4 + 4) 1 = 0 →
      (∀ fuel k r0, ParseImageResources.after env file nColorMode k r0 = some r → k < fuel →
        ParseImageResources env file nColorMode fuel r0 = .error .thrown) ∧
      ∀ fuel k oom hdr p, ReadImage.header env file oom = .ok hdr →
        hdr.nColorMode = nColorMode → 26 + 4 ≤ file.length →
        SeekFile (26 + 4) (toLONG (field file 26 4)) = .ok p → p + 4 ≤ file.length →
        ParseImageResources.after env file nColorMode k
          ⟨p + 4, none, none, 0, decide (hdr.nChannels = 4)⟩ = some r → k < fuel →
        ReadImage env fuel file oom = .ok (none, oom)) := by
  have hentry := entry_resource env file nColorMode r s n hsig hs hs8 hn (by omega) (by omega)
  have hdisp := dispatch_version env file nColorMode n { r with pos := r.pos + 7 + (s ||| 1) + 4 }
    h5 (by simp only []; omega) (by omega)
  simp only [] at hdisp
  rw [hid] at hentry
  have hzero : field file (r.pos + 7 + (s ||| 1) + 4 + 4) 1 = 0 →
      ParseImageResources.entry env file nColorMode r = .error .thrown := by
    intro hb
    rw [hentry, hdisp, if_pos hb]
  have hnonzero : field file (r.pos + 7 + (s ||| 1) + 4 + 4) 1 ≠ 0 →
      ParseImageResources.entry env file nColorMode r =
        .ok (.more { r with pos := r.pos + 7 + (s ||| 1) + 4 + (n + 1) / 2 * 2 }) := by
    intro hb
    rw [hentry, hdisp, if_neg hb]
    simp only []
    rw [SeekFile_ok (r.pos + 7 + (s ||| 1) + 4) _ (r.pos + 7 + (s ||| 1) + 4 + (n + 1) / 2 * 2)
      (by rw [toLONG_padded n (by omega)]; omega) (by omega)]
  have hthrow : field file (r.pos + 7 + (s ||| 1) + 4 + 4) 1 = 0 →
      ∀ fuel k r0, ParseImageResources.after env file nColorMode k r0 = some r → k < fuel →
        ParseImageResources env file nColorMode fuel r0 = .error .thrown := by
    intro hb fuel k r0 hafter hk
    obtain ⟨f, rfl⟩ : ∃ f, fuel = k + (f + 1) := ⟨fuel - k - 1, by omega⟩
    rw [scan_after env file nColorMode (f + 1) k r0 r hafter]
    exact scan_error env file nColorMode f r .thrown (hzero hb)
  refine ⟨⟨?_, hzero⟩, ?_, ?_⟩
  · intro he
    by_contra hb
    rw [hnonzero hb] at he
    cases he
  · intro hb
    refine ⟨hnonzero hb, ?_⟩
    intro id h1 h2 h3 h4 h6
    rw [hdisp, if_neg hb]
    unfold ParseImageResources.dispatch
    rw [if_neg h1, if_neg h2, if_neg h3, if_neg (by
      intro hc
      rcases hc with hc | hc
      · exact h4 hc
      · exact h6 hc)]
  · intro hb
    refine ⟨hthrow hb, ?_⟩
    intro fuel k oom hdr p hh hmode h30 hseek hp hafter hk
    subst hmode
    exact ReadImage_of_scan_thrown env fuel file oom hdr p hh h30 hseek hp
      (hthrow hb fuel k _ hafter hk)

/-- The statement of C22 on a file whose resource section holds a Version Info resource with the
payload `00 00 00 01 00 00`, the fifth byte being zero: `ReadImage` returns no image; with the
payload `00 00 00 01 01 00` it returns the image. -/
theorem ParseImageResources_version_info_witness :
    ReadImage refEnv 2 (resourceFile 18 (resourceEntry 0x0421 [0, 0, 0, 1, 0, 0])) false =
      .ok (none, false) ∧
    ReadImage refEnv 2 (resourceFile 18 (resourceEntry 0x0421 [0, 0, 0, 1, 1, 0])) false =
      .ok (some ⟨⟨1, 1, [0, 0x22, 0x11, 0], none, 4⟩, 4⟩, false) ∧
    (ParseImageResources.entry refEnv (resourceFile 18 (resourceEntry 0x0421 [0, 0, 0, 1, 0, 0]))
        MODE_RGB (scanStart 34) = .error .thrown ↔
      field (resourceFile 18 (resourceEntry 0x0421 [0, 0, 0, 1, 0, 0]))
        ((scanStart 34).pos + 7 + (0 ||| 1) + 4 + 4) 1 = 0) :=
  ⟨by decide, by decide,
    (ParseImageResources_version_info refEnv
      (resourceFile 18 (resourceEntry 0x0421 [0, 0, 0, 1, 0, 0])) MODE_RGB (scanStart 34) 0 6
      (by decide) (by decide) (by decide) (by decide) (by decide) (by decide) (by decide)
      (by decide)).1⟩

end PsdReader


namespace PsdReader

/-! ## The EXIF block is captured once -/

/-- The `switch` of `ParseImageResources` leaves a captured EXIF block as it is. -/
theorem dispatch_keeps_exif (env : Env) (file : List Nat) (nColorMode id n : Nat)
    (r r1 : Resources) (b : List Nat) (hb : r.pEXIFData = some b)
    (h : ParseImageResources.dispatch env file nColorMode id n r = .ok r1) :
    r1.pEXIFData = some b := by
  unfold ParseImageResources.dispatch at h
  have hne : ¬ (r.pEXIFData = none ∧ n < 65526) := by
    rw [hb]
    simp
  simp only [hne, if_false] at h
  repeat' split at h
  all_goals (cases h <;> exact hb)

/-- Outside the EXIF identifiers the `switch` of `ParseImageResources` leaves the EXIF pointer
as it is. -/
theorem dispatch_other_exif (env : Env) (file : List Nat) (nColorMode id n : Nat)
    (r r1 : Resources) (hid : ¬ (id = RESOURCE_EXIF_DATA_1 ∨ id = RESOURCE_EXIF_DATA_3))
    (h : ParseImageResources.dispatch env file nColorMode id n r = .ok r1) :
    r1.pEXIFData = r.pEXIFData := by
  unfold ParseImageResources.dispatch at h
  simp only [hid, if_false] at h
  repeat' split at h
  all_goals (cases h <;> rfl)

/-- An iteration of the resource loop leaves a captured EXIF block as it is. -/
theorem entry_keeps_exif (env : Env) (file : List Nat) (nColorMode : Nat) (r : Resources)
    (b : List Nat) (hb : r.pEXIFData = some b) :
    (∀ r2, ParseImageResources.entry env file nColorMode r = .ok (.more r2) →
      r2.pEXIFData = some b) ∧
    (∀ r2, ParseImageResources.entry env file nColorMode r = .ok (.stop r2) →
      r2.pEXIFData = some b) := by
  constructor
  · intro r2 h
    obtain ⟨id, sz, n, p4, r1, _, _, _, _, _, _, _, h6, _, h8⟩ :=
      entry_more env file nColorMode r r2 h
    rw [h8]
    exact dispatch_keeps_exif env file nColorMode id n { r with pos := p4 + 4 } r1 b hb h6
  · intro r2 h
    rcases entry_stop env file nColorMode r r2 h with ⟨_, rfl⟩ | ⟨_, _, rfl⟩
    · exact hb
    · exact hb

/-- The resource scan leaves a captured EXIF block as it is. -/
theorem scan_keeps_exif (env : Env) (file : List Nat) (nColorMode : Nat) (b : List Nat) :
    ∀ (fuel : Nat) (r rf : Resources), ParseImageResources env file nColorMode fuel r = .ok rf →
      r.pEXIFData = some b → rf.pEXIFData = some b := by
  intro fuel
  induction fuel with
  | zero => intro r rf h; simp [ParseImageResources] at h
  | succ fuel ih =>
    intro r rf h hb
    rw [ParseImageResources] at h
    cases he : ParseImageResources.entry env file nColorMode r with
    | error e => rw [he] at h; simp at h
    | ok sc =>
      rw [he] at h
      cases sc with
      | stop r0 =>
        simp only [Except.ok.injEq] at h
        subst h
        exact (entry_keeps_exif env file nColorMode r b hb).2 r0 he
      | more r0 =>
        simp only [] at h
        exact ih r0 rf h ((entry_keeps_exif env file nColorMode r b hb).1 r0 he)

/-- An iteration at a resource that is not an EXIF resource leaves the EXIF pointer as it
is. -/
theorem entry_other_exif (env : Env) (file : List Nat) (nColorMode : Nat) (r r2 : Resources)
    (hid : ¬ (field file (r.pos + 4) 2 = RESOURCE_EXIF_DATA_1 ∨
      field file (r.pos + 4) 2 = RESOURCE_EXIF_DATA_3))
    (h : ParseImageResources.entry env file nColorMode r = .ok (.more r2)) :
    r2.pEXIFData = r.pEXIFData := by
  obtain ⟨id, sz, n, p4, r1, _, _, e2, _, _, _, _, h6, _, h8⟩ :=
    entry_more env file nColorMode r r2 h
  rw [h8]
  rw [e2] at h6
  exact dispatch_other_exif env file nColorMode _ n { r with pos := p4 + 4 } r1 hid h6

theorem after_succ_right (env : Env) (file : List Nat) (nColorMode : Nat) :
    ∀ (k : Nat) (r0 r r2 : Resources),
      ParseImageResources.after env file nColorMode k r0 = some r →
      ParseImageResources.entry env file nColorMode r = .ok (.more r2) →
      ParseImageResources.after env file nColorMode (k + 1) r0 = some r2 := by
  intro k
  induction k with
  | zero =>
    intro r0 r r2 h he
    simp only [ParseImageResources.after, Option.some.injEq] at h
    subst h
    simp only [ParseImageResources.after, he]
  | succ k ih =>
    intro r0 r r2 h he
    rw [ParseImageResources.after] at h ⊢
    cases h0 : ParseImageResources.entry env file nColorMode r0 with
    | error e => rw [h0] at h; simp at h
    | ok sc =>
      rw [h0] at h
      cases sc with
      | stop r1 => simp at h
      | more r1 =>
        simp only [] at h ⊢
        exact ih r1 r r2 h he

/-- A prefix of `k` iterations is a prefix of `j ≤ k` iterations followed by `k - j` more. -/
theorem after_split (env : Env) (file : List Nat) (nColorMode : Nat) :
    ∀ (j k : Nat) (r0 r : Resources),
      ParseImageResources.after env file nColorMode (j + k) r0 = some r →
      ∃ rj, ParseImageResources.after env file nColorMode j r0 = some rj ∧
        ParseImageResources.after env file nColorMode k rj = some r := by
  intro j
  induction j with
  | zero =>
    intro k r0 r h
    rw [Nat.zero_add] at h
    exact ⟨r0, rfl, h⟩
  | succ j ih =>
    intro k r0 r h
    rw [show j + 1 + k = (j + k) + 1 by omega, ParseImageResources.after] at h
    rw [ParseImageResources.after]
    cases h0 : ParseImageResources.entry env file nColorMode r0 with
    | error e => rw [h0] at h; simp at h
    | ok sc =>
      rw [h0] at h
      cases sc with
      | stop r1 => simp at h
      | more r1 =>
        simp only [] at h ⊢
        exact ih k r1 r h

/-- As long as no EXIF resource was met, the EXIF pointer is the one the scan began with. -/
theorem after_other_exif (env : Env) (file : List Nat) (nColorMode : Nat) (r0 : Resources) :
    ∀ (k : Nat) (r : Resources),
      (∀ j rj, j < k → ParseImageResources.after env file nColorMode j r0 = some rj →
        ¬ (field file (rj.pos + 4) 2 = RESOURCE_EXIF_DATA_1 ∨
          field file (rj.pos + 4) 2 = RESOURCE_EXIF_DATA_3)) →
      ParseImageResources.after env file nColorMode k r0 = some r →
      r.pEXIFData = r0.pEXIFData := by
  intro k
  induction k with
  | zero =>
    intro r _ h
    simp only [ParseImageResources.after, Option.some.injEq] at h
    rw [h]
  | succ k ih =>
    intro r hfirst h
    obtain ⟨rk, hk, h1⟩ := after_split env file nColorMode k 1 r0 r h
    have e1 := ih rk (fun j rj hj hr => hfirst j rj (by omega) hr) hk
    rw [ParseImageResources.after] at h1
    cases he : ParseImageResources.entry env file nColorMode rk with
    | error e => rw [he] at h1; simp at h1
    | ok sc =>
      rw [he] at h1
      cases sc with
      | stop r1 => simp at h1
      | more r1 =>
        simp only [ParseImageResources.after, Option.some.injEq] at h1
        subst h1
        rw [entry_other_exif env file nColorMode rk r1 (hfirst k rk (by omega) hk) he, e1]

/-- A scan that yields a result has run through every prefix of its iterations. -/
theorem scan_split (env : Env) (file : List Nat) (nColorMode : Nat) :
    ∀ (k fuel : Nat) (r0 r rf : Resources),
      ParseImageResources.after env file nColorMode k r0 = some r →
      ParseImageResources env file nColorMode fuel r0 = .ok rf →
      ∃ f, fuel = k + f ∧ ParseImageResources env file nColorMode f r = .ok rf := by
  intro k
  induction k with
  | zero =>
    intro fuel r0 r rf h hs
    simp only [ParseImageResources.after, Option.some.injEq] at h
    subst h
    exact ⟨fuel, by omega, hs⟩
  | succ k ih =>
    intro fuel r0 r rf h hs
    rw [ParseImageResources.after] at h
    cases fuel with
    | zero => simp [ParseImageResources] at hs
    | succ fuel =>
      rw [ParseImageResources] at hs
      cases h0 : ParseImageResources.entry env file nColorMode r0 with
      | error e => rw [h0] at h; simp at h
      | ok sc =>
        rw [h0] at h hs
        cases sc with
        | stop r1 => simp at h
        | more r1 =>
          simp only [] at h hs
          obtain ⟨f, rfl, hf⟩ := ih fuel r1 r rf h hs
          exact ⟨f, by omega, hf⟩

/-- The image carries the EXIF pointer that the sections left. -/
theorem pixels_exif (env : Env) (hdr : Header) (s : Sections) (d : Decoded)
    (h : ReadImage.pixels env hdr s = .ok d) : d.image.pEXIFData = s.pEXIFData := by
  unfold ReadImage.pixels at h
  by_cases hb : hdr.nBitDepth = 1 ∨ hdr.nColorMode = MODE_Bitmap
  · rw [if_pos hb] at h
    simp only [bind, pure, Except.pure, throw, throwThe, MonadExceptOf.throw, ite_error_eq_ok,
      bind_eq_ok, Except.ok.injEq] at h
    obtain ⟨_, writes, _, rfl⟩ := h
    rfl
  · rw [if_neg hb] at h
    simp only [bind, pure, Except.pure, throw, throwThe, MonadExceptOf.throw, ite_error_eq_ok,
      bind_eq_ok, Except.ok.injEq] at h
    obtain ⟨_, writes, _, rfl⟩ := h
    rfl

/-! ## The loop of the thumbnail path -/

/-- An iteration of the thumbnail resource loop that goes on has read a signature `8BIM`, an
identifier, the length of the name and, behind the name, the payload size; it has run the
`switch` from the start of the payload and then moved the file pointer by the padded payload
size. -/
theorem thumb_entry_more (env : ThumbEnv) (file : List Nat) (t t2 : Thumb)
    (h : ParseThumbnailResources.entry env file t = .ok (.more t2)) :
    ∃ nResourceID nStringSize nResourceSize p4 t1,
      field file t.pos 4 = RESOURCE_SIGNATURE ∧ t.pos + 7 ≤ file.length ∧
      nResourceID = field file (t.pos + 4) 2 ∧ nStringSize = field file (t.pos + 6) 1 ∧
      SeekFile (t.pos + 7) (toLONG (nStringSize ||| 1)) = .ok p4 ∧
      nResourceSize = field file p4 4 ∧ p4 + 4 ≤ file.length ∧
      ParseThumbnailResources.dispatch env file nResourceID nResourceSize
        { t with pos := p4 + 4 } = .ok t1 ∧
      SeekFile t1.pos (toLONG (u32 (nResourceSize + 1) &&& 4294967294)) = .ok t2.pos ∧
      t2 = { t1 with pos := t2.pos } := by
  unfold ParseThumbnailResources.entry at h
  cases h1 : ReadUIntFromFile file t.pos with
  | error e => rw [h1] at h; simp at h
  | ok a1 =>
    obtain ⟨sig, pos1⟩ := a1
    obtain ⟨e1, rfl, l1⟩ := ReadUIntFromFile_ok file _ _ _ h1
    rw [h1] at h
    simp only [] at h
    by_cases hsig : sig ≠ RESOURCE_SIGNATURE
    · rw [if_pos hsig] at h; simp at h
    rw [if_neg hsig] at h
    cases h2 : ReadUShortFromFile file (t.pos + 4) with
    | error e => rw [h2] at h; simp at h
    | ok a2 =>
      obtain ⟨id, pos2⟩ := a2
      obtain ⟨e2, rfl, l2⟩ := ReadUShortFromFile_ok file _ _ _ h2
      rw [h2] at h
      simp only [] at h
      cases h3 : ReadUCharFromFile file (t.pos + 4 + 2) with
      | error e => rw [h3] at h; simp at h
      | ok a3 =>
        obtain ⟨sz, pos3⟩ := a3
        obtain ⟨e3, rfl, l3⟩ := ReadUCharFromFile_ok file _ _ _ h3
        rw [h3] at h
        simp only [] at h
        cases h4 : SeekFile (t.pos + 4 + 2 + 1) (toLONG (sz ||| 1)) with
        | error e => rw [h4] at h; simp at h
        | ok p4 =>
          rw [h4] at h
          simp only [] at h
          cases h5 : ReadUIntFromFile file p4 with
          | error e => rw [h5] at h; simp at h
          | ok a5 =>
            obtain ⟨n, pos5⟩ := a5
            obtain ⟨e5, rfl, l5⟩ := ReadUIntFromFile_ok file _ _ _ h5
            rw [h5] at h
            simp only [] at h
            cases h6 : ParseThumbnailResources.dispatch env file id n
                { t with pos := p4 + 4 } with
            | error e => rw [h6] at h; simp at h
            | ok t1 =>
              rw [h6] at h
              simp only [] at h
              cases h7 : SeekFile t1.pos (toLONG (u32 (n + 1) &&& 4294967294)) with
              | error e => rw [h7] at h; simp at h
              | ok pos6 =>
                rw [h7] at h
                simp only [Except.ok.injEq, ThumbScan.more.injEq] at h
                subst h
                refine ⟨id, sz, n, p4, t1, ?_, by omega, e2, e3, h4, e5, l5, h6, h7, rfl⟩
                rw [← e1]
                exact not_not.mp hsig

/-- An iteration of the thumbnail resource loop that stops has changed nothing but the
position. -/
theorem thumb_entry_stop (env : ThumbEnv) (file : List Nat) (t t1 : Thumb)
    (h : ParseThumbnailResources.entry env file t = .ok (.stop t1)) :
    t1 = { t with pos := max t.pos file.length } ∨ t1 = { t with pos := t.pos + 4 } := by
  unfold ParseThumbnailResources.entry at h
  rw [ReadUIntFromFile_eq] at h
  by_cases h4 : 4 ≤ file.length - t.pos
  · rw [if_pos h4] at h
    simp only [] at h
    by_cases hsig : field file t.pos 4 ≠ RESOURCE_SIGNATURE
    · rw [if_pos hsig] at h
      exact Or.inr (ThumbScan.stop.inj (Except.ok.inj h)).symm
    · rw [if_neg hsig] at h
      exfalso
      cases h2 : ReadUShortFromFile file (t.pos + 4) with
      | error e => rw [h2] at h; simp at h
      | ok a2 =>
        rw [h2] at h
        simp only [] at h
        cases h3 : ReadUCharFromFile file a2.2 with
        | error e => rw [h3] at h; simp at h
        | ok a3 =>
          rw [h3] at h
          simp only [] at h
          cases h4 : SeekFile a3.2 (toLONG (a3.1 ||| 1)) with
          | error e => rw [h4] at h; simp at h
          | ok p4 =>
            rw [h4] at h
            simp only [] at h
            cases h5 : ReadUIntFromFile file p4 with
            | error e => rw [h5] at h; simp at h
            | ok a5 =>
              rw [h5] at h
              simp only [] at h
              cases h6 : ParseThumbnailResources.dispatch env file a2.1 a5.1
                  { t with pos := a5.2 } with
              | error e => rw [h6] at h; simp at h
              | ok t2 =>
                rw [h6] at h
                simp only [] at h
                cases h7 : SeekFile t2.pos (toLONG (u32 (a5.1 + 1) &&& 4294967294)) with
                | error e => rw [h7] at h; simp at h
                | ok pos6 => rw [h7] at h; simp at h
  · rw [if_neg h4] at h
    exact Or.inl (ThumbScan.stop.inj (Except.ok.inj h)).symm

/-- The case of the thumbnail identifiers of the `switch` of `ParseThumbnailResources`, when it
returns: the size of the stream was accepted, the stream was read from behind the header of the
resource, and the decoder was run on it. -/
theorem thumb_dispatch_thumbnail (env : ThumbEnv) (file : List Nat) (id n : Nat) (t t1 : Thumb)
    (h1 : id = RESOURCE_THUMBNAIL_4 ∨ id = RESOURCE_THUMBNAIL_5)
    (h : ParseThumbnailResources.dispatch env file id n t = .ok t1) :
    ∃ pos1 bytes pos2 pos3,
      SeekFile t.pos (THUMBNAIL_HEADER_SIZE : Int) = .ok pos1 ∧
      env.jpegTooLarge (toLONG (subU32 n THUMBNAIL_HEADER_SIZE)) = false ∧
      0 ≤ toLONG (subU32 n THUMBNAIL_HEADER_SIZE) ∧
      ReadFromFile file pos1 (toLONG (subU32 n THUMBNAIL_HEADER_SIZE)).toNat =
        .ok (bytes, pos2) ∧
      SeekFile pos2 (toLONG (negU32 n)) = .ok pos3 ∧
      t1.pos = pos3 ∧ t1.pEXIFData = t.pEXIFData ∧ t1.pBuffer = some bytes ∧
      t1.nJpegSize = toLONG (subU32 n THUMBNAIL_HEADER_SIZE) ∧
      t1.pPixelData = (env.TurboJpegReadImage bytes (toLONG (subU32 n THUMBNAIL_HEADER_SIZE))
        t.bOutOfMemory).pPixelData ∧
      t1.nWidth = (env.TurboJpegReadImage bytes (toLONG (subU32 n THUMBNAIL_HEADER_SIZE))
        t.bOutOfMemory).nWidth ∧
      t1.nHeight = (env.TurboJpegReadImage bytes (toLONG (subU32 n THUMBNAIL_HEADER_SIZE))
        t.bOutOfMemory).nHeight ∧
      t1.nChannels = (env.TurboJpegReadImage bytes (toLONG (subU32 n THUMBNAIL_HEADER_SIZE))
        t.bOutOfMemory).nChannels ∧
      t1.eChromoSubSampling = (env.TurboJpegReadImage bytes
        (toLONG (subU32 n THUMBNAIL_HEADER_SIZE)) t.bOutOfMemory).eChromoSubSampling ∧
      t1.bOutOfMemory = (env.TurboJpegReadImage bytes (toLONG (subU32 n THUMBNAIL_HEADER_SIZE))
        t.bOutOfMemory).bOutOfMemory := by
  unfold ParseThumbnailResources.dispatch at h
  rw [if_pos h1] at h
  generalize toLONG (subU32 n THUMBNAIL_HEADER_SIZE) = js at h ⊢
  generalize toLONG (negU32 n) = back at h ⊢
  generalize (THUMBNAIL_HEADER_SIZE : Int) = hd at h ⊢
  cases hs : SeekFile t.pos hd with
  | error e => rw [hs] at h; cases h
  | ok pos1 =>
    rw [hs] at h
    change (if env.jpegTooLarge js = true then _ else _) = _ at h
    by_cases hj : env.jpegTooLarge js = true
    · rw [if_pos hj] at h; cases h
    rw [if_neg hj] at h
    by_cases ha : js < 0 ∨ ¬ env.allocOk js.toNat = true
    · rw [if_pos ha] at h; cases h
    rw [if_neg ha] at h
    cases hr : ReadFromFile file pos1 js.toNat with
    | error e => rw [hr] at h; cases h
    | ok a =>
      rw [hr] at h
      obtain ⟨bytes, pos2⟩ := a
      simp only [] at h
      cases hk : SeekFile pos2 back with
      | error e => rw [hk] at h; cases h
      | ok pos3 =>
        rw [hk] at h
        simp only [Except.ok.injEq] at h
        rw [← h]
        refine ⟨pos1, bytes, pos2, pos3, rfl, ?_, ?_, hr, hk, rfl, rfl, rfl, rfl, rfl, rfl, rfl,
          rfl, rfl, rfl⟩
        · cases hb : env.jpegTooLarge js with
          | true => exact absurd hb hj
          | false => rfl
        · by_contra hneg
          exact ha (Or.inl (by omega))

/-- Outside the thumbnail identifiers the `switch` of `ParseThumbnailResources` leaves what the
last thumbnail resource gave. -/
theorem thumb_dispatch_other (env : ThumbEnv) (file : List Nat) (id n : Nat) (t t1 : Thumb)
    (h1 : ¬ (id = RESOURCE_THUMBNAIL_4 ∨ id = RESOURCE_THUMBNAIL_5))
    (h : ParseThumbnailResources.dispatch env file id n t = .ok t1) :
    t1.pBuffer = t.pBuffer ∧ t1.nJpegSize = t.nJpegSize ∧ t1.pPixelData = t.pPixelData ∧
    t1.nWidth = t.nWidth ∧ t1.nHeight = t.nHeight ∧ t1.nChannels = t.nChannels ∧
    t1.eChromoSubSampling = t.eChromoSubSampling ∧ t1.bOutOfMemory = t.bOutOfMemory := by
  unfold ParseThumbnailResources.dispatch at h
  rw [if_neg h1] at h
  by_cases h2 : id = RESOURCE_EXIF_DATA_1 ∨ id = RESOURCE_EXIF_DATA_3
  · rw [if_pos h2] at h
    by_cases h3 : t.pEXIFData = none ∧ n < 65526
    · rw [if_pos h3] at h
      by_cases h4 : env.allocOk (n + 10) = true
      · rw [if_pos h4] at h
        cases hr : ReadFromFile file t.pos n with
        | error e => rw [hr] at h; cases h
        | ok a =>
          rw [hr] at h
          simp only [] at h
          cases hk : SeekFile a.2 (toLONG (negU32 n)) with
          | error e => rw [hk] at h; cases h
          | ok pos2 =>
            rw [hk] at h
            simp only [Except.ok.injEq] at h
            rw [← h]
            exact ⟨rfl, rfl, rfl, rfl, rfl, rfl, rfl, rfl⟩
      · rw [if_neg h4] at h
        cases h
        exact ⟨rfl, rfl, rfl, rfl, rfl, rfl, rfl, rfl⟩
    · rw [if_neg h3] at h
      cases h
      exact ⟨rfl, rfl, rfl, rfl, rfl, rfl, rfl, rfl⟩
  · rw [if_neg h2] at h
    cases h
    exact ⟨rfl, rfl, rfl, rfl, rfl, rfl, rfl, rfl⟩

/-- The `switch` of `ParseThumbnailResources` leaves a captured EXIF block as it is. -/
theorem thumb_dispatch_keeps_exif (env : ThumbEnv) (file : List Nat) (id n : Nat)
    (t t1 : Thumb) (b : List Nat) (hb : t.pEXIFData = some b)
    (h : ParseThumbnailResources.dispatch env file id n t = .ok t1) :
    t1.pEXIFData = some b := by
  by_cases h1 : id = RESOURCE_THUMBNAIL_4 ∨ id = RESOURCE_THUMBNAIL_5
  · obtain ⟨_, _, _, _, _, _, _, _, _, _, e, _⟩ :=
      thumb_dispatch_thumbnail env file id n t t1 h1 h
    rw [e]
    exact hb
  · unfold ParseThumbnailResources.dispatch at h
    have hne : ¬ (t.pEXIFData = none ∧ n < 65526) := by
      rw [hb]
      simp
    rw [if_neg h1] at h
    by_cases h2 : id = RESOURCE_EXIF_DATA_1 ∨ id = RESOURCE_EXIF_DATA_3
    · rw [if_pos h2, if_neg hne] at h
      cases h
      exact hb
    · rw [if_neg h2] at h
      cases h
      exact hb

/-- The thumbnail resource scan leaves a captured EXIF block as it is. -/
theorem thumb_scan_keeps_exif (env : ThumbEnv) (file : List Nat) (b : List Nat) :
    ∀ (fuel : Nat) (t tf : Thumb), ParseThumbnailResources env file fuel t = .ok tf →
      t.pEXIFData = some b → tf.pEXIFData = some b := by
  intro fuel
  induction fuel with
  | zero => intro t tf h; simp [ParseThumbnailResources] at h
  | succ fuel ih =>
    intro t tf h hb
    rw [ParseThumbnailResources] at h
    cases he : ParseThumbnailResources.entry env file t with
    | error e => rw [he] at h; simp at h
    | ok sc =>
      rw [he] at h
      cases sc with
      | stop t0 =>
        simp only [Except.ok.injEq] at h
        subst h
        rcases thumb_entry_stop env file t t0 he with rfl | rfl
        · exact hb
        · exact hb
      | more t0 =>
        simp only [] at h
        apply ih t0 tf h
        obtain ⟨id, sz, n, p4, t1, _, _, _, _, _, _, _, h6, _, h8⟩ :=
          thumb_entry_more env file t t0 he
        rw [h8]
        exact thumb_dispatch_keeps_exif env file id n { t with pos := p4 + 4 } t1 b hb h6

/-- Along the scan the first EXIF resource wins: let `ReadImage` return an image, its resource
scan having reached, after `k` iterations at resources none of which has an EXIF identifier, a
resource with the signature `8BIM` and the identifier 0x0422 or 0x0423, whose head lies within
the file and whose payload has `n < 65526` bytes, the allocation of `n + 10` bytes succeeding.
Then the EXIF block of the image is the block made of the payload of this resource, whatever
follows it; for the resource scans of both `ReadImage` and `ReadThumb` leave a captured EXIF
block as it is. The positions that the scan reaches are not always the starts of the resources
of the file. -/
theorem ReadImage_exif_first_reached (env : Env) (fuel : Nat) (file : List Nat) (oom b : Bool)
    (d : Decoded) (hdr : Header) (p k : Nat) (r : Resources) (s n : Nat)
    (hret : ReadImage env fuel file oom = .ok (some d, b))
    (hh : ReadImage.header env file oom = .ok hdr)
    (hfile : file.length < 4294967295) (h30 : 26 + 4 ≤ file.length)
    (hseek : SeekFile (26 + 4) (toLONG (field file 26 4)) = .ok p) (hp : p + 4 ≤ file.length)
    (hreach : ParseImageResources.after env file hdr.nColorMode k
      ⟨p + 4, none, none, 0, decide (hdr.nChannels = 4)⟩ = some r)
    (hfirst : ∀ j rj, j < k → ParseImageResources.after env file hdr.nColorMode j
      ⟨p + 4, none, none, 0, decide (hdr.nChannels = 4)⟩ = some rj →
      ¬ (field file (rj.pos + 4) 2 = RESOURCE_EXIF_DATA_1 ∨
        field file (rj.pos + 4) 2 = RESOURCE_EXIF_DATA_3))
    (hsig : field file r.pos 4 = RESOURCE_SIGNATURE)
    (hid : field file (r.pos + 4) 2 = RESOURCE_EXIF_DATA_1 ∨
      field file (r.pos + 4) 2 = RESOURCE_EXIF_DATA_3)
    (hs : s = field file (r.pos + 6) 1) (hs8 : s < 256)
    (hn : n = field file (r.pos + 7 + (s ||| 1)) 4) (hn6 : n < 65526)
    (hlen : r.pos + 7 + (s ||| 1) + 4 ≤ file.length)
    (halloc : env.allocOk (n + 10) = true) :
    d.image.pEXIFData = some (exifBlock n ((file.drop (r.pos + 7 + (s ||| 1) + 4)).take n)) ∧
    (∀ nColorMode fuel1 r1 rf blk,
      ParseImageResources env file nColorMode fuel1 r1 = .ok rf → r1.pEXIFData = some blk →
      rf.pEXIFData = some blk) ∧
    (∀ tenv fuel1 t tf blk,
      ParseThumbnailResources tenv file fuel1 t = .ok tf → t.pEXIFData = some blk →
      tf.pEXIFData = some blk) := by
  refine ⟨?_, fun nColorMode fuel1 r1 rf blk h1 h2 =>
    scan_keeps_exif env file nColorMode blk fuel1 r1 rf h1 h2,
    fun tenv fuel1 t tf blk h1 h2 => thumb_scan_keeps_exif tenv file blk fuel1 t tf h1 h2⟩
  obtain ⟨_, hdr1, sec, hh1, hsec, hpix⟩ := ReadImage_ok env fuel file oom d b hret
  rw [hh] at hh1
  obtain rfl := Except.ok.inj hh1
  obtain ⟨_, _, _, _, _, _, _, _, _, hpos, _⟩ := header_inv env file oom hdr hh
  obtain ⟨scan, lay, img, hres, _, _, hsecs⟩ := sections_inv env fuel file hdr sec hsec
  rw [resources_scan env fuel file hdr p hpos h30 hseek hp, bind_eq_ok] at hres
  obtain ⟨rf, hscan, hrf⟩ := hres
  have e1 : sec.pEXIFData = rf.pEXIFData := by
    rw [hsecs, ← Except.ok.inj hrf]
  rw [pixels_exif env hdr sec d hpix, e1]
  obtain ⟨f, _, hf⟩ := scan_split env file hdr.nColorMode k fuel _ r rf hreach hscan
  have hnone : r.pEXIFData = none :=
    after_other_exif env file hdr.nColorMode _ k r hfirst hreach
  cases f with
  | zero => simp [ParseImageResources] at hf
  | succ f =>
    rw [ParseImageResources,
      entry_resource env file hdr.nColorMode r s n hsig hs hs8 hn hlen hfile] at hf
    cases hd : ParseImageResources.dispatch env file hdr.nColorMode (field file (r.pos + 4) 2) n
        { r with pos := r.pos + 7 + (s ||| 1) + 4 } with
    | error e => rw [hd] at hf; simp at hf
    | ok r1 =>
      rw [hd] at hf
      simp only [] at hf
      obtain ⟨hblock, _, _⟩ := dispatch_exif env file hdr.nColorMode _ n
        { r with pos := r.pos + 7 + (s ||| 1) + 4 } r1 hid hnone hn6 halloc hd
      simp only [] at hblock
      cases hk : SeekFile r1.pos (toLONG (u32 (n + 1) &&& 4294967294)) with
      | error e => rw [hk] at hf; simp at hf
      | ok pos6 =>
        rw [hk] at hf
        simp only [] at hf
        exact scan_keeps_exif env file hdr.nColorMode _ f { r1 with pos := pos6 } rf hf hblock

/-- The first EXIF resource that the scan reaches, on a file whose resource section holds a
resource 0x03ED, an EXIF resource 0x0423 with the payload `01 02` and an EXIF resource 0x0422
with the payload `03 04`: the EXIF block of the image is made of the payload `01 02`. -/
theorem ReadImage_exif_first_reached_example :
    ReadImage refEnv 4 (resourceFile 42 (resourceEntry 0x03ED [9, 9] ++
        resourceEntry 0x0423 [1, 2] ++ resourceEntry 0x0422 [3, 4])) false =
      .ok (some ⟨⟨1, 1, [0, 0x22, 0x11, 0],
        some [0xFF, 0xE1, 0, 10, 0x45, 0x78, 0x69, 0x66, 0, 0, 1, 2], 4⟩, 4⟩, false) ∧
    (⟨⟨1, 1, [0, 0x22, 0x11, 0],
        some [0xFF, 0xE1, 0, 10, 0x45, 0x78, 0x69, 0x66, 0, 0, 1, 2], 4⟩, 4⟩ :
        Decoded).image.pEXIFData =
      some (exifBlock 2 (((resourceFile 42 (resourceEntry 0x03ED [9, 9] ++
        resourceEntry 0x0423 [1, 2] ++ resourceEntry 0x0422 [3, 4])).drop
          (48 + 7 + (0 ||| 1) + 4)).take 2)) :=
  ⟨by decide,
    (ReadImage_exif_first_reached refEnv 4 (resourceFile 42 (resourceEntry 0x03ED [9, 9] ++
        resourceEntry 0x0423 [1, 2] ++ resourceEntry 0x0422 [3, 4])) false false
      ⟨⟨1, 1, [0, 0x22, 0x11, 0],
        some [0xFF, 0xE1, 0, 10, 0x45, 0x78, 0x69, 0x66, 0, 0, 1, 2], 4⟩, 4⟩
      ⟨86, 1, 4, 1, 1, 8, 3, 4, 26⟩ 30 1 ⟨48, none, none, 0, true⟩ 0 2
      (by decide) (by decide) (by decide) (by decide) (by decide) (by decide) (by decide)
      (by
        intro j rj hj h
        have hj0 : j = 0 := by omega
        subst hj0
        simp only [ParseImageResources.after, Option.some.injEq] at h
        subst h
        decide)
      (by decide) (by decide) (by decide) (by decide) (by decide) (by decide) (by decide)
      (by decide)).1⟩

end PsdReader


namespace PsdReader

/-! ## The thumbnail that `ReadThumb` returns -/

theorem SeekFile_inv (pos : Nat) (offset : Int) (target : Nat)
    (h : SeekFile pos offset = .ok target) :
    (target : Int) = (pos : Int) + offset ∧ target < 4294967295 := by
  unfold SeekFile setFilePointer at h
  by_cases hc : (pos : Int) + offset < 0 ∨ (pos : Int) + offset ≥ 4294967295
  · rw [if_pos hc] at h
    cases h
  · rw [if_neg hc] at h
    have e := Except.ok.inj h
    omega

/-- The size of the JPEG stream of a thumbnail resource of `n` bytes, when it is not negative. -/
theorem toLONG_jpeg_size (n : Nat) (hn : n < 2147483648)
    (h : 0 ≤ toLONG (subU32 n THUMBNAIL_HEADER_SIZE)) :
    28 ≤ n ∧ toLONG (subU32 n THUMBNAIL_HEADER_SIZE) = ((n - 28 : Nat) : Int) := by
  unfold toLONG subU32 u32 THUMBNAIL_HEADER_SIZE at *
  by_cases h28 : 28 ≤ n
  · have e : (n % 4294967296 + (4294967296 - 28 % 4294967296)) % 4294967296 % 4294967296
        = n - 28 := by omega
    rw [e] at h ⊢
    rw [if_pos (by omega)]
    exact ⟨h28, rfl⟩
  · have e : (n % 4294967296 + (4294967296 - 28 % 4294967296)) % 4294967296 % 4294967296
        = n + 4294967268 := by omega
    rw [e, if_neg (by omega)] at h
    omega

/-- An iteration of the thumbnail resource loop at a resource whose head lies within the
file. -/
theorem thumb_entry_resource (env : ThumbEnv) (file : List Nat) (t : Thumb)
    (s n : Nat) (hsig : field file t.pos 4 = RESOURCE_SIGNATURE)
    (hs : s = field file (t.pos + 6) 1) (hs8 : s < 256)
    (hn : n = field file (t.pos + 7 + (s ||| 1)) 4)
    (hlen : t.pos + 7 + (s ||| 1) + 4 ≤ file.length) (hfile : file.length < 4294967295) :
    ParseThumbnailResources.entry env file t =
      match ParseThumbnailResources.dispatch env file (field file (t.pos + 4) 2) n
          { t with pos := t.pos + 7 + (s ||| 1) + 4 } with
      | .error e => .error e
      | .ok t1 =>
        match SeekFile t1.pos (toLONG (u32 (n + 1) &&& 4294967294)) with
        | .error e => .error (raise t1.bOutOfMemory e)
        | .ok pos6 => .ok (.more { t1 with pos := pos6 }) := by
  have hs1 : s ||| 1 < 256 := by
    have := Nat.or_lt_two_pow (x := s) (y := 1) (n := 8) hs8 (by decide)
    simpa using this
  unfold ParseThumbnailResources.entry
  rw [ReadUIntFromFile_eq, if_pos (by omega)]
  simp only []
  rw [if_neg (by rw [hsig]; simp), ReadUShortFromFile_eq, if_pos (by omega)]
  simp only []
  rw [ReadUCharFromFile_eq, if_pos (by omega)]
  simp only []
  rw [show t.pos + 4 + 2 = t.pos + 6 from rfl, ← hs,
    SeekFile_ok (t.pos + 6 + 1) (toLONG (s ||| 1)) (t.pos + 7 + (s ||| 1))
      (by rw [toLONG_of_lt _ (by omega)]; omega) (by omega)]
  simp only []
  rw [ReadUIntFromFile_eq, if_pos (by omega), ← hn]
  all_goals rfl

/-- A thumbnail scan that yields a result has run through every prefix of its iterations. -/
theorem thumb_scan_split (env : ThumbEnv) (file : List Nat) :
    ∀ (k fuel : Nat) (t0 t tf : Thumb),
      ParseThumbnailResources.after env file k t0 = some t →
      ParseThumbnailResources env file fuel t0 = .ok tf →
      ∃ f, fuel = k + f ∧ ParseThumbnailResources env file f t = .ok tf := by
  intro k
  induction k with
  | zero =>
    intro fuel t0 t tf h hs
    simp only [ParseThumbnailResources.after, Option.some.injEq] at h
    subst h
    exact ⟨fuel, by omega, hs⟩
  | succ k ih =>
    intro fuel t0 t tf h hs
    rw [ParseThumbnailResources.after] at h
    cases fuel with
    | zero => simp [ParseThumbnailResources] at hs
    | succ fuel =>
      rw [ParseThumbnailResources] at hs
      cases h0 : ParseThumbnailResources.entry env file t0 with
      | error e => rw [h0] at h; simp at h
      | ok sc =>
        rw [h0] at h hs
        cases sc with
        | stop t1 => simp at h
        | more t1 =>
          simp only [] at h hs
          obtain ⟨f, rfl, hf⟩ := ih fuel t1 t tf h hs
          exact ⟨f, by omega, hf⟩

/-- A thumbnail scan that meets no thumbnail resource leaves what the last thumbnail resource
gave. -/
theorem thumb_scan_keeps_buffer (env : ThumbEnv) (file : List Nat) :
    ∀ (fuel : Nat) (t tf : Thumb), ParseThumbnailResources env file fuel t = .ok tf →
      (∀ j tj, ParseThumbnailResources.after env file j t = some tj →
        ¬ (field file (tj.pos + 4) 2 = RESOURCE_THUMBNAIL_4 ∨
          field file (tj.pos + 4) 2 = RESOURCE_THUMBNAIL_5)) →
      tf.pBuffer = t.pBuffer ∧ tf.nJpegSize = t.nJpegSize ∧ tf.pPixelData = t.pPixelData ∧
      tf.nWidth = t.nWidth ∧ tf.nHeight = t.nHeight ∧ tf.nChannels = t.nChannels ∧
      tf.eChromoSubSampling = t.eChromoSubSampling ∧ tf.bOutOfMemory = t.bOutOfMemory := by
  intro fuel
  induction fuel with
  | zero => intro t tf h; simp [ParseThumbnailResources] at h
  | succ fuel ih =>
    intro t tf h hother
    rw [ParseThumbnailResources] at h
    cases he : ParseThumbnailResources.entry env file t with
    | error e => rw [he] at h; simp at h
    | ok sc =>
      rw [he] at h
      cases sc with
      | stop t0 =>
        simp only [Except.ok.injEq] at h
        subst h
        rcases thumb_entry_stop env file t t0 he with rfl | rfl
        · exact ⟨rfl, rfl, rfl, rfl, rfl, rfl, rfl, rfl⟩
        · exact ⟨rfl, rfl, rfl, rfl, rfl, rfl, rfl, rfl⟩
      | more t0 =>
        simp only [] at h
        obtain ⟨id, sz, n, p4, t1, _, _, e2, _, _, _, _, h6, _, h8⟩ :=
          thumb_entry_more env file t t0 he
        rw [e2] at h6
        obtain ⟨a1, a2, a3, a4, a5, a6, a7, a8⟩ := thumb_dispatch_other env file _ n
          { t with pos := p4 + 4 } t1 (hother 0 t rfl) h6
        have hnext : ∀ j tj, ParseThumbnailResources.after env file j t0 = some tj →
            ¬ (field file (tj.pos + 4) 2 = RESOURCE_THUMBNAIL_4 ∨
              field file (tj.pos + 4) 2 = RESOURCE_THUMBNAIL_5) := by
          intro j tj hj
          apply hother (j + 1) tj
          rw [ParseThumbnailResources.after, he]
          exact hj
        obtain ⟨b1, b2, b3, b4, b5, b6, b7, b8⟩ := ih t0 tf h hnext
        rw [h8] at b1 b2 b3 b4 b5 b6 b7 b8
        simp only [] at b1 b2 b3 b4 b5 b6 b7 b8 a1 a2 a3 a4 a5 a6 a7 a8
        exact ⟨b1.trans a1, b2.trans a2, b3.trans a3, b4.trans a4, b5.trans a5, b6.trans a6,
          b7.trans a7, b8.trans a8⟩

/-- The state that `ReadThumb` hands to the thumbnail resource scan. -/
theorem ReadThumb_body_scan (env : ThumbEnv) (fuel : Nat) (file : List Nat) (oom : Bool)
    (p : Nat) (h30 : 26 + 4 ≤ file.length)
    (hseek : SeekFile (26 + 4) (toLONG (field file 26 4)) = .ok p) (hp : p + 4 ≤ file.length) :
    ReadThumb.body env fuel file oom =
      ParseThumbnailResources env file fuel ⟨p + 4, none, none, 0, none, 0, 0, 0, 0, oom⟩ := by
  simp only [ReadThumb.body, bind, pure, Except.pure]
  rw [SeekFile_ok 0 (PSD_HEADER_SIZE : Int) 26 (by decide) (by decide), ok_bind,
    ReadUIntFromFile_eq, if_pos (by omega), ok_bind]
  simp only []
  rw [hseek, ok_bind, ReadUIntFromFile_eq, if_pos (by omega), ok_bind]

/-- A thumbnail returned by `ReadThumb` is built from the state that the scan yields. -/
theorem ReadThumb_ok (env : ThumbEnv) (fuel : Nat) (file : List Nat) (oom b : Bool)
    (img : ThumbImage) (h : ReadThumb env fuel file oom = .ok (some img, b)) :
    ∃ tf, ReadThumb.body env fuel file oom = .ok tf ∧ img.pBuffer = tf.pBuffer ∧
      img.nJpegSize = tf.nJpegSize ∧ tf.pPixelData = some img.pPixelData ∧
      img.pEXIFData = tf.pEXIFData := by
  unfold ReadThumb at h
  cases hb : ReadThumb.body env fuel file oom with
  | error e =>
    rw [hb] at h
    cases e <;> simp at h
  | ok tf =>
    rw [hb] at h
    simp only [] at h
    cases hp : tf.pPixelData with
    | none => rw [hp] at h; simp at h
    | some pixels =>
      rw [hp] at h
      simp only [Except.ok.injEq, Prod.mk.injEq, Option.some.injEq] at h
      obtain ⟨rfl, _⟩ := h
      exact ⟨tf, rfl, rfl, rfl, hp, rfl⟩

/-- C24, amended: the thumbnail that `ReadThumb` returns comes from the thumbnail resource that
is last in file order, whichever of the identifiers 0x0409 and 0x040C it has. Let `ReadThumb`
return a thumbnail, its scan having reached after `k` resources a resource with the signature
`8BIM` and a thumbnail identifier, whose head lies within the file and whose size `n` is below
2^31, and let no resource that the scan reaches later have a thumbnail identifier. Then `n` is
at least 28, and the JPEG stream of the thumbnail is the `n - 28` bytes behind the 28-byte
header of this resource: they are the buffer of the thumbnail, and the pixels of the thumbnail
are what the JPEG decoder made of them. -/
theorem ReadThumb_last_thumbnail (env : ThumbEnv) (fuel : Nat) (file : List Nat) (oom b : Bool)
    (img : ThumbImage) (p k : Nat) (t : Thumb) (s n : Nat)
    (hret : ReadThumb env fuel file oom = .ok (some img, b))
    (hfile : file.length < 2147483648) (h30 : 26 + 4 ≤ file.length)
    (hseek : SeekFile (26 + 4) (toLONG (field file 26 4)) = .ok p) (hp : p + 4 ≤ file.length)
    (hreach : ParseThumbnailResources.after env file k
      ⟨p + 4, none, none, 0, none, 0, 0, 0, 0, oom⟩ = some t)
    (hsig : field file t.pos 4 = RESOURCE_SIGNATURE)
    (hid : field file (t.pos + 4) 2 = RESOURCE_THUMBNAIL_4 ∨
      field file (t.pos + 4) 2 = RESOURCE_THUMBNAIL_5)
    (hs : s = field file (t.pos + 6) 1) (hs8 : s < 256)
    (hn : n = field file (t.pos + 7 + (s ||| 1)) 4) (hn31 : n < 2147483648)
    (hlen : t.pos + 7 + (s ||| 1) + 4 ≤ file.length)
    (hlast : ∀ j tj, 0 < j → ParseThumbnailResources.after env file j t = some tj →
      ¬ (field file (tj.pos + 4) 2 = RESOURCE_THUMBNAIL_4 ∨
        field file (tj.pos + 4) 2 = RESOURCE_THUMBNAIL_5)) :
    28 ≤ n ∧
    img.pBuffer = some ((file.drop (t.pos + 7 + (s ||| 1) + 4 + 28)).take (n - 28)) ∧
    img.nJpegSize = ((n - 28 : Nat) : Int) ∧
    some img.pPixelData = (env.TurboJpegReadImage
      ((file.drop (t.pos + 7 + (s ||| 1) + 4 + 28)).take (n - 28)) ((n - 28 : Nat) : Int)
      t.bOutOfMemory).pPixelData := by
  obtain ⟨tf, hbody, e1, e2, e3, _⟩ := ReadThumb_ok env fuel file oom b img hret
  rw [ReadThumb_body_scan env fuel file oom p h30 hseek hp] at hbody
  obtain ⟨f, _, hf⟩ := thumb_scan_split env file k fuel _ t tf hreach hbody
  cases f with
  | zero => simp [ParseThumbnailResources] at hf
  | succ f =>
    have hentry := thumb_entry_resource env file t s n hsig hs hs8 hn hlen (by omega)
    rw [ParseThumbnailResources] at hf
    cases hd : ParseThumbnailResources.dispatch env file (field file (t.pos + 4) 2) n
        { t with pos := t.pos + 7 + (s ||| 1) + 4 } with
    | error e =>
      rw [hd] at hentry
      rw [hentry] at hf
      cases hf
    | ok t1 =>
      rw [hd] at hentry
      simp only [] at hentry
      cases hk : SeekFile t1.pos (toLONG (u32 (n + 1) &&& 4294967294)) with
      | error e =>
        rw [hk] at hentry
        rw [hentry] at hf
        cases hf
      | ok pos6 =>
        rw [hk] at hentry
        have hentry2 : ParseThumbnailResources.entry env file t =
            .ok (.more { t1 with pos := pos6 }) := hentry
        rw [hentry2] at hf
        have hf2 : ParseThumbnailResources env file f { t1 with pos := pos6 } = .ok tf := hf
        obtain ⟨pos1, bytes, pos2, pos3, d1, _, d3, d4, _, _, _, d8, d9, d10, _⟩ :=
          thumb_dispatch_thumbnail env file _ n { t with pos := t.pos + 7 + (s ||| 1) + 4 } t1
            hid hd
        obtain ⟨h28, hJ⟩ := toLONG_jpeg_size n hn31 d3
        have hpos1 : pos1 = t.pos + 7 + (s ||| 1) + 4 + 28 := by
          have := (SeekFile_inv _ _ _ d1).1
          simp only [THUMBNAIL_HEADER_SIZE] at this
          omega
        rw [hJ, Int.toNat_ofNat, ReadFromFile_eq] at d4
        have hbytes : bytes = (file.drop (t.pos + 7 + (s ||| 1) + 4 + 28)).take (n - 28) := by
          by_cases hc : n - 28 ≤ file.length - pos1
          · rw [if_pos hc] at d4
            have := (Prod.mk.inj (Except.ok.inj d4)).1
            rw [← this, hpos1]
          · rw [if_neg hc] at d4
            cases d4
        have hnext : ∀ j tj,
            ParseThumbnailResources.after env file j { t1 with pos := pos6 } = some tj →
            ¬ (field file (tj.pos + 4) 2 = RESOURCE_THUMBNAIL_4 ∨
              field file (tj.pos + 4) 2 = RESOURCE_THUMBNAIL_5) := by
          intro j tj hj
          apply hlast (j + 1) tj (by omega)
          rw [ParseThumbnailResources.after, hentry2]
          exact hj
        obtain ⟨b1, b2, b3, _⟩ :=
          thumb_scan_keeps_buffer env file f { t1 with pos := pos6 } tf hf2 hnext
        simp only [] at b1 b2 b3
        refine ⟨h28, ?_, ?_, ?_⟩
        · rw [e1, b1, d8, hbytes]
        · rw [e2, b2, d9, hJ]
        · rw [← e3, b3, d10, hJ, hbytes]

set_option maxRecDepth 8000

/-- C24 as stated fails: in a file whose resource section holds a thumbnail resource 0x040C with
the stream `C5` followed by a thumbnail resource 0x0409 with the stream `C4`, the thumbnail that
`ReadThumb` returns has the stream `C4` of the resource 0x0409, not the stream `C5` of the
resource 0x040C. -/
theorem ReadThumb_takes_later_thumbnail :
    ReadThumb refThumbEnv 3 (resourceFile 84 (resourceEntry 0x040C (thumbnailPayload [0xC5]) ++
        resourceEntry 0x0409 (thumbnailPayload [0xC4]))) false =
      .ok (some ⟨1, 1, [0xC4], none, 3, some [0xC4], 1, 0⟩, false) ∧
    (resourceEntry 0x040C (thumbnailPayload [0xC5])).drop (12 + 28) = [0xC5, 0] ∧
    (resourceEntry 0x0409 (thumbnailPayload [0xC4])).drop (12 + 28) = [0xC4, 0] := by
  refine ⟨by decide, by decide, by decide⟩

/-- The statement of C24, amended, on a file whose resource section holds a thumbnail resource
0x040C with the stream `C5` followed by a thumbnail resource 0x0409 with the stream `C4` and an
EXIF resource: the stream of the thumbnail is the byte `C4` at offset 116. -/
theorem ReadThumb_last_thumbnail_witness :
    ReadThumb refThumbEnv 4 (resourceFile 98 (resourceEntry 0x040C (thumbnailPayload [0xC5]) ++
        resourceEntry 0x0409 (thumbnailPayload [0xC4]) ++ resourceEntry 0x0422 [1, 2])) false =
      .ok (some ⟨1, 1, [0xC4], some [0xFF, 0, 10, 0, 0x45, 0x78, 0x69, 0x66, 0, 0, 1, 2], 3,
        some [0xC4], 1, 0⟩, false) ∧
    (28 ≤ 29 ∧
      (⟨1, 1, [0xC4], some [0xFF, 0, 10, 0, 0x45, 0x78, 0x69, 0x66, 0, 0, 1, 2], 3,
        some [0xC4], 1, 0⟩ : ThumbImage).pBuffer =
        some (((resourceFile 98 (resourceEntry 0x040C (thumbnailPayload [0xC5]) ++
          resourceEntry 0x0409 (thumbnailPayload [0xC4]) ++ resourceEntry 0x0422 [1, 2])).drop
            (76 + 7 + (0 ||| 1) + 4 + 28)).take (29 - 28))) :=
  ⟨by decide,
    have w := ReadThumb_last_thumbnail refThumbEnv 4
      (resourceFile 98 (resourceEntry 0x040C (thumbnailPayload [0xC5]) ++
        resourceEntry 0x0409 (thumbnailPayload [0xC4]) ++ resourceEntry 0x0422 [1, 2]))
      false false
      ⟨1, 1, [0xC4], some [0xFF, 0, 10, 0, 0x45, 0x78, 0x69, 0x66, 0, 0, 1, 2], 3,
        some [0xC4], 1, 0⟩
      30 1 ⟨76, none, some [0xC5], 1, some [0xC5], 1, 1, 3, 0, false⟩ 0 29
      (by decide) (by decide) (by decide) (by decide) (by decide) (by decide) (by decide)
      (by decide) (by decide) (by decide) (by decide) (by decide) (by decide)
      (by
        intro j tj hj h
        have e1 : ParseThumbnailResources.after refThumbEnv
            (resourceFile 98 (resourceEntry 0x040C (thumbnailPayload [0xC5]) ++
              resourceEntry 0x0409 (thumbnailPayload [0xC4]) ++ resourceEntry 0x0422 [1, 2])) 1
            ⟨76, none, some [0xC5], 1, some [0xC5], 1, 1, 3, 0, false⟩ =
            some ⟨118, none, some [0xC4], 1, some [0xC4], 1, 1, 3, 0, false⟩ := by decide
        have e2 : ParseThumbnailResources.after refThumbEnv
            (resourceFile 98 (resourceEntry 0x040C (thumbnailPayload [0xC5]) ++
              resourceEntry 0x0409 (thumbnailPayload [0xC4]) ++ resourceEntry 0x0422 [1, 2])) 2
            ⟨76, none, some [0xC5], 1, some [0xC5], 1, 1, 3, 0, false⟩ =
            some ⟨132, some [0xFF, 0, 10, 0, 0x45, 0x78, 0x69, 0x66, 0, 0, 1, 2], some [0xC4], 1,
              some [0xC4], 1, 1, 3, 0, false⟩ := by decide
        have e3 : ∀ i, ParseThumbnailResources.after refThumbEnv
            (resourceFile 98 (resourceEntry 0x040C (thumbnailPayload [0xC5]) ++
              resourceEntry 0x0409 (thumbnailPayload [0xC4]) ++ resourceEntry 0x0422 [1, 2]))
            (i + 3) ⟨76, none, some [0xC5], 1, some [0xC5], 1, 1, 3, 0, false⟩ = none :=
          fun _ => rfl
        match j, hj, h with
        | 1, _, h =>
          rw [e1] at h
          cases h
          decide
        | 2, _, h =>
          rw [e2] at h
          cases h
          decide
        | i + 3, _, h =>
          rw [e3 i] at h
          cases h)
    ⟨w.1, w.2.1⟩⟩

end PsdReader


namespace PsdReader

/-! ## The padded name of a resource -/

/-- Setting the lowest bit. -/
theorem or_one_eq (s : Nat) : s ||| 1 = s / 2 * 2 + 1 := by
  apply Nat.eq_of_testBit_eq
  intro i
  rw [Nat.testBit_or]
  cases i with
  | zero =>
    simp only [Nat.testBit_zero]
    have h1 : (s / 2 * 2 + 1) % 2 = 1 := by omega
    simp [h1]
  | succ i =>
    rw [Nat.testBit_succ, Nat.testBit_succ, Nat.testBit_succ]
    have h1 : (s / 2 * 2 + 1) / 2 = s / 2 := by omega
    rw [h1]
    simp

/-- C28: for a name-length byte `s` below 256, the length byte and the `s | 1` bytes that the
resource scan skips behind it are together the smallest even number that is at least `s + 1`.
An iteration of the scan of `ParseImageResources` or of `ParseThumbnailResources` that goes on
with the next resource has read the 4-byte payload size at offset 6 plus that number from the
start of the signature, and has run its `switch` with this size from the position behind these
four bytes. -/
theorem ParseImageResources_name_padding (s : Nat) (hs : s < 256) :
    (1 + (s ||| 1)) % 2 = 0 ∧ s + 1 ≤ 1 + (s ||| 1) ∧
    (∀ m, m % 2 = 0 → s + 1 ≤ m → 1 + (s ||| 1) ≤ m) ∧
    (∀ env file nColorMode r r2, field file (r.pos + 6) 1 = s →
      ParseImageResources.entry env file nColorMode r = .ok (.more r2) →
      r.pos + 6 + (1 + (s ||| 1)) + 4 ≤ file.length ∧
      ∃ r1, ParseImageResources.dispatch env file nColorMode (field file (r.pos + 4) 2)
          (field file (r.pos + 6 + (1 + (s ||| 1))) 4)
          { r with pos := r.pos + 6 + (1 + (s ||| 1)) + 4 } = .ok r1 ∧
        SeekFile r1.pos (toLONG (u32 (field file (r.pos + 6 + (1 + (s ||| 1))) 4 + 1) &&&
          4294967294)) = .ok r2.pos) ∧
    (∀ env file t t2, field file (t.pos + 6) 1 = s →
      ParseThumbnailResources.entry env file t = .ok (.more t2) →
      t.pos + 6 + (1 + (s ||| 1)) + 4 ≤ file.length ∧
      ∃ t1, ParseThumbnailResources.dispatch env file (field file (t.pos + 4) 2)
          (field file (t.pos + 6 + (1 + (s ||| 1))) 4)
          { t with pos := t.pos + 6 + (1 + (s ||| 1)) + 4 } = .ok t1 ∧
        SeekFile t1.pos (toLONG (u32 (field file (t.pos + 6 + (1 + (s ||| 1))) 4 + 1) &&&
          4294967294)) = .ok t2.pos) := by
  have hor := or_one_eq s
  have hs1 : toLONG (s ||| 1) = ((s ||| 1 : Nat) : Int) := toLONG_of_lt _ (by omega)
  refine ⟨by omega, by omega, fun m h1 h2 => by omega, ?_, ?_⟩
  · intro env file nColorMode r r2 hsz h
    obtain ⟨id, sz, n, p4, r1, _, _, e2, e3, h4, e5, l5, h6, h7, _⟩ :=
      entry_more env file nColorMode r r2 h
    rw [← e3] at hsz
    subst hsz
    have hp4 : p4 = r.pos + 6 + (1 + (sz ||| 1)) := by
      have := (SeekFile_inv _ _ _ h4).1
      rw [hs1] at this
      omega
    subst hp4
    subst e2
    subst e5
    exact ⟨l5, r1, h6, h7⟩
  · intro env file t t2 hsz h
    obtain ⟨id, sz, n, p4, t1, _, _, e2, e3, h4, e5, l5, h6, h7, _⟩ :=
      thumb_entry_more env file t t2 h
    rw [← e3] at hsz
    subst hsz
    have hp4 : p4 = t.pos + 6 + (1 + (sz ||| 1)) := by
      have := (SeekFile_inv _ _ _ h4).1
      rw [hs1] at this
      omega
    subst hp4
    subst e2
    subst e5
    exact ⟨l5, t1, h6, h7⟩

/-- The statement of C28 for the name length 5: the scan consumes 6 bytes for the name; in an
EXIF resource whose name is `abcde` the payload size 2 is read at offset 12 and the payload
`01 02` at offset 16. -/
theorem ParseImageResources_name_padding_witness :
    ((1 + (5 ||| 1)) % 2 = 0 ∧ 5 + 1 ≤ 1 + (5 ||| 1) ∧
      ∀ m, m % 2 = 0 → 5 + 1 ≤ m → 1 + (5 ||| 1) ≤ m) ∧
    ParseImageResources.entry refEnv
        [0x38, 0x42, 0x49, 0x4D, 4, 0x22, 5, 97, 98, 99, 100, 101, 0, 0, 0, 2, 1, 2] MODE_RGB
        (scanStart 0) =
      .ok (.more ⟨18, some [0xFF, 0xE1, 0, 10, 0x45, 0x78, 0x69, 0x66, 0, 0, 1, 2], none, 0,
        true⟩) :=
  ⟨⟨(ParseImageResources_name_padding 5 (by decide)).1,
    (ParseImageResources_name_padding 5 (by decide)).2.1,
    (ParseImageResources_name_padding 5 (by decide)).2.2.1⟩, by decide⟩

end PsdReader


namespace PsdReader

/-! ## The limits on the file size and on the pixel count -/

/-- A file above `MAX_PSD_FILE_SIZE` makes the header stage throw with the flag as it was. -/
theorem header_too_large (env : Env) (file : List Nat) (oom : Bool)
    (h : env.MAX_PSD_FILE_SIZE < file.length) :
    ReadImage.header env file oom = .error .thrown := by
  simp only [ReadImage.header, bind, pure, Except.pure, throw, throwThe, MonadExceptOf.throw]
  rw [if_pos h]

theorem ReadImage_of_header_thrown (env : Env) (fuel : Nat) (file : List Nat) (oom : Bool)
    (hh : ReadImage.header env file oom = .error .thrown) :
    ReadImage env fuel file oom = .ok (none, oom) := by
  have hb : ReadImage.body env fuel file oom = .error .thrown := by
    simp only [ReadImage.body, bind, hh, error_bind]
  unfold ReadImage
  rw [hb]

theorem ReadImage_of_header_oom (env : Env) (fuel : Nat) (file : List Nat) (oom : Bool)
    (hh : ReadImage.header env file oom = .error .outOfMemory) :
    ReadImage env fuel file oom = .ok (none, true) := by
  have hb : ReadImage.body env fuel file oom = .error .outOfMemory := by
    simp only [ReadImage.body, bind, hh, error_bind]
  unfold ReadImage
  rw [hb]

/-- A pixel count above `MAX_IMAGE_PIXELS`, in a file that is read up to the width, makes the
header stage set the flag and throw. -/
theorem header_too_many_pixels (env : Env) (file : List Nat) (oom : Bool)
    (hsize : file.length ≤ env.MAX_PSD_FILE_SIZE) (hlen : 22 ≤ file.length)
    (hv : field file 4 2 = 1 ∨ field file 4 2 = 2)
    (hres : (file.drop 6).take 6 = [0, 0, 0, 0, 0, 0])
    (hpix : env.MAX_IMAGE_PIXELS < field file 14 4 * field file 18 4) :
    ReadImage.header env file oom = .error .outOfMemory := by
  simp only [ReadImage.header, bind, pure, Except.pure, throw, throwThe, MonadExceptOf.throw,
    SeekFile_zero_four, ReadUShortFromFile_eq, ReadUIntFromFile_eq, ReadFromFile_eq, ok_bind]
  rw [if_neg (by omega), if_pos (by omega), ok_bind]
  simp only []
  rw [if_neg (by omega), if_pos (by omega), ok_bind]
  simp only []
  rw [if_neg (by rw [hres]; simp), if_pos (by omega), ok_bind]
  simp only []
  rw [if_pos (by omega), ok_bind]
  simp only []
  rw [if_pos (by omega), ok_bind]
  simp only []
  rw [if_pos hpix]

/-- C25 fails on the code for the file size: the check `nFileSize > MAX_PSD_FILE_SIZE` of
`ReadImage` throws without setting `bOutOfMemory`, so a file above the limit gives no image and
leaves the flag false, as the 44-byte file `compressedFile 0` does under a limit of 43 bytes
(under the limit of `refEnv` it decodes). The check of the pixel count does set the flag, as
the claim says. -/
theorem ReadImage_file_size_not_flagged :
    (∀ (env : Env) (fuel : Nat) (file : List Nat) (oom : Bool),
      env.MAX_PSD_FILE_SIZE < file.length → ReadImage env fuel file oom = .ok (none, oom)) ∧
    ReadImage { refEnv with MAX_PSD_FILE_SIZE := 43 } 1 (compressedFile 0) false =
      .ok (none, false) ∧
    ReadImage refEnv 1 (compressedFile 0) false =
      .ok (some ⟨⟨1, 1, [7, 0, 0, 0], none, 1⟩, 4⟩, false) ∧
    (∀ (env : Env) (fuel : Nat) (file : List Nat) (oom : Bool),
      file.length ≤ env.MAX_PSD_FILE_SIZE → 22 ≤ file.length →
      (field file 4 2 = 1 ∨ field file 4 2 = 2) → (file.drop 6).take 6 = [0, 0, 0, 0, 0, 0] →
      env.MAX_IMAGE_PIXELS < field file 14 4 * field file 18 4 →
      ReadImage env fuel file oom = .ok (none, true)) := by
  refine ⟨?_, by decide, by decide, ?_⟩
  · intro env fuel file oom h
    exact ReadImage_of_header_thrown env fuel file oom (header_too_large env file oom h)
  · intro env fuel file oom h1 h2 h3 h4 h5
    exact ReadImage_of_header_oom env fuel file oom
      (header_too_many_pixels env file oom h1 h2 h3 h4 h5)

end PsdReader


namespace PsdReader

/-! ## Only the pixel count and the allocator set the flag -/

theorem load_ne (pBuffer : List Nat) (i : Nat) : load pBuffer i ≠ .error .outOfMemory := by
  unfold load
  split <;> simp

theorem store_ne (pPixelData : List Nat) (writes : List (Nat × Nat)) (i v : Nat) :
    store pPixelData writes i v ≠ .error .outOfMemory := by
  unfold store
  split <;> simp

theorem loadBE16_ne (pBuffer : List Nat) (i : Nat) : loadBE16 pBuffer i ≠ .error .outOfMemory := by
  unfold loadBE16
  intro h
  split at h
  · cases h
    exact load_ne _ _ (by assumption)
  · split at h
    · cases h
      exact load_ne _ _ (by assumption)
    · cases h

theorem loadBE32_ne (pBuffer : List Nat) (i : Nat) : loadBE32 pBuffer i ≠ .error .outOfMemory := by
  unfold loadBE32
  split <;> simp

theorem loadSwap16_ne (pBuffer : List Nat) (i : Nat) :
    loadSwap16 pBuffer i ≠ .error .outOfMemory := by
  unfold loadSwap16
  split <;> simp

theorem forLoop_ne {σ : Type} (body : Nat → σ → Except Fault σ)
    (hb : ∀ i s, body i s ≠ .error .outOfMemory) :
    ∀ n i s, forLoop body n i s ≠ .error .outOfMemory := by
  intro n
  induction n with
  | zero => intro i s; simp [forLoop]
  | succ n ih =>
    intro i s h
    rw [forLoop] at h
    split at h
    · cases h
      exact hb _ _ (by assumption)
    · exact ih _ _ h

theorem forWhile_ne {σ : Type} (cond : σ → Bool) (body : Nat → σ → Except Fault σ)
    (hb : ∀ i s, body i s ≠ .error .outOfMemory) :
    ∀ n i s, forWhile cond body n i s ≠ .error .outOfMemory := by
  intro n
  induction n with
  | zero => intro i s; simp [forWhile]
  | succ n ih =>
    intro i s h
    rw [forWhile] at h
    split at h
    · split at h
      · cases h
        exact hb _ _ (by assumption)
      · exact ih _ _ h
    · cases h

/-! ### The decoders -/

theorem sample_ne (pBuffer : List Nat) (nImageDataSize : Nat) (pPixelData : List Nat)
    (nHeight nChannels nOutputRowSize nBitDepth rch row col : Nat) (st : Dec) :
    ProcessUncompressedData.sample pBuffer nImageDataSize pPixelData nHeight nChannels
      nOutputRowSize nBitDepth rch row col st ≠ .error .outOfMemory := by
  unfold ProcessUncompressedData.sample
  intro h
  split at h
  · split at h
    · cases h
    · split at h
      · cases h
        simp_all [load_ne]
      · simp only [] at h
        split at h
        · cases h
        · split at h
          · cases h
            simp_all [store_ne]
          · cases h
  · split at h
    · cases h
    · split at h
      · cases h
        simp_all [loadBE16_ne]
      · simp only [] at h
        split at h
        · cases h
        · split at h
          · cases h
            simp_all [store_ne]
          · cases h

theorem ProcessUncompressedData_ne (pBuffer : List Nat) (nImageDataSize : Nat)
    (pPixelData : List Nat) (nWidth nHeight nChannels nOutputRowSize nColorMode nBitDepth : Nat) :
    ProcessUncompressedData pBuffer nImageDataSize pPixelData nWidth nHeight nChannels
      nOutputRowSize nColorMode nBitDepth ≠ .error .outOfMemory := by
  unfold ProcessUncompressedData
  intro h
  split at h
  · cases h
    rename_i heq
    exact forLoop_ne _ (fun channel st => forLoop_ne _ (fun row st => forLoop_ne _
      (fun col st => sample_ne _ _ _ _ _ _ _ _ _ _ _) _ _ _) _ _ _) _ _ _ heq
  · cases h

theorem bitmap_pixel_ne (pBuffer pPixelData : List Nat) (pSrc pRow col : Nat)
    (writes : List (Nat × Nat)) :
    ProcessBitmapUncompressed.pixel pBuffer pPixelData pSrc pRow col writes ≠
      .error .outOfMemory := by
  unfold ProcessBitmapUncompressed.pixel
  intro h
  simp only [] at h
  split at h
  · cases h
    simp_all [load_ne]
  · exact store_ne _ _ _ _ h

theorem ProcessBitmapUncompressed_ne (pBuffer : List Nat) (nImageDataSize : Nat)
    (pPixelData : List Nat) (nWidth nHeight nOutputRowSize c v : Nat) :
    ProcessBitmapUncompressed pBuffer nImageDataSize pPixelData nWidth nHeight nOutputRowSize c v
      ≠ .error .outOfMemory := by
  unfold ProcessBitmapUncompressed
  intro h
  simp only [] at h
  split at h
  · cases h
  · exact forLoop_ne _ (fun row st => forLoop_ne _
      (fun col st => bitmap_pixel_ne _ _ _ _ _ _) _ _ _) _ _ _ h

theorem bitmap_bit_ne (pPixelData : List Nat) (pRow value k : Nat) (s : BitDec) :
    ProcessBitmapRLE.bit pPixelData pRow value k s ≠ .error .outOfMemory := by
  unfold ProcessBitmapRLE.bit
  intro h
  split at h
  · cases h
    simp_all [store_ne]
  · cases h

theorem bitmap_bits_ne (pPixelData : List Nat) (nWidth pRow value : Nat) (st : BitDec) :
    ProcessBitmapRLE.bits pPixelData nWidth pRow value st ≠ .error .outOfMemory := by
  unfold ProcessBitmapRLE.bits
  exact forWhile_ne _ _ (fun k s => bitmap_bit_ne _ _ _ _ _) _ _ _

theorem bitmap_literalByte_ne (pBuffer : List Nat) (nImageDataSize : Nat)
    (pPixelData : List Nat) (nWidth pRow : Nat) (s : BitDec) :
    ProcessBitmapRLE.literalByte pBuffer nImageDataSize pPixelData nWidth pRow s ≠
      .error .outOfMemory := by
  unfold ProcessBitmapRLE.literalByte
  intro h
  split at h
  · cases h
  · split at h
    · cases h
      simp_all [load_ne]
    · exact bitmap_bits_ne _ _ _ _ _ h

theorem bitmap_row_ne (pBuffer : List Nat) (nImageDataSize : Nat) (pPixelData : List Nat)
    (nWidth pRow : Nat) :
    ∀ fuel st, ProcessBitmapRLE.row pBuffer nImageDataSize pPixelData nWidth pRow fuel st ≠
      .error .outOfMemory := by
  intro fuel
  induction fuel with
  | zero =>
    intro st h
    rw [ProcessBitmapRLE.row] at h
    split at h <;> cases h
  | succ fuel ih =>
    intro st h
    rw [ProcessBitmapRLE.row] at h
    split at h
    · split at h
      · cases h
      · split at h
        · cases h
          simp_all [load_ne]
        · split at h
          · simp only [] at h
            split at h
            · cases h
            · split at h
              · cases h
                simp_all [load_ne]
              · split at h
                · cases h
                  rename_i heq
                  exact forWhile_ne _ _ (fun _ s => bitmap_bits_ne _ _ _ _ _) _ _ _ heq
                · exact ih _ h
          · split at h
            · simp only [] at h
              split at h
              · cases h
                rename_i heq
                exact forWhile_ne _ _ (fun _ s => bitmap_literalByte_ne _ _ _ _ _ _) _ _ _ heq
              · exact ih _ h
            · exact ih _ h
    · cases h

theorem bitmap_rowStep_ne (pBuffer : List Nat) (nImageDataSize : Nat) (pPixelData : List Nat)
    (nWidth nOutputRowSize nVersion row : Nat) (st : RowDec) :
    ProcessBitmapRLE.rowStep pBuffer nImageDataSize pPixelData nWidth nOutputRowSize nVersion
      row st ≠ .error .outOfMemory := by
  unfold ProcessBitmapRLE.rowStep
  intro h
  simp only [] at h
  split at h
  · cases h
    rename_i heq
    exact bitmap_row_ne _ _ _ _ _ _ _ heq
  · split at h
    · split at h
      · cases h
        simp_all [loadBE32_ne]
      · cases h
    · split at h
      · cases h
        simp_all [loadSwap16_ne]
      · cases h

theorem ProcessBitmapRLE_ne (pBuffer : List Nat) (nImageDataSize : Nat) (pPixelData : List Nat)
    (nWidth nHeight nOutputRowSize c nVersion : Nat) :
    ProcessBitmapRLE pBuffer nImageDataSize pPixelData nWidth nHeight nOutputRowSize c nVersion ≠
      .error .outOfMemory := by
  unfold ProcessBitmapRLE
  intro h
  simp only [] at h
  split at h
  · cases h
    rename_i heq
    exact forLoop_ne _ (fun row st => bitmap_rowStep_ne _ _ _ _ _ _ _ _) _ _ _ heq
  · cases h

theorem put_ne (pPixelData : List Nat) (nHeight nChannels nOutputRowSize rch row : Nat)
    (index value : Nat) (writes : List (Nat × Nat)) :
    ProcessRLEData.put pPixelData nHeight nChannels nOutputRowSize rch row index value writes ≠
      .error .outOfMemory := by
  unfold ProcessRLEData.put
  intro h
  simp only [] at h
  split at h
  · cases h
  · exact store_ne _ _ _ _ h

theorem runStore_ne (pPixelData : List Nat) (nHeight nChannels nOutputRowSize rch row : Nat)
    (count value i : Nat) (s : Dec) :
    ProcessRLEData.runStore pPixelData nHeight nChannels nOutputRowSize rch row count value i s ≠
      .error .outOfMemory := by
  unfold ProcessRLEData.runStore
  intro h
  split at h
  · cases h
    simp_all [put_ne]
  · cases h

theorem literalStore8_ne (pBuffer : List Nat) (nImageDataSize : Nat) (pPixelData : List Nat)
    (nHeight nChannels nOutputRowSize rch row count i : Nat) (s : Dec) :
    ProcessRLEData.literalStore8 pBuffer nImageDataSize pPixelData nHeight nChannels
      nOutputRowSize rch row count i s ≠ .error .outOfMemory := by
  unfold ProcessRLEData.literalStore8
  intro h
  split at h
  · cases h
  · split at h
    · cases h
      simp_all [load_ne]
    · split at h
      · cases h
        simp_all [put_ne]
      · cases h

theorem literalStore16_ne (pBuffer : List Nat) (nImageDataSize : Nat) (pPixelData : List Nat)
    (nHeight nChannels nOutputRowSize rch row count i : Nat) (s : Dec) :
    ProcessRLEData.literalStore16 pBuffer nImageDataSize pPixelData nHeight nChannels
      nOutputRowSize rch row count i s ≠ .error .outOfMemory := by
  unfold ProcessRLEData.literalStore16
  intro h
  split at h
  · cases h
  · split at h
    · cases h
      simp_all [loadBE16_ne]
    · split at h
      · cases h
        simp_all [put_ne]
      · cases h

theorem row8_ne (pBuffer : List Nat) (nImageDataSize : Nat) (pPixelData : List Nat)
    (nWidth nHeight nChannels nOutputRowSize rch row : Nat) :
    ∀ fuel count d, ProcessRLEData.row8 pBuffer nImageDataSize pPixelData nWidth nHeight
      nChannels nOutputRowSize rch row fuel count d ≠ .error .outOfMemory := by
  intro fuel
  induction fuel with
  | zero =>
    intro count d h
    rw [ProcessRLEData.row8] at h
    split at h <;> cases h
  | succ fuel ih =>
    intro count d h
    rw [ProcessRLEData.row8] at h
    split at h
    · split at h
      · cases h
      · split at h
        · cases h
          simp_all [load_ne]
        · split at h
          · simp only [] at h
            split at h
            · cases h
            · split at h
              · cases h
                simp_all [load_ne]
              · split at h
                · cases h
                  rename_i heq
                  exact forLoop_ne _ (fun i s => runStore_ne _ _ _ _ _ _ _ _ _ _) _ _ _ heq
                · exact ih _ _ h
          · split at h
            · simp only [] at h
              split at h
              · cases h
                rename_i heq
                exact forLoop_ne _ (fun i s => literalStore8_ne _ _ _ _ _ _ _ _ _ _ _) _ _ _ heq
              · exact ih _ _ h
            · exact ih _ _ h
    · cases h

theorem row16_ne (pBuffer : List Nat) (nImageDataSize : Nat) (pPixelData : List Nat)
    (nWidth nHeight nChannels nOutputRowSize rch row : Nat) :
    ∀ fuel count d, ProcessRLEData.row16 pBuffer nImageDataSize pPixelData nWidth nHeight
      nChannels nOutputRowSize rch row fuel count d ≠ .error .outOfMemory := by
  intro fuel
  induction fuel with
  | zero =>
    intro count d h
    rw [ProcessRLEData.row16] at h
    split at h <;> cases h
  | succ fuel ih =>
    intro count d h
    rw [ProcessRLEData.row16] at h
    split at h
    · split at h
      · cases h
      · split at h
        · cases h
          simp_all [load_ne]
        · split at h
          · simp only [] at h
            split at h
            · cases h
            · split at h
              · cases h
                simp_all [loadBE16_ne]
              · split at h
                · cases h
                  rename_i heq
                  exact forLoop_ne _ (fun i s => runStore_ne _ _ _ _ _ _ _ _ _ _) _ _ _ heq
                · exact ih _ _ h
          · split at h
            · simp only [] at h
              split at h
              · cases h
                rename_i heq
                exact forLoop_ne _ (fun i s => literalStore16_ne _ _ _ _ _ _ _ _ _ _ _) _ _ _ heq
              · exact ih _ _ h
            · exact ih _ _ h
    · cases h

theorem rle_rowStep_ne (pBuffer : List Nat) (nImageDataSize : Nat) (pPixelData : List Nat)
    (nWidth nHeight nChannels nOutputRowSize nBitDepth nVersion rch channel row : Nat)
    (st : RowDec) :
    ProcessRLEData.rowStep pBuffer nImageDataSize pPixelData nWidth nHeight nChannels
      nOutputRowSize nBitDepth nVersion rch channel row st ≠ .error .outOfMemory := by
  unfold ProcessRLEData.rowStep
  intro h
  split at h
  · cases h
    rename_i heq
    split at heq
    · exact row8_ne _ _ _ _ _ _ _ _ _ _ _ _ heq
    · exact row16_ne _ _ _ _ _ _ _ _ _ _ _ _ heq
  · split at h
    · split at h
      · cases h
        simp_all [loadBE32_ne]
      · cases h
    · split at h
      · cases h
        simp_all [loadSwap16_ne]
      · cases h

theorem ProcessRLEData_ne (pBuffer : List Nat) (nImageDataSize : Nat) (pPixelData : List Nat)
    (nWidth nHeight nChannels nOutputRowSize nColorMode nBitDepth nRealChannels nVersion : Nat) :
    ProcessRLEData pBuffer nImageDataSize pPixelData nWidth nHeight nChannels nOutputRowSize
      nColorMode nBitDepth nRealChannels nVersion ≠ .error .outOfMemory := by
  unfold ProcessRLEData
  intro h
  simp only [] at h
  split at h
  · cases h
    rename_i heq
    exact forLoop_ne _ (fun channel st => forLoop_ne _
      (fun row st => rle_rowStep_ne _ _ _ _ _ _ _ _ _ _ _ _ _) _ _ _) _ _ _ heq
  · cases h

end PsdReader


namespace PsdReader

/-! ### The stages of `ReadImage` -/

theorem setFilePointer_ne (target : Int) : setFilePointer target ≠ .error .outOfMemory := by
  unfold setFilePointer
  split <;> simp

theorem ReadFromFile_ne (file : List Nat) (pos sz : Nat) :
    ReadFromFile file pos sz ≠ .error .outOfMemory := by
  unfold ReadFromFile
  split <;> simp

theorem ReadUIntFromFile_ne (file : List Nat) (pos : Nat) :
    ReadUIntFromFile file pos ≠ .error .outOfMemory := by
  rw [ReadUIntFromFile_eq]
  split <;> simp

theorem ReadUInt64FromFile_ne (file : List Nat) (pos : Nat) :
    ReadUInt64FromFile file pos ≠ .error .outOfMemory := by
  rw [ReadUInt64FromFile_eq]
  split <;> simp

theorem ReadUShortFromFile_ne (file : List Nat) (pos : Nat) :
    ReadUShortFromFile file pos ≠ .error .outOfMemory := by
  rw [ReadUShortFromFile_eq]
  split <;> simp

theorem ReadUCharFromFile_ne (file : List Nat) (pos : Nat) :
    ReadUCharFromFile file pos ≠ .error .outOfMemory := by
  rw [ReadUCharFromFile_eq]
  split <;> simp

theorem bind_ne {α β : Type} (x : Except Fault α) (f : α → Except Fault β)
    (hx : x ≠ .error .outOfMemory) (hf : ∀ a, f a ≠ .error .outOfMemory) :
    Except.bind x f ≠ .error .outOfMemory := by
  cases x with
  | error e =>
    intro h
    rw [error_bind] at h
    cases h
    exact hx rfl
  | ok a => exact hf a

theorem alphaIds_ne (file : List Nat) :
    ∀ k i pos, ParseImageResources.alphaIds file k i pos ≠ .error .outOfMemory := by
  intro k
  induction k with
  | zero => intro i pos; simp [ParseImageResources.alphaIds]
  | succ k ih =>
    intro i pos h
    rw [ParseImageResources.alphaIds] at h
    split at h
    · cases h
      simp_all [ReadUIntFromFile_ne]
    · split at h
      · cases h
      · exact ih _ _ h

theorem dispatch_ne (env : Env) (file : List Nat) (nColorMode id n : Nat) (r : Resources) :
    ParseImageResources.dispatch env file nColorMode id n r ≠ .error .outOfMemory := by
  unfold ParseImageResources.dispatch
  intro h
  split at h
  · simp only [] at h
    split at h
    · cases h
    · split at h
      · cases h
        simp_all [ReadFromFile_ne]
      · split at h
        · cases h
          rename_i heq
          exact setFilePointer_ne _ heq
        · cases h
  · split at h
    · split at h
      · split at h
        · cases h
          simp_all [alphaIds_ne]
        · split at h
          · cases h
            rename_i heq
            exact setFilePointer_ne _ heq
          · cases h
      · cases h
    · split at h
      · split at h
        · split at h
          · cases h
            simp_all [ReadUIntFromFile_ne]
          · split at h
            · cases h
              simp_all [ReadUCharFromFile_ne]
            · split at h
              · cases h
              · split at h
                · cases h
                  rename_i heq
                  exact setFilePointer_ne _ heq
                · cases h
        · cases h
      · split at h
        · split at h
          · split at h
            · split at h
              · cases h
                simp_all [ReadFromFile_ne]
              · split at h
                · cases h
                  rename_i heq
                  exact setFilePointer_ne _ heq
                · cases h
            · cases h
          · cases h
        · cases h

theorem entry_ne (env : Env) (file : List Nat) (nColorMode : Nat) (r : Resources) :
    ParseImageResources.entry env file nColorMode r ≠ .error .outOfMemory := by
  unfold ParseImageResources.entry
  intro h
  split at h
  · cases h
  · split at h
    · cases h
    · split at h
      · cases h
        simp_all [ReadUShortFromFile_ne]
      · split at h
        · cases h
          simp_all [ReadUCharFromFile_ne]
        · split at h
          · cases h
            rename_i heq
            exact setFilePointer_ne _ heq
          · split at h
            · cases h
              simp_all [ReadUIntFromFile_ne]
            · split at h
              · cases h
                simp_all [dispatch_ne]
              · split at h
                · cases h
                  rename_i heq
                  exact setFilePointer_ne _ heq
                · cases h

theorem scan_ne (env : Env) (file : List Nat) (nColorMode : Nat) :
    ∀ fuel r, ParseImageResources env file nColorMode fuel r ≠ .error .outOfMemory := by
  intro fuel
  induction fuel with
  | zero => intro r; simp [ParseImageResources]
  | succ fuel ih =>
    intro r h
    rw [ParseImageResources] at h
    split at h
    · cases h
      simp_all [entry_ne]
    · cases h
    · exact ih _ h

theorem resources_ne (env : Env) (fuel : Nat) (file : List Nat) (h : Header) :
    ReadImage.resources env fuel file h ≠ .error .outOfMemory := by
  simp only [ReadImage.resources, bind, pure, Except.pure]
  refine bind_ne _ _ (ReadUIntFromFile_ne _ _) (fun a => ?_)
  refine bind_ne _ _ (setFilePointer_ne _) (fun p => ?_)
  refine bind_ne _ _ (ReadUIntFromFile_ne _ _) (fun a2 => ?_)
  refine bind_ne _ _ (scan_ne _ _ _ _ _) (fun res => ?_)
  simp

theorem layers_ne (file : List Nat) (h : Header) (c n : Nat) :
    ReadImage.layers file h c n ≠ .error .outOfMemory := by
  simp only [ReadImage.layers, bind, pure, Except.pure]
  refine bind_ne _ _ (setFilePointer_ne _) (fun p => ?_)
  refine bind_ne _ _ ?_ (fun a => ?_)
  · split
    · exact ReadUInt64FromFile_ne _ _
    · exact ReadUIntFromFile_ne _ _
  refine bind_ne _ _ (setFilePointer_ne _) (fun p2 => ?_)
  refine bind_ne _ _ (ReadUShortFromFile_ne _ _) (fun a2 => ?_)
  refine bind_ne _ _ (setFilePointer_ne _) (fun p3 => ?_)
  simp

theorem imageData_ne (env : Env) (file : List Nat) (h : Header) (pos : Nat)
    (halloc : ∀ n, env.allocOk n = true) :
    ReadImage.imageData env file h pos ≠ .error .outOfMemory := by
  simp only [ReadImage.imageData, bind, pure, Except.pure, throw, throwThe,
    MonadExceptOf.throw, halloc]
  refine bind_ne _ _ (ReadUShortFromFile_ne _ _) (fun a => ?_)
  split
  · simp
  · refine bind_ne _ _ (setFilePointer_ne _) (fun p => ?_)
    simp only [not_true_eq_false, if_false]
    refine bind_ne _ _ (ReadFromFile_ne _ _ _) (fun a2 => ?_)
    simp

theorem sections_ne (env : Env) (fuel : Nat) (file : List Nat) (h : Header)
    (halloc : ∀ n, env.allocOk n = true) :
    ReadImage.sections env fuel file h ≠ .error .outOfMemory := by
  rw [sections_stages]
  refine bind_ne _ _ (resources_ne _ _ _ _) (fun scan => ?_)
  refine bind_ne _ _ (layers_ne _ _ _ _) (fun lay => ?_)
  refine bind_ne _ _ (imageData_ne _ _ _ _ halloc) (fun img => ?_)
  simp

theorem pixels_ne (env : Env) (h : Header) (s : Sections)
    (halloc : ∀ n, env.allocOk n = true) :
    ReadImage.pixels env h s ≠ .error .outOfMemory := by
  unfold ReadImage.pixels
  split
  · simp only [bind, pure, Except.pure, throw, throwThe, MonadExceptOf.throw, halloc,
      not_true_eq_false, if_false]
    refine bind_ne _ _ ?_ (fun w => ?_)
    · split
      · exact ProcessBitmapRLE_ne _ _ _ _ _ _ _ _
      · exact ProcessBitmapUncompressed_ne _ _ _ _ _ _ _ _
    · simp
  · simp only [bind, pure, Except.pure, throw, throwThe, MonadExceptOf.throw, halloc,
      not_true_eq_false, if_false]
    refine bind_ne _ _ ?_ (fun w => ?_)
    · split
      · exact ProcessRLEData_ne _ _ _ _ _ _ _ _ _ _ _
      · exact ProcessUncompressedData_ne _ _ _ _ _ _ _ _ _
    · simp

/-- The header stage sets the flag exactly when it has read a pixel count above
`MAX_IMAGE_PIXELS`. -/
theorem header_oom (env : Env) (file : List Nat) (b : Bool)
    (hh : ReadImage.header env file b = .error .outOfMemory) :
    file.length ≤ env.MAX_PSD_FILE_SIZE ∧ 22 ≤ file.length ∧
    (field file 4 2 = 1 ∨ field file 4 2 = 2) ∧ (file.drop 6).take 6 = [0, 0, 0, 0, 0, 0] ∧
    env.MAX_IMAGE_PIXELS < field file 14 4 * field file 18 4 := by
  simp only [ReadImage.header, bind, pure, Except.pure, throw, throwThe,
    MonadExceptOf.throw, SeekFile_zero_four, ReadUShortFromFile_eq, ReadUIntFromFile_eq,
    ReadFromFile_eq, bind_ite_ok, ok_bind, error_bind] at hh
  simp only [ite_error_eq_error, ite_eq_error_error, Nat.reduceAdd, reduceCtorEq, and_false,
    or_false, false_or, and_true] at hh
  obtain ⟨c1, c2, c3, c4, c5, c6, c7, c8, c9⟩ := hh
  refine ⟨by omega, by omega, ?_, not_not.mp c5, c9⟩
  by_contra hc
  exact c3 ⟨fun h1 => hc (Or.inl h1), fun h2 => hc (Or.inr h2)⟩

/-- C26: let no allocation fail, and let `ReadImage`, entered with the flag false, return. Then
the flag is true on return if and only if the header was read up to the width with a valid
version and zero reserved bytes, in a file within `MAX_PSD_FILE_SIZE`, and the pixel count
exceeds `MAX_IMAGE_PIXELS`; no image is returned then. So a failure for any other reason (a
bad version, reserved bytes that are not zero, a zero or too large dimension with the pixel
count within the limit, an unsupported depth, channel count or compression, a failing Version
Info check, truncated data) leaves the flag false. -/
theorem ReadImage_malformed_keeps_flag (env : Env) (fuel : Nat) (file : List Nat)
    (res : Option Decoded) (b : Bool) (halloc : ∀ n, env.allocOk n = true)
    (h : ReadImage env fuel file false = .ok (res, b)) :
    (b = true ↔
      (file.length ≤ env.MAX_PSD_FILE_SIZE ∧ 22 ≤ file.length ∧
        (field file 4 2 = 1 ∨ field file 4 2 = 2) ∧ (file.drop 6).take 6 = [0, 0, 0, 0, 0, 0] ∧
        env.MAX_IMAGE_PIXELS < field file 14 4 * field file 18 4)) ∧
    (b = true → res = none) ∧
    (field file 14 4 * field file 18 4 ≤ env.MAX_IMAGE_PIXELS → b = false) := by
  have key : b = true →
      ReadImage.header env file false = .error .outOfMemory ∧ res = none := by
    intro hb
    subst hb
    unfold ReadImage at h
    cases hbody : ReadImage.body env fuel file false with
    | ok d => rw [hbody] at h; simp at h
    | error e =>
      rw [hbody] at h
      cases e with
      | thrown => simp at h
      | outOfMemory =>
        simp only [Except.ok.injEq, Prod.mk.injEq, and_true] at h
        refine ⟨?_, h.symm⟩
        simp only [ReadImage.body, bind] at hbody
        by_contra hne
        exact bind_ne _ _ hne (fun hdr => bind_ne _ _ (sections_ne env fuel file hdr halloc)
          (fun s => pixels_ne env hdr s halloc)) hbody
      | oobRead => simp at h
      | oobWrite => simp at h
      | fuel => simp at h
  have hiff : b = true ↔
      (file.length ≤ env.MAX_PSD_FILE_SIZE ∧ 22 ≤ file.length ∧
        (field file 4 2 = 1 ∨ field file 4 2 = 2) ∧ (file.drop 6).take 6 = [0, 0, 0, 0, 0, 0] ∧
        env.MAX_IMAGE_PIXELS < field file 14 4 * field file 18 4) := by
    constructor
    · intro hb
      exact header_oom env file false (key hb).1
    · intro ⟨h1, h2, h3, h4, h5⟩
      have hr := ReadImage_of_header_oom env fuel file false
        (header_too_many_pixels env file false h1 h2 h3 h4 h5)
      rw [hr] at h
      simp only [Except.ok.injEq, Prod.mk.injEq] at h
      exact h.2.symm
  refine ⟨hiff, fun hb => (key hb).2, ?_⟩
  intro hpix
  cases hb : b with
  | false => rfl
  | true =>
    have := (hiff.mp hb).2.2.2.2
    omega

/-- The statement of C26 on a file with the unsupported compression method 5: `ReadImage`
returns no image and the flag stays false. -/
theorem ReadImage_malformed_keeps_flag_witness :
    ReadImage refEnv 1 (compressedFile 5) false = .ok (none, false) ∧
    (field (compressedFile 5) 14 4 * field (compressedFile 5) 18 4 ≤ refEnv.MAX_IMAGE_PIXELS →
      false = false) :=
  ⟨by decide,
    (ReadImage_malformed_keeps_flag refEnv 1 (compressedFile 5) none false (fun _ => rfl)
      (by decide)).2.2⟩

end PsdReader


/-! ## Normalisation of GPS coordinates -/

theorem toInt_of_nonneg (x : ℚ) (h : 0 ≤ x) (h1 : x < 2147483648) :
    GPSCoordinate.toInt x = ⌊x⌋ := by
  unfold GPSCoordinate.toInt
  rw [if_pos ⟨by linarith, h1⟩, if_pos h]

theorem toInt_of_neg (x : ℚ) (h : x < 0) (h1 : -2147483649 < x) :
    GPSCoordinate.toInt x = ⌈x⌉ := by
  unfold GPSCoordinate.toInt
  rw [if_pos ⟨h1, by linarith⟩, if_neg (not_le.mpr h)]

/-- Above the range of `int` the conversion yields `INT_MIN`. -/
theorem toInt_of_large (x : ℚ) (h : 2147483648 ≤ x) : GPSCoordinate.toInt x = -2147483648 := by
  unfold GPSCoordinate.toInt
  rw [if_neg (fun hc => absurd hc.2 (not_lt.mpr h))]

/-- Below the range of `int` the conversion yields `INT_MIN`. -/
theorem toInt_of_small (x : ℚ) (h : x ≤ -2147483649) : GPSCoordinate.toInt x = -2147483648 := by
  unfold GPSCoordinate.toInt
  rw [if_neg (fun hc => absurd hc.1 (not_lt.mpr h))]

/-- The conversion of a number that is not negative does not exceed the number. -/
theorem toInt_le_of_nonneg (x : ℚ) (h : 0 ≤ x) : (GPSCoordinate.toInt x : ℚ) ≤ x := by
  rcases lt_or_le x 2147483648 with h1 | h1
  · rw [toInt_of_nonneg x h h1]
    exact Int.floor_le x
  · rw [toInt_of_large x h1]
    push_cast
    linarith

/-- The conversion of a negative number is not below the number. -/
theorem le_toInt_of_neg (x : ℚ) (h : x < 0) : x ≤ (GPSCoordinate.toInt x : ℚ) := by
  rcases lt_or_le (-2147483649) x with h1 | h1
  · rw [toInt_of_neg x h h1]
    exact Int.le_ceil x
  · rw [toInt_of_small x h1]
    push_cast
    linarith

/-- The integer part and the absolute value of the rest add up to the number itself for a
number that is not negative, and to its mirror image at the integer part for a negative one. -/
theorem toInt_add_abs (x : ℚ) :
    (GPSCoordinate.toInt x : ℚ) + |x - (GPSCoordinate.toInt x : ℚ)| =
      if 0 ≤ x then x else 2 * (GPSCoordinate.toInt x : ℚ) - x := by
  by_cases h : 0 ≤ x
  · rw [if_pos h, abs_of_nonneg (by linarith [toInt_le_of_nonneg x h])]
    ring
  · rw [if_neg h, abs_of_nonpos (by linarith [le_toInt_of_neg x (not_le.mp h)])]
    ring

/-- Sixty times a fraction is not negative, so the integer part of it is not above it. -/
theorem minutes_split (m : ℚ) (h : 0 ≤ m) :
    (GPSCoordinate.toInt m : ℚ) / 60 + 60 * |m - (GPSCoordinate.toInt m : ℚ)| / (60 * 60) =
      m / 60 := by
  rw [abs_of_nonneg (by linarith [toInt_le_of_nonneg m h])]
  ring

/-- The decimal degrees of the coordinate built from degrees alone. -/
theorem value_degrees (ref : String) (D : ℚ) :
    CreateGPSURL.value (GPSCoordinate.create ref D 0 0) =
      (GPSCoordinate.toInt D : ℚ) + |D - (GPSCoordinate.toInt D : ℚ)| := by
  have hm : (0 : ℚ) ≤ 60 * |D - (GPSCoordinate.toInt D : ℚ)| := by positivity
  simp only [CreateGPSURL.value, GPSCoordinate.create, and_self, if_true]
  rw [add_assoc, minutes_split _ hm]
  ring

/-- The decimal degrees of the coordinate built from degrees and minutes that are not zero. -/
theorem value_minutes (ref : String) (D M : ℚ) (hM : M ≠ 0) :
    CreateGPSURL.value (GPSCoordinate.create ref D M 0) =
      D + ((GPSCoordinate.toInt M : ℚ) + |M - (GPSCoordinate.toInt M : ℚ)|) / 60 := by
  simp only [CreateGPSURL.value, GPSCoordinate.create, hM, false_and, if_false, if_true]
  ring

theorem ceil_eq_self_iff (x : ℚ) : ((⌈x⌉ : ℤ) : ℚ) = x ↔ ∃ z : ℤ, x = (z : ℚ) := by
  constructor
  · intro h
    exact ⟨⌈x⌉, h.symm⟩
  · rintro ⟨z, rfl⟩
    rw [Int.ceil_intCast]

theorem ceil_eq_zero_of_neg (x : ℚ) (h : x < 0) : ((⌈x⌉ : ℤ) : ℚ) = 0 ↔ -1 < x := by
  constructor
  · intro h0
    have hz : ⌈x⌉ = 0 := by exact_mod_cast h0
    have := (Int.ceil_eq_iff.mp hz).1
    simpa using this
  · intro h1
    have hz : ⌈x⌉ = 0 := Int.ceil_eq_iff.mpr ⟨by simpa using h1, by simpa using h.le⟩
    rw [hz]
    simp

/-- The conversion of a negative number is zero exactly above `-1`. -/
theorem toInt_eq_zero_of_neg (x : ℚ) (h : x < 0) :
    (GPSCoordinate.toInt x : ℚ) = 0 ↔ -1 < x := by
  rcases lt_or_le (-2147483649) x with h1 | h1
  · rw [toInt_of_neg x h h1]
    exact ceil_eq_zero_of_neg x h
  · rw [toInt_of_small x h1]
    constructor
    · intro h0
      norm_num at h0
    · intro h0
      linarith

/-- The conversion of a negative number is the number itself exactly for the integers from
`INT_MIN` on. -/
theorem toInt_eq_self_of_neg (x : ℚ) (h : x < 0) :
    (GPSCoordinate.toInt x : ℚ) = x ↔ (∃ z : ℤ, x = (z : ℚ)) ∧ -2147483648 ≤ x := by
  rcases lt_or_le (-2147483649) x with h1 | h1
  · rw [toInt_of_neg x h h1, ceil_eq_self_iff]
    constructor
    · rintro ⟨z, rfl⟩
      refine ⟨⟨z, rfl⟩, ?_⟩
      have h2 : (-2147483649 : ℤ) < z := by exact_mod_cast h1
      have h3 : (-2147483648 : ℤ) ≤ z := by omega
      exact_mod_cast h3
    · intro hz
      exact hz.1
  · rw [toInt_of_small x h1]
    constructor
    · intro h0
      rw [← h0] at h1
      norm_num at h1
    · intro hz
      linarith [hz.2]

/-- The sum of the integer part and the absolute rest is the number itself exactly for the
numbers that are not negative and for the integers from `INT_MIN` on. -/
theorem toInt_add_abs_eq_self (x : ℚ) :
    (GPSCoordinate.toInt x : ℚ) + |x - (GPSCoordinate.toInt x : ℚ)| = x ↔
      0 ≤ x ∨ ((∃ z : ℤ, x = (z : ℚ)) ∧ -2147483648 ≤ x) := by
  rw [toInt_add_abs]
  by_cases h : 0 ≤ x
  · rw [if_pos h]
    simp [h]
  · rw [if_neg h]
    have hx := toInt_eq_self_of_neg x (not_le.mp h)
    constructor
    · intro e
      right
      exact hx.mp (by linarith)
    · rintro (h0 | hz)
      · exact absurd h0 h
      · have := hx.mpr hz
        linarith

/-- C27, amended: with `(int)` as the conversion to the 32-bit `int`, the coordinate built from
degrees `D` alone has integral degrees and minutes, and its decimal degrees
`Degrees + Minutes / 60 + Seconds / 3600` equal `|D|` exactly when `D > -1`, so for every `D`
that is not negative. The coordinate built from `(D, M, 0)` has integral minutes, and its
decimal degrees equal `D + M / 60` exactly when `M > 0`, or `M = 0` and `D` is not negative or
an integer from `INT_MIN` on, or `M` is a negative integer from `INT_MIN` on; so for all `D`
and `M` that are not negative. -/
theorem GPSCoordinate_normalised :
    (∀ (ref : String) (D : ℚ),
      (∃ z : ℤ, (GPSCoordinate.create ref D 0 0).Degrees = (z : ℚ)) ∧
      (∃ z : ℤ, (GPSCoordinate.create ref D 0 0).Minutes = (z : ℚ)) ∧
      (CreateGPSURL.value (GPSCoordinate.create ref D 0 0) = |D| ↔ -1 < D)) ∧
    (∀ (ref : String) (D M : ℚ),
      (∃ z : ℤ, (GPSCoordinate.create ref D M 0).Minutes = (z : ℚ)) ∧
      (CreateGPSURL.value (GPSCoordinate.create ref D M 0) = D + M / 60 ↔
        (M = 0 ∧ (0 ≤ D ∨ ((∃ z : ℤ, D = (z : ℚ)) ∧ -2147483648 ≤ D))) ∨ 0 < M ∨
          (M < 0 ∧ (∃ z : ℤ, M = (z : ℚ)) ∧ -2147483648 ≤ M))) ∧
    (∀ (ref : String) (D : ℚ), 0 ≤ D →
      CreateGPSURL.value (GPSCoordinate.create ref D 0 0) = |D|) ∧
    (∀ (ref : String) (D M : ℚ), 0 ≤ D → 0 ≤ M →
      CreateGPSURL.value (GPSCoordinate.create ref D M 0) = D + M / 60) := by
  have part1 : ∀ (ref : String) (D : ℚ),
      (CreateGPSURL.value (GPSCoordinate.create ref D 0 0) = |D| ↔ -1 < D) := by
    intro ref D
    rw [value_degrees, toInt_add_abs]
    by_cases h : 0 ≤ D
    · rw [if_pos h, abs_of_nonneg h]
      constructor
      · intro _
        linarith
      · intro _
        rfl
    · have hneg : D < 0 := not_le.mp h
      rw [if_neg h, abs_of_neg hneg, ← toInt_eq_zero_of_neg D hneg]
      constructor
      · intro e
        linarith
      · intro e
        rw [e]
        ring
  have part2 : ∀ (ref : String) (D M : ℚ),
      (CreateGPSURL.value (GPSCoordinate.create ref D M 0) = D + M / 60 ↔
        (M = 0 ∧ (0 ≤ D ∨ ((∃ z : ℤ, D = (z : ℚ)) ∧ -2147483648 ≤ D))) ∨ 0 < M ∨
          (M < 0 ∧ (∃ z : ℤ, M = (z : ℚ)) ∧ -2147483648 ≤ M)) := by
    intro ref D M
    by_cases hM : M = 0
    · subst hM
      rw [value_degrees, zero_div, add_zero, toInt_add_abs_eq_self]
      constructor
      · intro h
        exact Or.inl ⟨rfl, h⟩
      · rintro (⟨_, h⟩ | h | ⟨h, _⟩)
        · exact h
        · exact absurd h (lt_irrefl 0)
        · exact absurd h (lt_irrefl 0)
    · rw [value_minutes ref D M hM]
      have e : D + ((GPSCoordinate.toInt M : ℚ) + |M - (GPSCoordinate.toInt M : ℚ)|) / 60 =
          D + M / 60 ↔
          (GPSCoordinate.toInt M : ℚ) + |M - (GPSCoordinate.toInt M : ℚ)| = M := by
        constructor
        · intro h
          linarith
        · intro h
          rw [h]
      rw [e, toInt_add_abs_eq_self]
      constructor
      · rintro (h | h)
        · exact Or.inr (Or.inl (lt_of_le_of_ne h (Ne.symm hM)))
        · rcases lt_or_gt_of_ne hM with hlt | hgt
          · exact Or.inr (Or.inr ⟨hlt, h⟩)
          · exact Or.inr (Or.inl hgt)
      · rintro (⟨h, _⟩ | h | ⟨_, h⟩)
        · exact absurd h hM
        · exact Or.inl h.le
        · exact Or.inr h
  refine ⟨fun ref D => ⟨?_, ?_, part1 ref D⟩, fun ref D M => ⟨?_, part2 ref D M⟩, ?_, ?_⟩
  · exact ⟨GPSCoordinate.toInt D, by simp [GPSCoordinate.create]⟩
  · exact ⟨GPSCoordinate.toInt (60 * |D - (GPSCoordinate.toInt D : ℚ)|),
      by simp [GPSCoordinate.create]⟩
  · by_cases hM : M = 0
    · subst hM
      exact ⟨GPSCoordinate.toInt (60 * |D - (GPSCoordinate.toInt D : ℚ)|),
        by simp [GPSCoordinate.create]⟩
    · exact ⟨GPSCoordinate.toInt M, by simp [GPSCoordinate.create, hM]⟩
  · intro ref D hD
    exact (part1 ref D).mpr (by linarith)
  · intro ref D M hD hM
    apply (part2 ref D M).mpr
    rcases eq_or_lt_of_le hM with h | h
    · exact Or.inl ⟨h.symm, Or.inl hD⟩
    · exact Or.inr (Or.inl h)

/-- C27 as stated fails for negative inputs: for the degrees `-3/2` the coordinate has the
degrees `-1` and the minutes `30`, and its decimal degrees are `-1/2`, not `3/2`; for the
degrees `1` and the minutes `-1/2` the decimal degrees are `1 + 1/120`, not `1 - 1/120`. -/
theorem GPSCoordinate_negative_degrees :
    CreateGPSURL.value (GPSCoordinate.create "S" (-3 / 2) 0 0) = -1 / 2 ∧
    |(-3 / 2 : ℚ)| = 3 / 2 ∧
    CreateGPSURL.value (GPSCoordinate.create "N" 1 (-1 / 2) 0) = 1 + 1 / 120 ∧
    (1 : ℚ) + (-1 / 2) / 60 = 1 - 1 / 120 := by
  have c1 : ⌈(-3 / 2 : ℚ)⌉ = -1 := by
    rw [Int.ceil_eq_iff]
    constructor <;> norm_num
  have c2 : ⌈(-1 / 2 : ℚ)⌉ = 0 := by
    rw [Int.ceil_eq_iff]
    constructor <;> norm_num
  refine ⟨?_, ?_, ?_, by norm_num⟩
  · rw [value_degrees, toInt_add_abs, if_neg (by norm_num),
      toInt_of_neg _ (by norm_num) (by norm_num), c1]
    norm_num
  · rw [abs_of_neg (by norm_num)]
    norm_num
  · rw [value_minutes _ _ _ (by norm_num), toInt_add_abs, if_neg (by norm_num),
      toInt_of_neg _ (by norm_num) (by norm_num), c2]
    norm_num

/-- The degrees `3000000000` are above the range of `int`: the conversions yield `INT_MIN` for
the degrees and for the minutes, and the decimal degrees are `3000000000` all the same. -/
theorem value_large_degrees :
    (GPSCoordinate.create "E" 3000000000 0 0).Degrees = -2147483648 ∧
    (GPSCoordinate.create "E" 3000000000 0 0).Minutes = -2147483648 ∧
    (GPSCoordinate.create "E" 3000000000 0 0).Seconds = 18659790151680 ∧
    CreateGPSURL.value (GPSCoordinate.create "E" 3000000000 0 0) = 3000000000 := by
  have h1 : GPSCoordinate.toInt (3000000000 : ℚ) = -2147483648 :=
    toInt_of_large _ (by norm_num)
  have h2 : (60 : ℚ) * |3000000000 - ((-2147483648 : ℤ) : ℚ)| = 308849018880 := by
    rw [abs_of_nonneg (by norm_num)]
    norm_num
  have h3 : GPSCoordinate.toInt (308849018880 : ℚ) = -2147483648 :=
    toInt_of_large _ (by norm_num)
  have h4 : (60 : ℚ) * |308849018880 - ((-2147483648 : ℤ) : ℚ)| = 18659790151680 := by
    rw [abs_of_nonneg (by norm_num)]
    norm_num
  simp only [CreateGPSURL.value, GPSCoordinate.create, and_self, if_true, h1, h2, h3, h4]
  norm_num


namespace PsdReader

/-! ## The opcode 128 and runs that leave the row in `ProcessRLEData` -/

theorem load_some (pBuffer : List Nat) (i b : Nat) (h : pBuffer[i]? = some b) :
    load pBuffer i = .ok b := by
  unfold load
  rw [h]

/-- C29 fails on the code for the opcode 128: in both branches of `ProcessRLEData` the byte 128
takes neither the branch `c > 128` nor the branch `c < 128`, and the statement `count += c`
behind them adds 128 to the sample count of the row, while `ProcessBitmapRLE` goes on with the
count unchanged. For the other opcodes the two decoders use the same length, `257 - c` and
`c + 1`. The file `rleFile 8 1 2 [80 01 11 22]`, whose row is a no-op followed by a literal of
the two samples `11 22`, decodes to an image whose two pixels were never written; without the
no-op the pixels are `11 22`, and the bitmap decoder gives the same pixels with and without a
leading no-op. -/
theorem ProcessRLEData_opcode_128 :
    (∀ (pBuffer : List Nat) (nImageDataSize : Nat) (pPixelData : List Nat)
      (nWidth nHeight nChannels nOutputRowSize rch row fuel count : Nat) (d : Dec),
      count < nWidth → d.p < nImageDataSize → pBuffer[d.p]? = some 128 →
      ProcessRLEData.row8 pBuffer nImageDataSize pPixelData nWidth nHeight nChannels
          nOutputRowSize rch row (fuel + 1) count d =
        ProcessRLEData.row8 pBuffer nImageDataSize pPixelData nWidth nHeight nChannels
          nOutputRowSize rch row fuel (u32 (count + 128)) ⟨d.p + 1, d.writes⟩ ∧
      ProcessRLEData.row16 pBuffer nImageDataSize pPixelData nWidth nHeight nChannels
          nOutputRowSize rch row (fuel + 1) count d =
        ProcessRLEData.row16 pBuffer nImageDataSize pPixelData nWidth nHeight nChannels
          nOutputRowSize rch row fuel (u32 (count + 128)) ⟨d.p + 1, d.writes⟩) ∧
    (∀ (pBuffer : List Nat) (nImageDataSize : Nat) (pPixelData : List Nat)
      (nWidth pRow fuel : Nat) (st : BitDec),
      st.count < nWidth → st.p < nImageDataSize → pBuffer[st.p]? = some 128 →
      ProcessBitmapRLE.row pBuffer nImageDataSize pPixelData nWidth pRow (fuel + 1) st =
        ProcessBitmapRLE.row pBuffer nImageDataSize pPixelData nWidth pRow fuel
          ⟨st.p + 1, st.count, st.writes⟩) ∧
    (∀ c, 128 < c → c < 256 → u8 ((255 - c) + 2) = 257 - c ∧ u32 (256 - c + 1) = 257 - c) ∧
    (∀ c, c < 128 → u8 (c + 1) = c + 1 ∧ u32 (c + 1) = c + 1) ∧
    expandRow [Packet.noop, Packet.literal [0x11, 0x22]] = [0x11, 0x22] ∧
    encodeRow [Packet.noop, Packet.literal [0x11, 0x22]] = [0x80, 1, 0x11, 0x22] ∧
    ReadImage refEnv 1 (rleFile 8 1 2 [0x80, 1, 0x11, 0x22]) false =
      .ok (some ⟨⟨2, 1, [0, 0, 0, 0], none, 1⟩, 4⟩, false) ∧
    ReadImage refEnv 1 (rleFile 8 1 2 [1, 0x11, 0x22, 0, 0]) false =
      .ok (some ⟨⟨2, 1, [0x11, 0x22, 0, 0], none, 1⟩, 4⟩, false) ∧
    ReadImage refEnv 1 (rleFile 16 1 2 [0x80, 1, 0x11, 0x11, 0x22, 0x22]) false =
      .ok (some ⟨⟨2, 1, [0, 0, 0, 0], none, 1⟩, 4⟩, false) ∧
    ReadImage refEnv 1 (rleFile 1 0 2 [0x80, 0, 0x40]) false =
      .ok (some ⟨⟨2, 1, [255, 0, 0, 0], none, 1⟩, 4⟩, false) ∧
    ReadImage refEnv 1 (rleFile 1 0 2 [0, 0x40]) false =
      .ok (some ⟨⟨2, 1, [255, 0, 0, 0], none, 1⟩, 4⟩, false) := by
  refine ⟨?_, ?_, ?_, ?_, by decide, by decide, by decide, by decide, by decide, by decide,
    by decide⟩
  · intro pBuffer nImageDataSize pPixelData nWidth nHeight nChannels nOutputRowSize rch row
      fuel count d hc hp hb
    constructor
    · rw [ProcessRLEData.row8, if_pos hc, if_neg (by omega), load_some _ _ _ hb]
      simp only []
      rw [if_neg (by decide), if_neg (by decide)]
    · rw [ProcessRLEData.row16, if_pos hc, if_neg (by omega), load_some _ _ _ hb]
      simp only []
      rw [if_neg (by decide), if_neg (by decide)]
  · intro pBuffer nImageDataSize pPixelData nWidth pRow fuel st hc hp hb
    rw [ProcessBitmapRLE.row, if_pos hc, if_neg (by omega), load_some _ _ _ hb]
    simp only []
    rw [if_neg (by decide), if_neg (by decide)]
  · intro c h1 h2
    unfold u8 u32
    omega
  · intro c h1
    unfold u8 u32
    omega

/-- C30 fails on the code: `ProcessRLEData` stores every sample of a run or of a literal without
comparing `count + i` with the width, and only checks that the store lies within the pixel
buffer. In `overrunFile`, an image of 2 rows of 1 pixel with 3 channels and a row size of 4,
row 0 of the blue channel is a run of three samples `77`: the decoder stores them at the
offsets 0, 3 and 6, that is in the blue byte of row 0, in the padding of row 0 and in the red
byte of row 1, and the image `ReadImage` returns has `77` where the red sample `12` of row 1
was stored before. -/
theorem ProcessRLEData_run_leaves_row :
    rchannel MODE_RGB 3 2 = 0 ∧
    ProcessRLEData.row8 (overrunFile.drop 40) 24 (newBuffer refEnv 8) 1 2 3 4
        (rchannel MODE_RGB 3 2) 0 25 0 ⟨20, []⟩ =
      .ok ⟨22, [(0, 0x77), (3, 0x77), (6, 0x77)]⟩ ∧
    ProcessRLEData (overrunFile.drop 40) 24 (newBuffer refEnv 8) 1 2 3 4 MODE_RGB 8 3 1 =
      .ok [(2, 0x11), (6, 0x12), (1, 0x21), (5, 0x22), (0, 0x77), (3, 0x77), (6, 0x77),
        (4, 0x32)] ∧
    ReadImage refEnv 1 overrunFile false =
      .ok (some ⟨⟨1, 2, [0x77, 0x21, 0x11, 0x77, 0x32, 0x22, 0x77, 0], none, 3⟩, 4⟩, false) ∧
    ReadImage refEnv 1 (rleFile 8 1 2 [0xFD, 0x77]) false =
      .ok (some ⟨⟨2, 1, [0x77, 0x77, 0x77, 0x77], none, 1⟩, 4⟩, false) := by
  refine ⟨by decide, by decide, by decide, by decide, by decide⟩

end PsdReader


namespace PsdReader

/-! ## Rounding of `Scale16To8` -/

theorem doubleBytes_getD (D : List Nat) (k : Nat) :
    (doubleBytes D).getD (2 * k) 0 = D.getD k 0 ∧
      (doubleBytes D).getD (2 * k + 1) 0 = D.getD k 0 := by
  induction D generalizing k with
  | nil => simp [doubleBytes]
  | cons b D ih =>
    have e : doubleBytes (b :: D) = b :: b :: doubleBytes D := by
      simp [doubleBytes]
    rw [e]
    cases k with
    | zero => simp
    | succ k =>
      have h1 : 2 * (k + 1) = (2 * k + 1) + 1 := by ring
      rw [h1]
      simp only [List.getD_cons_succ]
      exact ih k

theorem doubleBytes_length (D : List Nat) : (doubleBytes D).length = 2 * D.length := by
  induction D with
  | nil => simp [doubleBytes]
  | cons b D ih =>
    have e : doubleBytes (b :: D) = b :: b :: doubleBytes D := by
      simp [doubleBytes]
    rw [e]
    simp only [List.length_cons, ih]
    ring

theorem Scale16To8_replicated (b : Nat) (hb : b < 256) : Scale16To8 (257 * b) = b := by
  rw [Scale16To8_eq _ (by omega)]
  omega

theorem sampleValue_doubleBytes (D : List Nat) (hD : ∀ b ∈ D, b < 256) (k : Nat) :
    sampleValue (doubleBytes D) 16 k = sampleValue D 8 k := by
  have hb := getD_lt_of_bytes D hD k
  unfold sampleValue
  rw [if_neg (by decide), if_pos rfl, (doubleBytes_getD D k).1, (doubleBytes_getD D k).2,
    be16_value _ _ hb hb]
  have e : 256 * D.getD k 0 + D.getD k 0 = 257 * D.getD k 0 := by ring
  rw [e]
  exact Scale16To8_replicated _ hb

theorem planarWrites_doubleBytes (D : List Nat) (hD : ∀ b ∈ D, b < 256)
    (w h N stride mode n : Nat) :
    planarWrites (doubleBytes D) w h N stride mode 16 n = planarWrites D w h N stride mode 8 n := by
  unfold planarWrites
  apply List.map_congr_left
  intro k _
  rw [sampleValue_doubleBytes D hD k]

/-- C36: `Scale16To8` rounds to the nearest byte. For every 16-bit value `v` the intermediate
`v * 255 + 32768` is below `2^31`, the quotient by 65535 is at most 255 and is the result (the
cast to `unsigned char` changes nothing), and `257 * Scale16To8 v` differs from `v` by at most
128; `Scale16To8 (257 * b) = b` for every byte `b`; and a 16-bit plane made by writing each byte
of an 8-bit plane twice is decoded by `ProcessUncompressedData` with the same stores as the 8-bit
plane, and both decodings succeed, when the plane holds the `N * h * w` samples, the row size is
at least `w * N` and the pixel buffer has `stride * h` bytes, a size that fits an
`unsigned int`. -/
theorem Scale16To8_rounds_to_nearest :
    (∀ v : Nat, v < 65536 →
      v * 255 + 32768 < 2147483648 ∧
      (v * 255 + 32768) / 65535 ≤ 255 ∧
      Scale16To8 v = (v * 255 + 32768) / 65535 ∧
      Scale16To8 v ≤ 255 ∧
      257 * Scale16To8 v ≤ v + 128 ∧ v ≤ 257 * Scale16To8 v + 128) ∧
    (∀ b : Nat, b < 256 → Scale16To8 (257 * b) = b) ∧
    (∀ (D pPixelData : List Nat) (nImageDataSize nWidth nHeight nChannels nOutputRowSize
        nColorMode : Nat),
      (∀ b ∈ D, b < 256) →
      nWidth * nChannels ≤ nOutputRowSize →
      nChannels * nHeight * nWidth ≤ nImageDataSize →
      nImageDataSize ≤ D.length →
      pPixelData.length = nOutputRowSize * nHeight →
      nOutputRowSize * nHeight < 4294967296 →
      ProcessUncompressedData (doubleBytes D) (2 * nImageDataSize) pPixelData nWidth nHeight
          nChannels nOutputRowSize nColorMode 16 =
        ProcessUncompressedData D nImageDataSize pPixelData nWidth nHeight nChannels
          nOutputRowSize nColorMode 8 ∧
      ∃ writes, ProcessUncompressedData D nImageDataSize pPixelData nWidth nHeight nChannels
          nOutputRowSize nColorMode 8 = .ok writes) := by
  refine ⟨?_, Scale16To8_replicated, ?_⟩
  · intro v hv
    have e := Scale16To8_eq v (by omega)
    refine ⟨by omega, by omega, e, by omega, by omega, by omega⟩
  · intro D pix size w h N stride mode hD hs hn hsize hpix h32
    have h8 := uncompressed_writes D pix size w h N stride mode 8 hs
      (by rw [if_pos rfl]; omega) hsize (by omega) h32
    have h16 := uncompressed_writes (doubleBytes D) pix (2 * size) w h N stride mode 16 hs
      (by rw [if_neg (by decide)]; omega) (by rw [doubleBytes_length]; omega) (by omega) h32
    rw [h8, h16, planarWrites_doubleBytes D hD]
    exact ⟨rfl, _, rfl⟩

/-- The 16-bit plane `12 12 34 34` decodes like the 8-bit plane `12 34`. -/
theorem Scale16To8_plane_example :
    ProcessUncompressedData (doubleBytes [0x12, 0x34]) 4 [0, 0, 0, 0] 2 1 1 4 MODE_RGB 16 =
        .ok [(0, 0x12), (1, 0x34)] ∧
      ProcessUncompressedData [0x12, 0x34] 2 [0, 0, 0, 0] 2 1 1 4 MODE_RGB 8 =
        .ok [(0, 0x12), (1, 0x34)] := by
  decide

end PsdReader


/-! ## Idempotence of the normalisation of GPS coordinates -/

/-- The conversion yields a value of the 32-bit `int`. -/
theorem toInt_range (x : ℚ) :
    -2147483648 ≤ GPSCoordinate.toInt x ∧ GPSCoordinate.toInt x ≤ 2147483647 := by
  by_cases hr : -2147483649 < x ∧ x < 2147483648
  · by_cases h : 0 ≤ x
    · rw [toInt_of_nonneg x h hr.2]
      have h1 : (0 : ℤ) ≤ ⌊x⌋ := Int.floor_nonneg.mpr h
      have h2 : ⌊x⌋ < (2147483648 : ℤ) := Int.floor_lt.mpr (by exact_mod_cast hr.2)
      omega
    · have hneg : x < 0 := not_le.mp h
      rw [toInt_of_neg x hneg hr.1]
      have h1 : ⌈x⌉ ≤ (0 : ℤ) := Int.ceil_le.mpr (by exact_mod_cast hneg.le)
      have h2 : (-2147483649 : ℤ) < ⌈x⌉ := Int.lt_ceil.mpr (by exact_mod_cast hr.1)
      omega
  · unfold GPSCoordinate.toInt
    rw [if_neg hr]
    omega

/-- An integer of the range of `int` is converted to itself. -/
theorem toInt_intCast (z : ℤ) (h1 : -2147483648 ≤ z) (h2 : z ≤ 2147483647) :
    GPSCoordinate.toInt (z : ℚ) = z := by
  have g1 : (-2147483649 : ℚ) < (z : ℚ) := by
    have : (-2147483649 : ℤ) < z := by omega
    exact_mod_cast this
  have g2 : (z : ℚ) < 2147483648 := by
    have : z < (2147483648 : ℤ) := by omega
    exact_mod_cast this
  unfold GPSCoordinate.toInt
  rw [if_pos ⟨g1, g2⟩]
  split <;> simp

/-- A converted value is converted to itself. -/
theorem toInt_toInt (x : ℚ) :
    GPSCoordinate.toInt (GPSCoordinate.toInt x : ℚ) = GPSCoordinate.toInt x :=
  toInt_intCast _ (toInt_range x).1 (toInt_range x).2

/-- The rest behind the integer part is below one exactly for the numbers whose conversion is
within the range of `int`. -/
theorem abs_sub_toInt_lt (x : ℚ) :
    |x - (GPSCoordinate.toInt x : ℚ)| < 1 ↔ -2147483649 < x ∧ x < 2147483648 := by
  constructor
  · intro h
    by_contra hr
    rcases not_and_or.mp hr with h1 | h1
    · have hs := toInt_of_small x (not_lt.mp h1)
      rw [hs, abs_of_nonpos (by push_cast; linarith [not_lt.mp h1])] at h
      push_cast at h
      linarith [not_lt.mp h1]
    · have hl := toInt_of_large x (not_lt.mp h1)
      rw [hl, abs_of_nonneg (by push_cast; linarith [not_lt.mp h1])] at h
      push_cast at h
      linarith [not_lt.mp h1]
  · intro hr
    by_cases h : 0 ≤ x
    · rw [toInt_of_nonneg x h hr.2, abs_of_nonneg (by linarith [Int.floor_le x])]
      linarith [Int.lt_floor_add_one x]
    · rw [toInt_of_neg x (not_le.mp h) hr.1, abs_of_nonpos (by linarith [Int.le_ceil x])]
      linarith [Int.ceil_lt_add_one x]

theorem create_of_seconds (ref : String) (d m s : ℚ) (hs : s ≠ 0) :
    GPSCoordinate.create ref d m s = ⟨ref, d, m, s⟩ := by
  simp [GPSCoordinate.create, hs]

theorem create_of_minutes (ref : String) (d m : ℚ) (hm : m ≠ 0) :
    GPSCoordinate.create ref d m 0 =
      ⟨ref, d, (GPSCoordinate.toInt m : ℚ), 60 * |m - (GPSCoordinate.toInt m : ℚ)|⟩ := by
  simp [GPSCoordinate.create, hm]

theorem create_of_degrees (ref : String) (d : ℚ) :
    GPSCoordinate.create ref d 0 0 =
      ⟨ref, (GPSCoordinate.toInt d : ℚ),
        (GPSCoordinate.toInt (60 * |d - (GPSCoordinate.toInt d : ℚ)|) : ℚ),
        60 * |60 * |d - (GPSCoordinate.toInt d : ℚ)| -
          (GPSCoordinate.toInt (60 * |d - (GPSCoordinate.toInt d : ℚ)|) : ℚ)|⟩ := by
  simp [GPSCoordinate.create]

/-- A coordinate whose minutes are a value of `int`, and whose degrees are one when minutes and
seconds are both zero, is left as it is by the constructor. -/
theorem create_normal (ref : String) (D M S : ℚ)
    (hM : (GPSCoordinate.toInt M : ℚ) = M)
    (h : M = 0 → S = 0 → (GPSCoordinate.toInt D : ℚ) = D) :
    GPSCoordinate.create ref D M S = ⟨ref, D, M, S⟩ := by
  have h0 : GPSCoordinate.toInt (0 : ℚ) = 0 := by
    have := toInt_intCast 0 (by norm_num) (by norm_num)
    simpa using this
  by_cases hS : S = 0
  · subst hS
    by_cases hz : M = 0
    · subst hz
      rw [create_of_degrees, h rfl rfl]
      simp [h0]
    · rw [create_of_minutes ref D M hz, hM]
      simp
  · exact create_of_seconds ref D M S hS

/-- The seconds of the coordinate built from `(d, m, 0)`. -/
theorem seconds_lt_iff (ref : String) (d m : ℚ) :
    (GPSCoordinate.create ref d m 0).Seconds < 60 ↔
      if m = 0 then -2147483648 - 2147483648 / 60 < d ∧ d < 2147483648
      else -2147483649 < m ∧ m < 2147483648 := by
  have e : ∀ x : ℚ, 60 * |x - (GPSCoordinate.toInt x : ℚ)| < 60 ↔
      -2147483649 < x ∧ x < 2147483648 := by
    intro x
    rw [← abs_sub_toInt_lt x]
    constructor <;> intro h <;> linarith
  by_cases hm : m = 0
  · subst hm
    rw [if_pos rfl, create_of_degrees]
    show 60 * |60 * |d - (GPSCoordinate.toInt d : ℚ)| -
      (GPSCoordinate.toInt (60 * |d - (GPSCoordinate.toInt d : ℚ)|) : ℚ)| < 60 ↔ _
    rw [e]
    have hpos : (0 : ℚ) ≤ 60 * |d - (GPSCoordinate.toInt d : ℚ)| := by positivity
    by_cases hr : -2147483649 < d ∧ d < 2147483648
    · have h1 := (abs_sub_toInt_lt d).mpr hr
      constructor
      · intro _
        exact ⟨by linarith [hr.1], hr.2⟩
      · intro _
        exact ⟨by linarith, by linarith⟩
    · rcases not_and_or.mp hr with h1 | h1
      · have hs := toInt_of_small d (not_lt.mp h1)
        rw [hs, abs_of_nonpos (by push_cast; linarith [not_lt.mp h1])]
        push_cast
        constructor
        · intro h
          exact ⟨by linarith [h.2], by linarith [not_lt.mp h1]⟩
        · intro h
          exact ⟨by linarith [not_lt.mp h1], by linarith [h.1]⟩
      · have hl := toInt_of_large d (not_lt.mp h1)
        rw [hl, abs_of_nonneg (by push_cast; linarith [not_lt.mp h1])]
        push_cast
        constructor
        · intro h
          exfalso
          linarith [h.2, not_lt.mp h1]
        · intro h
          exact absurd h.2 h1
  · rw [if_neg hm, create_of_minutes ref d m hm]
    exact e m

/-- C37, amended: with `(int)` as the conversion to the 32-bit `int`, the constructor of
`GPSCoordinate` is idempotent over exact rational arithmetic: for all degrees `d`, minutes `m`
and seconds `s`, the coordinate built from the `Degrees`, `Minutes` and `Seconds` of the
coordinate `c` built from `(d, m, s)` is `c` itself. When `s` is 0 the `Minutes` of `c` are an
integer and its `Seconds` are not negative; they are below 60 exactly when the value whose
fraction they hold is within the range of `int`: for `m ≠ 0` exactly when
`-2^31 - 1 < m < 2^31`, and for `m = 0` exactly when `-2^31 - 2^31 / 60 < d < 2^31`, so for
every `d` with `-2^31 - 1 < d < 2^31`. -/
theorem GPSCoordinate_idempotent :
    ∀ (ref : String) (d m s : ℚ),
      ((GPSCoordinate.create ref (GPSCoordinate.create ref d m s).Degrees
          (GPSCoordinate.create ref d m s).Minutes (GPSCoordinate.create ref d m s).Seconds =
        GPSCoordinate.create ref d m s) ∧
      (GPSCoordinate.create ref (GPSCoordinate.create ref d m s).Degrees
          (GPSCoordinate.create ref d m s).Minutes
          (GPSCoordinate.create ref d m s).Seconds).Degrees =
        (GPSCoordinate.create ref d m s).Degrees ∧
      (GPSCoordinate.create ref (GPSCoordinate.create ref d m s).Degrees
          (GPSCoordinate.create ref d m s).Minutes
          (GPSCoordinate.create ref d m s).Seconds).Minutes =
        (GPSCoordinate.create ref d m s).Minutes ∧
      (GPSCoordinate.create ref (GPSCoordinate.create ref d m s).Degrees
          (GPSCoordinate.create ref d m s).Minutes
          (GPSCoordinate.create ref d m s).Seconds).Seconds =
        (GPSCoordinate.create ref d m s).Seconds) ∧
      (s = 0 →
        (∃ z : ℤ, (GPSCoordinate.create ref d m s).Minutes = (z : ℚ)) ∧
        0 ≤ (GPSCoordinate.create ref d m s).Seconds ∧
        ((GPSCoordinate.create ref d m s).Seconds < 60 ↔
          if m = 0 then -2147483648 - 2147483648 / 60 < d ∧ d < 2147483648
          else -2147483649 < m ∧ m < 2147483648) ∧
        (m = 0 → -2147483649 < d → d < 2147483648 →
          (GPSCoordinate.create ref d m s).Seconds < 60) ∧
        (m ≠ 0 → -2147483649 < m → m < 2147483648 →
          (GPSCoordinate.create ref d m s).Seconds < 60)) := by
  intro ref d m s
  have key : GPSCoordinate.create ref (GPSCoordinate.create ref d m s).Degrees
        (GPSCoordinate.create ref d m s).Minutes (GPSCoordinate.create ref d m s).Seconds =
      GPSCoordinate.create ref d m s ∧
      (s = 0 →
        (∃ z : ℤ, (GPSCoordinate.create ref d m s).Minutes = (z : ℚ)) ∧
        0 ≤ (GPSCoordinate.create ref d m s).Seconds) := by
    by_cases hs : s = 0
    · subst hs
      by_cases hm : m = 0
      · subst hm
        rw [create_of_degrees]
        refine ⟨create_normal ref _ _ _ ?_ ?_, fun _ => ⟨⟨_, rfl⟩, ?_⟩⟩
        · show ((GPSCoordinate.toInt ((GPSCoordinate.toInt
            (60 * |d - (GPSCoordinate.toInt d : ℚ)|) : ℤ) : ℚ) : ℤ) : ℚ) = _
          rw [toInt_toInt]
        · intro _ _
          show ((GPSCoordinate.toInt ((GPSCoordinate.toInt d : ℤ) : ℚ) : ℤ) : ℚ) = _
          rw [toInt_toInt]
        · exact mul_nonneg (by norm_num) (abs_nonneg _)
      · rw [create_of_minutes ref d m hm]
        refine ⟨create_normal ref _ _ _ ?_ ?_, fun _ => ⟨⟨_, rfl⟩, ?_⟩⟩
        · show ((GPSCoordinate.toInt ((GPSCoordinate.toInt m : ℤ) : ℚ) : ℤ) : ℚ) = _
          rw [toInt_toInt]
        · intro hz hS
          exfalso
          apply hm
          have hS2 : 60 * |m - (GPSCoordinate.toInt m : ℚ)| = 0 := hS
          have h0 : |m - (GPSCoordinate.toInt m : ℚ)| = 0 := by linarith
          have h1 : m - (GPSCoordinate.toInt m : ℚ) = 0 := abs_eq_zero.mp h0
          have h2 : (GPSCoordinate.toInt m : ℚ) = 0 := hz
          linarith
        · exact mul_nonneg (by norm_num) (abs_nonneg _)
    · rw [create_of_seconds ref d m s hs]
      exact ⟨create_of_seconds ref d m s hs, fun h => absurd h hs⟩
  refine ⟨⟨key.1, ?_, ?_, ?_⟩, fun hs => ?_⟩
  · rw [key.1]
  · rw [key.1]
  · rw [key.1]
  · subst hs
    have hlt := seconds_lt_iff ref d m
    refine ⟨(key.2 rfl).1, (key.2 rfl).2, hlt, ?_, ?_⟩
    · intro hm h1 h2
      rw [hlt, if_pos hm]
      exact ⟨by linarith, h2⟩
    · intro hm h1 h2
      rw [hlt, if_neg hm]
      exact ⟨h1, h2⟩

/-- C37 as stated fails above the range of `int`: for the degrees `3000000000`, with minutes
and seconds 0, the conversion of the degrees yields `INT_MIN`, the minutes become
`60 * (3000000000 + 2147483648)`, whose conversion yields `INT_MIN` again, and the seconds of
the coordinate are `18659790151680`, which is not below 60. -/
theorem GPSCoordinate_seconds_not_below_sixty :
    GPSCoordinate.create "N" 3000000000 0 0 =
      ⟨"N", -2147483648, -2147483648, 18659790151680⟩ ∧
    ¬ ((GPSCoordinate.create "N" 3000000000 0 0).Seconds < 60) := by
  have h1 : GPSCoordinate.toInt (3000000000 : ℚ) = -2147483648 :=
    toInt_of_large _ (by norm_num)
  have h2 : (60 : ℚ) * |3000000000 - ((-2147483648 : ℤ) : ℚ)| = 308849018880 := by
    rw [abs_of_nonneg (by norm_num)]
    norm_num
  have h3 : GPSCoordinate.toInt (308849018880 : ℚ) = -2147483648 :=
    toInt_of_large _ (by norm_num)
  have h4 : (60 : ℚ) * |308849018880 - ((-2147483648 : ℤ) : ℚ)| = 18659790151680 := by
    rw [abs_of_nonneg (by norm_num)]
    norm_num
  have e : GPSCoordinate.create "N" 3000000000 0 0 =
      ⟨"N", -2147483648, -2147483648, 18659790151680⟩ := by
    rw [create_of_degrees, h1, h2, h3, h4]
    norm_num
  refine ⟨e, ?_⟩
  rw [e]
  norm_num

/-- The coordinate built from `-3/2` degrees alone has 30 minutes after the first construction
and after the second. -/
theorem GPSCoordinate_idempotent_example :
    GPSCoordinate.create "W" (-3 / 2) 0 0 = ⟨"W", -1, 30, 0⟩ ∧
      GPSCoordinate.create "W" (-1) 30 0 = ⟨"W", -1, 30, 0⟩ := by
  have h30 : GPSCoordinate.toInt ((30 : ℤ) : ℚ) = 30 :=
    toInt_intCast 30 (by norm_num) (by norm_num)
  constructor
  · rw [create_of_degrees]
    have h1 : GPSCoordinate.toInt (-3 / 2 : ℚ) = -1 := by
      rw [toInt_of_neg _ (by norm_num) (by norm_num)]
      rw [Int.ceil_eq_iff]
      norm_num
    rw [h1]
    have h2 : (60 : ℚ) * |-3 / 2 - ((-1 : ℤ) : ℚ)| = ((30 : ℤ) : ℚ) := by
      rw [abs_of_nonpos (by norm_num)]
      norm_num
    rw [h2, h30]
    norm_num
  · have h30q : GPSCoordinate.toInt (30 : ℚ) = 30 := by simpa using h30
    have := create_normal "W" (-1) 30 0 (by rw [h30q]; norm_num)
      (fun h => absurd h (by norm_num))
    simpa using this


namespace PsdReader

/-! ## A resource whose padded size is a negative seek offset -/

/-- Outside its cases the `switch` of `ParseImageResources` does nothing. -/
theorem dispatch_default (env : Env) (file : List Nat) (nColorMode id n : Nat) (r : Resources)
    (h1 : id ≠ RESOURCE_ICC_PROFILE) (h2 : id ≠ RESOURCE_ALPHA_IDENTIFIERS)
    (h3 : id ≠ RESOURCE_VERSION_INFO)
    (h4 : ¬ (id = RESOURCE_EXIF_DATA_1 ∨ id = RESOURCE_EXIF_DATA_3)) :
    ParseImageResources.dispatch env file nColorMode id n r = .ok r := by
  unfold ParseImageResources.dispatch
  rw [if_neg h1, if_neg h2, if_neg h3, if_neg h4]

/-- Outside its cases the `switch` of `ParseThumbnailResources` does nothing. -/
theorem thumb_dispatch_default (env : ThumbEnv) (file : List Nat) (id n : Nat) (t : Thumb)
    (h1 : ¬ (id = RESOURCE_THUMBNAIL_4 ∨ id = RESOURCE_THUMBNAIL_5))
    (h2 : ¬ (id = RESOURCE_EXIF_DATA_1 ∨ id = RESOURCE_EXIF_DATA_3)) :
    ParseThumbnailResources.dispatch env file id n t = .ok t := by
  unfold ParseThumbnailResources.dispatch
  rw [if_neg h1, if_neg h2]

/-- The padded size of the payload of `loopResource`, as the `LONG` that `SeekFile` takes, is
minus twelve. -/
theorem loop_offset : toLONG (u32 (4294967284 + 1) &&& 4294967294) = -12 := by decide

/-- The fields of the resource at offset 34 of `resourceFile 12 loopResource`. -/
theorem loop_fields :
    field (resourceFile 12 loopResource) 34 4 = RESOURCE_SIGNATURE ∧
    0 = field (resourceFile 12 loopResource) (34 + 6) 1 ∧
    4294967284 = field (resourceFile 12 loopResource) (34 + 7 + (0 ||| 1)) 4 ∧
    34 + 7 + (0 ||| 1) + 4 ≤ (resourceFile 12 loopResource).length ∧
    (resourceFile 12 loopResource).length < 4294967295 ∧
    field (resourceFile 12 loopResource) (34 + 4) 2 ≠ RESOURCE_ICC_PROFILE ∧
    field (resourceFile 12 loopResource) (34 + 4) 2 ≠ RESOURCE_ALPHA_IDENTIFIERS ∧
    field (resourceFile 12 loopResource) (34 + 4) 2 ≠ RESOURCE_VERSION_INFO ∧
    ¬ (field (resourceFile 12 loopResource) (34 + 4) 2 = RESOURCE_EXIF_DATA_1 ∨
      field (resourceFile 12 loopResource) (34 + 4) 2 = RESOURCE_EXIF_DATA_3) ∧
    ¬ (field (resourceFile 12 loopResource) (34 + 4) 2 = RESOURCE_THUMBNAIL_4 ∨
      field (resourceFile 12 loopResource) (34 + 4) 2 = RESOURCE_THUMBNAIL_5) := by
  decide

/-- An iteration of the loop of `ParseImageResources` that starts at `loopResource` ends where it
started, with the state it started with. -/
theorem entry_loop (env : Env) (nColorMode : Nat) (r : Resources) (hpos : r.pos = 34) :
    ParseImageResources.entry env (resourceFile 12 loopResource) nColorMode r = .ok (.more r) := by
  obtain ⟨pos, a, b, c, d⟩ := r
  simp only [] at hpos
  subst hpos
  rw [entry_resource env (resourceFile 12 loopResource) nColorMode ⟨34, a, b, c, d⟩ 0 4294967284
    loop_fields.1 loop_fields.2.1 (by decide) loop_fields.2.2.1 loop_fields.2.2.2.1
    loop_fields.2.2.2.2.1]
  rw [dispatch_default env _ nColorMode _ _ _ loop_fields.2.2.2.2.2.1 loop_fields.2.2.2.2.2.2.1
    loop_fields.2.2.2.2.2.2.2.1 loop_fields.2.2.2.2.2.2.2.2.1]
  simp only []
  rw [loop_offset, SeekFile_ok (34 + 7 + (0 ||| 1) + 4) (-12) 34 (by decide) (by decide)]

theorem thumb_entry_loop (env : ThumbEnv) (t : Thumb) (hpos : t.pos = 34) :
    ParseThumbnailResources.entry env (resourceFile 12 loopResource) t = .ok (.more t) := by
  obtain ⟨pos, a, b, c, d, e, f, g, h, i⟩ := t
  simp only [] at hpos
  subst hpos
  rw [thumb_entry_resource env (resourceFile 12 loopResource) ⟨34, a, b, c, d, e, f, g, h, i⟩ 0
    4294967284 loop_fields.1 loop_fields.2.1 (by decide) loop_fields.2.2.1 loop_fields.2.2.2.1
    loop_fields.2.2.2.2.1]
  rw [thumb_dispatch_default env _ _ _ _ loop_fields.2.2.2.2.2.2.2.2.2
    loop_fields.2.2.2.2.2.2.2.2.1]
  simp only []
  rw [loop_offset, SeekFile_ok (34 + 7 + (0 ||| 1) + 4) (-12) 34 (by decide) (by decide)]

theorem scan_loop (env : Env) (nColorMode : Nat) (r : Resources) (hpos : r.pos = 34)
    (fuel : Nat) :
    ParseImageResources env (resourceFile 12 loopResource) nColorMode fuel r = .error .fuel := by
  induction fuel with
  | zero => rfl
  | succ n ih => rw [ParseImageResources, entry_loop env nColorMode r hpos]; exact ih

theorem thumb_scan_loop (env : ThumbEnv) (t : Thumb) (hpos : t.pos = 34) (fuel : Nat) :
    ParseThumbnailResources env (resourceFile 12 loopResource) fuel t = .error .fuel := by
  induction fuel with
  | zero => rfl
  | succ n ih => rw [ParseThumbnailResources, thumb_entry_loop env t hpos]; exact ih

/-- C34: the file `resourceFile 12 loopResource` carries at offset 34 a resource with the
identifier 0x03ED, an empty name and the payload size 0xFFFFFFF4. The padded size
`(nResourceSize + 1) & -2` is 0xFFFFFFF4, which `SeekFile` takes as the `LONG` -12, the length
of the head of the resource; so an iteration of either resource loop that starts at offset 34
neither stops nor throws and leaves the cursor at offset 34 again, with the state unchanged, in
every environment. No budget of iterations is enough for the scans, for `ReadImage` or for
`ReadThumb` on this file. -/
theorem ParseImageResources_seeks_back (env : Env) (tenv : ThumbEnv) (fuel : Nat) :
    toLONG (u32 (field (resourceFile 12 loopResource) 42 4 + 1) &&& 4294967294) = -12 ∧
    (∀ (nColorMode : Nat) (r : Resources), r.pos = 34 →
      ParseImageResources.entry env (resourceFile 12 loopResource) nColorMode r =
        .ok (.more r)) ∧
    (∀ (nColorMode : Nat) (r : Resources), r.pos = 34 →
      ParseImageResources env (resourceFile 12 loopResource) nColorMode fuel r =
        .error .fuel) ∧
    ReadImage refEnv fuel (resourceFile 12 loopResource) false = .error .fuel ∧
    (∀ t : Thumb, t.pos = 34 →
      ParseThumbnailResources.entry tenv (resourceFile 12 loopResource) t = .ok (.more t)) ∧
    (∀ t : Thumb, t.pos = 34 →
      ParseThumbnailResources tenv (resourceFile 12 loopResource) fuel t = .error .fuel) ∧
    ReadThumb tenv fuel (resourceFile 12 loopResource) false = .error .fuel := by
  refine ⟨by decide, fun m r h => entry_loop env m r h, fun m r h => scan_loop env m r h fuel, ?_,
    fun t h => thumb_entry_loop tenv t h, fun t h => thumb_scan_loop tenv t h fuel, ?_⟩
  · have hh : ReadImage.header refEnv (resourceFile 12 loopResource) false =
        .ok ⟨56, 1, 4, 1, 1, 8, 3, 4, 26⟩ := by decide
    have hs : ReadImage.sections refEnv fuel (resourceFile 12 loopResource)
        ⟨56, 1, 4, 1, 1, 8, 3, 4, 26⟩ = .error .fuel := by
      rw [sections_stages, resources_scan refEnv fuel (resourceFile 12 loopResource) _ 30 rfl
        (by decide) (by decide) (by decide), scan_loop refEnv _ _ rfl fuel]
      rfl
    have hb : ReadImage.body refEnv fuel (resourceFile 12 loopResource) false = .error .fuel := by
      simp only [ReadImage.body, bind, hh, ok_bind, hs, error_bind]
    unfold ReadImage
    rw [hb]
  · have hb : ReadThumb.body tenv fuel (resourceFile 12 loopResource) false = .error .fuel := by
      rw [ReadThumb_body_scan tenv fuel (resourceFile 12 loopResource) false 30 (by decide)
        (by decide) (by decide)]
      exact thumb_scan_loop tenv _ rfl fuel
    unfold ReadThumb
    rw [hb]

/-! ## The layer count of an empty layer section -/

set_option maxRecDepth 8000

/-- C35: the files `emptyLayerFile [0x11, 0x22, 0, 0]` and `emptyLayerFile [0x11, 0x22, 0, 1]`
are RGB files with 4 channels on disk and a layer and mask section of length 0 (the four bytes
at offset 34); they agree in their first 40 bytes, which end with the compression field, and
differ in the last byte of the image data only. `ReadImage` reads the layer count from the bytes
at the offsets 42 and 43, the third and fourth byte of the image data, and returns an image
with 4 channels for the first file and with 3 channels for the second. -/
theorem ReadImage_empty_layers_alpha :
    (emptyLayerFile [0x11, 0x22, 0, 0]).take 40 = (emptyLayerFile [0x11, 0x22, 0, 1]).take 40 ∧
    field (emptyLayerFile [0x11, 0x22, 0, 0]) 34 4 = 0 ∧
    field (emptyLayerFile [0x11, 0x22, 0, 0]) 42 2 = 0 ∧
    field (emptyLayerFile [0x11, 0x22, 0, 1]) 42 2 = 1 ∧
    ReadImage refEnv 1 (emptyLayerFile [0x11, 0x22, 0, 0]) false =
      .ok (some ⟨⟨1, 1, [0, 34, 17, 0], none, 4⟩, 4⟩, false) ∧
    ReadImage refEnv 1 (emptyLayerFile [0x11, 0x22, 0, 1]) false =
      .ok (some ⟨⟨1, 1, [0, 34, 17, 0], none, 3⟩, 4⟩, false) := by
  refine ⟨by decide, by decide, by decide, by decide, by decide, by decide⟩

end PsdReader


namespace PsdReader

/-! ## Outcomes of loops -/

theorem outcome_ok {σ : Type} (P : σ → Prop) (Q : Fault → Prop) (s : σ) :
    outcome P Q (.ok s) = P s := rfl

theorem outcome_error {σ : Type} (P : σ → Prop) (Q : Fault → Prop) (e : Fault) :
    outcome P Q (.error e : Except Fault σ) = Q e := rfl

theorem outcome_mono {σ : Type} {P P1 : σ → Prop} {Q Q1 : Fault → Prop} {r : Except Fault σ}
    (h : outcome P Q r) (hP : ∀ s, P s → P1 s) (hQ : ∀ e, Q e → Q1 e) : outcome P1 Q1 r := by
  cases r with
  | ok s => exact hP s h
  | error e => exact hQ e h

theorem outcome_iff {σ : Type} (P : σ → Prop) (Q : Fault → Prop) (r : Except Fault σ) :
    outcome P Q r ↔ (∀ s, r = .ok s → P s) ∧ (∀ e, r = .error e → Q e) := by
  cases r with
  | ok s => simp [outcome]
  | error e => simp [outcome]

/-- An invariant indexed by the loop variable holds when a `for` loop ends, and a property of
the faults of the body holds for the fault of the loop. -/
theorem forLoop_outcome {σ : Type} (P : Nat → σ → Prop) (Q : Fault → Prop)
    (body : Nat → σ → Except Fault σ) :
    ∀ (n start : Nat) (s : σ), P start s →
      (∀ i s, start ≤ i → i < start + n → P i s → outcome (P (i + 1)) Q (body i s)) →
      outcome (P (start + n)) Q (forLoop body n start s) := by
  intro n
  induction n with
  | zero =>
    intro start s hs _
    exact hs
  | succ n ih =>
    intro start s hs hb
    rw [forLoop]
    have h1 := hb start s (le_refl _) (by omega) hs
    cases hbody : body start s with
    | error e =>
      rw [hbody] at h1
      exact h1
    | ok s1 =>
      rw [hbody] at h1
      have := ih (start + 1) s1 h1 (fun i s h1 h2 => hb i s (by omega) (by omega))
      rw [show start + (n + 1) = start + 1 + n by omega]
      exact this

/-- An invariant holds when a guarded `for` loop ends; the body may use the guard. -/
theorem forWhile_outcome {σ : Type} (P : σ → Prop) (Q : Fault → Prop) (cond : σ → Bool)
    (body : Nat → σ → Except Fault σ)
    (hb : ∀ i s, cond s = true → P s → outcome P Q (body i s)) :
    ∀ (n i : Nat) (s : σ), P s → outcome P Q (forWhile cond body n i s) := by
  intro n
  induction n with
  | zero =>
    intro i s hs
    exact hs
  | succ n ih =>
    intro i s hs
    rw [forWhile]
    by_cases hc : cond s = true
    · rw [if_pos hc]
      have h1 := hb i s hc hs
      cases hbody : body i s with
      | error e =>
        rw [hbody] at h1
        exact h1
      | ok s1 =>
        rw [hbody] at h1
        exact ih (i + 1) s1 h1
    · rw [if_neg hc]
      exact hs

/-! ## The faults of the loads -/

theorem load_fault (pBuffer : List Nat) (i : Nat) (e : Fault) (h : load pBuffer i = .error e) :
    e = .oobRead := by
  unfold load at h
  split at h <;> cases h
  rfl

theorem loadBE16_fault (pBuffer : List Nat) (i : Nat) (e : Fault)
    (h : loadBE16 pBuffer i = .error e) : e = .oobRead := by
  unfold loadBE16 at h
  split at h
  · cases h
    exact load_fault _ _ _ (by assumption)
  · split at h
    · cases h
      exact load_fault _ _ _ (by assumption)
    · cases h

theorem loadBE32_fault (pBuffer : List Nat) (i : Nat) (e : Fault)
    (h : loadBE32 pBuffer i = .error e) : e = .oobRead := by
  unfold loadBE32 at h
  split at h <;> cases h
  rfl

theorem loadSwap16_fault (pBuffer : List Nat) (i : Nat) (e : Fault)
    (h : loadSwap16 pBuffer i = .error e) : e = .oobRead := by
  unfold loadSwap16 at h
  split at h <;> cases h
  rfl

/-! ## No store outside the pixel buffer -/

theorem store_below (pix : List Nat) (L : Nat) (hL : L ≤ pix.length) (ws : List (Nat × Nat))
    (i v : Nat) (hi : i < L) (hws : storesBelow L ws) :
    outcome (storesBelow L) (fun e => e ≠ Fault.oobWrite) (store pix ws i v) := by
  unfold store
  rw [if_pos (by omega), outcome_ok]
  intro x hx
  rcases List.mem_append.mp hx with h1 | h1
  · exact hws x h1
  · rw [List.mem_singleton] at h1
    rw [h1]
    exact hi

theorem put_below (pix : List Nat) (h N stride rch row index value : Nat)
    (ws : List (Nat × Nat)) (hpix : stride * h ≤ pix.length)
    (hws : storesBelow (stride * h) ws) :
    outcome (storesBelow (stride * h)) (fun e => e ≠ Fault.oobWrite)
      (ProcessRLEData.put pix h N stride rch row index value ws) := by
  unfold ProcessRLEData.put
  simp only []
  split
  · rw [outcome_error]
    decide
  · rename_i hlt
    have := u32_le (stride * h)
    exact store_below pix (stride * h) hpix ws _ value (by omega) hws

/-- A store of `ProcessRLEData` that would fall outside the pixel buffer throws. -/
theorem put_thrown (pix : List Nat) (h N stride rch row index value : Nat)
    (ws : List (Nat × Nat))
    (hout : stride * h ≤ u32 (row * stride) + u32 (u32 index * N) + rch) :
    ProcessRLEData.put pix h N stride rch row index value ws = .error .thrown := by
  unfold ProcessRLEData.put
  simp only []
  have := u32_le (stride * h)
  rw [if_pos (by omega)]

theorem runStore_below (pix : List Nat) (h N stride rch row count value i : Nat) (s : Dec)
    (hpix : stride * h ≤ pix.length) (hs : storesBelow (stride * h) s.writes) :
    outcome (fun d : Dec => storesBelow (stride * h) d.writes) (fun e => e ≠ Fault.oobWrite)
      (ProcessRLEData.runStore pix h N stride rch row count value i s) := by
  unfold ProcessRLEData.runStore
  have hp := put_below pix h N stride rch row (count + i) value s.writes hpix hs
  cases hput : ProcessRLEData.put pix h N stride rch row (count + i) value s.writes with
  | error e => rw [hput] at hp; exact hp
  | ok ws => rw [hput] at hp; exact hp

theorem literalStore8_below (buf : List Nat) (size : Nat) (pix : List Nat)
    (h N stride rch row count i : Nat) (s : Dec)
    (hpix : stride * h ≤ pix.length) (hs : storesBelow (stride * h) s.writes) :
    outcome (fun d : Dec => storesBelow (stride * h) d.writes) (fun e => e ≠ Fault.oobWrite)
      (ProcessRLEData.literalStore8 buf size pix h N stride rch row count i s) := by
  unfold ProcessRLEData.literalStore8
  split
  · rw [outcome_error]
    decide
  · cases hl : load buf s.p with
    | error e =>
      rw [outcome_error, load_fault _ _ _ hl]
      decide
    | ok value =>
      simp only []
      have hp := put_below pix h N stride rch row (count + i) value s.writes hpix hs
      cases hput : ProcessRLEData.put pix h N stride rch row (count + i) value s.writes with
      | error e => rw [hput] at hp; exact hp
      | ok ws => rw [hput] at hp; exact hp

theorem literalStore16_below (buf : List Nat) (size : Nat) (pix : List Nat)
    (h N stride rch row count i : Nat) (s : Dec)
    (hpix : stride * h ≤ pix.length) (hs : storesBelow (stride * h) s.writes) :
    outcome (fun d : Dec => storesBelow (stride * h) d.writes) (fun e => e ≠ Fault.oobWrite)
      (ProcessRLEData.literalStore16 buf size pix h N stride rch row count i s) := by
  unfold ProcessRLEData.literalStore16
  split
  · rw [outcome_error]
    decide
  · cases hl : loadBE16 buf s.p with
    | error e =>
      rw [outcome_error, loadBE16_fault _ _ _ hl]
      decide
    | ok value =>
      simp only []
      have hp := put_below pix h N stride rch row (count + i) (Scale16To8 value) s.writes hpix hs
      cases hput : ProcessRLEData.put pix h N stride rch row (count + i) (Scale16To8 value)
          s.writes with
      | error e => rw [hput] at hp; exact hp
      | ok ws => rw [hput] at hp; exact hp

theorem row8_below (buf : List Nat) (size : Nat) (pix : List Nat)
    (w h N stride rch row : Nat) (hpix : stride * h ≤ pix.length) :
    ∀ (fuel count : Nat) (d : Dec), storesBelow (stride * h) d.writes →
      outcome (fun d : Dec => storesBelow (stride * h) d.writes) (fun e => e ≠ Fault.oobWrite)
        (ProcessRLEData.row8 buf size pix w h N stride rch row fuel count d) := by
  intro fuel
  induction fuel with
  | zero =>
    intro count d hd
    rw [ProcessRLEData.row8]
    split
    · rw [outcome_error]
      decide
    · exact hd
  | succ fuel ih =>
    intro count d hd
    rw [ProcessRLEData.row8]
    split
    · split
      · rw [outcome_error]
        decide
      · cases hl : load buf d.p with
        | error e =>
          rw [outcome_error, load_fault _ _ _ hl]
          decide
        | ok c0 =>
          simp only []
          split
          · split
            · rw [outcome_error]
              decide
            · cases hv : load buf (d.p + 1) with
              | error e =>
                rw [outcome_error, load_fault _ _ _ hv]
                decide
              | ok value =>
                simp only []
                have hrun := forLoop_outcome (fun _ (s : Dec) => storesBelow (stride * h) s.writes)
                  (fun e => e ≠ Fault.oobWrite)
                  (fun i s => ProcessRLEData.runStore pix h N stride rch row count value i s)
                  (u8 (255 - c0 + 2)) 0 ⟨d.p + 2, d.writes⟩ hd
                  (fun i s _ _ hs => runStore_below pix h N stride rch row count value i s hpix hs)
                cases hf : forLoop
                    (fun i s => ProcessRLEData.runStore pix h N stride rch row count value i s)
                    (u8 (255 - c0 + 2)) 0 ⟨d.p + 2, d.writes⟩ with
                | error e => rw [hf] at hrun; exact hrun
                | ok d2 => rw [hf] at hrun; exact ih _ d2 hrun
          · split
            · have hlit := forLoop_outcome
                (fun _ (s : Dec) => storesBelow (stride * h) s.writes)
                (fun e => e ≠ Fault.oobWrite)
                (fun i s => ProcessRLEData.literalStore8 buf size pix h N stride rch row count i s)
                (u8 (c0 + 1)) 0 ⟨d.p + 1, d.writes⟩ hd
                (fun i s _ _ hs =>
                  literalStore8_below buf size pix h N stride rch row count i s hpix hs)
              cases hf : forLoop
                  (fun i s => ProcessRLEData.literalStore8 buf size pix h N stride rch row count i s)
                  (u8 (c0 + 1)) 0 ⟨d.p + 1, d.writes⟩ with
              | error e => rw [hf] at hlit; exact hlit
              | ok d2 => rw [hf] at hlit; exact ih _ d2 hlit
            · exact ih _ ⟨d.p + 1, d.writes⟩ hd
    · exact hd

theorem row16_below (buf : List Nat) (size : Nat) (pix : List Nat)
    (w h N stride rch row : Nat) (hpix : stride * h ≤ pix.length) :
    ∀ (fuel count : Nat) (d : Dec), storesBelow (stride * h) d.writes →
      outcome (fun d : Dec => storesBelow (stride * h) d.writes) (fun e => e ≠ Fault.oobWrite)
        (ProcessRLEData.row16 buf size pix w h N stride rch row fuel count d) := by
  intro fuel
  induction fuel with
  | zero =>
    intro count d hd
    rw [ProcessRLEData.row16]
    split
    · rw [outcome_error]
      decide
    · exact hd
  | succ fuel ih =>
    intro count d hd
    rw [ProcessRLEData.row16]
    split
    · split
      · rw [outcome_error]
        decide
      · cases hl : load buf d.p with
        | error e =>
          rw [outcome_error, load_fault _ _ _ hl]
          decide
        | ok c0 =>
          simp only []
          split
          · split
            · rw [outcome_error]
              decide
            · cases hv : loadBE16 buf (d.p + 1) with
              | error e =>
                rw [outcome_error, loadBE16_fault _ _ _ hv]
                decide
              | ok value =>
                simp only []
                have hrun := forLoop_outcome (fun _ (s : Dec) => storesBelow (stride * h) s.writes)
                  (fun e => e ≠ Fault.oobWrite)
                  (fun i s => ProcessRLEData.runStore pix h N stride rch row count
                    (Scale16To8 value) i s)
                  (u8 (255 - c0 + 2)) 0 ⟨d.p + 3, d.writes⟩ hd
                  (fun i s _ _ hs =>
                    runStore_below pix h N stride rch row count (Scale16To8 value) i s hpix hs)
                cases hf : forLoop
                    (fun i s => ProcessRLEData.runStore pix h N stride rch row count
                      (Scale16To8 value) i s)
                    (u8 (255 - c0 + 2)) 0 ⟨d.p + 3, d.writes⟩ with
                | error e => rw [hf] at hrun; exact hrun
                | ok d2 => rw [hf] at hrun; exact ih _ d2 hrun
          · split
            · have hlit := forLoop_outcome
                (fun _ (s : Dec) => storesBelow (stride * h) s.writes)
                (fun e => e ≠ Fault.oobWrite)
                (fun i s => ProcessRLEData.literalStore16 buf size pix h N stride rch row count i s)
                (u8 (c0 + 1)) 0 ⟨d.p + 1, d.writes⟩ hd
                (fun i s _ _ hs =>
                  literalStore16_below buf size pix h N stride rch row count i s hpix hs)
              cases hf : forLoop
                  (fun i s => ProcessRLEData.literalStore16 buf size pix h N stride rch row count i s)
                  (u8 (c0 + 1)) 0 ⟨d.p + 1, d.writes⟩ with
              | error e => rw [hf] at hlit; exact hlit
              | ok d2 => rw [hf] at hlit; exact ih _ d2 hlit
            · exact ih _ ⟨d.p + 1, d.writes⟩ hd
    · exact hd

theorem rle_rowStep_below (buf : List Nat) (size : Nat) (pix : List Nat)
    (w h N stride depth v rch channel row : Nat) (st : RowDec)
    (hpix : stride * h ≤ pix.length) (hs : storesBelow (stride * h) st.writes) :
    outcome (fun s : RowDec => storesBelow (stride * h) s.writes) (fun e => e ≠ Fault.oobWrite)
      (ProcessRLEData.rowStep buf size pix w h N stride depth v rch channel row st) := by
  unfold ProcessRLEData.rowStep
  have hrow : outcome (fun d : Dec => storesBelow (stride * h) d.writes)
      (fun e => e ≠ Fault.oobWrite)
      (if depth = 8 then
        ProcessRLEData.row8 buf size pix w h N stride rch row (size + 1) 0 ⟨st.pOffset, st.writes⟩
      else
        ProcessRLEData.row16 buf size pix w h N stride rch row (size + 1) 0
          ⟨st.pOffset, st.writes⟩) := by
    split
    · exact row8_below buf size pix w h N stride rch row hpix _ _ _ hs
    · exact row16_below buf size pix w h N stride rch row hpix _ _ _ hs
  cases hr : (if depth = 8 then
        ProcessRLEData.row8 buf size pix w h N stride rch row (size + 1) 0 ⟨st.pOffset, st.writes⟩
      else
        ProcessRLEData.row16 buf size pix w h N stride rch row (size + 1) 0
          ⟨st.pOffset, st.writes⟩) with
  | error e =>
    rw [hr] at hrow
    exact hrow
  | ok d =>
    rw [hr] at hrow
    simp only []
    split
    · cases hl : loadBE32 buf (u32 (u32 (channel * h + row) * 4)) with
      | error e =>
        rw [outcome_error, loadBE32_fault _ _ _ hl]
        decide
      | ok l => exact hrow
    · cases hl : loadSwap16 buf (u32 (u32 (channel * h + row) * 2)) with
      | error e =>
        rw [outcome_error, loadSwap16_fault _ _ _ hl]
        decide
      | ok l => exact hrow

/-- The loops of `ProcessRLEData` store below the end of the pixel buffer or not at all. -/
theorem rle_loops_below (buf : List Nat) (size : Nat) (pix : List Nat)
    (w h N stride mode depth v : Nat) (st : RowDec)
    (hpix : stride * h ≤ pix.length) (hs : storesBelow (stride * h) st.writes) :
    outcome (fun s : RowDec => storesBelow (stride * h) s.writes) (fun e => e ≠ Fault.oobWrite)
      (forLoop (fun channel st =>
        forLoop (fun row st =>
          ProcessRLEData.rowStep buf size pix w h N stride depth v (rchannel mode N channel)
            channel row st) h 0 st) N 0 st) := by
  have := forLoop_outcome (fun _ (s : RowDec) => storesBelow (stride * h) s.writes)
    (fun e => e ≠ Fault.oobWrite)
    (fun channel st =>
        forLoop (fun row st =>
          ProcessRLEData.rowStep buf size pix w h N stride depth v (rchannel mode N channel)
            channel row st) h 0 st) N 0 st hs
    (fun c s _ _ hs1 =>
      forLoop_outcome (fun _ (s : RowDec) => storesBelow (stride * h) s.writes)
        (fun e => e ≠ Fault.oobWrite)
        (fun row st =>
          ProcessRLEData.rowStep buf size pix w h N stride depth v (rchannel mode N c) c row st)
        h 0 s hs1
        (fun r s2 _ _ hs2 =>
          rle_rowStep_below buf size pix w h N stride depth v (rchannel mode N c) c r s2 hpix hs2))
  exact this

theorem sample_below (buf : List Nat) (size : Nat) (pix : List Nat)
    (h N stride depth rch row col : Nat) (st : Dec)
    (hpix : stride * h ≤ pix.length) (hs : storesBelow (stride * h) st.writes) :
    outcome (fun d : Dec => storesBelow (stride * h) d.writes) (fun e => e ≠ Fault.oobWrite)
      (ProcessUncompressedData.sample buf size pix h N stride depth rch row col st) := by
  have hle := u32_le (stride * h)
  unfold ProcessUncompressedData.sample
  split
  · split
    · rw [outcome_error]
      decide
    · cases hl : load buf st.p with
      | error e =>
        rw [outcome_error, load_fault _ _ _ hl]
        decide
      | ok value =>
        simp only []
        split
        · rw [outcome_error]
          decide
        · have hst := store_below pix (stride * h) hpix st.writes
            (u32 (row * stride) + u32 (col * N) + rch) value (by omega) hs
          cases hw : store pix st.writes (u32 (row * stride) + u32 (col * N) + rch) value with
          | error e => rw [hw] at hst; exact hst
          | ok ws => rw [hw] at hst; exact hst
  · split
    · rw [outcome_error]
      decide
    · cases hl : loadBE16 buf st.p with
      | error e =>
        rw [outcome_error, loadBE16_fault _ _ _ hl]
        decide
      | ok value =>
        simp only []
        split
        · rw [outcome_error]
          decide
        · have hst := store_below pix (stride * h) hpix st.writes
            (u32 (row * stride) + u32 (col * N) + rch) (Scale16To8 value) (by omega) hs
          cases hw : store pix st.writes (u32 (row * stride) + u32 (col * N) + rch)
              (Scale16To8 value) with
          | error e => rw [hw] at hst; exact hst
          | ok ws => rw [hw] at hst; exact hst

/-- A store of `ProcessUncompressedData` that would fall outside the pixel buffer is not
performed: the step throws, or it has faulted on the load before. -/
theorem sample_thrown (buf : List Nat) (size : Nat) (pix : List Nat)
    (h N stride depth rch row col : Nat) (st : Dec)
    (hout : stride * h ≤ u32 (row * stride) + u32 (col * N) + rch) :
    ProcessUncompressedData.sample buf size pix h N stride depth rch row col st = .error .thrown ∨
      ProcessUncompressedData.sample buf size pix h N stride depth rch row col st =
        .error .oobRead := by
  have hle := u32_le (stride * h)
  unfold ProcessUncompressedData.sample
  split
  · split
    · exact Or.inl rfl
    · cases hl : load buf st.p with
      | error e =>
        rw [load_fault _ _ _ hl]
        exact Or.inr rfl
      | ok value =>
        simp only []
        rw [if_pos (by omega)]
        exact Or.inl rfl
  · split
    · exact Or.inl rfl
    · cases hl : loadBE16 buf st.p with
      | error e =>
        rw [loadBE16_fault _ _ _ hl]
        exact Or.inr rfl
      | ok value =>
        simp only []
        rw [if_pos (by omega)]
        exact Or.inl rfl

/-- The loops of `ProcessUncompressedData` store below the end of the pixel buffer or not at
all. -/
theorem uncompressed_loops_below (buf : List Nat) (size : Nat) (pix : List Nat)
    (w h N stride mode depth : Nat) (st : Dec)
    (hpix : stride * h ≤ pix.length) (hs : storesBelow (stride * h) st.writes) :
    outcome (fun d : Dec => storesBelow (stride * h) d.writes) (fun e => e ≠ Fault.oobWrite)
      (forLoop (fun channel st =>
        forLoop (fun row st =>
          forLoop (fun col st =>
            ProcessUncompressedData.sample buf size pix h N stride depth
              (rchannel mode N channel) row col st) w 0 st) h 0 st) N 0 st) := by
  have := forLoop_outcome (fun _ (s : Dec) => storesBelow (stride * h) s.writes)
    (fun e => e ≠ Fault.oobWrite)
    (fun channel st =>
        forLoop (fun row st =>
          forLoop (fun col st =>
            ProcessUncompressedData.sample buf size pix h N stride depth
              (rchannel mode N channel) row col st) w 0 st) h 0 st) N 0 st hs
    (fun c s _ _ hs1 =>
      forLoop_outcome (fun _ (s : Dec) => storesBelow (stride * h) s.writes)
        (fun e => e ≠ Fault.oobWrite)
        (fun row st =>
          forLoop (fun col st =>
            ProcessUncompressedData.sample buf size pix h N stride depth
              (rchannel mode N c) row col st) w 0 st)
        h 0 s hs1
        (fun r s2 _ _ hs2 =>
          forLoop_outcome (fun _ (s : Dec) => storesBelow (stride * h) s.writes)
            (fun e => e ≠ Fault.oobWrite)
            (fun col st =>
              ProcessUncompressedData.sample buf size pix h N stride depth
                (rchannel mode N c) r col st)
            w 0 s2 hs2
            (fun x s3 _ _ hs3 =>
              sample_below buf size pix h N stride depth (rchannel mode N c) r x s3 hpix hs3)))
  exact this

/-! ### The bitmap decoders -/

/-- The row that starts at `u32 (row * stride)` ends within `stride * h` bytes. -/
theorem row_end_le (w h stride row : Nat) (hw : w ≤ stride) (hrow : row < h) :
    u32 (row * stride) + w ≤ stride * h := by
  have h1 := u32_le (row * stride)
  have h2 : (row + 1) * stride ≤ h * stride := Nat.mul_le_mul_right stride hrow
  have h3 : (row + 1) * stride = row * stride + stride := by ring
  rw [Nat.mul_comm stride h]
  omega

theorem bitmap_bit_below (pix : List Nat) (L w pRow value k : Nat) (s : BitDec)
    (hpix : L ≤ pix.length) (hrow : pRow + w ≤ L) (hc : s.count < w)
    (hs : storesBelow L s.writes) :
    outcome (fun s : BitDec => storesBelow L s.writes) (fun e => e ≠ Fault.oobWrite)
      (ProcessBitmapRLE.bit pix pRow value k s) := by
  unfold ProcessBitmapRLE.bit
  have hst := store_below pix L hpix s.writes (pRow + s.count) (bitPixel value (7 - k))
    (by omega) hs
  cases hw : store pix s.writes (pRow + s.count) (bitPixel value (7 - k)) with
  | error e => rw [hw] at hst; exact hst
  | ok ws => rw [hw] at hst; exact hst

theorem bitmap_bits_below (pix : List Nat) (L w pRow value : Nat) (st : BitDec)
    (hpix : L ≤ pix.length) (hrow : pRow + w ≤ L) (hs : storesBelow L st.writes) :
    outcome (fun s : BitDec => storesBelow L s.writes) (fun e => e ≠ Fault.oobWrite)
      (ProcessBitmapRLE.bits pix w pRow value st) := by
  unfold ProcessBitmapRLE.bits
  exact forWhile_outcome (fun s : BitDec => storesBelow L s.writes) (fun e => e ≠ Fault.oobWrite)
    (fun s => decide (s.count < w)) (fun k s => ProcessBitmapRLE.bit pix pRow value k s)
    (fun k s hc hs1 => bitmap_bit_below pix L w pRow value k s hpix hrow (of_decide_eq_true hc) hs1)
    8 0 st hs

theorem bitmap_literalByte_below (buf : List Nat) (size : Nat) (pix : List Nat)
    (L w pRow : Nat) (s : BitDec)
    (hpix : L ≤ pix.length) (hrow : pRow + w ≤ L) (hs : storesBelow L s.writes) :
    outcome (fun s : BitDec => storesBelow L s.writes) (fun e => e ≠ Fault.oobWrite)
      (ProcessBitmapRLE.literalByte buf size pix w pRow s) := by
  unfold ProcessBitmapRLE.literalByte
  split
  · rw [outcome_error]
    decide
  · cases hl : load buf s.p with
    | error e =>
      rw [outcome_error, load_fault _ _ _ hl]
      decide
    | ok value =>
      exact bitmap_bits_below pix L w pRow value ⟨s.p + 1, s.count, s.writes⟩ hpix hrow hs

theorem bitmap_row_below (buf : List Nat) (size : Nat) (pix : List Nat)
    (L w pRow : Nat) (hpix : L ≤ pix.length) (hrow : pRow + w ≤ L) :
    ∀ (fuel : Nat) (st : BitDec), storesBelow L st.writes →
      outcome (fun s : BitDec => storesBelow L s.writes) (fun e => e ≠ Fault.oobWrite)
        (ProcessBitmapRLE.row buf size pix w pRow fuel st) := by
  intro fuel
  induction fuel with
  | zero =>
    intro st hs
    rw [ProcessBitmapRLE.row]
    split
    · rw [outcome_error]
      decide
    · exact hs
  | succ fuel ih =>
    intro st hs
    rw [ProcessBitmapRLE.row]
    split
    · split
      · rw [outcome_error]
        decide
      · cases hl : load buf st.p with
        | error e =>
          rw [outcome_error, load_fault _ _ _ hl]
          decide
        | ok c =>
          simp only []
          split
          · split
            · rw [outcome_error]
              decide
            · cases hv : load buf (st.p + 1) with
              | error e =>
                rw [outcome_error, load_fault _ _ _ hv]
                decide
              | ok value =>
                simp only []
                have hrun := forWhile_outcome (fun s : BitDec => storesBelow L s.writes)
                  (fun e => e ≠ Fault.oobWrite) (fun s => decide (s.count < w))
                  (fun _ s => ProcessBitmapRLE.bits pix w pRow value s)
                  (fun _ s _ hs1 => bitmap_bits_below pix L w pRow value s hpix hrow hs1)
                  (u32 (256 - c + 1)) 0 ⟨st.p + 2, st.count, st.writes⟩ hs
                cases hf : forWhile (fun s => decide (s.count < w))
                    (fun _ s => ProcessBitmapRLE.bits pix w pRow value s)
                    (u32 (256 - c + 1)) 0 ⟨st.p + 2, st.count, st.writes⟩ with
                | error e => rw [hf] at hrun; exact hrun
                | ok st2 => rw [hf] at hrun; exact ih st2 hrun
          · split
            · have hlit := forWhile_outcome (fun s : BitDec => storesBelow L s.writes)
                (fun e => e ≠ Fault.oobWrite) (fun s => decide (s.count < w))
                (fun _ s => ProcessBitmapRLE.literalByte buf size pix w pRow s)
                (fun _ s _ hs1 => bitmap_literalByte_below buf size pix L w pRow s hpix hrow hs1)
                (u32 (c + 1)) 0 ⟨st.p + 1, st.count, st.writes⟩ hs
              cases hf : forWhile (fun s => decide (s.count < w))
                  (fun _ s => ProcessBitmapRLE.literalByte buf size pix w pRow s)
                  (u32 (c + 1)) 0 ⟨st.p + 1, st.count, st.writes⟩ with
              | error e => rw [hf] at hlit; exact hlit
              | ok st2 => rw [hf] at hlit; exact ih st2 hlit
            · exact ih ⟨st.p + 1, st.count, st.writes⟩ hs
    · exact hs

theorem bitmap_rowStep_below (buf : List Nat) (size : Nat) (pix : List Nat)
    (w h stride v row : Nat) (st : RowDec)
    (hpix : stride * h ≤ pix.length) (hw : w ≤ stride) (hrow : row < h)
    (hs : storesBelow (stride * h) st.writes) :
    outcome (fun s : RowDec => storesBelow (stride * h) s.writes) (fun e => e ≠ Fault.oobWrite)
      (ProcessBitmapRLE.rowStep buf size pix w stride v row st) := by
  unfold ProcessBitmapRLE.rowStep
  simp only []
  have hr := bitmap_row_below buf size pix (stride * h) w (u32 (row * stride)) hpix
    (row_end_le w h stride row hw hrow) (size + 1) ⟨st.pOffset, 0, st.writes⟩ hs
  cases hf : ProcessBitmapRLE.row buf size pix w (u32 (row * stride)) (size + 1)
      ⟨st.pOffset, 0, st.writes⟩ with
  | error e =>
    rw [hf] at hr
    exact hr
  | ok s =>
    rw [hf] at hr
    simp only []
    split
    · cases hl : loadBE32 buf (u32 (row * 4)) with
      | error e =>
        rw [outcome_error, loadBE32_fault _ _ _ hl]
        decide
      | ok l => exact hr
    · cases hl : loadSwap16 buf (u32 (row * 2)) with
      | error e =>
        rw [outcome_error, loadSwap16_fault _ _ _ hl]
        decide
      | ok l => exact hr

/-- The loop of `ProcessBitmapRLE` stores below the end of the pixel buffer or not at all. -/
theorem bitmap_rle_loop_below (buf : List Nat) (size : Nat) (pix : List Nat)
    (w h stride v : Nat) (st : RowDec)
    (hpix : stride * h ≤ pix.length) (hw : w ≤ stride)
    (hs : storesBelow (stride * h) st.writes) :
    outcome (fun s : RowDec => storesBelow (stride * h) s.writes) (fun e => e ≠ Fault.oobWrite)
      (forLoop (fun row st => ProcessBitmapRLE.rowStep buf size pix w stride v row st)
        h 0 st) := by
  have := forLoop_outcome (fun _ (s : RowDec) => storesBelow (stride * h) s.writes)
    (fun e => e ≠ Fault.oobWrite)
    (fun row st => ProcessBitmapRLE.rowStep buf size pix w stride v row st) h 0 st hs
    (fun r s _ hr hs1 =>
      bitmap_rowStep_below buf size pix w h stride v r s hpix hw (by omega) hs1)
  exact this

theorem bitmap_pixel_below (buf pix : List Nat) (L w pSrc pRow col : Nat)
    (ws : List (Nat × Nat)) (hpix : L ≤ pix.length) (hrow : pRow + w ≤ L) (hc : col < w)
    (hs : storesBelow L ws) :
    outcome (storesBelow L) (fun e => e ≠ Fault.oobWrite)
      (ProcessBitmapUncompressed.pixel buf pix pSrc pRow col ws) := by
  unfold ProcessBitmapUncompressed.pixel
  simp only []
  cases hl : load buf (pSrc + col / 8) with
  | error e =>
    rw [outcome_error, load_fault _ _ _ hl]
    decide
  | ok b => exact store_below pix L hpix ws (pRow + col) _ (by omega) hs

/-- The loops of `ProcessBitmapUncompressed` store below the end of the pixel buffer or not at
all. -/
theorem bitmap_loops_below (buf pix : List Nat) (w h stride bpr : Nat) (ws : List (Nat × Nat))
    (hpix : stride * h ≤ pix.length) (hw : w ≤ stride) (hs : storesBelow (stride * h) ws) :
    outcome (storesBelow (stride * h)) (fun e => e ≠ Fault.oobWrite)
      (forLoop (fun row writes =>
        forLoop (fun col writes =>
          ProcessBitmapUncompressed.pixel buf pix (u32 (row * bpr)) (u32 (row * stride)) col
            writes) w 0 writes) h 0 ws) := by
  have := forLoop_outcome (fun _ (s : List (Nat × Nat)) => storesBelow (stride * h) s)
    (fun e => e ≠ Fault.oobWrite)
    (fun row writes =>
        forLoop (fun col writes =>
          ProcessBitmapUncompressed.pixel buf pix (u32 (row * bpr)) (u32 (row * stride)) col
            writes) w 0 writes) h 0 ws hs
    (fun r s _ hr hs1 =>
      forLoop_outcome (fun _ (s : List (Nat × Nat)) => storesBelow (stride * h) s)
        (fun e => e ≠ Fault.oobWrite)
        (fun col writes =>
          ProcessBitmapUncompressed.pixel buf pix (u32 (r * bpr)) (u32 (r * stride)) col writes)
        w 0 s hs1
        (fun x s2 _ hx hs2 =>
          bitmap_pixel_below buf pix (stride * h) w (u32 (r * bpr)) (u32 (r * stride)) x s2 hpix
            (row_end_le w h stride r hw (by omega)) (by omega) hs2))
  exact this

theorem storesBelow_nil (n : Nat) : storesBelow n [] := by
  intro x hx
  cases hx

/-- C33: no decoder stores outside the pixel buffer. For a pixel buffer of
`nOutputRowSize * nHeight` bytes and every input, neither `ProcessRLEData` nor
`ProcessUncompressedData` ends in a store outside the buffer, and every store of a run that
succeeds goes to an offset below `nOutputRowSize * nHeight`; the same holds for
`ProcessBitmapRLE` and `ProcessBitmapUncompressed` when the row size is at least the width. In
the multi-channel decoders a store whose offset is not below `nOutputRowSize * nHeight` is not
performed: the store of `ProcessRLEData` throws, and the step of `ProcessUncompressedData`
throws unless the load before it has faulted. -/
theorem decoders_store_within_buffer (pBuffer pPixelData : List Nat)
    (nImageDataSize nWidth nHeight nChannels nOutputRowSize nColorMode nBitDepth nRealChannels
      nCompressionMethod nVersion : Nat)
    (hpix : pPixelData.length = nOutputRowSize * nHeight) :
    (ProcessRLEData pBuffer nImageDataSize pPixelData nWidth nHeight nChannels nOutputRowSize
        nColorMode nBitDepth nRealChannels nVersion ≠ .error .oobWrite ∧
      ∀ ws, ProcessRLEData pBuffer nImageDataSize pPixelData nWidth nHeight nChannels
        nOutputRowSize nColorMode nBitDepth nRealChannels nVersion = .ok ws →
        ∀ x ∈ ws, x.1 < nOutputRowSize * nHeight) ∧
    (ProcessUncompressedData pBuffer nImageDataSize pPixelData nWidth nHeight nChannels
        nOutputRowSize nColorMode nBitDepth ≠ .error .oobWrite ∧
      ∀ ws, ProcessUncompressedData pBuffer nImageDataSize pPixelData nWidth nHeight nChannels
        nOutputRowSize nColorMode nBitDepth = .ok ws →
        ∀ x ∈ ws, x.1 < nOutputRowSize * nHeight) ∧
    (nWidth ≤ nOutputRowSize →
      (ProcessBitmapRLE pBuffer nImageDataSize pPixelData nWidth nHeight nOutputRowSize
          nCompressionMethod nVersion ≠ .error .oobWrite ∧
        ∀ ws, ProcessBitmapRLE pBuffer nImageDataSize pPixelData nWidth nHeight nOutputRowSize
          nCompressionMethod nVersion = .ok ws → ∀ x ∈ ws, x.1 < nOutputRowSize * nHeight) ∧
      (ProcessBitmapUncompressed pBuffer nImageDataSize pPixelData nWidth nHeight nOutputRowSize
          nCompressionMethod nVersion ≠ .error .oobWrite ∧
        ∀ ws, ProcessBitmapUncompressed pBuffer nImageDataSize pPixelData nWidth nHeight
          nOutputRowSize nCompressionMethod nVersion = .ok ws →
          ∀ x ∈ ws, x.1 < nOutputRowSize * nHeight)) ∧
    (∀ (rch row index value : Nat) (writes : List (Nat × Nat)),
      nOutputRowSize * nHeight ≤
        u32 (row * nOutputRowSize) + u32 (u32 index * nChannels) + rch →
      ProcessRLEData.put pPixelData nHeight nChannels nOutputRowSize rch row index value writes =
        .error .thrown) ∧
    (∀ (rch row col : Nat) (st : Dec),
      nOutputRowSize * nHeight ≤ u32 (row * nOutputRowSize) + u32 (col * nChannels) + rch →
      ProcessUncompressedData.sample pBuffer nImageDataSize pPixelData nHeight nChannels
          nOutputRowSize nBitDepth rch row col st = .error .thrown ∨
        ProcessUncompressedData.sample pBuffer nImageDataSize pPixelData nHeight nChannels
          nOutputRowSize nBitDepth rch row col st = .error .oobRead) := by
  have hle : nOutputRowSize * nHeight ≤ pPixelData.length := by omega
  refine ⟨?_, ?_, ?_, ?_, ?_⟩
  · have hl := rle_loops_below pBuffer nImageDataSize pPixelData nWidth nHeight nChannels
      nOutputRowSize nColorMode nBitDepth nVersion
      ⟨u32 (nHeight * nRealChannels * 2 * nVersion), []⟩ hle (storesBelow_nil _)
    rw [outcome_iff] at hl
    unfold ProcessRLEData
    simp only []
    constructor
    · intro he
      split at he
      · rename_i e heq
        cases he
        exact hl.2 _ heq rfl
      · cases he
    · intro ws hws
      split at hws
      · cases hws
      · rename_i st heq
        cases hws
        exact hl.1 st heq
  · have hl := uncompressed_loops_below pBuffer nImageDataSize pPixelData nWidth nHeight
      nChannels nOutputRowSize nColorMode nBitDepth ⟨0, []⟩ hle (storesBelow_nil _)
    rw [outcome_iff] at hl
    unfold ProcessUncompressedData
    constructor
    · intro he
      split at he
      · rename_i e heq
        cases he
        exact hl.2 _ heq rfl
      · cases he
    · intro ws hws
      split at hws
      · cases hws
      · rename_i st heq
        cases hws
        exact hl.1 st heq
  · intro hw
    constructor
    · have hl := bitmap_rle_loop_below pBuffer nImageDataSize pPixelData nWidth nHeight
        nOutputRowSize nVersion ⟨if nVersion = 2 then u32 (nHeight * 4) else u32 (nHeight * 2), []⟩
        hle hw (storesBelow_nil _)
      rw [outcome_iff] at hl
      unfold ProcessBitmapRLE
      simp only []
      constructor
      · intro he
        split at he
        · rename_i e heq
          cases he
          exact hl.2 _ heq rfl
        · cases he
      · intro ws hws
        split at hws
        · cases hws
        · rename_i st heq
          cases hws
          exact hl.1 st heq
    · unfold ProcessBitmapUncompressed
      simp only []
      split
      · exact ⟨by decide, fun ws hws => by cases hws⟩
      · have := bitmap_loops_below pBuffer pPixelData nWidth nHeight nOutputRowSize
          (u32 (nWidth + 7) / 8) [] hle hw (storesBelow_nil _)
        rw [outcome_iff] at this
        exact ⟨fun he => this.2 _ he rfl, fun ws hws => this.1 ws hws⟩
  · intro rch row index value writes hout
    exact put_thrown pPixelData nHeight nChannels nOutputRowSize rch row index value writes hout
  · intro rch row col st hout
    exact sample_thrown pBuffer nImageDataSize pPixelData nHeight nChannels nOutputRowSize
      nBitDepth rch row col st hout

/-- The statement of C33 on a run of five samples written to a row of one pixel in a buffer of
four bytes: the fifth store is not performed and the decoder throws. -/
theorem decoders_store_within_buffer_witness :
    ([0, 0, 0, 0] : List Nat).length = 4 * 1 ∧
    ProcessRLEData [0, 2, 0xFC, 0x55] 4 [0, 0, 0, 0] 1 1 1 4 MODE_Grayscale 8 1 1 =
      .error .thrown ∧
    (ProcessRLEData [0, 2, 0xFC, 0x55] 4 [0, 0, 0, 0] 1 1 1 4 MODE_Grayscale 8 1 1 ≠
        .error .oobWrite ∧
      ∀ ws, ProcessRLEData [0, 2, 0xFC, 0x55] 4 [0, 0, 0, 0] 1 1 1 4 MODE_Grayscale 8 1 1 =
        .ok ws → ∀ x ∈ ws, x.1 < 4 * 1) :=
  ⟨by decide, by decide,
    (decoders_store_within_buffer [0, 2, 0xFC, 0x55] [0, 0, 0, 0] 4 1 1 1 4 MODE_Grayscale 8 1 0 1
      (by decide)).1⟩

end PsdReader


namespace PsdReader

/-! ## Uncompressed data that is too short -/

/-- A step of `ProcessUncompressedData` within data that lies in the buffer, and with a pixel
buffer of at least `stride * h` bytes: it consumes one sample and stays within the data, or it
throws. -/
theorem sample_consume (D pix : List Nat) (size h N stride depth rch row col : Nat) (st : Dec)
    (hsize : size ≤ D.length) (hpix : stride * h ≤ pix.length) :
    outcome (fun d : Dec => d.p = st.p + (if depth = 8 then 1 else 2) ∧ d.p ≤ size)
      (fun e => e = Fault.thrown)
      (ProcessUncompressedData.sample D size pix h N stride depth rch row col st) := by
  have hle := u32_le (stride * h)
  unfold ProcessUncompressedData.sample
  by_cases hd : depth = 8
  · rw [if_pos hd, if_pos hd]
    split
    · rfl
    · rw [load_ok D st.p (by omega)]
      simp only []
      split
      · rfl
      · rw [store_ok pix _ (u32 (row * stride) + u32 (col * N) + rch) _ (by omega), outcome_ok]
        simp only [hd, if_true, if_false, true_and]
        omega
  · rw [if_neg hd, if_neg hd]
    split
    · rfl
    · rw [loadBE16_ok D st.p (by omega)]
      simp only []
      split
      · rfl
      · rw [store_ok pix _ (u32 (row * stride) + u32 (col * N) + rch) _ (by omega), outcome_ok]
        simp only [hd, if_true, if_false, true_and]
        omega

/-- The loops of `ProcessUncompressedData` consume `N * h * w` samples within the data, or they
throw. -/
theorem uncompressed_loops_consume (D pix : List Nat) (size w h N stride mode depth : Nat)
    (st : Dec) (hsize : size ≤ D.length) (hpix : stride * h ≤ pix.length) (hst : st.p ≤ size) :
    outcome (fun d : Dec => d.p = st.p + (if depth = 8 then 1 else 2) * (N * h * w) ∧ d.p ≤ size)
      (fun e => e = Fault.thrown)
      (forLoop (fun channel st =>
        forLoop (fun row st =>
          forLoop (fun col st =>
            ProcessUncompressedData.sample D size pix h N stride depth
              (rchannel mode N channel) row col st) w 0 st) h 0 st) N 0 st) := by
  have cols : ∀ (c r : Nat) (s0 : Dec), s0.p ≤ size →
      outcome (fun d : Dec => d.p = s0.p + (if depth = 8 then 1 else 2) * w ∧ d.p ≤ size)
        (fun e => e = Fault.thrown)
        (forLoop (fun col st =>
          ProcessUncompressedData.sample D size pix h N stride depth (rchannel mode N c) r col st)
          w 0 s0) := by
    intro c r s0 h0
    have := forLoop_outcome
      (fun x (d : Dec) => d.p = s0.p + (if depth = 8 then 1 else 2) * x ∧ d.p ≤ size)
      (fun e => e = Fault.thrown)
      (fun col st =>
        ProcessUncompressedData.sample D size pix h N stride depth (rchannel mode N c) r col st)
      w 0 s0 ⟨by omega, h0⟩
      (fun x s _ _ hs =>
        outcome_mono (sample_consume D pix size h N stride depth (rchannel mode N c) r x s
          hsize hpix) (fun d hd => ⟨by rw [hd.1, hs.1]; ring, hd.2⟩) (fun e he => he))
    rw [Nat.zero_add] at this
    exact this
  have rows : ∀ (c : Nat) (s0 : Dec), s0.p ≤ size →
      outcome (fun d : Dec => d.p = s0.p + (if depth = 8 then 1 else 2) * (h * w) ∧ d.p ≤ size)
        (fun e => e = Fault.thrown)
        (forLoop (fun row st =>
          forLoop (fun col st =>
            ProcessUncompressedData.sample D size pix h N stride depth (rchannel mode N c) row
              col st) w 0 st) h 0 s0) := by
    intro c s0 h0
    have := forLoop_outcome
      (fun r (d : Dec) => d.p = s0.p + (if depth = 8 then 1 else 2) * (r * w) ∧ d.p ≤ size)
      (fun e => e = Fault.thrown)
      (fun row st =>
          forLoop (fun col st =>
            ProcessUncompressedData.sample D size pix h N stride depth (rchannel mode N c) row
              col st) w 0 st)
      h 0 s0 ⟨by omega, h0⟩
      (fun r s _ _ hs =>
        outcome_mono (cols c r s hs.2) (fun d hd => ⟨by rw [hd.1, hs.1]; ring, hd.2⟩)
          (fun e he => he))
    rw [Nat.zero_add] at this
    exact this
  have := forLoop_outcome
    (fun c (d : Dec) => d.p = st.p + (if depth = 8 then 1 else 2) * (c * h * w) ∧ d.p ≤ size)
    (fun e => e = Fault.thrown)
    (fun channel st =>
        forLoop (fun row st =>
          forLoop (fun col st =>
            ProcessUncompressedData.sample D size pix h N stride depth
              (rchannel mode N channel) row col st) w 0 st) h 0 st)
    N 0 st ⟨by simp, hst⟩
    (fun c s _ _ hs =>
      outcome_mono (rows c s hs.2) (fun d hd => ⟨by rw [hd.1, hs.1]; ring, hd.2⟩)
        (fun e he => he))
  rw [Nat.zero_add] at this
  exact this

/-- The decoder `ProcessUncompressedData` throws on data shorter than its samples. -/
theorem uncompressed_short (D pix : List Nat) (size w h N stride mode depth : Nat)
    (hsize : size ≤ D.length) (hpix : stride * h ≤ pix.length)
    (hshort : size < (if depth = 8 then 1 else 2) * (N * h * w)) :
    ProcessUncompressedData D size pix w h N stride mode depth = .error .thrown := by
  have hl := uncompressed_loops_consume D pix size w h N stride mode depth ⟨0, []⟩ hsize hpix
    (Nat.zero_le _)
  rw [outcome_iff] at hl
  unfold ProcessUncompressedData
  split
  · rename_i e heq
    rw [hl.2 e heq]
  · rename_i s heq
    have := hl.1 s heq
    simp only [Nat.zero_add] at this
    omega

/-- The decoder `ProcessBitmapUncompressed` throws on data shorter than its rows. -/
theorem bitmap_short (D pix : List Nat) (size w h stride cm v : Nat)
    (hw : w + 7 < 4294967296) (h32 : (w + 7) / 8 * h < 4294967296)
    (hshort : size < (w + 7) / 8 * h) :
    ProcessBitmapUncompressed D size pix w h stride cm v = .error .thrown := by
  unfold ProcessBitmapUncompressed
  simp only []
  rw [u32_of_lt hw, u32_of_lt h32, if_pos hshort]

/-- The bytes of a sample: `depth / 8` is 1 at depth 8 and 2 at depth 16. -/
theorem depth_bytes (depth : Nat) (hd : depth = 8 ∨ depth = 16) :
    (if depth = 8 then 1 else 2) = depth / 8 := by
  rcases hd with rfl | rfl <;> rfl

/-- C32: uncompressed decoding fails exactly on short data. For a width of at least 1, 1, 3 or 4
channels, a row size of at least `w * N`, depth 8 or 16, data that lies in the buffer, and a
pixel buffer of `stride * h` bytes (`stride * h` and `w + 7` fit an `unsigned int`):
`ProcessUncompressedData` succeeds exactly when `nImageDataSize ≥ N * h * w * (depth / 8)` and
throws otherwise, and the guard on the pixel pointer is false for every channel, row and column
of the loops; `ProcessBitmapUncompressed` succeeds exactly when
`nImageDataSize ≥ ceil(w / 8) * h` and throws otherwise. So a block `B` of exactly
`N * h * w * (depth / 8)` bytes (of `ceil(w / 8) * h` bytes for a bitmap) is decoded, and each
of its strict prefixes makes the decoder throw. -/
theorem uncompressed_fails_exactly_on_short_data (D pPixelData : List Nat)
    (nImageDataSize nWidth nHeight nChannels nOutputRowSize nColorMode nBitDepth
      nCompressionMethod nVersion : Nat)
    (hw : 1 ≤ nWidth) (hN : nChannels = 1 ∨ nChannels = 3 ∨ nChannels = 4)
    (hs : nWidth * nChannels ≤ nOutputRowSize) (hdepth : nBitDepth = 8 ∨ nBitDepth = 16)
    (hsize : nImageDataSize ≤ D.length) (hpix : pPixelData.length = nOutputRowSize * nHeight)
    (h32 : nOutputRowSize * nHeight < 4294967296) (hw7 : nWidth + 7 < 4294967296) :
    ((∃ ws, ProcessUncompressedData D nImageDataSize pPixelData nWidth nHeight nChannels
        nOutputRowSize nColorMode nBitDepth = .ok ws) ↔
      nChannels * nHeight * nWidth * (nBitDepth / 8) ≤ nImageDataSize) ∧
    (nImageDataSize < nChannels * nHeight * nWidth * (nBitDepth / 8) →
      ProcessUncompressedData D nImageDataSize pPixelData nWidth nHeight nChannels
        nOutputRowSize nColorMode nBitDepth = .error .thrown) ∧
    (∀ c r x, c < nChannels → r < nHeight → x < nWidth →
      ¬ (u32 (r * nOutputRowSize) + u32 (x * nChannels) + rchannel nColorMode nChannels c ≥
        u32 (nOutputRowSize * nHeight))) ∧
    ((∃ ws, ProcessBitmapUncompressed D nImageDataSize pPixelData nWidth nHeight nOutputRowSize
        nCompressionMethod nVersion = .ok ws) ↔
      (nWidth + 7) / 8 * nHeight ≤ nImageDataSize) ∧
    (nImageDataSize < (nWidth + 7) / 8 * nHeight →
      ProcessBitmapUncompressed D nImageDataSize pPixelData nWidth nHeight nOutputRowSize
        nCompressionMethod nVersion = .error .thrown) ∧
    (∀ B : List Nat, B.length = nChannels * nHeight * nWidth * (nBitDepth / 8) →
      (∃ ws, ProcessUncompressedData B B.length pPixelData nWidth nHeight nChannels
        nOutputRowSize nColorMode nBitDepth = .ok ws) ∧
      ∀ n, n < B.length →
        ProcessUncompressedData (B.take n) n pPixelData nWidth nHeight nChannels
          nOutputRowSize nColorMode nBitDepth = .error .thrown) ∧
    (∀ B : List Nat, B.length = (nWidth + 7) / 8 * nHeight →
      (∃ ws, ProcessBitmapUncompressed B B.length pPixelData nWidth nHeight nOutputRowSize
        nCompressionMethod nVersion = .ok ws) ∧
      ∀ n, n < B.length →
        ProcessBitmapUncompressed (B.take n) n pPixelData nWidth nHeight nOutputRowSize
          nCompressionMethod nVersion = .error .thrown) := by
  have hle : nOutputRowSize * nHeight ≤ pPixelData.length := by omega
  have hb := depth_bytes nBitDepth hdepth
  have hcnt : (if nBitDepth = 8 then 1 else 2) * (nChannels * nHeight * nWidth) =
      nChannels * nHeight * nWidth * (nBitDepth / 8) := by
    rw [hb]
    ring
  have hN1 : 1 ≤ nChannels := by omega
  have hws : nWidth ≤ nOutputRowSize := by
    have : nWidth * 1 ≤ nWidth * nChannels := Nat.mul_le_mul_left nWidth hN1
    omega
  have hbpr : (nWidth + 7) / 8 * nHeight < 4294967296 := by
    have h1 : (nWidth + 7) / 8 ≤ nOutputRowSize := by omega
    have := Nat.mul_le_mul_right nHeight h1
    omega
  have ok1 : ∀ (B : List Nat) (size : Nat), size ≤ B.length →
      nChannels * nHeight * nWidth * (nBitDepth / 8) ≤ size →
      ∃ ws, ProcessUncompressedData B size pPixelData nWidth nHeight nChannels
        nOutputRowSize nColorMode nBitDepth = .ok ws := fun B size h1 h2 =>
    ⟨_, uncompressed_writes B pPixelData size nWidth nHeight nChannels nOutputRowSize nColorMode
      nBitDepth hs (by omega) h1 hle h32⟩
  have no1 : ∀ (B : List Nat) (size : Nat), size ≤ B.length →
      size < nChannels * nHeight * nWidth * (nBitDepth / 8) →
      ProcessUncompressedData B size pPixelData nWidth nHeight nChannels
        nOutputRowSize nColorMode nBitDepth = .error .thrown := fun B size h1 h2 =>
    uncompressed_short B pPixelData size nWidth nHeight nChannels nOutputRowSize nColorMode
      nBitDepth h1 hle (by omega)
  have ok2 : ∀ (B : List Nat) (size : Nat), size ≤ B.length →
      (nWidth + 7) / 8 * nHeight ≤ size →
      ∃ ws, ProcessBitmapUncompressed B size pPixelData nWidth nHeight nOutputRowSize
        nCompressionMethod nVersion = .ok ws := fun B size h1 h2 =>
    ⟨_, bitmapUncompressed_writes B pPixelData size nWidth nHeight nOutputRowSize
      nCompressionMethod nVersion hws h2 h1 hle h32⟩
  have no2 : ∀ (B : List Nat) (size : Nat), size < (nWidth + 7) / 8 * nHeight →
      ProcessBitmapUncompressed B size pPixelData nWidth nHeight nOutputRowSize
        nCompressionMethod nVersion = .error .thrown := fun B size h2 =>
    bitmap_short B pPixelData size nWidth nHeight nOutputRowSize nCompressionMethod nVersion
      hw7 hbpr h2
  refine ⟨⟨?_, ok1 D nImageDataSize hsize⟩, no1 D nImageDataSize hsize, ?_,
    ⟨?_, ok2 D nImageDataSize hsize⟩, no2 D nImageDataSize, ?_, ?_⟩
  · rintro ⟨ws, hok⟩
    by_contra hlt
    rw [no1 D nImageDataSize hsize (by omega)] at hok
    cases hok
  · intro c r x hc hr hx
    have ht := rchannel_lt nColorMode nChannels c hc
    have hoff := offset_lt nWidth nHeight nChannels nOutputRowSize r x _ hx hr ht hs
    have h1 := u32_le (r * nOutputRowSize)
    have h2 := u32_le (x * nChannels)
    rw [u32_of_lt h32]
    omega
  · rintro ⟨ws, hok⟩
    by_contra hlt
    rw [no2 D nImageDataSize (by omega)] at hok
    cases hok
  · intro B hB
    refine ⟨ok1 B B.length (le_refl _) (by omega), fun n hn => ?_⟩
    exact no1 (B.take n) n (by rw [List.length_take]; omega) (by omega)
  · intro B hB
    refine ⟨ok2 B B.length (le_refl _) (by omega), fun n hn => ?_⟩
    exact no2 (B.take n) n (by omega)

/-- The statement of C32 on an RGB pixel of three samples: the three bytes are decoded, and
the decoder throws on the first two of them. -/
theorem uncompressed_fails_exactly_on_short_data_witness :
    (1 ≤ 1 ∧ (3 = 1 ∨ 3 = 3 ∨ 3 = 4) ∧ 1 * 3 ≤ 4 ∧ (8 = 8 ∨ 8 = 16) ∧
      3 ≤ [0x11, 0x22, 0x33].length ∧ [0, 0, 0, 0].length = 4 * 1 ∧ 4 * 1 < 4294967296 ∧
      1 + 7 < 4294967296) ∧
    ((∃ ws, ProcessUncompressedData [0x11, 0x22, 0x33] 3 [0, 0, 0, 0] 1 1 3 4 MODE_RGB 8 =
        .ok ws) ↔ 3 * 1 * 1 * (8 / 8) ≤ 3) ∧
    (∀ B : List Nat, B.length = 3 * 1 * 1 * (8 / 8) →
      (∃ ws, ProcessUncompressedData B B.length [0, 0, 0, 0] 1 1 3 4 MODE_RGB 8 = .ok ws) ∧
      ∀ n, n < B.length →
        ProcessUncompressedData (B.take n) n [0, 0, 0, 0] 1 1 3 4 MODE_RGB 8 =
          .error .thrown) ∧
    ProcessUncompressedData [0x11, 0x22] 2 [0, 0, 0, 0] 1 1 3 4 MODE_RGB 8 = .error .thrown ∧
    ProcessUncompressedData [0x11, 0x22, 0x33] 3 [0, 0, 0, 0] 1 1 3 4 MODE_RGB 8 =
      .ok [(2, 0x11), (1, 0x22), (0, 0x33)] :=
  ⟨by decide,
    (uncompressed_fails_exactly_on_short_data [0x11, 0x22, 0x33] [0, 0, 0, 0] 3 1 1 3 4
      MODE_RGB 8 0 1 (by decide) (by decide) (by decide) (by decide) (by decide) (by decide)
      (by decide) (by decide)).1,
    (uncompressed_fails_exactly_on_short_data [0x11, 0x22, 0x33] [0, 0, 0, 0] 3 1 1 3 4
      MODE_RGB 8 0 1 (by decide) (by decide) (by decide) (by decide) (by decide) (by decide)
      (by decide) (by decide)).2.2.2.2.2.1,
    by decide, by decide⟩

end PsdReader


namespace PsdReader

/-! ## Row offsets of the RLE decoders -/

theorem load_inv (buf : List Nat) (i b : Nat) (h : load buf i = .ok b) : buf[i]? = some b := by
  unfold load at h
  split at h
  · cases h
    assumption
  · cases h

theorem byte_of_getElem (buf : List Nat) (hb : ∀ b ∈ buf, b < 256) (i b : Nat)
    (h : buf[i]? = some b) : b < 256 := by
  obtain ⟨hi, rfl⟩ := List.getElem?_eq_some.mp h
  exact hb _ (List.getElem_mem hi)

theorem take_drop_four (buf : List Nat) (i b0 b1 b2 b3 : Nat) (h0 : buf[i]? = some b0)
    (h1 : buf[i + 1]? = some b1) (h2 : buf[i + 2]? = some b2) (h3 : buf[i + 3]? = some b3) :
    (buf.drop i).take 4 = [b0, b1, b2, b3] := by
  apply List.ext_getElem?
  intro n
  rw [List.getElem?_take]
  split
  · rw [List.getElem?_drop]
    rcases n with _ | _ | _ | _ | n
    · simpa using h0
    · simpa using h1
    · simpa using h2
    · simpa using h3
    · omega
  · rcases n with _ | _ | _ | _ | n
    · omega
    · omega
    · omega
    · omega
    · simp

theorem take_drop_two (buf : List Nat) (i b0 b1 : Nat) (h0 : buf[i]? = some b0)
    (h1 : buf[i + 1]? = some b1) : (buf.drop i).take 2 = [b0, b1] := by
  apply List.ext_getElem?
  intro n
  rw [List.getElem?_take]
  split
  · rw [List.getElem?_drop]
    rcases n with _ | _ | n
    · simpa using h0
    · simpa using h1
    · omega
  · rcases n with _ | _ | n
    · omega
    · omega
    · simp

/-- A four-byte load of bytes yields the big-endian field at its offset. -/
theorem loadBE32_field (buf : List Nat) (hb : ∀ b ∈ buf, b < 256) (i l : Nat)
    (h : loadBE32 buf i = .ok l) : l = field buf i 4 := by
  unfold loadBE32 at h
  split at h
  · rename_i b0 b1 b2 b3 h0 h1 h2 h3
    have g0 := load_inv _ _ _ h0
    have g1 := load_inv _ _ _ h1
    have g2 := load_inv _ _ _ h2
    have g3 := load_inv _ _ _ h3
    have c0 := byte_of_getElem buf hb _ _ g0
    have c1 := byte_of_getElem buf hb _ _ g1
    have c2 := byte_of_getElem buf hb _ _ g2
    have c3 := byte_of_getElem buf hb _ _ g3
    cases h
    unfold field
    rw [take_drop_four buf i b0 b1 b2 b3 g0 g1 g2 g3]
    simp only [beValue, List.foldl_cons, List.foldl_nil, Nat.zero_mul, Nat.zero_add]
    exact u32_of_lt (by omega)
  · cases h

/-- A two-byte load of bytes yields the big-endian field at its offset. -/
theorem loadSwap16_field (buf : List Nat) (hb : ∀ b ∈ buf, b < 256) (i l : Nat)
    (h : loadSwap16 buf i = .ok l) : l = field buf i 2 := by
  unfold loadSwap16 at h
  split at h
  · rename_i b0 b1 h0 h1
    have g0 := load_inv _ _ _ h0
    have g1 := load_inv _ _ _ h1
    have c0 := byte_of_getElem buf hb _ _ g0
    have c1 := byte_of_getElem buf hb _ _ g1
    cases h
    unfold field
    rw [take_drop_two buf i b0 b1 g0 g1]
    simp only [beValue, List.foldl_cons, List.foldl_nil, Nat.zero_mul, Nat.zero_add]
    exact u16_of_lt (by omega)
  · cases h

theorem tableSum_succ (v : Nat) (buf : List Nat) (k : Nat) :
    tableSum v buf (k + 1) = tableSum v buf k + tableEntry v buf k := by
  unfold tableSum
  rw [List.range_succ, List.map_append, List.sum_append]
  simp

theorem tableSum_zero (v : Nat) (buf : List Nat) : tableSum v buf 0 = 0 := rfl

/-- A `for` loop of `a + b` iterations is the loop of the first `a` followed by the loop of the
other `b`. -/
theorem forLoop_split {σ : Type} (body : Nat → σ → Except Fault σ) (a b : Nat) :
    ∀ (start : Nat) (s : σ), forLoop body (a + b) start s =
      (forLoop body a start s).bind fun s1 => forLoop body b (start + a) s1 := by
  induction a with
  | zero =>
    intro start s
    rw [Nat.zero_add]
    rfl
  | succ a ih =>
    intro start s
    rw [show a + 1 + b = (a + b) + 1 by omega, forLoop, forLoop]
    cases body start s with
    | error e => rfl
    | ok s1 =>
      simp only []
      rw [ih (start + 1) s1, show start + 1 + a = start + (a + 1) by omega]

/-- A `for` loop is the loop up to an iteration `i`, that iteration, and the loop behind it. -/
theorem forLoop_at {σ : Type} (body : Nat → σ → Except Fault σ) (n i : Nat) (hi : i < n)
    (s : σ) :
    forLoop body n 0 s =
      (forLoop body i 0 s).bind fun s1 =>
        (body i s1).bind fun s2 => forLoop body (n - i - 1) (i + 1) s2 := by
  rw [show n = i + (1 + (n - i - 1)) by omega, forLoop_split body i _ 0 s]
  congr 1
  funext s1
  rw [forLoop_split body 1 _ (0 + i) s1, Nat.zero_add]
  rw [show i + (1 + (n - i - 1)) - i - 1 = n - i - 1 by omega]
  congr 1
  rw [forLoop]
  cases body i s1 with
  | error e => rfl
  | ok s2 => rfl

/-- A row step of `ProcessRLEData` advances `pOffset` by the entry of the row in the byte-count
table, whatever the decoding of the row has consumed. -/
theorem rle_rowStep_offset (buf : List Nat) (size : Nat) (pix : List Nat)
    (w h N stride depth v rch c r : Nat) (st st1 : RowDec)
    (hb : ∀ b ∈ buf, b < 256) (hv : v = 1 ∨ v = 2) (hidx : (c * h + r) * (2 * v) < 4294967296)
    (hstep : ProcessRLEData.rowStep buf size pix w h N stride depth v rch c r st = .ok st1) :
    st1.pOffset = st.pOffset + tableEntry v buf (c * h + r) := by
  have hk : u32 (c * h + r) = c * h + r := u32_of_lt (by rcases hv with rfl | rfl <;> omega)
  unfold ProcessRLEData.rowStep at hstep
  unfold tableEntry
  split at hstep
  · cases hstep
  · split at hstep
    · rename_i hv2
      subst hv2
      split at hstep
      · cases hstep
      · rename_i l hl
        cases hstep
        rw [hk, u32_of_lt (by omega)] at hl
        rw [loadBE32_field buf hb _ l hl, show 2 * 2 * (c * h + r) = (c * h + r) * 4 by ring]
    · rename_i hv2
      have hv1 : v = 1 := by omega
      subst hv1
      split at hstep
      · cases hstep
      · rename_i l hl
        cases hstep
        rw [hk, u32_of_lt (by omega)] at hl
        rw [loadSwap16_field buf hb _ l hl, show 2 * 1 * (c * h + r) = (c * h + r) * 2 by ring]

/-- A row step of `ProcessBitmapRLE` advances `pOffset` by the entry of the row in the
byte-count table. -/
theorem bitmap_rowStep_offset (buf : List Nat) (size : Nat) (pix : List Nat)
    (w stride v r : Nat) (st st1 : RowDec)
    (hb : ∀ b ∈ buf, b < 256) (hv : v = 1 ∨ v = 2) (hidx : r * (2 * v) < 4294967296)
    (hstep : ProcessBitmapRLE.rowStep buf size pix w stride v r st = .ok st1) :
    st1.pOffset = st.pOffset + tableEntry v buf r := by
  unfold ProcessBitmapRLE.rowStep at hstep
  unfold tableEntry
  simp only [] at hstep
  split at hstep
  · cases hstep
  · split at hstep
    · rename_i hv2
      subst hv2
      split at hstep
      · cases hstep
      · rename_i l hl
        cases hstep
        rw [u32_of_lt (by omega)] at hl
        rw [loadBE32_field buf hb _ l hl, show 2 * 2 * r = r * 4 by ring]
    · rename_i hv2
      have hv1 : v = 1 := by omega
      subst hv1
      split at hstep
      · cases hstep
      · rename_i l hl
        cases hstep
        rw [u32_of_lt (by omega)] at hl
        rw [loadSwap16_field buf hb _ l hl, show 2 * 1 * r = r * 2 by ring]

/-- The rows `0 .. r - 1` of channel `c` advance `pOffset` by their entries of the table. -/
theorem rle_rows_offset (buf : List Nat) (size : Nat) (pix : List Nat)
    (w h N stride depth v rch c r T : Nat) (st st1 : RowDec)
    (hb : ∀ b ∈ buf, b < 256) (hv : v = 1 ∨ v = 2) (hr : r ≤ h)
    (hidx : (c * h + h) * (2 * v) < 4294967296)
    (hst : st.pOffset = T + tableSum v buf (c * h))
    (hloop : forLoop (fun row st =>
      ProcessRLEData.rowStep buf size pix w h N stride depth v rch c row st) r 0 st = .ok st1) :
    st1.pOffset = T + tableSum v buf (c * h + r) := by
  have := forLoop_outcome
    (fun j (s : RowDec) => s.pOffset = T + tableSum v buf (c * h + j)) (fun _ => True)
    (fun row st => ProcessRLEData.rowStep buf size pix w h N stride depth v rch c row st)
    r 0 st hst
    (fun j s _ hj hs => by
      rw [outcome_iff]
      refine ⟨fun s1 hs1 => ?_, fun _ _ => trivial⟩
      beta_reduce at hs hs1 ⊢
      have hlt : (c * h + j) * (2 * v) < 4294967296 := by
        have : (c * h + j) * (2 * v) ≤ (c * h + h) * (2 * v) :=
          Nat.mul_le_mul_right _ (by omega)
        omega
      rw [rle_rowStep_offset buf size pix w h N stride depth v rch c j s s1 hb hv hlt hs1, hs,
        show c * h + (j + 1) = c * h + j + 1 from rfl, tableSum_succ]
      ring)
  rw [hloop, outcome_ok, Nat.zero_add] at this
  exact this

/-- The channels `0 .. c - 1` advance `pOffset` by their entries of the table. -/
theorem rle_channels_offset (buf : List Nat) (size : Nat) (pix : List Nat)
    (w h N stride mode depth v c T : Nat) (st st1 : RowDec)
    (hb : ∀ b ∈ buf, b < 256) (hv : v = 1 ∨ v = 2)
    (hidx : c * h * (2 * v) < 4294967296)
    (hst : st.pOffset = T)
    (hloop : forLoop (fun channel st =>
      forLoop (fun row st =>
        ProcessRLEData.rowStep buf size pix w h N stride depth v (rchannel mode N channel)
          channel row st) h 0 st) c 0 st = .ok st1) :
    st1.pOffset = T + tableSum v buf (c * h) := by
  have := forLoop_outcome
    (fun j (s : RowDec) => s.pOffset = T + tableSum v buf (j * h)) (fun _ => True)
    (fun channel st =>
      forLoop (fun row st =>
        ProcessRLEData.rowStep buf size pix w h N stride depth v (rchannel mode N channel)
          channel row st) h 0 st)
    c 0 st (by beta_reduce; rw [Nat.zero_mul, tableSum_zero, hst]; rfl)
    (fun j s _ hj hs => by
      rw [outcome_iff]
      refine ⟨fun s1 hs1 => ?_, fun _ _ => trivial⟩
      beta_reduce at hs hs1 ⊢
      have hlt : (j * h + h) * (2 * v) < 4294967296 := by
        have h1 : (j + 1) * h ≤ c * h := Nat.mul_le_mul_right h (by omega)
        have h2 : (j + 1) * h = j * h + h := by ring
        have : (j * h + h) * (2 * v) ≤ c * h * (2 * v) :=
          Nat.mul_le_mul_right _ (by omega)
        omega
      have := rle_rows_offset buf size pix w h N stride depth v (rchannel mode N j) j h T s s1
        hb hv (le_refl _) hlt hs hs1
      rw [this, show (j + 1) * h = j * h + h by ring])
  rw [hloop, outcome_ok, Nat.zero_add] at this
  exact this

/-- The rows `0 .. r - 1` of `ProcessBitmapRLE` advance `pOffset` by their entries of the
table. -/
theorem bitmap_rows_offset (buf : List Nat) (size : Nat) (pix : List Nat)
    (w stride v r T : Nat) (st st1 : RowDec)
    (hb : ∀ b ∈ buf, b < 256) (hv : v = 1 ∨ v = 2)
    (hidx : r * (2 * v) < 4294967296)
    (hst : st.pOffset = T)
    (hloop : forLoop (fun row st =>
      ProcessBitmapRLE.rowStep buf size pix w stride v row st) r 0 st = .ok st1) :
    st1.pOffset = T + tableSum v buf r := by
  have := forLoop_outcome
    (fun j (s : RowDec) => s.pOffset = T + tableSum v buf j) (fun _ => True)
    (fun row st => ProcessBitmapRLE.rowStep buf size pix w stride v row st)
    r 0 st (by beta_reduce; rw [tableSum_zero, hst]; rfl)
    (fun j s _ hj hs => by
      rw [outcome_iff]
      refine ⟨fun s1 hs1 => ?_, fun _ _ => trivial⟩
      beta_reduce at hs hs1 ⊢
      have hlt : j * (2 * v) < 4294967296 := by
        have : j * (2 * v) ≤ r * (2 * v) := Nat.mul_le_mul_right _ (by omega)
        omega
      rw [bitmap_rowStep_offset buf size pix w stride v j s s1 hb hv hlt hs1, hs, tableSum_succ]
      ring)
  rw [hloop, outcome_ok, Nat.zero_add] at this
  exact this

/-- C31: the row offsets of the RLE decoders come from the byte-count table only. For a buffer
of bytes, a version of 1 or 2, a table size `T = nHeight * nRealChannels * 2 * nVersion` and
table offsets that fit an `unsigned int`: `ProcessRLEData` is its channel loop started at
`pOffset = T`; for a channel `c` and a row `r` the loop is the channels before `c`, the rows of
`c` before `r`, the step of row `r`, and the rest; and every state in which the step of
`(c, r)` starts has `pOffset = T +` the sum of the first `c * nHeight + r` big-endian entries
of the table, which are the entries of the pairs before `(c, r)` in channel-major order. The
step decodes the row from `pOffset`, and what the rows before have consumed does not enter.
The same holds for `ProcessBitmapRLE` with `T = nHeight * 2 * nVersion` and the first `r`
entries. -/
theorem rle_row_offsets_from_table (pBuffer pPixelData : List Nat)
    (nImageDataSize nWidth nHeight nChannels nOutputRowSize nColorMode nBitDepth nRealChannels
      nCompressionMethod nVersion : Nat)
    (hb : ∀ b ∈ pBuffer, b < 256) (hv : nVersion = 1 ∨ nVersion = 2)
    (hT : nHeight * nRealChannels * 2 * nVersion < 4294967296)
    (hidx : nChannels * nHeight * (2 * nVersion) < 4294967296) :
    ProcessRLEData pBuffer nImageDataSize pPixelData nWidth nHeight nChannels nOutputRowSize
        nColorMode nBitDepth nRealChannels nVersion =
      (ProcessRLEData.channels pBuffer nImageDataSize pPixelData nWidth nHeight nChannels
        nOutputRowSize nColorMode nBitDepth nVersion nChannels 0
        ⟨nHeight * nRealChannels * 2 * nVersion, []⟩).map (fun st => st.writes) ∧
    (∀ c r, c < nChannels → r < nHeight →
      (∀ st : RowDec,
        ProcessRLEData.channels pBuffer nImageDataSize pPixelData nWidth nHeight nChannels
            nOutputRowSize nColorMode nBitDepth nVersion nChannels 0 st =
          (ProcessRLEData.channels pBuffer nImageDataSize pPixelData nWidth nHeight nChannels
            nOutputRowSize nColorMode nBitDepth nVersion c 0 st).bind fun st1 =>
          ((ProcessRLEData.rows pBuffer nImageDataSize pPixelData nWidth nHeight nChannels
            nOutputRowSize nColorMode nBitDepth nVersion c r 0 st1).bind fun st2 =>
            (ProcessRLEData.rowStep pBuffer nImageDataSize pPixelData nWidth nHeight nChannels
              nOutputRowSize nBitDepth nVersion (rchannel nColorMode nChannels c) c r st2).bind
            fun st3 =>
              ProcessRLEData.rows pBuffer nImageDataSize pPixelData nWidth nHeight nChannels
                nOutputRowSize nColorMode nBitDepth nVersion c (nHeight - r - 1) (r + 1) st3).bind
          fun st4 =>
            ProcessRLEData.channels pBuffer nImageDataSize pPixelData nWidth nHeight nChannels
              nOutputRowSize nColorMode nBitDepth nVersion (nChannels - c - 1) (c + 1) st4) ∧
      ∀ st1 st2 : RowDec,
        ProcessRLEData.channels pBuffer nImageDataSize pPixelData nWidth nHeight nChannels
          nOutputRowSize nColorMode nBitDepth nVersion c 0
          ⟨nHeight * nRealChannels * 2 * nVersion, []⟩ = .ok st1 →
        ProcessRLEData.rows pBuffer nImageDataSize pPixelData nWidth nHeight nChannels
          nOutputRowSize nColorMode nBitDepth nVersion c r 0 st1 = .ok st2 →
        st2.pOffset =
          nHeight * nRealChannels * 2 * nVersion + tableSum nVersion pBuffer (c * nHeight + r)) ∧
    (nHeight * (2 * nVersion) < 4294967296 →
      ProcessBitmapRLE pBuffer nImageDataSize pPixelData nWidth nHeight nOutputRowSize
          nCompressionMethod nVersion =
        (ProcessBitmapRLE.rows pBuffer nImageDataSize pPixelData nWidth nOutputRowSize nVersion
          nHeight 0 ⟨nHeight * 2 * nVersion, []⟩).map (fun st => st.writes) ∧
      ∀ r, r < nHeight →
        (∀ st : RowDec,
          ProcessBitmapRLE.rows pBuffer nImageDataSize pPixelData nWidth nOutputRowSize nVersion
              nHeight 0 st =
            (ProcessBitmapRLE.rows pBuffer nImageDataSize pPixelData nWidth nOutputRowSize
              nVersion r 0 st).bind fun st2 =>
            (ProcessBitmapRLE.rowStep pBuffer nImageDataSize pPixelData nWidth nOutputRowSize
              nVersion r st2).bind fun st3 =>
              ProcessBitmapRLE.rows pBuffer nImageDataSize pPixelData nWidth nOutputRowSize
                nVersion (nHeight - r - 1) (r + 1) st3) ∧
        ∀ st2 : RowDec,
          ProcessBitmapRLE.rows pBuffer nImageDataSize pPixelData nWidth nOutputRowSize nVersion
            r 0 ⟨nHeight * 2 * nVersion, []⟩ = .ok st2 →
          st2.pOffset = nHeight * 2 * nVersion + tableSum nVersion pBuffer r) := by
  refine ⟨?_, ?_, ?_⟩
  · unfold ProcessRLEData ProcessRLEData.channels ProcessRLEData.rows
    simp only []
    rw [u32_of_lt hT]
    cases forLoop (fun channel st =>
      forLoop (fun row st =>
        ProcessRLEData.rowStep pBuffer nImageDataSize pPixelData nWidth nHeight nChannels
          nOutputRowSize nBitDepth nVersion (rchannel nColorMode nChannels channel) channel row
          st) nHeight 0 st) nChannels 0
        (⟨nHeight * nRealChannels * 2 * nVersion, []⟩ : RowDec) with
    | error e => rfl
    | ok st => rfl
  · intro c r hc hr
    constructor
    · intro st
      unfold ProcessRLEData.channels
      rw [forLoop_at _ nChannels c hc st]
      congr 1
      funext st1
      congr 1
      unfold ProcessRLEData.rows
      exact forLoop_at _ nHeight r hr st1
    · intro st1 st2 h1 h2
      have hch : (c + 1) * nHeight ≤ nChannels * nHeight := Nat.mul_le_mul_right nHeight hc
      have hch2 : (c + 1) * nHeight = c * nHeight + nHeight := by ring
      have hle : (c * nHeight + nHeight) * (2 * nVersion) ≤
          nChannels * nHeight * (2 * nVersion) := Nat.mul_le_mul_right _ (by omega)
      have hle2 : c * nHeight * (2 * nVersion) ≤ (c * nHeight + nHeight) * (2 * nVersion) :=
        Nat.mul_le_mul_right _ (by omega)
      have e1 := rle_channels_offset pBuffer nImageDataSize pPixelData nWidth nHeight nChannels
        nOutputRowSize nColorMode nBitDepth nVersion c (nHeight * nRealChannels * 2 * nVersion)
        ⟨nHeight * nRealChannels * 2 * nVersion, []⟩ st1 hb hv (by omega) rfl h1
      exact rle_rows_offset pBuffer nImageDataSize pPixelData nWidth nHeight nChannels
        nOutputRowSize nBitDepth nVersion (rchannel nColorMode nChannels c) c r
        (nHeight * nRealChannels * 2 * nVersion) st1 st2 hb hv (by omega) (by omega) e1 h2
  · intro hbm
    have hinit : (if nVersion = 2 then u32 (nHeight * 4) else u32 (nHeight * 2)) =
        nHeight * 2 * nVersion := by
      rcases hv with rfl | rfl
      · rw [if_neg (by decide), u32_of_lt (by omega)]
        ring
      · rw [if_pos rfl, u32_of_lt (by omega)]
        ring
    constructor
    · unfold ProcessBitmapRLE ProcessBitmapRLE.rows
      simp only []
      rw [hinit]
      cases forLoop (fun row st =>
        ProcessBitmapRLE.rowStep pBuffer nImageDataSize pPixelData nWidth nOutputRowSize
          nVersion row st) nHeight 0 (⟨nHeight * 2 * nVersion, []⟩ : RowDec) with
      | error e => rfl
      | ok st => rfl
    · intro r hr
      constructor
      · intro st
        unfold ProcessBitmapRLE.rows
        exact forLoop_at _ nHeight r hr st
      · intro st2 h2
        have hle : r * (2 * nVersion) ≤ nHeight * (2 * nVersion) :=
          Nat.mul_le_mul_right _ (by omega)
        exact bitmap_rows_offset pBuffer nImageDataSize pPixelData nWidth nOutputRowSize
          nVersion r (nHeight * 2 * nVersion) ⟨nHeight * 2 * nVersion, []⟩ st2 hb hv
          (by omega) rfl h2

/-- The statement of C31 on `gapData`: the entry of row 0 is 5 and its stream takes 2 bytes;
the step of row 1 starts at `pOffset = 4 + 5`, where the stream of row 1 lies, and the image is
decoded. -/
theorem rle_row_offsets_from_table_witness :
    ((∀ b ∈ gapData, b < 256) ∧ ((1 : Nat) = 1 ∨ (1 : Nat) = 2) ∧ 2 * 1 * 2 * 1 < 4294967296 ∧
      1 * 2 * (2 * 1) < 4294967296) ∧
    (∀ st1 st2 : RowDec,
      ProcessRLEData.channels gapData 11 [0, 0, 0, 0, 0, 0, 0, 0] 2 2 1 4 MODE_Grayscale 8 1 0 0
        ⟨2 * 1 * 2 * 1, []⟩ = .ok st1 →
      ProcessRLEData.rows gapData 11 [0, 0, 0, 0, 0, 0, 0, 0] 2 2 1 4 MODE_Grayscale 8 1 0 1 0
        st1 = .ok st2 →
      st2.pOffset = 2 * 1 * 2 * 1 + tableSum 1 gapData (0 * 2 + 1)) ∧
    ProcessRLEData.channels gapData 11 [0, 0, 0, 0, 0, 0, 0, 0] 2 2 1 4 MODE_Grayscale 8 1 0 0
      ⟨4, []⟩ = .ok ⟨4, []⟩ ∧
    ProcessRLEData.rows gapData 11 [0, 0, 0, 0, 0, 0, 0, 0] 2 2 1 4 MODE_Grayscale 8 1 0 1 0
      ⟨4, []⟩ = .ok ⟨9, [(0, 7), (1, 7)]⟩ ∧
    tableSum 1 gapData 1 = 5 ∧
    ProcessRLEData gapData 11 [0, 0, 0, 0, 0, 0, 0, 0] 2 2 1 4 MODE_Grayscale 8 1 1 =
      .ok [(0, 7), (1, 7), (4, 8), (5, 8)] :=
  ⟨by decide,
    ((rle_row_offsets_from_table gapData [0, 0, 0, 0, 0, 0, 0, 0] 11 2 2 1 4 MODE_Grayscale 8 1
      1 1 (by decide) (by decide) (by decide) (by decide)).2.1 0 1 (by decide) (by decide)).2,
    by decide, by decide, by decide, by decide⟩

end PsdReader


namespace PsdReader

/-! ## An EXIF resource behind alpha identifiers -/

set_option maxRecDepth 8000

/-- C23: the resource section of `exifOrderFile [0, 0, 0, 0]` holds the resources 0x041D (alpha
identifiers, one zero identifier), 0x0423 (EXIF, payload `01 02`) and 0x0422 (EXIF, payload
`03 04`), at the offsets 34, 50 and 64. The iteration at the alpha identifiers leaves the
cursor at offset 54, four bytes behind the start of the first EXIF resource; the four bytes
there are not `8BIM`, the scan stops, and the image that `ReadImage` returns has no EXIF block.
With the identifier 1 in place of 0 the image has the block of the payload `01 02`, that of the
first EXIF resource in file order; and `ReadThumb`, whose scan has no case for the alpha
identifiers, returns that block for the same resources followed by a thumbnail. -/
theorem ReadImage_exif_lost_behind_alpha :
    ((exifOrderFile [0, 0, 0, 0]).drop 34).take 44 =
      resourceEntry 0x041D [0, 0, 0, 0] ++ resourceEntry 0x0423 [1, 2] ++
        resourceEntry 0x0422 [3, 4] ∧
    (resourceEntry 0x041D [0, 0, 0, 0]).length = 16 ∧
    ParseImageResources.entry refEnv (exifOrderFile [0, 0, 0, 0]) MODE_RGB (scanStart 34) =
      .ok (.more (scanStart 54)) ∧
    ParseImageResources.entry refEnv (exifOrderFile [0, 0, 0, 0]) MODE_RGB (scanStart 54) =
      .ok (.stop (scanStart 58)) ∧
    ReadImage refEnv 5 (exifOrderFile [0, 0, 0, 0]) false =
      .ok (some ⟨⟨1, 1, [0, 0x22, 0x11, 0], none, 4⟩, 4⟩, false) ∧
    ReadImage refEnv 5 (exifOrderFile [0, 0, 0, 1]) false =
      .ok (some ⟨⟨1, 1, [0, 0x22, 0x11, 0], some (exifBlock 2 [1, 2]), 3⟩, 4⟩, false) ∧
    ReadThumb refThumbEnv 5 exifOrderThumbFile false =
      .ok (some ⟨1, 1, [0xC5], some (exifBlockThumb 2 [1, 2]), 3, some [0xC5], 1, 0⟩, false) := by
  refine ⟨by decide, by decide, by decide, by decide, by decide, by decide, by decide⟩

end PsdReader
